import Mathlib

/-!
BitMagic aggregator: shallow embedding and verification.

Shallow embedding of `src/src/bmaggregator.h` (class `bm::aggregator<BV>`).

The bit-vector storage (`bm.h`), the block primitives (`bmfunc.h`) and the
constants and macros (`bmconst.h`, `bmdef.h`) are not part of the sources; they
are modelled here from the specification and each such definition says so.
The functions of `bmaggregator.h` are translated statement by statement.

Conventions
* a dense block (2048 words of 32 bits) is the natural number whose binary
  digit `q` is bit `q` of the block (bit `q % 32` of word `q / 32`);
* a C array with its size argument (`bv_src`, `src_size`) is a list;
* the heap-allocated arena `ar_` is threaded through as an explicit state;
* `BM_ASSERT` is a debug-only assertion and has no counterpart.
-/

namespace bm

/-! ## Constants -/

/-- Modelled from the spec: `bm::set_array_size`, the number of block slots under one
top-level index (the claims give 256). -/
def set_array_size : Nat := 256

/-- Modelled from the spec: `bm::gap_max_bits`, the number of bits of one block
(2048 words of 32 bits). -/
def bits_in_block : Nat := 65536

/-- Modelled from the spec: the number of segments ("waves") a digest describes. -/
def set_block_digest_waves : Nat := 64

/-- Modelled from the spec: the number of bits of one digest segment
(64 equal segments of a block). -/
def set_block_digest_wave_bits : Nat := 1024

/-- The constant `aggregator::max_aggregator_cap`. -/
def max_aggregator_cap : Nat := 256

/-- Error codes raised through `BM_ASSERT_THROW`. -/
inductive error_code
  | BM_ERR_RANGE
  deriving DecidableEq

/-- Modelled from the spec: the macro `BM_ASSERT_THROW(x, xerrcode)` of `bmdef.h`, which
is not in the sources.  The spec describes the guard
`BM_ASSERT_THROW(src_size >= max_aggregator_cap, BM_ERR_RANGE)` as one that
"gates on count exceeding or equal to the cap" and "reject[s] only when count is at
or above the cap": the error code is raised exactly when the written condition holds. -/
def BM_ASSERT_THROW (x : Bool) (xerrcode : error_code) : Except error_code Unit :=
  if x then Except.error xerrcode else Except.ok ()

/-- Modelled from the spec: the macro `BM_ASSERT(x)` of `bmdef.h` ("debug-only
assertions"): the execution goes on when `x` holds and stops otherwise. -/
def BM_ASSERT (x : Bool) : Option Unit :=
  if x then some () else none

/-! ## Blocks -/

/-- Run-length ("gap") block: the value of the first run and the strictly ascending
positions at which the runs end (the last one is the last bit of the block). -/
structure gap_block where
  start : Bool
  ends : List Nat
  deriving DecidableEq

/-- Tagged block reference stored in a slot of a bit-vector: `null` (absent, all zero),
`full` (the sentinel `FULL_BLOCK_FAKE_ADDR`, all ones, no storage), a dense block or a
run-length block (`BM_IS_GAP`). -/
inductive block_ptr
  | null
  | full
  | bit (w : Nat)
  | gap (g : gap_block)
  deriving DecidableEq

/-- Entry of the arena's dense operand array `v_arg_blk`: the address of a dense block or
`FULL_BLOCK_REAL_ADDR`, the address of the statically allocated all-ones block. -/
inductive arg_blk_ptr
  | real_full
  | blk (w : Nat)
  deriving DecidableEq

/-- The block with every bit set (`bit_block_set(blk, ~0u)`). -/
def all_ones_block : Nat := 2 ^ bits_in_block - 1

/-- Content read through a dense operand pointer. -/
def arg_blk_ptr.deref : arg_blk_ptr → Nat
  | .real_full => all_ones_block
  | .blk w => w

/-- Bits of the runs `e :: es` that start at position `lo` with value `v`. -/
def gap_runs_to_bits : Bool → Nat → List Nat → Nat
  | _, _, [] => 0
  | v, lo, e :: es =>
    (if v then (2 ^ (e + 1 - lo) - 1) <<< lo else 0) ||| gap_runs_to_bits (!v) (e + 1) es

/-- Modelled from the spec: `bm::gap_convert_to_bitset`, the dense block a run-length
block unpacks to. -/
def gap_convert_to_bitset (g : gap_block) : Nat :=
  gap_runs_to_bits g.start 0 g.ends

/-- Modelled from the spec: `bm::gap_test`, bit `q` of a run-length block. -/
def gap_test (g : gap_block) (q : Nat) : Bool :=
  (gap_convert_to_bitset g).testBit q

/-- Bit `q` of the block a slot refers to. -/
def block_ptr.test : block_ptr → Nat → Bool
  | .null, _ => false
  | .full, _ => true
  | .bit w, q => w.testBit q
  | .gap g, q => gap_test g q

/-! ## Dense block primitives (`bmfunc.h`) -/

/-- Bitwise OR of `f 0`, ..., `f (n - 1)`. -/
def or_upto (f : Nat → Nat) : Nat → Nat
  | 0 => 0
  | n + 1 => or_upto f n ||| f n

/-- The bits of segment `k` of a block. -/
def wave_mask (k : Nat) : Nat :=
  (2 ^ set_block_digest_wave_bits - 1) <<< (set_block_digest_wave_bits * k)

/-- The bits of the segments a digest marks. -/
def digest_mask (digest : Nat) : Nat :=
  or_upto (fun k => if digest.testBit k then wave_mask k else 0) set_block_digest_waves

/-- The all-ones digest `~0ull`. -/
def digest_all : Nat := 2 ^ set_block_digest_waves - 1

/-- Modelled from the spec: `bm::calc_block_digest0`: bit `k` is set when segment `k` of
the block holds a set bit. -/
def calc_block_digest0 (blk : Nat) : Nat :=
  or_upto (fun k => if blk &&& wave_mask k = 0 then 0 else 2 ^ k) set_block_digest_waves

/-- Modelled from the spec: `bm::update_block_digest0` ("digest refresh"): the marked
segments that became all zero lose their mark. -/
def update_block_digest0 (blk : Nat) (digest : Nat) : Nat :=
  digest &&& calc_block_digest0 blk

/-- Modelled from the spec: `bm::bit_is_all_zero` over a whole block ("an all-zero
block"): none of its `bits_in_block` bits is set. -/
def bit_is_all_zero (blk : Nat) : Bool :=
  decide (blk % 2 ^ bits_in_block = 0)

/-- Modelled from the spec: `bm::is_bits_one` over a whole block. -/
def is_bits_one (blk : Nat) : Bool :=
  decide (blk = all_ones_block)

/-- Modelled from the spec: `bm::bit_block_or(dst, src)`: ORs `src` into `dst` and reports
whether the result is all ones. -/
def bit_block_or (dst src : Nat) : Nat × Bool :=
  (dst ||| src, is_bits_one (dst ||| src))

/-- Modelled from the spec: `bm::bit_block_or_3way(dst, src1, src2)`. -/
def bit_block_or_3way (dst src1 src2 : Nat) : Nat × Bool :=
  (dst ||| src1 ||| src2, is_bits_one (dst ||| src1 ||| src2))

/-- Modelled from the spec: `bm::bit_block_or_5way(dst, src1, src2, src3, src4)`. -/
def bit_block_or_5way (dst src1 src2 src3 src4 : Nat) : Nat × Bool :=
  (dst ||| src1 ||| src2 ||| src3 ||| src4,
   is_bits_one (dst ||| src1 ||| src2 ||| src3 ||| src4))

/-- A block in which the segments marked by `digest` are taken from `new_bits` and
every other segment keeps the content of `dst`. -/
def masked_store (dst new_bits digest : Nat) : Nat :=
  (dst ^^^ (dst &&& digest_mask digest)) ||| (new_bits &&& digest_mask digest)

/-- Modelled from the spec: `bm::bit_block_and_2way(dst, src1, src2, digest)`: the marked
segments of `dst` receive `src1 & src2`; returns the refreshed digest. -/
def bit_block_and_2way (dst src1 src2 digest : Nat) : Nat × Nat :=
  let r := masked_store dst (src1 &&& src2) digest
  (r, update_block_digest0 r digest)

/-- Modelled from the spec: `bm::bit_block_and(dst, src, digest)`: digest-restricted
`dst &= src`; returns the refreshed digest. -/
def bit_block_and (dst src digest : Nat) : Nat × Nat :=
  let r := masked_store dst (dst &&& src) digest
  (r, update_block_digest0 r digest)

/-- Modelled from the spec: `bm::bit_block_sub(dst, src, digest)`: digest-restricted
`dst &= ~src`; returns the refreshed digest. -/
def bit_block_sub (dst src digest : Nat) : Nat × Nat :=
  let r := masked_store dst (dst ^^^ (dst &&& src)) digest
  (r, update_block_digest0 r digest)

/-- Modelled from the spec: `bm::gap_add_to_bitset(dest, gap)`: the run-length operand is
unpacked and OR-accumulated into the dense block. -/
def gap_add_to_bitset (dest : Nat) (g : gap_block) : Nat :=
  dest ||| gap_convert_to_bitset g

/-- Modelled from the spec: `bm::gap_and_to_bitset(dest, gap, digest)`: digest-guided
masked AND of a run-length operand into the dense block. -/
def gap_and_to_bitset (dest : Nat) (g : gap_block) (digest : Nat) : Nat :=
  masked_store dest (dest &&& gap_convert_to_bitset g) digest

/-- Modelled from the spec: `bm::gap_sub_to_bitset(dest, gap, digest)`: digest-guided
masked clear of a run-length operand from the dense block. -/
def gap_sub_to_bitset (dest : Nat) (g : gap_block) (digest : Nat) : Nat :=
  masked_store dest (dest ^^^ (dest &&& gap_convert_to_bitset g)) digest

/-! ## Bit-vector storage (`bm.h`) -/

/-- Modelled from the spec: `bvector::blocks_manager_type`, the two-level block
hierarchy: the top-level array (of extent `top_block_size_`) holds null or a sub-array
of `set_array_size` block slots.  `is_init_` is false while the top-level array itself
is not allocated. -/
structure blocks_manager where
  is_init_ : Bool
  top_block_size_ : Nat
  top_blocks_ : Nat → Option (Nat → block_ptr)

/-- Modelled from the spec: the bit-vector, a bit length and its block storage. -/
structure bvector where
  size_ : Nat
  blockman_ : blocks_manager

/-- Modelled from the spec: `blocks_manager::is_init`. -/
def blocks_manager.is_init (bman : blocks_manager) : Bool :=
  bman.is_init_

/-- Modelled from the spec: `blocks_manager::top_block_size`, the top-level extent. -/
def blocks_manager.top_block_size (bman : blocks_manager) : Nat :=
  bman.top_block_size_

/-- Modelled from the spec: `blocks_manager::get_topblock(i)`: the sub-array under
top-level index `i`, null when absent or out of the extent. -/
def blocks_manager.get_topblock (bman : blocks_manager) (i : Nat) : Option (Nat → block_ptr) :=
  if bman.is_init_ = true ∧ i < bman.top_block_size_ then bman.top_blocks_ i else none

/-- Modelled from the spec: `blocks_manager::get_block_ptr(i, j)`: "resolve block
reference at coordinate (i,j)". -/
def blocks_manager.get_block_ptr (bman : blocks_manager) (i j : Nat) : block_ptr :=
  match bman.get_topblock i with
  | some blk_blk => blk_blk j
  | none => block_ptr.null

/-- Modelled from the spec: `blocks_manager::init_tree`: allocates the zeroed
top-level array. -/
def blocks_manager.init_tree (bman : blocks_manager) : blocks_manager :=
  { bman with is_init_ := true, top_blocks_ := fun _ => none }

/-- Modelled from the spec: `blocks_manager::reserve_top_blocks(top_blocks)`: "reserve
top-level extent" (never shrinking); the new entries are null.  Returns the manager and
the resulting extent. -/
def blocks_manager.reserve_top_blocks (bman : blocks_manager) (top_blocks : Nat) :
    blocks_manager × Nat :=
  if top_blocks ≤ bman.top_block_size_ then (bman, bman.top_block_size_)
  else
    ({ is_init_ := true,
       top_block_size_ := top_blocks,
       top_blocks_ := fun i => bman.get_topblock i },
     top_blocks)

/-- Modelled from the spec: `blocks_manager::check_alloc_top_subblock(i)`: allocates the
(all null) sub-array under `i` when there is none. -/
def blocks_manager.check_alloc_top_subblock (bman : blocks_manager) (i : Nat) : blocks_manager :=
  match bman.top_blocks_ i with
  | some _ => bman
  | none =>
    { bman with top_blocks_ := fun i2 => if i2 = i then some (fun _ => block_ptr.null)
                                         else bman.top_blocks_ i2 }

/-- Modelled from the spec: `blocks_manager::set_block_ptr(i, j, block)`: "install a
sentinel or dense block reference at a coordinate" of an allocated sub-array. -/
def blocks_manager.set_block_ptr (bman : blocks_manager) (i j : Nat) (block : block_ptr) :
    blocks_manager :=
  match bman.top_blocks_ i with
  | none => bman
  | some blk_blk =>
    { bman with top_blocks_ := fun i2 => if i2 = i then some (fun j2 => if j2 = j then block
                                                                        else blk_blk j2)
                                         else bman.top_blocks_ i2 }

/-- Modelled from the spec: `blocks_manager::set_block(i, j, block, gap)`: installs a
block reference, allocating the sub-array when needed. -/
def blocks_manager.set_block (bman : blocks_manager) (i j : Nat) (block : block_ptr)
    (_gap : Bool) : blocks_manager :=
  (bman.check_alloc_top_subblock i).set_block_ptr i j block

/-- Modelled from the spec: `bvector::size`. -/
def bvector.size (bv : bvector) : Nat :=
  bv.size_

/-- Modelled from the spec: `bvector::resize(new_size)` ("resize length"). -/
def bvector.resize (bv : bvector) (new_size : Nat) : bvector :=
  { bv with size_ := new_size }

/-- Modelled from the spec: `bvector::clear(free_mem)`: "clear to empty", every slot
becomes absent; length and top-level extent stay. -/
def bvector.clear (bv : bvector) (_free_mem : Bool) : bvector :=
  { bv with blockman_ := { bv.blockman_ with top_blocks_ := fun _ => none } }

/-- Modelled from the spec: `bvector::get_bit(n)`: bit `n` lives in block number
`n / bits_in_block`, at coordinate `(nb / set_array_size, nb % set_array_size)`. -/
def bvector.get_bit (bv : bvector) (n : Nat) : Bool :=
  let nb := n / bits_in_block
  (bv.blockman_.get_block_ptr (nb / set_array_size) (nb % set_array_size)).test
    (n % bits_in_block)

/-- Dense content of the block a slot refers to. -/
def block_ptr.to_bits : block_ptr → Nat
  | .null => 0
  | .full => all_ones_block
  | .bit w => w
  | .gap g => gap_convert_to_bitset g

/-- Whole-vector operator applied block by block with `f` on the dense contents. -/
def bvector.combine_blocks (f : Nat → Nat → Nat) (bv1 bv2 : bvector) : bvector :=
  { size_ := max bv1.size_ bv2.size_,
    blockman_ :=
      { is_init_ := true,
        top_block_size_ := max bv1.blockman_.top_block_size_ bv2.blockman_.top_block_size_,
        top_blocks_ := fun i => some (fun j =>
          block_ptr.bit (f (bv1.blockman_.get_block_ptr i j).to_bits
                           (bv2.blockman_.get_block_ptr i j).to_bits)) } }

/-- Modelled from the spec: `bvector::bit_or`, the whole-vector OR operator. -/
def bvector.bit_or (bv1 bv2 : bvector) : bvector :=
  bvector.combine_blocks (fun a b => a ||| b) bv1 bv2

/-- Modelled from the spec: `bvector::bit_and`, the whole-vector AND operator. -/
def bvector.bit_and (bv1 bv2 : bvector) : bvector :=
  bvector.combine_blocks (fun a b => a &&& b) bv1 bv2

/-- Modelled from the spec: `bvector::operator-=` (`bit_sub`), the whole-vector SUB
operator. -/
def bvector.bit_sub (bv1 bv2 : bvector) : bvector :=
  bvector.combine_blocks (fun a b => a ^^^ (a &&& b)) bv1 bv2

/-! ## The aggregator (`bmaggregator.h`) -/

/-- The struct `aggregator::arena`: the dense temporary block `tb1` and the two operand
arrays (capacity `max_aggregator_cap` each).  The buffers `gap_res_buf1..3` are only
used by code under `#if 0` and are left out. -/
structure arena where
  tb1 : Nat
  v_arg_blk : Nat → arg_blk_ptr
  v_arg_blk_gap : Nat → gap_block

namespace aggregator

/-- One iteration of the pre-scan loop of `resize_target`; the state is the target,
`top_blocks` and `size`. -/
def resize_target_step (st : bvector × Nat × Nat) (bv : bvector) : bvector × Nat × Nat :=
  let bv_target := st.1
  let top_blocks := st.2.1
  let size := st.2.2
  let arg_top_blocks := bv.blockman_.top_block_size
  let st1 : bvector × Nat :=
    if arg_top_blocks > top_blocks then
      let r := bv_target.blockman_.reserve_top_blocks arg_top_blocks
      ({ bv_target with blockman_ := r.1 }, r.2)
    else (bv_target, top_blocks)
  let arg_size := bv.size
  if arg_size > size then (st1.1.resize arg_size, st1.2, arg_size)
  else (st1.1, st1.2, size)

/-- The function `aggregator::resize_target`: returns the target and `top_blocks`. -/
def resize_target (bv_target : bvector) (bv_src : List bvector) (init_clear : Bool) :
    bvector × Nat :=
  let bv0 : bvector :=
    if init_clear then
      if !bv_target.blockman_.is_init then
        { bv_target with blockman_ := bv_target.blockman_.init_tree }
      else bv_target.clear true
    else bv_target
  let r := bv_src.foldl resize_target_step (bv0, bv0.blockman_.top_block_size, bv0.size)
  (r.1, r.2.1)

/-- The inner loop of `find_effective_sub_block_size`,
`for (j = ...; j > max_size; --j) if (blk_blk_arg[j]) { max_size = j; break; }`,
entered at index `j`; returns the new `max_size`. -/
def scan_sub_blocks (blk_blk_arg : Nat → block_ptr) (max_size : Nat) : Nat → Nat
  | 0 => max_size
  | j + 1 =>
    if j + 1 > max_size then
      if blk_blk_arg (j + 1) ≠ block_ptr.null then j + 1
      else scan_sub_blocks blk_blk_arg max_size j
    else max_size

/-- The loop over the operands of `find_effective_sub_block_size`. -/
def find_effective_loop (i : Nat) : List bvector → Nat → Nat
  | [], max_size => max_size
  | bv :: rest, max_size =>
    match bv.blockman_.get_topblock i with
    | none => find_effective_loop i rest max_size
    | some blk_blk_arg =>
      find_effective_loop i rest (scan_sub_blocks blk_blk_arg max_size (set_array_size - 1))

/-- The function `aggregator::find_effective_sub_block_size`. -/
def find_effective_sub_block_size (i : Nat) (bv_src : List bvector) : Nat :=
  find_effective_loop i bv_src 1 + 1

/-- The function `aggregator::sort_input_blocks_or`; the state is the arena and the two
counters, the result is null or the all-ones sentinel. -/
def sort_input_blocks_or (i j : Nat) :
    List bvector → arena → Nat → Nat → block_ptr × arena × Nat × Nat
  | [], ar, arg_blk_count, arg_blk_gap_count =>
    (block_ptr.null, ar, arg_blk_count, arg_blk_gap_count)
  | bv :: rest, ar, arg_blk_count, arg_blk_gap_count =>
    match bv.blockman_.get_block_ptr i j with
    | .null => sort_input_blocks_or i j rest ar arg_blk_count arg_blk_gap_count
    | .gap g =>
      sort_input_blocks_or i j rest
        { ar with v_arg_blk_gap := Function.update ar.v_arg_blk_gap arg_blk_gap_count g }
        arg_blk_count (arg_blk_gap_count + 1)
    | .full => (block_ptr.full, ar, 0, 0)
    | .bit w =>
      sort_input_blocks_or i j rest
        { ar with v_arg_blk := Function.update ar.v_arg_blk arg_blk_count (arg_blk_ptr.blk w) }
        (arg_blk_count + 1) arg_blk_gap_count

/-- The function `aggregator::sort_input_blocks_and`; the result is null (empty) or the
all-ones sentinel. -/
def sort_input_blocks_and (i j : Nat) :
    List bvector → arena → Nat → Nat → block_ptr × arena × Nat × Nat
  | [], ar, arg_blk_count, arg_blk_gap_count =>
    (block_ptr.full, ar, arg_blk_count, arg_blk_gap_count)
  | bv :: rest, ar, arg_blk_count, arg_blk_gap_count =>
    match bv.blockman_.get_block_ptr i j with
    | .null => (block_ptr.null, ar, 0, 0)
    | .gap g =>
      sort_input_blocks_and i j rest
        { ar with v_arg_blk_gap := Function.update ar.v_arg_blk_gap arg_blk_gap_count g }
        arg_blk_count (arg_blk_gap_count + 1)
    | .full =>
      sort_input_blocks_and i j rest
        { ar with v_arg_blk := Function.update ar.v_arg_blk arg_blk_count arg_blk_ptr.real_full }
        (arg_blk_count + 1) arg_blk_gap_count
    | .bit w =>
      sort_input_blocks_and i j rest
        { ar with v_arg_blk := Function.update ar.v_arg_blk arg_blk_count (arg_blk_ptr.blk w) }
        (arg_blk_count + 1) arg_blk_gap_count

/-- The 4-way loop of `process_bit_blocks_or`,
`for (; k < len_unr; k += 4) { all_one = bit_block_or_5way(...); if (all_one) return true; }`.
Returns `k`, the block and whether the loop left through `return true`. -/
def or_loop_4way (v_arg_blk : Nat → arg_blk_ptr) (len_unr : Nat) :
    Nat → Nat → Nat → Nat × Nat × Bool
  | 0, k, blk => (k, blk, false)
  | fuel + 1, k, blk =>
    if k < len_unr then
      let r := bit_block_or_5way blk (v_arg_blk k).deref (v_arg_blk (k + 1)).deref
        (v_arg_blk (k + 2)).deref (v_arg_blk (k + 3)).deref
      if r.2 then (k, r.1, true)
      else or_loop_4way v_arg_blk len_unr fuel (k + 4) r.1
    else (k, blk, false)

/-- The 2-way loop of `process_bit_blocks_or`. -/
def or_loop_2way (v_arg_blk : Nat → arg_blk_ptr) (len_unr : Nat) :
    Nat → Nat → Nat → Nat × Nat × Bool
  | 0, k, blk => (k, blk, false)
  | fuel + 1, k, blk =>
    if k < len_unr then
      let r := bit_block_or_3way blk (v_arg_blk k).deref (v_arg_blk (k + 1)).deref
      if r.2 then (k, r.1, true)
      else or_loop_2way v_arg_blk len_unr fuel (k + 2) r.1
    else (k, blk, false)

/-- The final loop of `process_bit_blocks_or`,
`for (; k < arg_blk_count; ++k) { all_one = bit_block_or(blk, v_arg_blk[k]); ... }`. -/
def or_loop_1way (v_arg_blk : Nat → arg_blk_ptr) (arg_blk_count : Nat) :
    Nat → Nat → Nat → Nat × Nat × Bool
  | 0, k, blk => (k, blk, false)
  | fuel + 1, k, blk =>
    if k < arg_blk_count then
      let r := bit_block_or blk (v_arg_blk k).deref
      if r.2 then (k, r.1, true)
      else or_loop_1way v_arg_blk arg_blk_count fuel (k + 1) r.1
    else (k, blk, false)

/-- The function `aggregator::process_bit_blocks_or`.  The subtractions
`arg_blk_count - k` never wrap (`k` stays at most `arg_blk_count`). -/
def process_bit_blocks_or (ar : arena) (bman_target : blocks_manager) (i j : Nat)
    (arg_blk_count : Nat) : blocks_manager × arena × Bool :=
  let k0 : Nat := if arg_blk_count ≠ 0 then 1 else 0
  let blk0 : Nat := if arg_blk_count ≠ 0 then (ar.v_arg_blk 0).deref else 0
  let len4 := arg_blk_count - k0
  let len_unr4 := len4 - len4 % 4
  let r4 := or_loop_4way ar.v_arg_blk len_unr4 len_unr4 k0 blk0
  if r4.2.2 then
    (bman_target.set_block i j block_ptr.full false, { ar with tb1 := r4.2.1 }, true)
  else
    let len2 := arg_blk_count - r4.1
    let len_unr2 := len2 - len2 % 2
    let r2 := or_loop_2way ar.v_arg_blk len_unr2 len_unr2 r4.1 r4.2.1
    if r2.2.2 then
      (bman_target.set_block i j block_ptr.full false, { ar with tb1 := r2.2.1 }, true)
    else
      let r1 := or_loop_1way ar.v_arg_blk arg_blk_count arg_blk_count r2.1 r2.2.1
      if r1.2.2 then
        (bman_target.set_block i j block_ptr.full false, { ar with tb1 := r1.2.1 }, true)
      else (bman_target, { ar with tb1 := r1.2.1 }, false)

/-- The live loop of `process_gap_blocks_or`,
`for (; k < arg_blk_gap_count; ++k) gap_add_to_bitset(blk, v_arg_blk_gap[k]);`. -/
def gap_or_loop (v_arg_blk_gap : Nat → gap_block) (arg_blk_gap_count : Nat) :
    Nat → Nat → Nat → Nat
  | 0, _, blk => blk
  | fuel + 1, k, blk =>
    if k < arg_blk_gap_count then
      gap_or_loop v_arg_blk_gap arg_blk_gap_count fuel (k + 1)
        (gap_add_to_bitset blk (v_arg_blk_gap k))
    else blk

/-- The function `aggregator::process_gap_blocks_or` (the code under `#if 0` is not
compiled). -/
def process_gap_blocks_or (ar : arena) (bman_target : blocks_manager) (i j : Nat)
    (arg_blk_gap_count : Nat) : blocks_manager × arena × Bool :=
  let blk := gap_or_loop ar.v_arg_blk_gap arg_blk_gap_count arg_blk_gap_count 0 ar.tb1
  if is_bits_one blk then
    (bman_target.set_block i j block_ptr.full false, { ar with tb1 := blk }, true)
  else (bman_target, { ar with tb1 := blk }, false)

/-- The loop of `process_gap_blocks_and`; returns the block and the digest. -/
def gap_and_loop (v_arg_blk_gap : Nat → gap_block) (arg_blk_gap_count : Nat) :
    Nat → Nat → Nat → Nat → Nat × Nat
  | 0, _, blk, digest => (blk, digest)
  | fuel + 1, k, blk, digest =>
    if k < arg_blk_gap_count then
      let blk1 := gap_and_to_bitset blk (v_arg_blk_gap k) digest
      let digest1 := update_block_digest0 blk1 digest
      if digest1 = 0 then (blk1, digest1)
      else gap_and_loop v_arg_blk_gap arg_blk_gap_count fuel (k + 1) blk1 digest1
    else (blk, digest)

/-- The function `aggregator::process_gap_blocks_and`. -/
def process_gap_blocks_and (ar : arena) (arg_blk_gap_count : Nat) (digest : Nat) :
    arena × Nat :=
  let r := gap_and_loop ar.v_arg_blk_gap arg_blk_gap_count arg_blk_gap_count 0 ar.tb1 digest
  ({ ar with tb1 := r.1 }, r.2)

/-- The loop of `process_gap_blocks_sub`; returns the block and the digest. -/
def gap_sub_loop (v_arg_blk_gap : Nat → gap_block) (arg_blk_gap_count : Nat) :
    Nat → Nat → Nat → Nat → Nat × Nat
  | 0, _, blk, digest => (blk, digest)
  | fuel + 1, k, blk, digest =>
    if k < arg_blk_gap_count then
      let blk1 := gap_sub_to_bitset blk (v_arg_blk_gap k) digest
      let digest1 := update_block_digest0 blk1 digest
      if digest1 = 0 then (blk1, digest1)
      else gap_sub_loop v_arg_blk_gap arg_blk_gap_count fuel (k + 1) blk1 digest1
    else (blk, digest)

/-- The function `aggregator::process_gap_blocks_sub`. -/
def process_gap_blocks_sub (ar : arena) (arg_blk_gap_count : Nat) (digest : Nat) :
    arena × Nat :=
  let r := gap_sub_loop ar.v_arg_blk_gap arg_blk_gap_count arg_blk_gap_count 0 ar.tb1 digest
  ({ ar with tb1 := r.1 }, r.2)

/-- The loop after the switch of `process_bit_blocks_and`:
all-ones operands (`FULL_BLOCK_REAL_ADDR`) are skipped, a zero digest leaves the loop. -/
def bit_and_loop (v_arg_blk : Nat → arg_blk_ptr) (arg_blk_count : Nat) :
    Nat → Nat → Nat → Nat → Nat × Nat
  | 0, _, blk, digest => (blk, digest)
  | fuel + 1, k, blk, digest =>
    if k < arg_blk_count then
      if v_arg_blk k = arg_blk_ptr.real_full then
        bit_and_loop v_arg_blk arg_blk_count fuel (k + 1) blk digest
      else
        let r := bit_block_and blk (v_arg_blk k).deref digest
        if r.2 = 0 then r
        else bit_and_loop v_arg_blk arg_blk_count fuel (k + 1) r.1 r.2
    else (blk, digest)

/-- The function `aggregator::process_bit_blocks_and`. -/
def process_bit_blocks_and (ar : arena) (arg_blk_count : Nat) (_digest : Nat) : arena × Nat :=
  match arg_blk_count with
  | 0 => ({ ar with tb1 := all_ones_block }, digest_all)
  | 1 =>
    let blk := (ar.v_arg_blk 0).deref
    ({ ar with tb1 := blk }, calc_block_digest0 blk)
  | _ =>
    let r0 := bit_block_and_2way ar.tb1 (ar.v_arg_blk 0).deref (ar.v_arg_blk 1).deref digest_all
    let r := bit_and_loop ar.v_arg_blk arg_blk_count arg_blk_count 2 r0.1 r0.2
    ({ ar with tb1 := r.1 }, r.2)

/-- The loop of `process_bit_blocks_sub`: an all-ones subtrahend zeroes the digest
(`digest ^= digest`) and leaves the loop. -/
def bit_sub_loop (v_arg_blk : Nat → arg_blk_ptr) (arg_blk_count : Nat) :
    Nat → Nat → Nat → Nat → Nat × Nat
  | 0, _, blk, digest => (blk, digest)
  | fuel + 1, k, blk, digest =>
    if k < arg_blk_count then
      if v_arg_blk k = arg_blk_ptr.real_full then (blk, digest ^^^ digest)
      else
        let r := bit_block_sub blk (v_arg_blk k).deref digest
        if r.2 = 0 then r
        else bit_sub_loop v_arg_blk arg_blk_count fuel (k + 1) r.1 r.2
    else (blk, digest)

/-- The function `aggregator::process_bit_blocks_sub`. -/
def process_bit_blocks_sub (ar : arena) (arg_blk_count : Nat) (digest : Nat) : arena × Nat :=
  let r := bit_sub_loop ar.v_arg_blk arg_blk_count arg_blk_count 0 ar.tb1 digest
  ({ ar with tb1 := r.1 }, r.2)

/-- The tail shared by the three per-coordinate functions: "we have some results,
allocate block and copy from temp" (`check_alloc_top_subblock`, `alloc_bit_block`,
`set_block_ptr`, `bit_block_copy(blk, ar_->tb1)`). -/
def store_temp_block (ar : arena) (bv_target : bvector) (i j : Nat) : bvector :=
  { bv_target with
    blockman_ := (bv_target.blockman_.check_alloc_top_subblock i).set_block_ptr i j
      (block_ptr.bit ar.tb1) }

/-- The function `aggregator::combine_or(i, j, bv_target, bv_src, src_size)`. -/
def combine_or_ij (ar : arena) (i j : Nat) (bv_target : bvector) (bv_src : List bvector) :
    bvector × arena :=
  let s := sort_input_blocks_or i j bv_src ar 0 0
  let ar1 := s.2.1
  let arg_blk_count := s.2.2.1
  let arg_blk_gap_count := s.2.2.2
  if s.1 = block_ptr.full then
    ({ bv_target with
       blockman_ := (bv_target.blockman_.check_alloc_top_subblock i).set_block_ptr i j
         block_ptr.full }, ar1)
  else if arg_blk_count ≠ 0 ∨ arg_blk_gap_count ≠ 0 then
    let r := process_bit_blocks_or ar1 bv_target.blockman_ i j arg_blk_count
    if r.2.2 then ({ bv_target with blockman_ := r.1 }, r.2.1)
    else
      let rg : blocks_manager × arena × Bool :=
        if arg_blk_gap_count ≠ 0 then process_gap_blocks_or r.2.1 r.1 i j arg_blk_gap_count
        else (r.1, r.2.1, false)
      if rg.2.2 then ({ bv_target with blockman_ := rg.1 }, rg.2.1)
      else (store_temp_block rg.2.1 { bv_target with blockman_ := rg.1 } i j, rg.2.1)
  else (bv_target, ar1)

/-- The function `aggregator::combine_and(i, j, bv_target, bv_src, src_size)`. -/
def combine_and_ij (ar : arena) (i j : Nat) (bv_target : bvector) (bv_src : List bvector) :
    bvector × arena :=
  let s := sort_input_blocks_and i j bv_src ar 0 0
  let ar1 := s.2.1
  let arg_blk_count := s.2.2.1
  let arg_blk_gap_count := s.2.2.2
  if s.1 = block_ptr.null then (bv_target, ar1)
  else if arg_blk_count ≠ 0 ∨ arg_blk_gap_count ≠ 0 then
    let r := process_bit_blocks_and ar1 arg_blk_count 0
    if r.2 = 0 then (bv_target, r.1)
    else
      let rg : arena × Nat :=
        if arg_blk_gap_count ≠ 0 then process_gap_blocks_and r.1 arg_blk_gap_count r.2
        else r
      if rg.2 ≠ 0 then (store_temp_block rg.1 bv_target i j, rg.1)
      else (bv_target, rg.1)
  else (bv_target, ar1)

/-- The part of `combine_and_sub(i, j, ...)` from `if (src_sub_size)` on: the SUB chain
against the AND result held in `tb1` with its digest, then the write-back. -/
def combine_and_sub_ij_tail (ar : arena) (i j : Nat) (bv_target : bvector)
    (bv_src_sub : List bvector) (digest : Nat) : bvector × arena :=
  if bv_src_sub.length ≠ 0 then
    let s := sort_input_blocks_or i j bv_src_sub ar 0 0
    let ar1 := s.2.1
    let arg_blk_sub_count := s.2.2.1
    let arg_blk_sub_gap_count := s.2.2.2
    if s.1 = block_ptr.full then (bv_target, ar1)
    else if arg_blk_sub_count ≠ 0 ∨ arg_blk_sub_gap_count ≠ 0 then
      let r := process_bit_blocks_sub ar1 arg_blk_sub_count digest
      if r.2 = 0 then (bv_target, r.1)
      else
        let rg : arena × Nat :=
          if arg_blk_sub_gap_count ≠ 0 then process_gap_blocks_sub r.1 arg_blk_sub_gap_count r.2
          else r
        if rg.2 ≠ 0 then (store_temp_block rg.1 bv_target i j, rg.1)
        else (bv_target, rg.1)
    else if digest ≠ 0 then (store_temp_block ar1 bv_target i j, ar1)
    else (bv_target, ar1)
  else if digest ≠ 0 then (store_temp_block ar bv_target i j, ar)
  else (bv_target, ar)

/-- The function `aggregator::combine_and_sub(i, j, bv_target, bv_src_and, src_and_size,
bv_src_sub, src_sub_size)`. -/
def combine_and_sub_ij (ar : arena) (i j : Nat) (bv_target : bvector)
    (bv_src_and bv_src_sub : List bvector) : bvector × arena :=
  let s := sort_input_blocks_and i j bv_src_and ar 0 0
  let ar1 := s.2.1
  let arg_blk_and_count := s.2.2.1
  let arg_blk_and_gap_count := s.2.2.2
  if s.1 = block_ptr.null then (bv_target, ar1)
  else if arg_blk_and_count ≠ 0 ∨ arg_blk_and_gap_count ≠ 0 then
    let r := process_bit_blocks_and ar1 arg_blk_and_count 0
    if r.2 = 0 then (bv_target, r.1)
    else if arg_blk_and_gap_count ≠ 0 then
      let rg := process_gap_blocks_and r.1 arg_blk_and_gap_count r.2
      if rg.2 = 0 then (bv_target, rg.1)
      else combine_and_sub_ij_tail rg.1 i j bv_target bv_src_sub rg.2
    else combine_and_sub_ij_tail r.1 i j bv_target bv_src_sub r.2
  else (bv_target, ar1)

/-- The loop `do { body(j); ++j; } while (j < set_array_max);` of the drivers, entered
at `j`. -/
def do_while_sub_blocks {σ : Type} (body : Nat → σ → σ) (set_array_max : Nat) :
    Nat → Nat → σ → σ
  | 0, _, st => st
  | fuel + 1, j, st =>
    let st1 := body j st
    if j + 1 < set_array_max then do_while_sub_blocks body set_array_max fuel (j + 1) st1
    else st1

/-- The function `aggregator::combine_or(bv_target, bv_src, src_size)`. -/
def combine_or (ar : arena) (bv_target : bvector) (bv_src : List bvector) :
    Except error_code (bvector × arena) :=
  match BM_ASSERT_THROW (decide (bv_src.length ≥ max_aggregator_cap)) error_code.BM_ERR_RANGE with
  | .error e => .error e
  | .ok _ =>
    if bv_src.length = 0 then .ok (bv_target.clear false, ar)
    else
      let rt := resize_target bv_target bv_src true
      .ok ((List.range rt.2).foldl
        (fun (st : bvector × arena) i =>
          let set_array_max := find_effective_sub_block_size i bv_src
          do_while_sub_blocks (fun j (st : bvector × arena) => combine_or_ij st.2 i j st.1 bv_src)
            set_array_max (set_array_max + 1) 0 st)
        (rt.1, ar))

/-- The function `aggregator::combine_and(bv_target, bv_src, src_size)`. -/
def combine_and (ar : arena) (bv_target : bvector) (bv_src : List bvector) :
    Except error_code (bvector × arena) :=
  match BM_ASSERT_THROW (decide (bv_src.length ≥ max_aggregator_cap)) error_code.BM_ERR_RANGE with
  | .error e => .error e
  | .ok _ =>
    if bv_src.length = 0 then .ok (bv_target.clear false, ar)
    else
      let rt := resize_target bv_target bv_src true
      .ok ((List.range rt.2).foldl
        (fun (st : bvector × arena) i =>
          let set_array_max := find_effective_sub_block_size i bv_src
          do_while_sub_blocks (fun j (st : bvector × arena) => combine_and_ij st.2 i j st.1 bv_src)
            set_array_max (set_array_max + 1) 0 st)
        (rt.1, ar))

/-- The function `aggregator::combine_and_sub(bv_target, bv_src_and, src_and_size,
bv_src_sub, src_sub_size)`.  Its test `if (!src_size)` names `src_size`, which is not
declared in this function; the name is an explicit argument here. -/
def combine_and_sub_with (src_size : Nat) (ar : arena) (bv_target : bvector)
    (bv_src_and bv_src_sub : List bvector) : Except error_code (bvector × arena) :=
  match BM_ASSERT_THROW (decide (bv_src_and.length ≥ max_aggregator_cap))
      error_code.BM_ERR_RANGE with
  | .error e => .error e
  | .ok _ =>
    match BM_ASSERT_THROW (decide (bv_src_sub.length ≥ max_aggregator_cap))
        error_code.BM_ERR_RANGE with
    | .error e => .error e
    | .ok _ =>
      if src_size = 0 then .ok (bv_target.clear false, ar)
      else
        let rt := resize_target bv_target bv_src_and true
        let rt2 := resize_target rt.1 bv_src_sub false
        let top_blocks := if rt2.2 > rt.2 then rt2.2 else rt.2
        .ok ((List.range top_blocks).foldl
          (fun (st : bvector × arena) i =>
            let set_array_max := find_effective_sub_block_size i bv_src_and
            let set_array_max :=
              if bv_src_sub.length ≠ 0 then
                let set_array_max2 := find_effective_sub_block_size i bv_src_sub
                if set_array_max2 > set_array_max then set_array_max2 else set_array_max
              else set_array_max
            do_while_sub_blocks
              (fun j (st : bvector × arena) =>
                combine_and_sub_ij st.2 i j st.1 bv_src_and bv_src_sub)
              set_array_max (set_array_max + 1) 0 st)
          (rt2.1, ar))

/-- The function `aggregator::combine_and_sub` with the undeclared `src_size` of its
zero-operand test read as `src_and_size`, the size of the AND group: the spec has
"Operand count 0: ... destination cleared" and "size-0 sub_operands means plain AND". -/
def combine_and_sub (ar : arena) (bv_target : bvector)
    (bv_src_and bv_src_sub : List bvector) : Except error_code (bvector × arena) :=
  combine_and_sub_with bv_src_and.length ar bv_target bv_src_and bv_src_sub

/-- The function `aggregator::combine_or_horizontal`. -/
def combine_or_horizontal (bv_target : bvector) (bv_src : List bvector) : bvector :=
  match bv_src with
  | [] => bv_target.clear false
  | bv :: rest => rest.foldl (fun (t : bvector) (bv : bvector) => t.bit_or bv) bv

/-- The function `aggregator::combine_and_horizontal`. -/
def combine_and_horizontal (bv_target : bvector) (bv_src : List bvector) : bvector :=
  match bv_src with
  | [] => bv_target.clear false
  | bv :: rest => rest.foldl (fun (t : bvector) (bv : bvector) => t.bit_and bv) bv

/-- The function `aggregator::combine_and_sub_horizontal`. -/
def combine_and_sub_horizontal (bv_target : bvector) (bv_src_and bv_src_sub : List bvector) :
    bvector :=
  bv_src_sub.foldl (fun (t : bvector) (bv : bvector) => t.bit_sub bv)
    (combine_and_horizontal bv_target bv_src_and)

/-- The indices at which the 4-way loop of `process_bit_blocks_or` reads
`ar_->v_arg_blk`, in the order of the reads (`k`, `k+1`, `k+2`, `k+3` per batch). -/
def or_loop_4way_reads (v_arg_blk : Nat → arg_blk_ptr) (len_unr : Nat) :
    Nat → Nat → Nat → List Nat
  | 0, _, _ => []
  | fuel + 1, k, blk =>
    if k < len_unr then
      let r := bit_block_or_5way blk (v_arg_blk k).deref (v_arg_blk (k + 1)).deref
        (v_arg_blk (k + 2)).deref (v_arg_blk (k + 3)).deref
      [k, k + 1, k + 2, k + 3] ++
        (if r.2 then [] else or_loop_4way_reads v_arg_blk len_unr fuel (k + 4) r.1)
    else []

/-- The indices at which the 2-way loop of `process_bit_blocks_or` reads
`ar_->v_arg_blk` (`k`, `k+1` per batch). -/
def or_loop_2way_reads (v_arg_blk : Nat → arg_blk_ptr) (len_unr : Nat) :
    Nat → Nat → Nat → List Nat
  | 0, _, _ => []
  | fuel + 1, k, blk =>
    if k < len_unr then
      let r := bit_block_or_3way blk (v_arg_blk k).deref (v_arg_blk (k + 1)).deref
      [k, k + 1] ++
        (if r.2 then [] else or_loop_2way_reads v_arg_blk len_unr fuel (k + 2) r.1)
    else []

/-- The indices at which the final loop of `process_bit_blocks_or` reads
`ar_->v_arg_blk`. -/
def or_loop_1way_reads (v_arg_blk : Nat → arg_blk_ptr) (arg_blk_count : Nat) :
    Nat → Nat → Nat → List Nat
  | 0, _, _ => []
  | fuel + 1, k, blk =>
    if k < arg_blk_count then
      let r := bit_block_or blk (v_arg_blk k).deref
      [k] ++ (if r.2 then [] else or_loop_1way_reads v_arg_blk arg_blk_count fuel (k + 1) r.1)
    else []

/-- Every index at which `process_bit_blocks_or` reads `ar_->v_arg_blk`, in the order of
the reads: the copy of the first block (`v_arg_blk[k++]`), then the three loops, each
left at its `return true`. -/
def process_bit_blocks_or_reads (ar : arena) (arg_blk_count : Nat) : List Nat :=
  let k0 : Nat := if arg_blk_count ≠ 0 then 1 else 0
  let blk0 : Nat := if arg_blk_count ≠ 0 then (ar.v_arg_blk 0).deref else 0
  let len4 := arg_blk_count - k0
  let len_unr4 := len4 - len4 % 4
  let r4 := or_loop_4way ar.v_arg_blk len_unr4 len_unr4 k0 blk0
  (if arg_blk_count ≠ 0 then [0] else []) ++
    or_loop_4way_reads ar.v_arg_blk len_unr4 len_unr4 k0 blk0 ++
    (if r4.2.2 then []
     else
      let len2 := arg_blk_count - r4.1
      let len_unr2 := len2 - len2 % 2
      let r2 := or_loop_2way ar.v_arg_blk len_unr2 len_unr2 r4.1 r4.2.1
      or_loop_2way_reads ar.v_arg_blk len_unr2 len_unr2 r4.1 r4.2.1 ++
        (if r2.2.2 then []
         else or_loop_1way_reads ar.v_arg_blk arg_blk_count arg_blk_count r2.1 r2.2.1))

/-- The loop of `process_gap_blocks_and` with its `BM_ASSERT(bm::bit_is_all_zero(blk))`
evaluated: `none` when the assertion fails. -/
def gap_and_loop_asserted (v_arg_blk_gap : Nat → gap_block) (arg_blk_gap_count : Nat) :
    Nat → Nat → Nat → Nat → Option (Nat × Nat)
  | 0, _, blk, digest => some (blk, digest)
  | fuel + 1, k, blk, digest =>
    if k < arg_blk_gap_count then
      let blk1 := gap_and_to_bitset blk (v_arg_blk_gap k) digest
      let digest1 := update_block_digest0 blk1 digest
      if digest1 = 0 then
        match BM_ASSERT (bit_is_all_zero blk1) with
        | none => none
        | some _ => some (blk1, digest1)
      else gap_and_loop_asserted v_arg_blk_gap arg_blk_gap_count fuel (k + 1) blk1 digest1
    else some (blk, digest)

/-- The function `aggregator::process_gap_blocks_and` with its assertions
`BM_ASSERT(arg_blk_gap_count)`, `BM_ASSERT(digest)` and
`BM_ASSERT(bm::bit_is_all_zero(blk))` evaluated: `none` when one of them fails. -/
def process_gap_blocks_and_asserted (ar : arena) (arg_blk_gap_count : Nat) (digest : Nat) :
    Option (arena × Nat) :=
  match BM_ASSERT (decide (arg_blk_gap_count ≠ 0)) with
  | none => none
  | some _ =>
    match BM_ASSERT (decide (digest ≠ 0)) with
    | none => none
    | some _ =>
      match gap_and_loop_asserted ar.v_arg_blk_gap arg_blk_gap_count arg_blk_gap_count 0
          ar.tb1 digest with
      | none => none
      | some r => some ({ ar with tb1 := r.1 }, r.2)

/-- The loop of `process_gap_blocks_sub` with its `BM_ASSERT(bm::bit_is_all_zero(blk))`
evaluated: `none` when the assertion fails. -/
def gap_sub_loop_asserted (v_arg_blk_gap : Nat → gap_block) (arg_blk_gap_count : Nat) :
    Nat → Nat → Nat → Nat → Option (Nat × Nat)
  | 0, _, blk, digest => some (blk, digest)
  | fuel + 1, k, blk, digest =>
    if k < arg_blk_gap_count then
      let blk1 := gap_sub_to_bitset blk (v_arg_blk_gap k) digest
      let digest1 := update_block_digest0 blk1 digest
      if digest1 = 0 then
        match BM_ASSERT (bit_is_all_zero blk1) with
        | none => none
        | some _ => some (blk1, digest1)
      else gap_sub_loop_asserted v_arg_blk_gap arg_blk_gap_count fuel (k + 1) blk1 digest1
    else some (blk, digest)

/-- The function `aggregator::process_gap_blocks_sub` with its assertions
`BM_ASSERT(arg_blk_gap_count)`, `BM_ASSERT(digest)` and
`BM_ASSERT(bm::bit_is_all_zero(blk))` evaluated: `none` when one of them fails. -/
def process_gap_blocks_sub_asserted (ar : arena) (arg_blk_gap_count : Nat) (digest : Nat) :
    Option (arena × Nat) :=
  match BM_ASSERT (decide (arg_blk_gap_count ≠ 0)) with
  | none => none
  | some _ =>
    match BM_ASSERT (decide (digest ≠ 0)) with
    | none => none
    | some _ =>
      match gap_sub_loop_asserted ar.v_arg_blk_gap arg_blk_gap_count arg_blk_gap_count 0
          ar.tb1 digest with
      | none => none
      | some r => some ({ ar with tb1 := r.1 }, r.2)

/-- The function `aggregator::combine_and(i, j, ...)` with the assertions of the
run-length combiner it calls evaluated: `none` when one of them fails. -/
def combine_and_ij_asserted (ar : arena) (i j : Nat) (bv_target : bvector)
    (bv_src : List bvector) : Option (bvector × arena) :=
  let s := sort_input_blocks_and i j bv_src ar 0 0
  let ar1 := s.2.1
  let arg_blk_count := s.2.2.1
  let arg_blk_gap_count := s.2.2.2
  if s.1 = block_ptr.null then some (bv_target, ar1)
  else if arg_blk_count ≠ 0 ∨ arg_blk_gap_count ≠ 0 then
    let r := process_bit_blocks_and ar1 arg_blk_count 0
    if r.2 = 0 then some (bv_target, r.1)
    else
      let rg : Option (arena × Nat) :=
        if arg_blk_gap_count ≠ 0 then process_gap_blocks_and_asserted r.1 arg_blk_gap_count r.2
        else some r
      match rg with
      | none => none
      | some rg =>
        if rg.2 ≠ 0 then some (store_temp_block rg.1 bv_target i j, rg.1)
        else some (bv_target, rg.1)
  else some (bv_target, ar1)

/-- The part of `combine_and_sub(i, j, ...)` from `if (src_sub_size)` on, with the
assertions of the run-length combiner it calls evaluated. -/
def combine_and_sub_ij_tail_asserted (ar : arena) (i j : Nat) (bv_target : bvector)
    (bv_src_sub : List bvector) (digest : Nat) : Option (bvector × arena) :=
  if bv_src_sub.length ≠ 0 then
    let s := sort_input_blocks_or i j bv_src_sub ar 0 0
    let ar1 := s.2.1
    let arg_blk_sub_count := s.2.2.1
    let arg_blk_sub_gap_count := s.2.2.2
    if s.1 = block_ptr.full then some (bv_target, ar1)
    else if arg_blk_sub_count ≠ 0 ∨ arg_blk_sub_gap_count ≠ 0 then
      let r := process_bit_blocks_sub ar1 arg_blk_sub_count digest
      if r.2 = 0 then some (bv_target, r.1)
      else
        let rg : Option (arena × Nat) :=
          if arg_blk_sub_gap_count ≠ 0 then
            process_gap_blocks_sub_asserted r.1 arg_blk_sub_gap_count r.2
          else some r
        match rg with
        | none => none
        | some rg =>
          if rg.2 ≠ 0 then some (store_temp_block rg.1 bv_target i j, rg.1)
          else some (bv_target, rg.1)
    else if digest ≠ 0 then some (store_temp_block ar1 bv_target i j, ar1)
    else some (bv_target, ar1)
  else if digest ≠ 0 then some (store_temp_block ar bv_target i j, ar)
  else some (bv_target, ar)

/-- The function `aggregator::combine_and_sub(i, j, ...)` with the assertions of the
run-length combiners it calls evaluated: `none` when one of them fails. -/
def combine_and_sub_ij_asserted (ar : arena) (i j : Nat) (bv_target : bvector)
    (bv_src_and bv_src_sub : List bvector) : Option (bvector × arena) :=
  let s := sort_input_blocks_and i j bv_src_and ar 0 0
  let ar1 := s.2.1
  let arg_blk_and_count := s.2.2.1
  let arg_blk_and_gap_count := s.2.2.2
  if s.1 = block_ptr.null then some (bv_target, ar1)
  else if arg_blk_and_count ≠ 0 ∨ arg_blk_and_gap_count ≠ 0 then
    let r := process_bit_blocks_and ar1 arg_blk_and_count 0
    if r.2 = 0 then some (bv_target, r.1)
    else if arg_blk_and_gap_count ≠ 0 then
      match process_gap_blocks_and_asserted r.1 arg_blk_and_gap_count r.2 with
      | none => none
      | some rg =>
        if rg.2 = 0 then some (bv_target, rg.1)
        else combine_and_sub_ij_tail_asserted rg.1 i j bv_target bv_src_sub rg.2
    else combine_and_sub_ij_tail_asserted r.1 i j bv_target bv_src_sub r.2
  else some (bv_target, ar1)

end aggregator

/-! ## Specification-level notions used by the theorems -/

/-- The first `n` entries of an arena array. -/
def arr_upto {α : Type} (f : Nat → α) (n : Nat) : List α :=
  (List.range n).map f

/-- The block of operand `bv` at coordinate `(i, j)`. -/
def bvector.slot (bv : bvector) (i j : Nat) : block_ptr :=
  bv.blockman_.get_block_ptr i j

/-- The dense operands the OR classification collects at `(i, j)`. -/
def or_dense_args (i j : Nat) (bv_src : List bvector) : List arg_blk_ptr :=
  bv_src.filterMap (fun bv =>
    match bv.slot i j with
    | .bit w => some (arg_blk_ptr.blk w)
    | _ => none)

/-- The dense operands the AND classification collects at `(i, j)`. -/
def and_dense_args (i j : Nat) (bv_src : List bvector) : List arg_blk_ptr :=
  bv_src.filterMap (fun bv =>
    match bv.slot i j with
    | .bit w => some (arg_blk_ptr.blk w)
    | .full => some arg_blk_ptr.real_full
    | _ => none)

/-- The run-length operands a classification collects at `(i, j)`. -/
def gap_args (i j : Nat) (bv_src : List bvector) : List gap_block :=
  bv_src.filterMap (fun bv =>
    match bv.slot i j with
    | .gap g => some g
    | _ => none)

/-- The block `blk` is the OR of the first `k` dense operands. -/
def or_acc (v_arg_blk : Nat → arg_blk_ptr) (k blk : Nat) : Prop :=
  ∀ q, blk.testBit q = (arr_upto v_arg_blk k).any (fun a => a.deref.testBit q)

/-- Outcome of one of the OR loops over `c` dense operands: either the early
`return true` with an all-ones block, or a normal exit at an index of at least `lo`. -/
def or_post (v_arg_blk : Nat → arg_blk_ptr) (c lo : Nat) (r : Nat × Nat × Bool) : Prop :=
  (r.2.2 = true → r.2.1 = all_ones_block ∧ ∃ m, m ≤ c ∧ or_acc v_arg_blk m r.2.1) ∧
  (r.2.2 = false → lo ≤ r.1 ∧ r.1 ≤ c ∧ or_acc v_arg_blk r.1 r.2.1)

/-- Outcome of `process_bit_blocks_or` over `c` dense operands. -/
def or_bits_post (ar : arena) (bman : blocks_manager) (i j c : Nat)
    (r : blocks_manager × arena × Bool) : Prop :=
  r.2.1.v_arg_blk = ar.v_arg_blk ∧ r.2.1.v_arg_blk_gap = ar.v_arg_blk_gap ∧
  (r.2.2 = true → r.1 = bman.set_block i j block_ptr.full false ∧
    r.2.1.tb1 = all_ones_block ∧ ∃ m, m ≤ c ∧ or_acc ar.v_arg_blk m r.2.1.tb1) ∧
  (r.2.2 = false → r.1 = bman ∧ or_acc ar.v_arg_blk c r.2.1.tb1)

/-- Outcome of a per-coordinate function on target `T` at `(i, j)`: length, extent and
every other slot are kept, and the bits of slot `(i, j)` are those of `goal`. -/
def ij_post (T : bvector) (i j : Nat) (goal : Nat → Bool) (r : bvector × arena) : Prop :=
  r.1.size_ = T.size_ ∧ r.1.blockman_.is_init_ = true ∧
  r.1.blockman_.top_block_size_ = T.blockman_.top_block_size_ ∧
  (∀ i2 j2, ¬ (i2 = i ∧ j2 = j) → r.1.slot i2 j2 = T.slot i2 j2) ∧
  (∀ q, q < bits_in_block → (r.1.slot i j).test q = goal q)

/-- An initialised target of top-level extent `N` in which every slot is absent. -/
def fresh_target (T : bvector) (N : Nat) : Prop :=
  T.blockman_.is_init_ = true ∧ T.blockman_.top_block_size_ = N ∧
  ∀ i j, T.slot i j = block_ptr.null

/-- Outcome of a driver loop, on a target of extent `N`, over the coordinates `(i, j)`
with `i < n` and `j < max (smax i) 1`: the visited slots hold the bits of `G`, every
other slot is absent. -/
def driver_post (G : Nat → Nat → Nat → Bool) (smax : Nat → Nat) (n N : Nat) (size : Nat)
    (T : bvector) : Prop :=
  T.size_ = size ∧ T.blockman_.is_init_ = true ∧ T.blockman_.top_block_size_ = N ∧
  ∀ i j, (i < n ∧ j < max (smax i) 1 →
            ∀ q, q < bits_in_block → (T.slot i j).test q = G i j q) ∧
         (¬ (i < n ∧ j < max (smax i) 1) → T.slot i j = block_ptr.null)

/-- Digest invariant of the AND and SUB chains: the scratch block `blk` holds the bits of
`S`, and every segment of `blk` with a set bit is marked in `digest`. -/
def and_good (blk digest : Nat) (S : Nat → Bool) : Prop :=
  (∀ q, q < bits_in_block → blk.testBit q = S q) ∧
  (∀ q, q < bits_in_block → blk.testBit q = true →
    digest.testBit (q / set_block_digest_wave_bits) = true)

/-- Outcome `(blk, digest)` of a loop of the AND and SUB chains computing `S`: with a
non-zero digest the invariant holds, with a zero digest `S` has no set bit. -/
def and_post (S : Nat → Bool) (r : Nat × Nat) : Prop :=
  (r.2 ≠ 0 → and_good r.1 r.2 S) ∧ (r.2 = 0 → ∀ q, q < bits_in_block → S q = false)

/-- Two arenas whose dense scratch blocks agree above the block length: a block has
`bits_in_block` bits, so two scratch blocks that are blocks have no bit there and agree. -/
def scratch_high_eq (ar ar2 : arena) : Prop :=
  ∀ q, bits_in_block ≤ q → ar.tb1.testBit q = ar2.tb1.testBit q

/-- The slots of the operand arrays that a classification pass has filled (the first `c`
dense and the first `g` run-length ones) are the same in two arenas. -/
def args_eq (ar ar2 : arena) (c g : Nat) : Prop :=
  (∀ t, t < c → ar.v_arg_blk t = ar2.v_arg_blk t) ∧
  (∀ t, t < g → ar.v_arg_blk_gap t = ar2.v_arg_blk_gap t)

/-- The fully sequential fold the batched OR chain is compared with: the first `c`
dense operands OR-ed one at a time into an all-zero block. -/
def or_fold_sequential (v_arg_blk : Nat → arg_blk_ptr) (c : Nat) : Nat :=
  (arr_upto v_arg_blk c).foldl (fun blk a => blk ||| a.deref) 0

/-- The digest covers the block: every segment of `blk` that contains a set bit has its
digest bit set. -/
def digest_covers (blk digest : Nat) : Prop :=
  ∀ q, q < bits_in_block → blk.testBit q = true →
    digest.testBit (q / set_block_digest_wave_bits) = true

/-- The digest is exact: every segment the digest marks contains a set bit of `blk`. -/
def digest_exact (blk digest : Nat) : Prop :=
  ∀ k, digest.testBit k = true →
    ∃ q, q < bits_in_block ∧ q / set_block_digest_wave_bits = k ∧ blk.testBit q = true

/-- The content of a slot is a block: it has no bit at or above `bits_in_block`. -/
def block_ptr.wf (b : block_ptr) : Prop :=
  b.to_bits < 2 ^ bits_in_block

/-- A destination slot written by the AND and SUB chains: absent, or a dense block
with a set bit. -/
def slot_absent_or_dense (b : block_ptr) : Prop :=
  b = block_ptr.null ∨
    ∃ w, b = block_ptr.bit w ∧ ∃ q, q < bits_in_block ∧ w.testBit q = true

/-! ## Sample values -/

/-- A scratch arena as left by no particular earlier call. -/
def sample_arena : arena :=
  { tb1 := 0,
    v_arg_blk := fun _ => arg_blk_ptr.blk 0,
    v_arg_blk_gap := fun _ => { start := false, ends := [] } }

/-- A scratch arena as a different earlier call may have left it. -/
def sample_arena_used : arena :=
  { tb1 := 5,
    v_arg_blk := fun _ => arg_blk_ptr.real_full,
    v_arg_blk_gap := fun _ => { start := true, ends := [7] } }

/-- An initialised bit-vector of extent 1 whose block `(0, 0)` is the dense block `w`. -/
def sample_bvector (w : Nat) : bvector :=
  { size_ := 65536,
    blockman_ :=
      { is_init_ := true,
        top_block_size_ := 1,
        top_blocks_ := fun i =>
          if i = 0 then some (fun j => if j = 0 then block_ptr.bit w else block_ptr.null)
          else none } }

/-- An initialised bit-vector of extent 1 whose slot `(0, 0)` holds `b`; every other slot
is absent. -/
def sample_block_bvector (b : block_ptr) : bvector :=
  { size_ := 65536,
    blockman_ :=
      { is_init_ := true,
        top_block_size_ := 1,
        top_blocks_ := fun i =>
          if i = 0 then some (fun j => if j = 0 then b else block_ptr.null)
          else none } }

/-- The target vector after a call: the returned target, or the argument itself when a
leading `BM_ASSERT_THROW` raised (the guards come before every write). -/
def aggregator.target_after (bv_target : bvector)
    (res : Except error_code (bvector × arena)) : bvector :=
  match res with
  | .ok r => r.1
  | .error _ => bv_target

/-! ## The compressed sparse vector (`bmsparsevec_compr.h`) -/

/-- Modelled from the spec: `bm::sparse_vector` built with `bm::use_null`
(`bmsparsevec.h` is not in the sources): the elements in index order and the positions
of the bits set in its NULL bitmap (`get_null_bvect`). -/
structure sparse_vector (Val : Type) where
  elems : List Val
  bv_null : List Nat

/-- Modelled from the spec: `sparse_vector::empty`, true when the vector has no
element. -/
def sparse_vector.empty {Val : Type} (sv : sparse_vector Val) : Bool :=
  sv.elems.isEmpty

/-- Modelled from the spec: `sparse_vector::push_back(v)`, appends an element. -/
def sparse_vector.push_back {Val : Type} (sv : sparse_vector Val) (v : Val) :
    sparse_vector Val :=
  { sv with elems := sv.elems ++ [v] }

/-- Modelled from the spec: `bv_null->set(idx)` on the NULL bitmap of the vector. -/
def sparse_vector.set_null_bit {Val : Type} (sv : sparse_vector Val) (idx : Nat) :
    sparse_vector Val :=
  { sv with bv_null := if idx ∈ sv.bv_null then sv.bv_null else sv.bv_null ++ [idx] }

/-- The exception raised through `sparse_vector::throw_range_error`. -/
inductive sv_exception
  | range_error
  deriving DecidableEq

/-- The class `compressed_sparse_vector`: the members `sv_` and `max_id_`. -/
structure compressed_sparse_vector (Val : Type) where
  sv_ : sparse_vector Val
  max_id_ : Nat

/-- The constructor of `compressed_sparse_vector`: an empty `sv_`, `max_id_(0)`. -/
def compressed_sparse_vector.init (Val : Type) : compressed_sparse_vector Val :=
  { sv_ := { elems := [], bv_null := [] }, max_id_ := 0 }

/-- The function `compressed_sparse_vector::push_back(idx, v)`. -/
def compressed_sparse_vector.push_back {Val : Type} (csv : compressed_sparse_vector Val)
    (idx : Nat) (v : Val) : Except sv_exception (compressed_sparse_vector Val) :=
  if csv.sv_.empty then
    Except.ok { sv_ := (csv.sv_.set_null_bit idx).push_back v, max_id_ := idx }
  else if idx ≤ csv.max_id_ then Except.error sv_exception.range_error
  else Except.ok { sv_ := (csv.sv_.set_null_bit idx).push_back v, max_id_ := idx }

/-- Modelled from the spec: `sparse_vector::equal` ("check if another vector has the same
content"): the same elements and the same NULL bitmap. -/
def sparse_vector.equal {Val : Type} [DecidableEq Val] (sv sv2 : sparse_vector Val) : Bool :=
  decide (sv.elems = sv2.elems ∧ sv.bv_null = sv2.bv_null)

/-- The copy assignment `compressed_sparse_vector::operator=`: `sv_ = csv.sv_` and
nothing else (assigning a vector to itself changes nothing either way). -/
def compressed_sparse_vector.assign {Val : Type} (self csv : compressed_sparse_vector Val) :
    compressed_sparse_vector Val :=
  { self with sv_ := csv.sv_ }

/-- The function `compressed_sparse_vector::equal`.  The shortcut `if (this == &csv)
return true` is for one and the same object, for which the two tests below pass. -/
def compressed_sparse_vector.equal {Val : Type} [DecidableEq Val]
    (self csv : compressed_sparse_vector Val) : Bool :=
  if self.max_id_ ≠ csv.max_id_ then false
  else self.sv_.equal csv.sv_

/-- Modelled from the spec: `sparse_vector::get_null_bvector` of a vector built with
`bm::use_null`: its NULL bitmap (the null pointer is returned only by a vector without
NULL support). -/
def sparse_vector.get_null_bvector {Val : Type} (sv : sparse_vector Val) :
    Option (List Nat) :=
  some sv.bv_null

/-- Modelled from the spec: `sparse_vector::clear`: no element and an empty NULL
bitmap. -/
def sparse_vector.clear {Val : Type} (_sv : sparse_vector Val) : sparse_vector Val :=
  { elems := [], bv_null := [] }

/-- Modelled from the spec: `bvector::count` on a NULL bitmap, the number of bits set
in it. -/
def null_bvector_count (bv_null : List Nat) : Nat :=
  bv_null.dedup.length

/-- The number of values of the unsigned 32-bit type `bm::id_t`. -/
def id_t_range : Nat := 2 ^ 32

/-- Modelled from the spec: the loop of `load_from` over the bit-plains with
`bvector_rank_compressor::compress` ("rank-compression"): the element of rank `r` of the
result is the source element at the `r`-th non-NULL index. -/
def rank_compress_elems {Val : Type} (sv_src : sparse_vector Val) (bv_null : List Nat) :
    List Val :=
  bv_null.filterMap (fun idx => sv_src.elems[idx]?)

/-- The function `compressed_sparse_vector::load_from(sv_src)`; `bv_null->count()-1` is
computed in `bm::id_t`. -/
def compressed_sparse_vector.load_from {Val : Type} (csv : compressed_sparse_vector Val)
    (sv_src : sparse_vector Val) : compressed_sparse_vector Val :=
  let sv0 := csv.sv_.clear
  match sv_src.get_null_bvector with
  | none => { sv_ := sv0, max_id_ := 0 }
  | some bv_null_src =>
    let sv1 : sparse_vector Val :=
      { elems := rank_compress_elems sv_src bv_null_src, bv_null := bv_null_src }
    { sv_ := sv1,
      max_id_ := (null_bvector_count sv1.bv_null + id_t_range - 1) % id_t_range }

/-- The largest index of a NULL bitmap (0 for the empty one). -/
def largest_index (bv_null : List Nat) : Nat :=
  bv_null.foldl max 0

/-- A NULL-able source vector of six elements in which only index 5 is non-NULL. -/
def sample_sparse_source : sparse_vector Nat :=
  { elems := [0, 0, 0, 0, 0, 9], bv_null := [5] }
/-! ## Bit-level facts about the block primitives -/

theorem testBit_all_ones_block (q : Nat) :
    all_ones_block.testBit q = decide (q < bits_in_block) := by
  unfold all_ones_block
  rw [Nat.testBit_two_pow_sub_one]

theorem testBit_or_upto (f : Nat → Nat) (n q : Nat) :
    (or_upto f n).testBit q = true ↔ ∃ k, k < n ∧ (f k).testBit q = true := by
  induction n with
  | zero => simp [or_upto]
  | succ n ih =>
    simp only [or_upto, Nat.testBit_or, Bool.or_eq_true, ih]
    constructor
    · rintro (⟨k, hk, h⟩ | h)
      · exact ⟨k, by omega, h⟩
      · exact ⟨n, by omega, h⟩
    · rintro ⟨k, hk, h⟩
      by_cases hkn : k = n
      · subst hkn; exact Or.inr h
      · exact Or.inl ⟨k, by omega, h⟩

theorem testBit_wave_mask (k q : Nat) :
    (wave_mask k).testBit q = decide (q / set_block_digest_wave_bits = k) := by
  unfold wave_mask
  rw [Nat.testBit_shiftLeft, Nat.testBit_two_pow_sub_one]
  have h : (q ≥ set_block_digest_wave_bits * k ∧
      q - set_block_digest_wave_bits * k < set_block_digest_wave_bits) ↔
      q / set_block_digest_wave_bits = k := by
    unfold set_block_digest_wave_bits
    omega
  by_cases hq : q / set_block_digest_wave_bits = k
  · have := h.2 hq
    simp [hq, this.1, this.2]
  · have hn : ¬ (q ≥ set_block_digest_wave_bits * k ∧
      q - set_block_digest_wave_bits * k < set_block_digest_wave_bits) := fun c => hq (h.1 c)
    simp only [hq, decide_False]
    by_cases h1 : q ≥ set_block_digest_wave_bits * k
    · have h2 : ¬ (q - set_block_digest_wave_bits * k < set_block_digest_wave_bits) :=
        fun c => hn ⟨h1, c⟩
      simp [h1, h2]
    · simp [h1]

theorem testBit_digest_mask (digest q : Nat) :
    (digest_mask digest).testBit q =
      (decide (q / set_block_digest_wave_bits < set_block_digest_waves) &&
        digest.testBit (q / set_block_digest_wave_bits)) := by
  rw [Bool.eq_iff_iff]
  unfold digest_mask
  rw [testBit_or_upto]
  simp only [Bool.and_eq_true, decide_eq_true_eq]
  constructor
  · rintro ⟨k, hk, h⟩
    by_cases hd : digest.testBit k = true
    · rw [if_pos hd, testBit_wave_mask] at h
      have hq : q / set_block_digest_wave_bits = k := by simpa using h
      rw [hq]; exact ⟨hk, hd⟩
    · rw [if_neg hd] at h; simp at h
  · rintro ⟨hk, hd⟩
    refine ⟨q / set_block_digest_wave_bits, hk, ?_⟩
    rw [if_pos hd, testBit_wave_mask]; simp

theorem and_wave_mask_ne_zero (blk k : Nat) :
    blk &&& wave_mask k ≠ 0 ↔
      ∃ q, q / set_block_digest_wave_bits = k ∧ blk.testBit q = true := by
  constructor
  · intro h
    obtain ⟨q, hq⟩ := Nat.ne_zero_implies_bit_true h
    rw [Nat.testBit_and, testBit_wave_mask] at hq
    simp only [Bool.and_eq_true, decide_eq_true_eq] at hq
    exact ⟨q, hq.2, hq.1⟩
  · rintro ⟨q, hq, hb⟩ h0
    have : (blk &&& wave_mask k).testBit q = true := by
      rw [Nat.testBit_and, testBit_wave_mask]; simp [hq, hb]
    rw [h0] at this; simp at this

theorem testBit_calc_block_digest0 (blk k : Nat) :
    (calc_block_digest0 blk).testBit k = true ↔
      k < set_block_digest_waves ∧
        ∃ q, q / set_block_digest_wave_bits = k ∧ blk.testBit q = true := by
  unfold calc_block_digest0
  rw [testBit_or_upto]
  constructor
  · rintro ⟨k2, hk2, h⟩
    by_cases hz : blk &&& wave_mask k2 = 0
    · rw [if_pos hz] at h; simp at h
    · rw [if_neg hz, Nat.testBit_two_pow] at h
      have hk : k2 = k := by simpa using h
      subst hk
      exact ⟨hk2, (and_wave_mask_ne_zero blk k2).1 hz⟩
  · rintro ⟨hk, hq⟩
    refine ⟨k, hk, ?_⟩
    have hz := (and_wave_mask_ne_zero blk k).2 hq
    rw [if_neg hz, Nat.testBit_two_pow]; simp

theorem testBit_masked_store (dst new_bits digest q : Nat) :
    (masked_store dst new_bits digest).testBit q =
      if (digest_mask digest).testBit q = true then new_bits.testBit q else dst.testBit q := by
  unfold masked_store
  rw [Nat.testBit_or, Nat.testBit_xor, Nat.testBit_and, Nat.testBit_and]
  cases (digest_mask digest).testBit q <;> simp


/-! ## Arena arrays and classification -/

theorem arr_upto_succ {α : Type} (f : Nat → α) (n : Nat) :
    arr_upto f (n + 1) = arr_upto f n ++ [f n] := by
  simp [arr_upto, List.range_succ]

theorem arr_upto_length {α : Type} (f : Nat → α) (n : Nat) :
    (arr_upto f n).length = n := by
  simp [arr_upto]

theorem arr_upto_congr {α : Type} (f g : Nat → α) (n : Nat)
    (h : ∀ k, k < n → f k = g k) : arr_upto f n = arr_upto g n := by
  unfold arr_upto
  apply List.map_congr_left
  intro k hk
  exact h k (List.mem_range.1 hk)

theorem arr_upto_update {α : Type} (f : Nat → α) (n : Nat) (x : α) :
    arr_upto (Function.update f n x) (n + 1) = arr_upto f n ++ [x] := by
  rw [arr_upto_succ, Function.update_same]
  congr 1
  apply arr_upto_congr
  intro k hk
  exact Function.update_noteq (by omega) _ _

theorem or_dense_args_cons (i j : Nat) (bv : bvector) (rest : List bvector) :
    or_dense_args i j (bv :: rest) =
      (match bv.slot i j with
        | .bit w => [arg_blk_ptr.blk w]
        | _ => []) ++ or_dense_args i j rest := by
  unfold or_dense_args
  rw [List.filterMap_cons]
  cases bv.slot i j <;> simp

theorem and_dense_args_cons (i j : Nat) (bv : bvector) (rest : List bvector) :
    and_dense_args i j (bv :: rest) =
      (match bv.slot i j with
        | .bit w => [arg_blk_ptr.blk w]
        | .full => [arg_blk_ptr.real_full]
        | _ => []) ++ and_dense_args i j rest := by
  unfold and_dense_args
  rw [List.filterMap_cons]
  cases bv.slot i j <;> simp

theorem gap_args_cons (i j : Nat) (bv : bvector) (rest : List bvector) :
    gap_args i j (bv :: rest) =
      (match bv.slot i j with
        | .gap g => [g]
        | _ => []) ++ gap_args i j rest := by
  unfold gap_args
  rw [List.filterMap_cons]
  cases bv.slot i j <;> simp

theorem sort_input_blocks_or_no_full (i j : Nat) (bv_src : List bvector) :
    ∀ (ar : arena) (c g : Nat),
      (∀ bv, bv ∈ bv_src → bv.slot i j ≠ block_ptr.full) →
      (aggregator.sort_input_blocks_or i j bv_src ar c g).1 = block_ptr.null ∧
      (aggregator.sort_input_blocks_or i j bv_src ar c g).2.1.tb1 = ar.tb1 ∧
      (aggregator.sort_input_blocks_or i j bv_src ar c g).2.2.1
        = c + (or_dense_args i j bv_src).length ∧
      (aggregator.sort_input_blocks_or i j bv_src ar c g).2.2.2
        = g + (gap_args i j bv_src).length ∧
      arr_upto (aggregator.sort_input_blocks_or i j bv_src ar c g).2.1.v_arg_blk
          (c + (or_dense_args i j bv_src).length)
        = arr_upto ar.v_arg_blk c ++ or_dense_args i j bv_src ∧
      arr_upto (aggregator.sort_input_blocks_or i j bv_src ar c g).2.1.v_arg_blk_gap
          (g + (gap_args i j bv_src).length)
        = arr_upto ar.v_arg_blk_gap g ++ gap_args i j bv_src := by
  induction bv_src with
  | nil =>
    intro ar c g _
    simp [aggregator.sort_input_blocks_or, or_dense_args, gap_args]
  | cons bv rest ih =>
    intro ar c g h
    have hrest : ∀ b, b ∈ rest → b.slot i j ≠ block_ptr.full :=
      fun b hb => h b (List.mem_cons_of_mem _ hb)
    have hbv := h bv (List.mem_cons_self _ _)
    rw [or_dense_args_cons, gap_args_cons]
    cases hs : bv.slot i j with
    | null =>
      have e : aggregator.sort_input_blocks_or i j (bv :: rest) ar c g
          = aggregator.sort_input_blocks_or i j rest ar c g := by
        unfold bvector.slot at hs
        simp [aggregator.sort_input_blocks_or, hs]
      rw [e]
      simpa using ih ar c g hrest
    | full => exact absurd hs hbv
    | bit w =>
      have e : aggregator.sort_input_blocks_or i j (bv :: rest) ar c g
          = aggregator.sort_input_blocks_or i j rest
              { ar with v_arg_blk := Function.update ar.v_arg_blk c (arg_blk_ptr.blk w) }
              (c + 1) g := by
        unfold bvector.slot at hs
        simp [aggregator.sort_input_blocks_or, hs]
      rw [e]
      obtain ⟨h1, h2, h3, h4, h5, h6⟩ := ih
        { ar with v_arg_blk := Function.update ar.v_arg_blk c (arg_blk_ptr.blk w) }
        (c + 1) g hrest
      simp only [List.nil_append, List.singleton_append, List.length_cons]
      refine ⟨h1, h2, by rw [h3]; omega, h4, ?_, h6⟩
      rw [show c + ((or_dense_args i j rest).length + 1)
        = c + 1 + (or_dense_args i j rest).length by omega, h5, arr_upto_update]
      simp
    | gap gb =>
      have e : aggregator.sort_input_blocks_or i j (bv :: rest) ar c g
          = aggregator.sort_input_blocks_or i j rest
              { ar with v_arg_blk_gap := Function.update ar.v_arg_blk_gap g gb }
              c (g + 1) := by
        unfold bvector.slot at hs
        simp [aggregator.sort_input_blocks_or, hs]
      rw [e]
      obtain ⟨h1, h2, h3, h4, h5, h6⟩ := ih
        { ar with v_arg_blk_gap := Function.update ar.v_arg_blk_gap g gb }
        c (g + 1) hrest
      simp only [List.nil_append, List.singleton_append, List.length_cons]
      refine ⟨h1, h2, h3, by rw [h4]; omega, h5, ?_⟩
      rw [show g + ((gap_args i j rest).length + 1)
        = g + 1 + (gap_args i j rest).length by omega, h6, arr_upto_update]
      simp

theorem sort_input_blocks_or_full (i j : Nat) (bv_src : List bvector) :
    ∀ (ar : arena) (c g : Nat),
      (∃ bv, bv ∈ bv_src ∧ bv.slot i j = block_ptr.full) →
      (aggregator.sort_input_blocks_or i j bv_src ar c g).1 = block_ptr.full ∧
      (aggregator.sort_input_blocks_or i j bv_src ar c g).2.1.tb1 = ar.tb1 := by
  induction bv_src with
  | nil => intro ar c g h; obtain ⟨bv, hm, _⟩ := h; cases hm
  | cons bv rest ih =>
    intro ar c g h
    cases hs : bv.blockman_.get_block_ptr i j with
    | full => simp [aggregator.sort_input_blocks_or, hs]
    | null =>
      have hr : ∃ b, b ∈ rest ∧ b.slot i j = block_ptr.full := by
        obtain ⟨b, hm, hb⟩ := h
        rcases List.mem_cons.1 hm with rfl | hm
        · unfold bvector.slot at hb; rw [hs] at hb; cases hb
        · exact ⟨b, hm, hb⟩
      simpa [aggregator.sort_input_blocks_or, hs] using ih ar c g hr
    | bit w =>
      have hr : ∃ b, b ∈ rest ∧ b.slot i j = block_ptr.full := by
        obtain ⟨b, hm, hb⟩ := h
        rcases List.mem_cons.1 hm with rfl | hm
        · unfold bvector.slot at hb; rw [hs] at hb; cases hb
        · exact ⟨b, hm, hb⟩
      simpa [aggregator.sort_input_blocks_or, hs] using ih _ (c + 1) g hr
    | gap gb =>
      have hr : ∃ b, b ∈ rest ∧ b.slot i j = block_ptr.full := by
        obtain ⟨b, hm, hb⟩ := h
        rcases List.mem_cons.1 hm with rfl | hm
        · unfold bvector.slot at hb; rw [hs] at hb; cases hb
        · exact ⟨b, hm, hb⟩
      simpa [aggregator.sort_input_blocks_or, hs] using ih _ c (g + 1) hr

theorem sort_input_blocks_and_no_null (i j : Nat) (bv_src : List bvector) :
    ∀ (ar : arena) (c g : Nat),
      (∀ bv, bv ∈ bv_src → bv.slot i j ≠ block_ptr.null) →
      (aggregator.sort_input_blocks_and i j bv_src ar c g).1 = block_ptr.full ∧
      (aggregator.sort_input_blocks_and i j bv_src ar c g).2.1.tb1 = ar.tb1 ∧
      (aggregator.sort_input_blocks_and i j bv_src ar c g).2.2.1
        = c + (and_dense_args i j bv_src).length ∧
      (aggregator.sort_input_blocks_and i j bv_src ar c g).2.2.2
        = g + (gap_args i j bv_src).length ∧
      arr_upto (aggregator.sort_input_blocks_and i j bv_src ar c g).2.1.v_arg_blk
          (c + (and_dense_args i j bv_src).length)
        = arr_upto ar.v_arg_blk c ++ and_dense_args i j bv_src ∧
      arr_upto (aggregator.sort_input_blocks_and i j bv_src ar c g).2.1.v_arg_blk_gap
          (g + (gap_args i j bv_src).length)
        = arr_upto ar.v_arg_blk_gap g ++ gap_args i j bv_src := by
  induction bv_src with
  | nil =>
    intro ar c g _
    simp [aggregator.sort_input_blocks_and, and_dense_args, gap_args]
  | cons bv rest ih =>
    intro ar c g h
    have hrest : ∀ b, b ∈ rest → b.slot i j ≠ block_ptr.null :=
      fun b hb => h b (List.mem_cons_of_mem _ hb)
    have hbv := h bv (List.mem_cons_self _ _)
    rw [and_dense_args_cons, gap_args_cons]
    cases hs : bv.slot i j with
    | null => exact absurd hs hbv
    | full =>
      have e : aggregator.sort_input_blocks_and i j (bv :: rest) ar c g
          = aggregator.sort_input_blocks_and i j rest
              { ar with v_arg_blk := Function.update ar.v_arg_blk c arg_blk_ptr.real_full }
              (c + 1) g := by
        unfold bvector.slot at hs
        simp [aggregator.sort_input_blocks_and, hs]
      rw [e]
      obtain ⟨h1, h2, h3, h4, h5, h6⟩ := ih
        { ar with v_arg_blk := Function.update ar.v_arg_blk c arg_blk_ptr.real_full }
        (c + 1) g hrest
      simp only [List.nil_append, List.singleton_append, List.length_cons]
      refine ⟨h1, h2, by rw [h3]; omega, h4, ?_, h6⟩
      rw [show c + ((and_dense_args i j rest).length + 1)
        = c + 1 + (and_dense_args i j rest).length by omega, h5, arr_upto_update]
      simp
    | bit w =>
      have e : aggregator.sort_input_blocks_and i j (bv :: rest) ar c g
          = aggregator.sort_input_blocks_and i j rest
              { ar with v_arg_blk := Function.update ar.v_arg_blk c (arg_blk_ptr.blk w) }
              (c + 1) g := by
        unfold bvector.slot at hs
        simp [aggregator.sort_input_blocks_and, hs]
      rw [e]
      obtain ⟨h1, h2, h3, h4, h5, h6⟩ := ih
        { ar with v_arg_blk := Function.update ar.v_arg_blk c (arg_blk_ptr.blk w) }
        (c + 1) g hrest
      simp only [List.nil_append, List.singleton_append, List.length_cons]
      refine ⟨h1, h2, by rw [h3]; omega, h4, ?_, h6⟩
      rw [show c + ((and_dense_args i j rest).length + 1)
        = c + 1 + (and_dense_args i j rest).length by omega, h5, arr_upto_update]
      simp
    | gap gb =>
      have e : aggregator.sort_input_blocks_and i j (bv :: rest) ar c g
          = aggregator.sort_input_blocks_and i j rest
              { ar with v_arg_blk_gap := Function.update ar.v_arg_blk_gap g gb }
              c (g + 1) := by
        unfold bvector.slot at hs
        simp [aggregator.sort_input_blocks_and, hs]
      rw [e]
      obtain ⟨h1, h2, h3, h4, h5, h6⟩ := ih
        { ar with v_arg_blk_gap := Function.update ar.v_arg_blk_gap g gb }
        c (g + 1) hrest
      simp only [List.nil_append, List.singleton_append, List.length_cons]
      refine ⟨h1, h2, h3, by rw [h4]; omega, h5, ?_⟩
      rw [show g + ((gap_args i j rest).length + 1)
        = g + 1 + (gap_args i j rest).length by omega, h6, arr_upto_update]
      simp

theorem sort_input_blocks_and_null (i j : Nat) (bv_src : List bvector) :
    ∀ (ar : arena) (c g : Nat),
      (∃ bv, bv ∈ bv_src ∧ bv.slot i j = block_ptr.null) →
      (aggregator.sort_input_blocks_and i j bv_src ar c g).1 = block_ptr.null ∧
      (aggregator.sort_input_blocks_and i j bv_src ar c g).2.1.tb1 = ar.tb1 := by
  induction bv_src with
  | nil => intro ar c g h; obtain ⟨bv, hm, _⟩ := h; cases hm
  | cons bv rest ih =>
    intro ar c g h
    cases hs : bv.blockman_.get_block_ptr i j with
    | null => simp [aggregator.sort_input_blocks_and, hs]
    | full =>
      have hr : ∃ b, b ∈ rest ∧ b.slot i j = block_ptr.null := by
        obtain ⟨b, hm, hb⟩ := h
        rcases List.mem_cons.1 hm with rfl | hm
        · unfold bvector.slot at hb; rw [hs] at hb; cases hb
        · exact ⟨b, hm, hb⟩
      simpa [aggregator.sort_input_blocks_and, hs] using ih _ (c + 1) g hr
    | bit w =>
      have hr : ∃ b, b ∈ rest ∧ b.slot i j = block_ptr.null := by
        obtain ⟨b, hm, hb⟩ := h
        rcases List.mem_cons.1 hm with rfl | hm
        · unfold bvector.slot at hb; rw [hs] at hb; cases hb
        · exact ⟨b, hm, hb⟩
      simpa [aggregator.sort_input_blocks_and, hs] using ih _ (c + 1) g hr
    | gap gb =>
      have hr : ∃ b, b ∈ rest ∧ b.slot i j = block_ptr.null := by
        obtain ⟨b, hm, hb⟩ := h
        rcases List.mem_cons.1 hm with rfl | hm
        · unfold bvector.slot at hb; rw [hs] at hb; cases hb
        · exact ⟨b, hm, hb⟩
      simpa [aggregator.sort_input_blocks_and, hs] using ih _ c (g + 1) hr

/-! ## The dense OR combiner -/

theorem or_acc_step (v : Nat → arg_blk_ptr) (k blk : Nat) (h : or_acc v k blk) :
    or_acc v (k + 1) (blk ||| (v k).deref) := by
  intro q
  rw [arr_upto_succ, List.any_append, Nat.testBit_or, h q]
  simp

theorem or_loop_4way_spec (v : Nat → arg_blk_ptr) (c len_unr : Nat) :
    ∀ (fuel k blk : Nat), len_unr ≤ k + fuel →
      (∀ t, k + 4 * t < len_unr → k + 4 * t + 4 ≤ c) → k ≤ c → or_acc v k blk →
      or_post v c (max len_unr k) (aggregator.or_loop_4way v len_unr fuel k blk) := by
  intro fuel
  induction fuel with
  | zero =>
    intro k blk hf _ hk hacc
    refine ⟨fun h => by simp [aggregator.or_loop_4way] at h, fun _ => ?_⟩
    simp only [aggregator.or_loop_4way]
    exact ⟨by omega, hk, hacc⟩
  | succ fuel ih =>
    intro k blk hf hb hk hacc
    by_cases hlt : k < len_unr
    · have hb0 := hb 0 (by omega)
      have hacc4 : or_acc v (k + 4) (blk ||| (v k).deref ||| (v (k + 1)).deref
          ||| (v (k + 2)).deref ||| (v (k + 3)).deref) :=
        or_acc_step v (k + 3) _ (or_acc_step v (k + 2) _ (or_acc_step v (k + 1) _
          (or_acc_step v k _ hacc)))
      by_cases hone : is_bits_one (blk ||| (v k).deref ||| (v (k + 1)).deref
          ||| (v (k + 2)).deref ||| (v (k + 3)).deref) = true
      · have e : aggregator.or_loop_4way v len_unr (fuel + 1) k blk
            = (k, blk ||| (v k).deref ||| (v (k + 1)).deref
                ||| (v (k + 2)).deref ||| (v (k + 3)).deref, true) := by
          simp [aggregator.or_loop_4way, hlt, bit_block_or_5way, hone]
        rw [e]
        refine ⟨fun _ => ⟨?_, k + 4, by omega, hacc4⟩, fun h => by simp at h⟩
        simpa [is_bits_one] using hone
      · have e : aggregator.or_loop_4way v len_unr (fuel + 1) k blk
            = aggregator.or_loop_4way v len_unr fuel (k + 4)
                (blk ||| (v k).deref ||| (v (k + 1)).deref
                  ||| (v (k + 2)).deref ||| (v (k + 3)).deref) := by
          simp [aggregator.or_loop_4way, hlt, bit_block_or_5way, hone]
        rw [e]
        have := ih (k + 4) _ (by omega)
          (fun t ht => by have := hb (t + 1) (by omega); omega) (by omega) hacc4
        refine ⟨this.1, fun h => ?_⟩
        obtain ⟨h1, h2, h3⟩ := this.2 h
        exact ⟨by omega, h2, h3⟩
    · have e : aggregator.or_loop_4way v len_unr (fuel + 1) k blk = (k, blk, false) := by
        simp [aggregator.or_loop_4way, hlt]
      rw [e]
      exact ⟨fun h => by simp at h, fun _ => ⟨by omega, hk, hacc⟩⟩

theorem or_loop_2way_spec (v : Nat → arg_blk_ptr) (c len_unr : Nat)
    (hb : len_unr = 0 ∨ len_unr + 1 ≤ c) :
    ∀ (fuel k blk : Nat), len_unr ≤ k + fuel → k ≤ c → or_acc v k blk →
      or_post v c (max len_unr k) (aggregator.or_loop_2way v len_unr fuel k blk) := by
  intro fuel
  induction fuel with
  | zero =>
    intro k blk hf hk hacc
    refine ⟨fun h => by simp [aggregator.or_loop_2way] at h, fun _ => ?_⟩
    simp only [aggregator.or_loop_2way]
    exact ⟨by omega, hk, hacc⟩
  | succ fuel ih =>
    intro k blk hf hk hacc
    by_cases hlt : k < len_unr
    · have hacc2 : or_acc v (k + 2) (blk ||| (v k).deref ||| (v (k + 1)).deref) :=
        or_acc_step v (k + 1) _ (or_acc_step v k _ hacc)
      by_cases hone : is_bits_one (blk ||| (v k).deref ||| (v (k + 1)).deref) = true
      · have e : aggregator.or_loop_2way v len_unr (fuel + 1) k blk
            = (k, blk ||| (v k).deref ||| (v (k + 1)).deref, true) := by
          simp [aggregator.or_loop_2way, hlt, bit_block_or_3way, hone]
        rw [e]
        refine ⟨fun _ => ⟨?_, k + 2, by omega, hacc2⟩, fun h => by simp at h⟩
        simpa [is_bits_one] using hone
      · have e : aggregator.or_loop_2way v len_unr (fuel + 1) k blk
            = aggregator.or_loop_2way v len_unr fuel (k + 2)
                (blk ||| (v k).deref ||| (v (k + 1)).deref) := by
          simp [aggregator.or_loop_2way, hlt, bit_block_or_3way, hone]
        rw [e]
        have := ih (k + 2) _ (by omega) (by omega) hacc2
        refine ⟨this.1, fun h => ?_⟩
        obtain ⟨h1, h2, h3⟩ := this.2 h
        exact ⟨by omega, h2, h3⟩
    · have e : aggregator.or_loop_2way v len_unr (fuel + 1) k blk = (k, blk, false) := by
        simp [aggregator.or_loop_2way, hlt]
      rw [e]
      exact ⟨fun h => by simp at h, fun _ => ⟨by omega, hk, hacc⟩⟩

theorem or_loop_1way_spec (v : Nat → arg_blk_ptr) (c : Nat) :
    ∀ (fuel k blk : Nat), c ≤ k + fuel → k ≤ c → or_acc v k blk →
      or_post v c c (aggregator.or_loop_1way v c fuel k blk) := by
  intro fuel
  induction fuel with
  | zero =>
    intro k blk hf hk hacc
    refine ⟨fun h => by simp [aggregator.or_loop_1way] at h, fun _ => ?_⟩
    simp only [aggregator.or_loop_1way]
    exact ⟨by omega, hk, hacc⟩
  | succ fuel ih =>
    intro k blk hf hk hacc
    by_cases hlt : k < c
    · have hacc1 : or_acc v (k + 1) (blk ||| (v k).deref) := or_acc_step v k _ hacc
      by_cases hone : is_bits_one (blk ||| (v k).deref) = true
      · have e : aggregator.or_loop_1way v c (fuel + 1) k blk
            = (k, blk ||| (v k).deref, true) := by
          simp [aggregator.or_loop_1way, hlt, bit_block_or, hone]
        rw [e]
        refine ⟨fun _ => ⟨?_, k + 1, by omega, hacc1⟩, fun h => by simp at h⟩
        simpa [is_bits_one] using hone
      · have e : aggregator.or_loop_1way v c (fuel + 1) k blk
            = aggregator.or_loop_1way v c fuel (k + 1) (blk ||| (v k).deref) := by
          simp [aggregator.or_loop_1way, hlt, bit_block_or, hone]
        rw [e]
        exact ih (k + 1) _ (by omega) (by omega) hacc1
    · have e : aggregator.or_loop_1way v c (fuel + 1) k blk = (k, blk, false) := by
        simp [aggregator.or_loop_1way, hlt]
      rw [e]
      exact ⟨fun h => by simp at h, fun _ => ⟨by omega, hk, hacc⟩⟩

theorem process_bit_blocks_or_spec (ar : arena) (bman : blocks_manager) (i j c : Nat) :
    or_bits_post ar bman i j c (aggregator.process_bit_blocks_or ar bman i j c) := by
  rcases Nat.eq_zero_or_pos c with hc | hc
  · subst hc
    refine ⟨?_, ?_, ?_, ?_⟩ <;>
      simp [aggregator.process_bit_blocks_or, aggregator.or_loop_4way,
        aggregator.or_loop_2way, aggregator.or_loop_1way, or_acc, arr_upto]
  · have hne : c ≠ 0 := by omega
    have hacc0 : or_acc ar.v_arg_blk 1 (ar.v_arg_blk 0).deref := by
      intro q; simp [arr_upto, List.range_succ]
    unfold aggregator.process_bit_blocks_or
    simp only [if_pos hne]
    have h4 := or_loop_4way_spec ar.v_arg_blk c ((c - 1) - (c - 1) % 4)
      ((c - 1) - (c - 1) % 4) 1 (ar.v_arg_blk 0).deref (by omega)
      (fun t ht => by omega) (by omega) hacc0
    generalize aggregator.or_loop_4way ar.v_arg_blk ((c - 1) - (c - 1) % 4)
      ((c - 1) - (c - 1) % 4) 1 (ar.v_arg_blk 0).deref = r4 at h4 ⊢
    by_cases h4f : r4.2.2 = true
    · rw [if_pos h4f]
      exact ⟨rfl, rfl, fun _ => ⟨rfl, h4.1 h4f⟩, fun h => by simp at h⟩
    · rw [if_neg h4f]
      obtain ⟨h4a, h4b, h4c⟩ := h4.2 (by simpa using h4f)
      have h2 := or_loop_2way_spec ar.v_arg_blk c ((c - r4.1) - (c - r4.1) % 2)
        (by omega) ((c - r4.1) - (c - r4.1) % 2) r4.1 r4.2.1 (by omega) h4b h4c
      generalize aggregator.or_loop_2way ar.v_arg_blk ((c - r4.1) - (c - r4.1) % 2)
        ((c - r4.1) - (c - r4.1) % 2) r4.1 r4.2.1 = r2 at h2 ⊢
      by_cases h2f : r2.2.2 = true
      · rw [if_pos h2f]
        exact ⟨rfl, rfl, fun _ => ⟨rfl, h2.1 h2f⟩, fun h => by simp at h⟩
      · rw [if_neg h2f]
        obtain ⟨h2a, h2b, h2c⟩ := h2.2 (by simpa using h2f)
        have h1 := or_loop_1way_spec ar.v_arg_blk c c r2.1 r2.2.1 (by omega) h2b h2c
        generalize aggregator.or_loop_1way ar.v_arg_blk c c r2.1 r2.2.1 = r1 at h1 ⊢
        by_cases h1f : r1.2.2 = true
        · rw [if_pos h1f]
          exact ⟨rfl, rfl, fun _ => ⟨rfl, h1.1 h1f⟩, fun h => by simp at h⟩
        · rw [if_neg h1f]
          obtain ⟨h1a, h1b, h1c⟩ := h1.2 (by simpa using h1f)
          have : r1.1 = c := by omega
          rw [this] at h1c
          exact ⟨rfl, rfl, fun h => by simp at h, fun _ => ⟨rfl, h1c⟩⟩

/-! ## The run-length OR combiner -/

theorem gap_or_loop_spec (vg : Nat → gap_block) (n : Nat) (base : Nat → Bool) :
    ∀ (fuel k blk : Nat), n ≤ k + fuel → k ≤ n →
      (∀ q, blk.testBit q = (base q || (arr_upto vg k).any (fun g => gap_test g q))) →
      ∀ q, (aggregator.gap_or_loop vg n fuel k blk).testBit q
        = (base q || (arr_upto vg n).any (fun g => gap_test g q)) := by
  intro fuel
  induction fuel with
  | zero =>
    intro k blk hf hk h q
    have : k = n := by omega
    subst this
    simpa [aggregator.gap_or_loop] using h q
  | succ fuel ih =>
    intro k blk hf hk h q
    by_cases hlt : k < n
    · have e : aggregator.gap_or_loop vg n (fuel + 1) k blk
          = aggregator.gap_or_loop vg n fuel (k + 1) (gap_add_to_bitset blk (vg k)) := by
        simp [aggregator.gap_or_loop, hlt]
      rw [e]
      apply ih (k + 1) _ (by omega) (by omega)
      intro q2
      rw [arr_upto_succ, List.any_append]
      unfold gap_add_to_bitset
      rw [Nat.testBit_or, h q2]
      simp [gap_test, Bool.or_assoc]
    · have : k = n := by omega
      subst this
      simpa [aggregator.gap_or_loop, hlt] using h q

theorem process_gap_blocks_or_spec (ar : arena) (bman : blocks_manager) (i j n : Nat) :
    (aggregator.process_gap_blocks_or ar bman i j n).2.1.v_arg_blk = ar.v_arg_blk ∧
    (aggregator.process_gap_blocks_or ar bman i j n).2.1.v_arg_blk_gap = ar.v_arg_blk_gap ∧
    (∀ q, (aggregator.process_gap_blocks_or ar bman i j n).2.1.tb1.testBit q
      = (ar.tb1.testBit q || (arr_upto ar.v_arg_blk_gap n).any (fun g => gap_test g q))) ∧
    ((aggregator.process_gap_blocks_or ar bman i j n).2.2 = true →
      (aggregator.process_gap_blocks_or ar bman i j n).1
        = bman.set_block i j block_ptr.full false ∧
      (aggregator.process_gap_blocks_or ar bman i j n).2.1.tb1 = all_ones_block) ∧
    ((aggregator.process_gap_blocks_or ar bman i j n).2.2 = false →
      (aggregator.process_gap_blocks_or ar bman i j n).1 = bman) := by
  have hl := gap_or_loop_spec ar.v_arg_blk_gap n (fun q => ar.tb1.testBit q) n 0 ar.tb1
    (by omega) (by omega) (by intro q; simp [arr_upto])
  unfold aggregator.process_gap_blocks_or
  generalize aggregator.gap_or_loop ar.v_arg_blk_gap n n 0 ar.tb1 = blk at hl ⊢
  by_cases h1 : is_bits_one blk = true
  · rw [if_pos h1]
    refine ⟨rfl, rfl, hl, fun _ => ⟨rfl, ?_⟩, fun h => by simp at h⟩
    simpa [is_bits_one] using h1
  · rw [if_neg h1]
    exact ⟨rfl, rfl, hl, fun h => by simp at h, fun _ => rfl⟩

/-! ## Writing into the target -/

theorem get_block_ptr_store (bman : blocks_manager) (i j : Nat) (b : block_ptr)
    (hi : bman.is_init_ = true) (hlt : i < bman.top_block_size_) (i2 j2 : Nat) :
    ((bman.check_alloc_top_subblock i).set_block_ptr i j b).get_block_ptr i2 j2
      = if i2 = i ∧ j2 = j then b else bman.get_block_ptr i2 j2 := by
  unfold blocks_manager.check_alloc_top_subblock
  cases hs : bman.top_blocks_ i with
  | none =>
    simp only [blocks_manager.set_block_ptr, blocks_manager.get_block_ptr,
      blocks_manager.get_topblock, if_true]
    by_cases h2 : i2 = i
    · subst h2
      simp only [hi, hlt, and_self, if_true, hs, true_and]
    · simp [h2, hi]
  | some sub =>
    simp only [blocks_manager.set_block_ptr, blocks_manager.get_block_ptr,
      blocks_manager.get_topblock, hs]
    by_cases h2 : i2 = i
    · subst h2
      simp only [hi, hlt, and_self, if_true, hs, true_and]
    · simp [h2, hi]

theorem store_is_init (bman : blocks_manager) (i j : Nat) (b : block_ptr) :
    ((bman.check_alloc_top_subblock i).set_block_ptr i j b).is_init_ = bman.is_init_ ∧
    ((bman.check_alloc_top_subblock i).set_block_ptr i j b).top_block_size_
      = bman.top_block_size_ := by
  unfold blocks_manager.check_alloc_top_subblock
  cases hs : bman.top_blocks_ i <;> simp [blocks_manager.set_block_ptr, hs]

theorem ij_post_unchanged (T : bvector) (i j : Nat) (goal : Nat → Bool) (ar : arena)
    (hi : T.blockman_.is_init_ = true) (hn : T.slot i j = block_ptr.null)
    (hg : ∀ q, q < bits_in_block → goal q = false) : ij_post T i j goal (T, ar) := by
  refine ⟨rfl, hi, rfl, fun _ _ _ => rfl, fun q hq => ?_⟩
  show (T.slot i j).test q = goal q
  rw [hn, hg q hq]; rfl

theorem ij_post_store (T : bvector) (i j : Nat) (goal : Nat → Bool) (ar : arena)
    (b : block_ptr) (hi : T.blockman_.is_init_ = true)
    (hlt : i < T.blockman_.top_block_size_)
    (hg : ∀ q, q < bits_in_block → b.test q = goal q) :
    ij_post T i j goal
      ({ T with blockman_ := (T.blockman_.check_alloc_top_subblock i).set_block_ptr i j b },
        ar) := by
  have h1 := store_is_init T.blockman_ i j b
  refine ⟨rfl, by rw [← hi]; exact h1.1, h1.2, fun i2 j2 hne => ?_, fun q hq => ?_⟩
  · show blocks_manager.get_block_ptr _ i2 j2 = _
    rw [get_block_ptr_store _ _ _ _ hi hlt, if_neg hne]; rfl
  · show (blocks_manager.get_block_ptr _ i j).test q = _
    rw [get_block_ptr_store _ _ _ _ hi hlt, if_pos ⟨rfl, rfl⟩]
    exact hg q hq

/-! ## `combine_or` at one coordinate -/

theorem sort_input_blocks_or_init (i j : Nat) (bv_src : List bvector) (ar : arena)
    (h : ∀ bv, bv ∈ bv_src → bv.slot i j ≠ block_ptr.full) :
    (aggregator.sort_input_blocks_or i j bv_src ar 0 0).1 = block_ptr.null ∧
    arr_upto (aggregator.sort_input_blocks_or i j bv_src ar 0 0).2.1.v_arg_blk
        (aggregator.sort_input_blocks_or i j bv_src ar 0 0).2.2.1
      = or_dense_args i j bv_src ∧
    arr_upto (aggregator.sort_input_blocks_or i j bv_src ar 0 0).2.1.v_arg_blk_gap
        (aggregator.sort_input_blocks_or i j bv_src ar 0 0).2.2.2
      = gap_args i j bv_src := by
  obtain ⟨h1, _, h3, h4, h5, h6⟩ := sort_input_blocks_or_no_full i j bv_src ar 0 0 h
  refine ⟨h1, ?_, ?_⟩
  · rw [h3, h5]; simp [arr_upto]
  · rw [h4, h6]; simp [arr_upto]

theorem sort_input_blocks_and_init (i j : Nat) (bv_src : List bvector) (ar : arena)
    (h : ∀ bv, bv ∈ bv_src → bv.slot i j ≠ block_ptr.null) :
    (aggregator.sort_input_blocks_and i j bv_src ar 0 0).1 = block_ptr.full ∧
    arr_upto (aggregator.sort_input_blocks_and i j bv_src ar 0 0).2.1.v_arg_blk
        (aggregator.sort_input_blocks_and i j bv_src ar 0 0).2.2.1
      = and_dense_args i j bv_src ∧
    arr_upto (aggregator.sort_input_blocks_and i j bv_src ar 0 0).2.1.v_arg_blk_gap
        (aggregator.sort_input_blocks_and i j bv_src ar 0 0).2.2.2
      = gap_args i j bv_src := by
  obtain ⟨h1, _, h3, h4, h5, h6⟩ := sort_input_blocks_and_no_null i j bv_src ar 0 0 h
  refine ⟨h1, ?_, ?_⟩
  · rw [h3, h5]; simp [arr_upto]
  · rw [h4, h6]; simp [arr_upto]

theorem any_slot_no_full (i j : Nat) (bv_src : List bvector)
    (h : ∀ bv, bv ∈ bv_src → bv.slot i j ≠ block_ptr.full) (q : Nat) :
    bv_src.any (fun bv => (bv.slot i j).test q)
      = ((or_dense_args i j bv_src).any (fun a => a.deref.testBit q) ||
          (gap_args i j bv_src).any (fun g => gap_test g q)) := by
  induction bv_src with
  | nil => simp [or_dense_args, gap_args]
  | cons bv rest ih =>
    have hrest := ih (fun b hb => h b (List.mem_cons_of_mem _ hb))
    have hbv := h bv (List.mem_cons_self _ _)
    rw [List.any_cons, hrest, or_dense_args_cons, gap_args_cons]
    cases hs : bv.slot i j with
    | null => simp [block_ptr.test]
    | full => exact absurd hs hbv
    | bit w => simp [block_ptr.test, arg_blk_ptr.deref, Bool.or_assoc]
    | gap g =>
      simp only [block_ptr.test, List.nil_append, List.singleton_append, List.any_cons]
      cases gap_test g q <;> simp

theorem any_arr_upto_mono {α : Type} (f : Nat → α) (P : α → Bool) (m c : Nat)
    (hm : m ≤ c) (h : (arr_upto f m).any P = true) : (arr_upto f c).any P = true := by
  unfold arr_upto at h ⊢
  rw [List.any_eq_true] at h ⊢
  obtain ⟨x, hx, hp⟩ := h
  refine ⟨x, ?_, hp⟩
  rw [List.mem_map] at hx ⊢
  obtain ⟨k, hk, rfl⟩ := hx
  exact ⟨k, List.mem_range.2 (by have := List.mem_range.1 hk; omega), rfl⟩

theorem combine_or_ij_spec (ar : arena) (i j : Nat) (T : bvector) (bv_src : List bvector)
    (hi : T.blockman_.is_init_ = true) (hlt : i < T.blockman_.top_block_size_)
    (hn : T.slot i j = block_ptr.null) :
    ij_post T i j (fun q => bv_src.any (fun bv => (bv.slot i j).test q))
      (aggregator.combine_or_ij ar i j T bv_src) := by
  unfold aggregator.combine_or_ij
  by_cases hfull : ∃ bv, bv ∈ bv_src ∧ bv.slot i j = block_ptr.full
  · have hs := (sort_input_blocks_or_full i j bv_src ar 0 0 hfull).1
    simp only [hs, if_true]
    apply ij_post_store T i j _ _ block_ptr.full hi hlt
    intro q _
    obtain ⟨bv, hm, hb⟩ := hfull
    symm
    show _ = true
    rw [List.any_eq_true]
    exact ⟨bv, hm, by rw [hb]; rfl⟩
  · have hnf : ∀ bv, bv ∈ bv_src → bv.slot i j ≠ block_ptr.full :=
      fun bv hm hb => hfull ⟨bv, hm, hb⟩
    obtain ⟨h1, h2, h3⟩ := sort_input_blocks_or_init i j bv_src ar hnf
    have hany := any_slot_no_full i j bv_src hnf
    generalize aggregator.sort_input_blocks_or i j bv_src ar 0 0 = s at h1 h2 h3 ⊢
    have hs1 : ¬ (s.1 = block_ptr.full) := by rw [h1]; simp
    simp only [hs1, if_false]
    by_cases hcnt : s.2.2.1 ≠ 0 ∨ s.2.2.2 ≠ 0
    · rw [if_pos hcnt]
      obtain ⟨hb1, hb2, hb3, hb4⟩ := process_bit_blocks_or_spec s.2.1 T.blockman_ i j s.2.2.1
      generalize aggregator.process_bit_blocks_or s.2.1 T.blockman_ i j s.2.2.1 = r
        at hb1 hb2 hb3 hb4 ⊢
      by_cases hrf : r.2.2 = true
      · rw [if_pos hrf]
        obtain ⟨e1, e2, m, hm, hacc⟩ := hb3 hrf
        rw [e1]
        apply ij_post_store T i j _ _ block_ptr.full hi hlt
        intro q hq
        symm
        rw [hany q, ← h2]
        have : (arr_upto s.2.1.v_arg_blk m).any (fun a => a.deref.testBit q) = true := by
          rw [← hacc q, e2, testBit_all_ones_block]; simpa using hq
        rw [any_arr_upto_mono _ _ m _ hm this]; rfl
      · rw [if_neg hrf]
        obtain ⟨e1, hacc⟩ := hb4 (by simpa using hrf)
        by_cases hg : s.2.2.2 ≠ 0
        · rw [if_pos hg]
          obtain ⟨hg1, hg2, hg3, hg4, hg5⟩ :=
            process_gap_blocks_or_spec r.2.1 r.1 i j s.2.2.2
          generalize aggregator.process_gap_blocks_or r.2.1 r.1 i j s.2.2.2 = rg
            at hg1 hg2 hg3 hg4 hg5 ⊢
          have hbits : ∀ q, rg.2.1.tb1.testBit q
              = bv_src.any (fun bv => (bv.slot i j).test q) := by
            intro q
            rw [hg3 q, hacc q, hany q, hb2, h2, h3]
          by_cases hgf : rg.2.2 = true
          · rw [if_pos hgf]
            obtain ⟨e3, e4⟩ := hg4 hgf
            rw [e3, e1]
            apply ij_post_store T i j _ _ block_ptr.full hi hlt
            intro q hq
            rw [← hbits q, e4, testBit_all_ones_block]
            simp [block_ptr.test, hq]
          · rw [if_neg hgf]
            rw [hg5 (by simpa using hgf), e1]
            apply ij_post_store T i j _ _ (block_ptr.bit rg.2.1.tb1) hi hlt
            intro q _
            rw [← hbits q]; rfl
        · rw [if_neg hg]
          have hg0 : s.2.2.2 = 0 := by simpa using hg
          simp only [Bool.false_eq_true, if_false]
          rw [e1]
          apply ij_post_store T i j _ _ (block_ptr.bit r.2.1.tb1) hi hlt
          intro q _
          rw [hany q, ← h2, ← h3, hg0]
          show r.2.1.tb1.testBit q = _
          rw [hacc q]; simp [arr_upto]
    · rw [if_neg hcnt]
      have hc0 : s.2.2.1 = 0 ∧ s.2.2.2 = 0 := by
        constructor
        · by_contra hc; exact hcnt (Or.inl hc)
        · by_contra hc; exact hcnt (Or.inr hc)
      apply ij_post_unchanged T i j _ _ hi hn
      intro q _
      rw [hany q, ← h2, ← h3, hc0.1, hc0.2]
      simp [arr_upto]

/-! ## Target sizing -/

theorem slot_null_of_extent (bv : bvector) (i j : Nat)
    (h : bv.blockman_.top_block_size_ ≤ i) : bv.slot i j = block_ptr.null := by
  unfold bvector.slot blocks_manager.get_block_ptr blocks_manager.get_topblock
  rw [if_neg (by omega)]

theorem resize_target_fold_fresh (bv_src : List bvector) :
    ∀ (st : bvector × Nat × Nat), fresh_target st.1 st.2.1 →
      fresh_target (bv_src.foldl aggregator.resize_target_step st).1
        (bv_src.foldl aggregator.resize_target_step st).2.1 ∧
      st.2.1 ≤ (bv_src.foldl aggregator.resize_target_step st).2.1 ∧
      ∀ bv, bv ∈ bv_src →
        bv.blockman_.top_block_size_ ≤ (bv_src.foldl aggregator.resize_target_step st).2.1 := by
  induction bv_src with
  | nil => intro st h; exact ⟨h, Nat.le_refl _, fun bv hm => by cases hm⟩
  | cons bv rest ih =>
    intro st h
    rw [List.foldl_cons]
    have hstep : fresh_target (aggregator.resize_target_step st bv).1
        (aggregator.resize_target_step st bv).2.1 ∧
        st.2.1 ≤ (aggregator.resize_target_step st bv).2.1 ∧
        bv.blockman_.top_block_size_ ≤ (aggregator.resize_target_step st bv).2.1 := by
      obtain ⟨h1, h2, h3⟩ := h
      unfold aggregator.resize_target_step blocks_manager.top_block_size bvector.size
      by_cases hgt : bv.blockman_.top_block_size_ > st.2.1
      · have hle : ¬ (bv.blockman_.top_block_size_ ≤ st.1.blockman_.top_block_size_) := by
          rw [h2]; omega
        have hfresh : fresh_target
            { st.1 with blockman_ :=
                (st.1.blockman_.reserve_top_blocks bv.blockman_.top_block_size_).1 }
            bv.blockman_.top_block_size_ := by
          unfold blocks_manager.reserve_top_blocks
          rw [if_neg hle]
          refine ⟨rfl, rfl, fun i j => ?_⟩
          have := h3 i j
          unfold bvector.slot blocks_manager.get_block_ptr at this ⊢
          unfold blocks_manager.get_topblock at this ⊢
          by_cases hc : i < bv.blockman_.top_block_size_
          · simpa [hc] using this
          · simp [hc]
        have hret : (st.1.blockman_.reserve_top_blocks bv.blockman_.top_block_size_).2
            = bv.blockman_.top_block_size_ := by
          unfold blocks_manager.reserve_top_blocks
          rw [if_neg hle]
        simp only [hgt, if_true, hret]
        by_cases hsz : bv.size_ > st.2.2
        · simp only [hsz, if_true]
          exact ⟨hfresh, by omega, Nat.le_refl _⟩
        · simp only [hsz, if_false]
          exact ⟨hfresh, by omega, Nat.le_refl _⟩
      · simp only [hgt, if_false]
        by_cases hsz : bv.size_ > st.2.2
        · simp only [hsz, if_true]
          exact ⟨⟨h1, h2, h3⟩, Nat.le_refl _, by omega⟩
        · simp only [hsz, if_false]
          exact ⟨⟨h1, h2, h3⟩, Nat.le_refl _, by omega⟩
    obtain ⟨a1, a2, a3⟩ := ih _ hstep.1
    refine ⟨a1, by omega, fun b hb => ?_⟩
    rcases List.mem_cons.1 hb with rfl | hb
    · omega
    · exact a3 b hb

theorem resize_target_clear_fresh (bv_target : bvector) (bv_src : List bvector) :
    fresh_target (aggregator.resize_target bv_target bv_src true).1
      (aggregator.resize_target bv_target bv_src true).2 ∧
    ∀ bv, bv ∈ bv_src →
      bv.blockman_.top_block_size_ ≤ (aggregator.resize_target bv_target bv_src true).2 := by
  unfold aggregator.resize_target
  simp only [if_true]
  have h0 : fresh_target
      (if (!bv_target.blockman_.is_init) = true then
        { bv_target with blockman_ := bv_target.blockman_.init_tree }
      else bv_target.clear true)
      (if (!bv_target.blockman_.is_init) = true then
        { bv_target with blockman_ := bv_target.blockman_.init_tree }
      else bv_target.clear true).blockman_.top_block_size := by
    by_cases hinit : bv_target.blockman_.is_init = true
    · simp only [hinit, Bool.not_true, Bool.false_eq_true, if_false]
      refine ⟨hinit, rfl, fun i j => ?_⟩
      simp [bvector.slot, bvector.clear, blocks_manager.get_block_ptr,
        blocks_manager.get_topblock]
    · have hf : bv_target.blockman_.is_init = false := by simpa using hinit
      simp only [hf, Bool.not_false, if_true]
      refine ⟨rfl, rfl, fun i j => ?_⟩
      simp [bvector.slot, blocks_manager.init_tree, blocks_manager.get_block_ptr,
        blocks_manager.get_topblock]
  have key : ∀ bv0 : bvector, fresh_target bv0 bv0.blockman_.top_block_size →
      fresh_target
        (bv_src.foldl aggregator.resize_target_step
          (bv0, bv0.blockman_.top_block_size, bv0.size)).1
        (bv_src.foldl aggregator.resize_target_step
          (bv0, bv0.blockman_.top_block_size, bv0.size)).2.1 ∧
      ∀ bv, bv ∈ bv_src → bv.blockman_.top_block_size_ ≤
        (bv_src.foldl aggregator.resize_target_step
          (bv0, bv0.blockman_.top_block_size, bv0.size)).2.1 := by
    intro bv0 h
    obtain ⟨a1, _, a3⟩ := resize_target_fold_fresh bv_src
      (bv0, bv0.blockman_.top_block_size, bv0.size) h
    exact ⟨a1, a3⟩
  exact key _ h0

theorem resize_target_keep_fresh (T : bvector) (N : Nat) (bv_src : List bvector)
    (h : fresh_target T N) :
    fresh_target (aggregator.resize_target T bv_src false).1
      (aggregator.resize_target T bv_src false).2 ∧
    N ≤ (aggregator.resize_target T bv_src false).2 ∧
    ∀ bv, bv ∈ bv_src →
      bv.blockman_.top_block_size_ ≤ (aggregator.resize_target T bv_src false).2 := by
  unfold aggregator.resize_target
  simp only [Bool.false_eq_true, if_false]
  have h0 : fresh_target T T.blockman_.top_block_size := by
    obtain ⟨h1, h2, h3⟩ := h
    exact ⟨h1, rfl, h3⟩
  have := resize_target_fold_fresh bv_src (T, T.blockman_.top_block_size, T.size) h0
  obtain ⟨a1, a2, a3⟩ := this
  refine ⟨a1, ?_, a3⟩
  have : T.blockman_.top_block_size = N := h.2.1
  simp only [this] at a2 ⊢
  exact a2

/-! ## Effective sub-block width -/

theorem scan_sub_blocks_spec (b : Nat → block_ptr) (m : Nat) :
    ∀ J, m ≤ aggregator.scan_sub_blocks b m J ∧
      ∀ j, aggregator.scan_sub_blocks b m J < j → j ≤ J → b j = block_ptr.null := by
  intro J
  induction J with
  | zero =>
    simp only [aggregator.scan_sub_blocks]
    exact ⟨Nat.le_refl _, fun j h1 h2 => by omega⟩
  | succ J ih =>
    simp only [aggregator.scan_sub_blocks]
    by_cases h1 : J + 1 > m
    · rw [if_pos h1]
      by_cases h2 : b (J + 1) ≠ block_ptr.null
      · rw [if_pos h2]
        exact ⟨by omega, fun j h3 h4 => by omega⟩
      · rw [if_neg h2]
        refine ⟨ih.1, fun j h3 h4 => ?_⟩
        by_cases hj : j = J + 1
        · subst hj; simpa using h2
        · exact ih.2 j h3 (by omega)
    · rw [if_neg h1]
      exact ⟨Nat.le_refl _, fun j h3 h4 => by omega⟩

theorem find_effective_loop_spec (i : Nat) (bv_src : List bvector) :
    ∀ m, m ≤ aggregator.find_effective_loop i bv_src m ∧
      ∀ bv, bv ∈ bv_src → ∀ j, aggregator.find_effective_loop i bv_src m < j →
        j ≤ set_array_size - 1 → bv.slot i j = block_ptr.null := by
  induction bv_src with
  | nil => intro m; exact ⟨Nat.le_refl _, fun bv hm => by cases hm⟩
  | cons bv rest ih =>
    intro m
    cases hs : bv.blockman_.get_topblock i with
    | none =>
      have e : aggregator.find_effective_loop i (bv :: rest) m
          = aggregator.find_effective_loop i rest m := by
        simp [aggregator.find_effective_loop, hs]
      rw [e]
      refine ⟨(ih m).1, fun b hb j h1 h2 => ?_⟩
      rcases List.mem_cons.1 hb with rfl | hb
      · simp [bvector.slot, blocks_manager.get_block_ptr, hs]
      · exact (ih m).2 b hb j h1 h2
    | some sub =>
      have e : aggregator.find_effective_loop i (bv :: rest) m
          = aggregator.find_effective_loop i rest
              (aggregator.scan_sub_blocks sub m (set_array_size - 1)) := by
        simp [aggregator.find_effective_loop, hs]
      rw [e]
      have hsc := scan_sub_blocks_spec sub m (set_array_size - 1)
      have hih := ih (aggregator.scan_sub_blocks sub m (set_array_size - 1))
      refine ⟨by omega, fun b hb j h1 h2 => ?_⟩
      rcases List.mem_cons.1 hb with rfl | hb
      · have : b.slot i j = sub j := by
          simp [bvector.slot, blocks_manager.get_block_ptr, hs]
        rw [this]
        exact hsc.2 j (by omega) h2
      · exact hih.2 b hb j h1 h2

theorem find_effective_sub_block_size_covers (i : Nat) (bv_src : List bvector)
    (bv : bvector) (hm : bv ∈ bv_src) (j : Nat)
    (hj : aggregator.find_effective_sub_block_size i bv_src ≤ j) (hlt : j < set_array_size) :
    bv.slot i j = block_ptr.null := by
  unfold aggregator.find_effective_sub_block_size at hj
  exact (find_effective_loop_spec i bv_src 1).2 bv hm j (by omega) (by omega)

/-! ## The driver loops -/

theorem do_while_sub_blocks_inv {σ : Type} (body : Nat → σ → σ) (m : Nat)
    (P : Nat → σ → Prop) (hstep : ∀ j st, P j st → P (j + 1) (body j st)) :
    ∀ (fuel j : Nat) (st : σ), m ≤ j + fuel → 1 ≤ fuel → P j st →
      P (max m (j + 1)) (aggregator.do_while_sub_blocks body m fuel j st) := by
  intro fuel
  induction fuel with
  | zero => intro j st _ h1 _; omega
  | succ fuel ih =>
    intro j st hf _ hP
    simp only [aggregator.do_while_sub_blocks]
    by_cases hlt : j + 1 < m
    · rw [if_pos hlt]
      have := ih (j + 1) (body j st) (by omega) (by omega) (hstep j st hP)
      have e : max m (j + 1 + 1) = max m (j + 1) := by omega
      rw [e] at this
      exact this
    · rw [if_neg hlt]
      have e : max m (j + 1) = j + 1 := by omega
      rw [e]
      exact hstep j st hP

theorem driver_row_spec (F : arena → Nat → Nat → bvector → bvector × arena)
    (G : Nat → Nat → Nat → Bool)
    (hF : ∀ ar i j (T : bvector), T.blockman_.is_init_ = true →
      i < T.blockman_.top_block_size_ → T.slot i j = block_ptr.null →
      ij_post T i j (G i j) (F ar i j T))
    (N sz i m : Nat) (hi : i < N) (st0 : bvector × arena)
    (h0 : st0.1.size_ = sz ∧ st0.1.blockman_.is_init_ = true ∧
      st0.1.blockman_.top_block_size_ = N)
    (hrow : ∀ j, st0.1.slot i j = block_ptr.null) :
    (aggregator.do_while_sub_blocks (fun j (st : bvector × arena) => F st.2 i j st.1)
        m (m + 1) 0 st0).1.size_ = sz ∧
    (aggregator.do_while_sub_blocks (fun j (st : bvector × arena) => F st.2 i j st.1)
        m (m + 1) 0 st0).1.blockman_.is_init_ = true ∧
    (aggregator.do_while_sub_blocks (fun j (st : bvector × arena) => F st.2 i j st.1)
        m (m + 1) 0 st0).1.blockman_.top_block_size_ = N ∧
    (∀ i2 j2, i2 ≠ i →
      (aggregator.do_while_sub_blocks (fun j (st : bvector × arena) => F st.2 i j st.1)
        m (m + 1) 0 st0).1.slot i2 j2 = st0.1.slot i2 j2) ∧
    (∀ j2, j2 < max m 1 → ∀ q, q < bits_in_block →
      ((aggregator.do_while_sub_blocks (fun j (st : bvector × arena) => F st.2 i j st.1)
        m (m + 1) 0 st0).1.slot i j2).test q = G i j2 q) ∧
    (∀ j2, max m 1 ≤ j2 →
      (aggregator.do_while_sub_blocks (fun j (st : bvector × arena) => F st.2 i j st.1)
        m (m + 1) 0 st0).1.slot i j2 = block_ptr.null) := by
  have key := do_while_sub_blocks_inv
    (fun j (st : bvector × arena) => F st.2 i j st.1) m
    (fun j (st : bvector × arena) =>
      st.1.size_ = sz ∧ st.1.blockman_.is_init_ = true ∧
      st.1.blockman_.top_block_size_ = N ∧
      (∀ i2 j2, i2 ≠ i → st.1.slot i2 j2 = st0.1.slot i2 j2) ∧
      (∀ j2, j2 < j → ∀ q, q < bits_in_block → (st.1.slot i j2).test q = G i j2 q) ∧
      (∀ j2, j ≤ j2 → st.1.slot i j2 = block_ptr.null))
    (by
      intro j st ⟨p1, p2, p3, p4, p5, p6⟩
      obtain ⟨q1, q2, q3, q4, q5⟩ := hF st.2 i j st.1 p2 (by omega) (p6 j (Nat.le_refl _))
      refine ⟨by rw [q1, p1], q2, by rw [q3, p3], fun i2 j2 hne => ?_, fun j2 hj2 q hq => ?_,
        fun j2 hj2 => ?_⟩
      · rw [q4 i2 j2 (fun c => hne c.1)]; exact p4 i2 j2 hne
      · by_cases hj : j2 = j
        · subst hj; exact q5 q hq
        · rw [q4 i j2 (fun c => hj c.2)]; exact p5 j2 (by omega) q hq
      · rw [q4 i j2 (fun c => by omega)]; exact p6 j2 (by omega))
    (m + 1) 0 st0 (by omega) (by omega)
    ⟨h0.1, h0.2.1, h0.2.2, fun _ _ _ => rfl, fun j2 hj2 => by omega, fun j2 _ => hrow j2⟩
  have e : max m (0 + 1) = max m 1 := by simp
  rw [e] at key
  exact key

theorem driver_spec (F : arena → Nat → Nat → bvector → bvector × arena)
    (G : Nat → Nat → Nat → Bool) (smax : Nat → Nat)
    (hF : ∀ ar i j (T : bvector), T.blockman_.is_init_ = true →
      i < T.blockman_.top_block_size_ → T.slot i j = block_ptr.null →
      ij_post T i j (G i j) (F ar i j T))
    (N : Nat) (T0 : bvector) (ar0 : arena) (h0 : fresh_target T0 N) :
    ∀ n, n ≤ N →
      driver_post G smax n N T0.size_
        ((List.range n).foldl
            (fun (st : bvector × arena) i =>
              aggregator.do_while_sub_blocks
                (fun j (st : bvector × arena) => F st.2 i j st.1)
                (smax i) (smax i + 1) 0 st)
            (T0, ar0)).1 := by
  intro n
  induction n with
  | zero =>
    intro _
    simp only [List.range_zero, List.foldl_nil]
    exact ⟨rfl, h0.1, h0.2.1, fun i j => ⟨fun h => by omega, fun _ => h0.2.2 i j⟩⟩
  | succ n ih =>
    intro hn
    rw [List.range_succ, List.foldl_append]
    simp only [List.foldl_cons, List.foldl_nil]
    obtain ⟨p1, p2, p3, p4⟩ := ih (by omega)
    generalize (List.range n).foldl
            (fun (st : bvector × arena) i =>
              aggregator.do_while_sub_blocks
                (fun j (st : bvector × arena) => F st.2 i j st.1)
                (smax i) (smax i + 1) 0 st)
            (T0, ar0) = st0 at p1 p2 p3 p4 ⊢
    obtain ⟨r1, r2, r3, r4, r5, r6⟩ := driver_row_spec F G hF N T0.size_ n (smax n)
      (by omega) st0 ⟨p1, p2, p3⟩ (fun j => (p4 n j).2 (by omega))
    refine ⟨r1, r2, r3, fun i j => ⟨fun h q hq => ?_, fun h => ?_⟩⟩
    · by_cases hin : i = n
      · subst hin; exact r5 j h.2 q hq
      · rw [r4 i j hin]; exact (p4 i j).1 ⟨by omega, h.2⟩ q hq
    · by_cases hin : i = n
      · subst hin; exact r6 j (by omega)
      · rw [r4 i j hin]; exact (p4 i j).2 (fun c => h ⟨by omega, c.2⟩)

/-! ## `combine_or` -/

theorem get_bit_eq_slot (bv : bvector) (p : Nat) :
    bv.get_bit p = (bv.slot (p / bits_in_block / set_array_size)
      (p / bits_in_block % set_array_size)).test (p % bits_in_block) := rfl

theorem get_bit_of_driver_post (G : Nat → Nat → Nat → Bool) (smax : Nat → Nat)
    (N size : Nat) (T : bvector) (h : driver_post G smax N N size T) (p : Nat) (v : Bool)
    (hv : G (p / bits_in_block / set_array_size) (p / bits_in_block % set_array_size)
      (p % bits_in_block) = v)
    (hz : ¬ (p / bits_in_block / set_array_size < N ∧
      p / bits_in_block % set_array_size
        < max (smax (p / bits_in_block / set_array_size)) 1) → v = false) :
    T.get_bit p = v := by
  rw [get_bit_eq_slot]
  have hq : p % bits_in_block < bits_in_block := Nat.mod_lt _ (by unfold bits_in_block; omega)
  obtain ⟨_, _, _, h4⟩ := h
  by_cases hc : p / bits_in_block / set_array_size < N ∧
      p / bits_in_block % set_array_size
        < max (smax (p / bits_in_block / set_array_size)) 1
  · rw [(h4 _ _).1 hc _ hq, hv]
  · rw [(h4 _ _).2 hc, hz hc]; rfl

theorem combine_or_ok (ar : arena) (bv_target : bvector) (bv_src : List bvector)
    (h1 : bv_src ≠ []) (h2 : bv_src.length < max_aggregator_cap) :
    ∃ r, aggregator.combine_or ar bv_target bv_src = Except.ok r ∧
      r.1.size_ = (aggregator.resize_target bv_target bv_src true).1.size_ ∧
      driver_post (fun i j q => bv_src.any (fun bv => (bv.slot i j).test q))
        (fun i => aggregator.find_effective_sub_block_size i bv_src)
        (aggregator.resize_target bv_target bv_src true).2
        (aggregator.resize_target bv_target bv_src true).2
        (aggregator.resize_target bv_target bv_src true).1.size_ r.1 := by
  have hg : decide (bv_src.length ≥ max_aggregator_cap) = false := by
    simp; omega
  have hl : ¬ (bv_src.length = 0) := by
    intro h; exact h1 (List.length_eq_zero.1 h)
  obtain ⟨hfresh, _⟩ := resize_target_clear_fresh bv_target bv_src
  have hd := driver_spec (fun ar i j T => aggregator.combine_or_ij ar i j T bv_src)
    (fun i j q => bv_src.any (fun bv => (bv.slot i j).test q))
    (fun i => aggregator.find_effective_sub_block_size i bv_src)
    (fun ar i j T a b c => combine_or_ij_spec ar i j T bv_src a b c)
    (aggregator.resize_target bv_target bv_src true).2
    (aggregator.resize_target bv_target bv_src true).1 ar hfresh
    (aggregator.resize_target bv_target bv_src true).2 (Nat.le_refl _)
  unfold aggregator.combine_or
  simp only [hg, BM_ASSERT_THROW, Bool.false_eq_true, if_false, hl]
  exact ⟨_, rfl, hd.1, hd⟩

theorem combine_or_get_bit (ar : arena) (bv_target : bvector) (bv_src : List bvector)
    (h1 : bv_src ≠ []) (h2 : bv_src.length < max_aggregator_cap) :
    ∃ r, aggregator.combine_or ar bv_target bv_src = Except.ok r ∧
      ∀ p, r.1.get_bit p = bv_src.any (fun bv => bv.get_bit p) := by
  obtain ⟨r, hr, _, hd⟩ := combine_or_ok ar bv_target bv_src h1 h2
  obtain ⟨_, hext⟩ := resize_target_clear_fresh bv_target bv_src
  refine ⟨r, hr, fun p => ?_⟩
  apply get_bit_of_driver_post _ _ _ _ _ hd p
  · rfl
  · intro hc
    rw [List.any_eq_false]
    intro bv hm
    rw [get_bit_eq_slot]
    have hj : p / bits_in_block % set_array_size < set_array_size :=
      Nat.mod_lt _ (by unfold set_array_size; omega)
    have : bv.slot (p / bits_in_block / set_array_size)
        (p / bits_in_block % set_array_size) = block_ptr.null := by
      by_cases hi : p / bits_in_block / set_array_size
          < (aggregator.resize_target bv_target bv_src true).2
      · apply find_effective_sub_block_size_covers _ bv_src bv hm _ _ hj
        by_contra hlt
        exact hc ⟨hi, by omega⟩
      · exact slot_null_of_extent bv _ _ (by have := hext bv hm; omega)
    rw [this]; simp [block_ptr.test]

/-! ## The digest-guided AND and SUB combiners -/

theorem wave_lt_of_lt (q : Nat) (hq : q < bits_in_block) :
    q / set_block_digest_wave_bits < set_block_digest_waves := by
  unfold bits_in_block at hq
  unfold set_block_digest_wave_bits set_block_digest_waves
  omega

theorem and_good_zero (blk : Nat) (S : Nat → Bool) (h : and_good blk 0 S) :
    ∀ q, q < bits_in_block → S q = false := by
  intro q hq
  rw [← h.1 q hq]
  by_contra hc
  have := h.2 q hq (by simpa using hc)
  simp at this

theorem and_post_of_good (blk digest : Nat) (S : Nat → Bool) (h : and_good blk digest S) :
    and_post S (blk, digest) := by
  refine ⟨fun _ => h, fun h0 => ?_⟩
  simp only at h0
  subst h0
  exact and_good_zero blk S h

theorem and_post_mono (S S2 : Nat → Bool) (r : Nat × Nat) (hz : r.2 = 0)
    (h : and_post S r) (hle : ∀ q, q < bits_in_block → S2 q = true → S q = true) :
    and_post S2 r := by
  refine ⟨fun hne => absurd hz hne, fun _ q hq => ?_⟩
  by_contra hc
  have := hle q hq (by simpa using hc)
  rw [h.2 hz q hq] at this
  exact Bool.false_ne_true this

theorem masked_step_good (blk digest new_bits : Nat) (S S2 : Nat → Bool)
    (hg : and_good blk digest S)
    (hnb : ∀ q, q < bits_in_block → new_bits.testBit q = S2 q)
    (hle : ∀ q, q < bits_in_block → S2 q = true → S q = true) :
    and_good (masked_store blk new_bits digest)
      (update_block_digest0 (masked_store blk new_bits digest) digest) S2 := by
  have hbit : ∀ q, q < bits_in_block →
      (masked_store blk new_bits digest).testBit q = S2 q := by
    intro q hq
    rw [testBit_masked_store, testBit_digest_mask]
    have hw := wave_lt_of_lt q hq
    by_cases hd : digest.testBit (q / set_block_digest_wave_bits) = true
    · simp only [hw, hd, decide_True, Bool.and_self, if_true]
      exact hnb q hq
    · have hd2 : digest.testBit (q / set_block_digest_wave_bits) = false := by simpa using hd
      simp only [hd2, Bool.and_false, Bool.false_eq_true, if_false]
      have hb : blk.testBit q = false := by
        by_contra hc
        exact hd (hg.2 q hq (by simpa using hc))
      rw [hb]
      by_contra hc
      have h1 := hle q hq (by
        cases h : S2 q
        · rw [h] at hc; exact absurd rfl hc
        · rfl)
      rw [← hg.1 q hq, hb] at h1
      exact Bool.false_ne_true h1
  refine ⟨hbit, fun q hq hb => ?_⟩
  unfold update_block_digest0
  rw [Nat.testBit_and, Bool.and_eq_true]
  constructor
  · have h2 := hle q hq (by rw [← hbit q hq]; exact hb)
    rw [← hg.1 q hq] at h2
    exact hg.2 q hq h2
  · rw [testBit_calc_block_digest0]
    exact ⟨wave_lt_of_lt q hq, q, rfl, hb⟩

theorem and_good_all_ones : and_good all_ones_block digest_all (fun _ => true) := by
  refine ⟨fun q hq => ?_, fun q hq _ => ?_⟩
  · rw [testBit_all_ones_block]; simpa using hq
  · unfold digest_all
    rw [Nat.testBit_two_pow_sub_one]
    simpa using wave_lt_of_lt q hq

theorem and_good_calc (blk : Nat) :
    and_good blk (calc_block_digest0 blk) (fun q => blk.testBit q) := by
  refine ⟨fun _ _ => rfl, fun q hq hb => ?_⟩
  rw [testBit_calc_block_digest0]
  exact ⟨wave_lt_of_lt q hq, q, rfl, hb⟩

theorem and_good_2way (dst src1 src2 : Nat) :
    and_good (bit_block_and_2way dst src1 src2 digest_all).1
      (bit_block_and_2way dst src1 src2 digest_all).2
      (fun q => src1.testBit q && src2.testBit q) := by
  unfold bit_block_and_2way
  have hbit : ∀ q, q < bits_in_block →
      (masked_store dst (src1 &&& src2) digest_all).testBit q
        = (src1.testBit q && src2.testBit q) := by
    intro q hq
    rw [testBit_masked_store, testBit_digest_mask]
    have hw := wave_lt_of_lt q hq
    have hd : digest_all.testBit (q / set_block_digest_wave_bits) = true := by
      unfold digest_all
      rw [Nat.testBit_two_pow_sub_one]
      simpa using hw
    simp only [hw, hd, decide_True, Bool.and_self, if_true, Nat.testBit_and]
  refine ⟨hbit, fun q hq hb => ?_⟩
  show (update_block_digest0 _ digest_all).testBit _ = true
  unfold update_block_digest0
  rw [Nat.testBit_and, Bool.and_eq_true]
  constructor
  · unfold digest_all
    rw [Nat.testBit_two_pow_sub_one]
    simpa using wave_lt_of_lt q hq
  · rw [testBit_calc_block_digest0]
    exact ⟨wave_lt_of_lt q hq, q, rfl, hb⟩

theorem all_arr_upto_mono {α : Type} (f : Nat → α) (P : α → Bool) (m c : Nat)
    (hm : m ≤ c) (h : (arr_upto f c).all P = true) : (arr_upto f m).all P = true := by
  unfold arr_upto at h ⊢
  rw [List.all_eq_true] at h ⊢
  intro x hx
  apply h x
  rw [List.mem_map] at hx ⊢
  obtain ⟨k, hk, rfl⟩ := hx
  exact ⟨k, List.mem_range.2 (by have := List.mem_range.1 hk; omega), rfl⟩

theorem bit_and_loop_spec (v : Nat → arg_blk_ptr) (c : Nat) :
    ∀ (fuel k blk digest : Nat), c ≤ k + fuel → k ≤ c →
      and_good blk digest (fun q => (arr_upto v k).all (fun a => a.deref.testBit q)) →
      and_post (fun q => (arr_upto v c).all (fun a => a.deref.testBit q))
        (aggregator.bit_and_loop v c fuel k blk digest) := by
  intro fuel
  induction fuel with
  | zero =>
    intro k blk digest hf hk hg
    have : k = c := by omega
    subst this
    simp only [aggregator.bit_and_loop]
    exact and_post_of_good _ _ _ hg
  | succ fuel ih =>
    intro k blk digest hf hk hg
    by_cases hlt : k < c
    · by_cases hfull : v k = arg_blk_ptr.real_full
      · have e : aggregator.bit_and_loop v c (fuel + 1) k blk digest
            = aggregator.bit_and_loop v c fuel (k + 1) blk digest := by
          simp [aggregator.bit_and_loop, hlt, hfull]
        rw [e]
        apply ih (k + 1) blk digest (by omega) (by omega)
        refine ⟨fun q hq => ?_, hg.2⟩
        rw [hg.1 q hq]
        simp [arr_upto_succ, List.all_append, hfull, arg_blk_ptr.deref,
          testBit_all_ones_block, hq]
      · have hstep : and_good (bit_block_and blk (v k).deref digest).1
            (bit_block_and blk (v k).deref digest).2
            (fun q => (arr_upto v (k + 1)).all (fun a => a.deref.testBit q)) := by
          unfold bit_block_and
          apply masked_step_good blk digest _ _ _ hg
          · intro q hq
            rw [Nat.testBit_and, hg.1 q hq]
            simp [arr_upto_succ, List.all_append]
          · intro q _ h
            exact all_arr_upto_mono v _ k (k + 1) (by omega) h
        by_cases hz : (bit_block_and blk (v k).deref digest).2 = 0
        · have e : aggregator.bit_and_loop v c (fuel + 1) k blk digest
              = bit_block_and blk (v k).deref digest := by
            simp [aggregator.bit_and_loop, hlt, hfull, hz]
          rw [e]
          apply and_post_mono _ _ _ hz (and_post_of_good _ _ _ hstep)
          intro q _ h
          exact all_arr_upto_mono v _ (k + 1) c (by omega) h
        · have e : aggregator.bit_and_loop v c (fuel + 1) k blk digest
              = aggregator.bit_and_loop v c fuel (k + 1)
                  (bit_block_and blk (v k).deref digest).1
                  (bit_block_and blk (v k).deref digest).2 := by
            simp [aggregator.bit_and_loop, hlt, hfull, hz]
          rw [e]
          exact ih (k + 1) _ _ (by omega) (by omega) hstep
    · have hkc : k = c := by omega
      subst hkc
      have e : aggregator.bit_and_loop v k (fuel + 1) k blk digest = (blk, digest) := by
        simp [aggregator.bit_and_loop]
      rw [e]
      exact and_post_of_good _ _ _ hg

theorem and_good_congr (blk digest : Nat) (S S2 : Nat → Bool) (h : and_good blk digest S)
    (he : ∀ q, q < bits_in_block → S q = S2 q) : and_good blk digest S2 :=
  ⟨fun q hq => by rw [h.1 q hq, he q hq], h.2⟩

theorem and_post_congr (S S2 : Nat → Bool) (r : Nat × Nat) (h : and_post S r)
    (he : ∀ q, q < bits_in_block → S q = S2 q) : and_post S2 r :=
  ⟨fun hne => and_good_congr _ _ _ _ (h.1 hne) he,
   fun hz q hq => by rw [← he q hq]; exact h.2 hz q hq⟩

theorem process_bit_blocks_and_zero (ar : arena) (d0 : Nat) :
    aggregator.process_bit_blocks_and ar 0 d0
      = ({ ar with tb1 := all_ones_block }, digest_all) := by
  simp only [aggregator.process_bit_blocks_and]

theorem process_bit_blocks_and_one (ar : arena) (d0 : Nat) :
    aggregator.process_bit_blocks_and ar 1 d0
      = ({ ar with tb1 := (ar.v_arg_blk 0).deref },
          calc_block_digest0 (ar.v_arg_blk 0).deref) := by
  simp only [aggregator.process_bit_blocks_and]

theorem process_bit_blocks_and_more (ar : arena) (n d0 : Nat) :
    aggregator.process_bit_blocks_and ar (n + 2) d0
      = ({ ar with tb1 := (aggregator.bit_and_loop ar.v_arg_blk (n + 2) (n + 2) 2
            (bit_block_and_2way ar.tb1 (ar.v_arg_blk 0).deref (ar.v_arg_blk 1).deref
              digest_all).1
            (bit_block_and_2way ar.tb1 (ar.v_arg_blk 0).deref (ar.v_arg_blk 1).deref
              digest_all).2).1 },
         (aggregator.bit_and_loop ar.v_arg_blk (n + 2) (n + 2) 2
            (bit_block_and_2way ar.tb1 (ar.v_arg_blk 0).deref (ar.v_arg_blk 1).deref
              digest_all).1
            (bit_block_and_2way ar.tb1 (ar.v_arg_blk 0).deref (ar.v_arg_blk 1).deref
              digest_all).2).2) := by
  simp only [aggregator.process_bit_blocks_and]

theorem process_bit_blocks_and_spec (ar : arena) (c d0 : Nat) :
    (aggregator.process_bit_blocks_and ar c d0).1.v_arg_blk = ar.v_arg_blk ∧
    (aggregator.process_bit_blocks_and ar c d0).1.v_arg_blk_gap = ar.v_arg_blk_gap ∧
    and_post (fun q => (arr_upto ar.v_arg_blk c).all (fun a => a.deref.testBit q))
      ((aggregator.process_bit_blocks_and ar c d0).1.tb1,
        (aggregator.process_bit_blocks_and ar c d0).2) := by
  match c with
  | 0 =>
    rw [process_bit_blocks_and_zero]
    refine ⟨rfl, rfl, ?_⟩
    apply and_post_of_good
    exact and_good_congr all_ones_block digest_all (fun _ => true) _ and_good_all_ones
      (fun q _ => by simp [arr_upto])
  | 1 =>
    rw [process_bit_blocks_and_one]
    refine ⟨rfl, rfl, ?_⟩
    apply and_post_of_good
    exact and_good_congr _ _ _ _ (and_good_calc _)
      (fun q _ => by simp [arr_upto, List.range_succ])
  | n + 2 =>
    rw [process_bit_blocks_and_more]
    refine ⟨rfl, rfl, ?_⟩
    apply bit_and_loop_spec ar.v_arg_blk (n + 2) (n + 2) 2 _ _ (by omega) (by omega)
    exact and_good_congr _ _ _ _ (and_good_2way _ _ _)
      (fun q _ => by simp [arr_upto, List.range_succ])

theorem gap_and_loop_spec (vg : Nat → gap_block) (n : Nat) (S0 : Nat → Bool) :
    ∀ (fuel k blk digest : Nat), n ≤ k + fuel → k ≤ n →
      and_good blk digest
        (fun q => S0 q && (arr_upto vg k).all (fun g => gap_test g q)) →
      and_post (fun q => S0 q && (arr_upto vg n).all (fun g => gap_test g q))
        (aggregator.gap_and_loop vg n fuel k blk digest) := by
  intro fuel
  induction fuel with
  | zero =>
    intro k blk digest hf hk hg
    have : k = n := by omega
    subst this
    simp only [aggregator.gap_and_loop]
    exact and_post_of_good _ _ _ hg
  | succ fuel ih =>
    intro k blk digest hf hk hg
    by_cases hlt : k < n
    · have hstep : and_good (gap_and_to_bitset blk (vg k) digest)
          (update_block_digest0 (gap_and_to_bitset blk (vg k) digest) digest)
          (fun q => S0 q && (arr_upto vg (k + 1)).all (fun g => gap_test g q)) := by
        unfold gap_and_to_bitset
        apply masked_step_good blk digest _ _ _ hg
        · intro q hq
          rw [Nat.testBit_and, hg.1 q hq]
          simp [arr_upto_succ, List.all_append, gap_test, Bool.and_assoc]
        · intro q _ h
          simp only [Bool.and_eq_true] at h ⊢
          exact ⟨h.1, all_arr_upto_mono vg _ k (k + 1) (by omega) h.2⟩
      by_cases hz : update_block_digest0 (gap_and_to_bitset blk (vg k) digest) digest = 0
      · have e : aggregator.gap_and_loop vg n (fuel + 1) k blk digest
            = (gap_and_to_bitset blk (vg k) digest,
                update_block_digest0 (gap_and_to_bitset blk (vg k) digest) digest) := by
          simp [aggregator.gap_and_loop, hlt, hz]
        rw [e]
        apply and_post_mono _ _ _ hz (and_post_of_good _ _ _ hstep)
        intro q _ h
        simp only [Bool.and_eq_true] at h ⊢
        exact ⟨h.1, all_arr_upto_mono vg _ (k + 1) n (by omega) h.2⟩
      · have e : aggregator.gap_and_loop vg n (fuel + 1) k blk digest
            = aggregator.gap_and_loop vg n fuel (k + 1)
                (gap_and_to_bitset blk (vg k) digest)
                (update_block_digest0 (gap_and_to_bitset blk (vg k) digest) digest) := by
          simp [aggregator.gap_and_loop, hlt, hz]
        rw [e]
        exact ih (k + 1) _ _ (by omega) (by omega) hstep
    · have hkc : k = n := by omega
      subst hkc
      have e : aggregator.gap_and_loop vg k (fuel + 1) k blk digest = (blk, digest) := by
        simp [aggregator.gap_and_loop]
      rw [e]
      exact and_post_of_good _ _ _ hg

theorem process_gap_blocks_and_spec (ar : arena) (n digest : Nat) (S0 : Nat → Bool)
    (hg : and_good ar.tb1 digest S0) :
    (aggregator.process_gap_blocks_and ar n digest).1.v_arg_blk = ar.v_arg_blk ∧
    (aggregator.process_gap_blocks_and ar n digest).1.v_arg_blk_gap = ar.v_arg_blk_gap ∧
    and_post (fun q => S0 q && (arr_upto ar.v_arg_blk_gap n).all (fun g => gap_test g q))
      ((aggregator.process_gap_blocks_and ar n digest).1.tb1,
        (aggregator.process_gap_blocks_and ar n digest).2) := by
  refine ⟨rfl, rfl, ?_⟩
  simp only [aggregator.process_gap_blocks_and]
  apply gap_and_loop_spec ar.v_arg_blk_gap n S0 n 0 _ _ (by omega) (by omega)
  exact and_good_congr _ _ _ _ hg (fun q _ => by simp [arr_upto])

theorem testBit_sub_bits (a b q : Nat) :
    (a ^^^ (a &&& b)).testBit q = (a.testBit q && !b.testBit q) := by
  rw [Nat.testBit_xor, Nat.testBit_and]
  cases a.testBit q <;> cases b.testBit q <;> rfl

theorem not_any_arr_upto_mono {α : Type} (f : Nat → α) (P : α → Bool) (m c : Nat)
    (hm : m ≤ c) (h : (!(arr_upto f c).any P) = true) : (!(arr_upto f m).any P) = true := by
  cases hx : (arr_upto f m).any P
  · rfl
  · rw [any_arr_upto_mono f P m c hm hx] at h
    exact h

theorem bit_sub_loop_spec (v : Nat → arg_blk_ptr) (c : Nat) (S0 : Nat → Bool) :
    ∀ (fuel k blk digest : Nat), c ≤ k + fuel → k ≤ c →
      and_good blk digest
        (fun q => S0 q && !(arr_upto v k).any (fun a => a.deref.testBit q)) →
      and_post (fun q => S0 q && !(arr_upto v c).any (fun a => a.deref.testBit q))
        (aggregator.bit_sub_loop v c fuel k blk digest) := by
  intro fuel
  induction fuel with
  | zero =>
    intro k blk digest hf hk hg
    have : k = c := by omega
    subst this
    simp only [aggregator.bit_sub_loop]
    exact and_post_of_good _ _ _ hg
  | succ fuel ih =>
    intro k blk digest hf hk hg
    by_cases hlt : k < c
    · by_cases hfull : v k = arg_blk_ptr.real_full
      · have e : aggregator.bit_sub_loop v c (fuel + 1) k blk digest = (blk, 0) := by
          simp [aggregator.bit_sub_loop, hlt, hfull]
        rw [e]
        refine ⟨fun hne => absurd rfl hne, fun _ q hq => ?_⟩
        have : (arr_upto v c).any (fun a => a.deref.testBit q) = true := by
          apply any_arr_upto_mono v _ (k + 1) c (by omega)
          rw [arr_upto_succ, List.any_append, hfull]
          simp [arg_blk_ptr.deref, testBit_all_ones_block, hq]
        simp [this]
      · have hstep : and_good (bit_block_sub blk (v k).deref digest).1
            (bit_block_sub blk (v k).deref digest).2
            (fun q => S0 q && !(arr_upto v (k + 1)).any (fun a => a.deref.testBit q)) := by
          unfold bit_block_sub
          apply masked_step_good blk digest _ _ _ hg
          · intro q hq
            rw [testBit_sub_bits, hg.1 q hq]
            simp [arr_upto_succ, List.any_append, Bool.and_assoc]
          · intro q _ h
            simp only [Bool.and_eq_true] at h ⊢
            exact ⟨h.1, not_any_arr_upto_mono v _ k (k + 1) (by omega) h.2⟩
        by_cases hz : (bit_block_sub blk (v k).deref digest).2 = 0
        · have e : aggregator.bit_sub_loop v c (fuel + 1) k blk digest
              = bit_block_sub blk (v k).deref digest := by
            simp [aggregator.bit_sub_loop, hlt, hfull, hz]
          rw [e]
          apply and_post_mono _ _ _ hz (and_post_of_good _ _ _ hstep)
          intro q _ h
          simp only [Bool.and_eq_true] at h ⊢
          exact ⟨h.1, not_any_arr_upto_mono v _ (k + 1) c (by omega) h.2⟩
        · have e : aggregator.bit_sub_loop v c (fuel + 1) k blk digest
              = aggregator.bit_sub_loop v c fuel (k + 1)
                  (bit_block_sub blk (v k).deref digest).1
                  (bit_block_sub blk (v k).deref digest).2 := by
            simp [aggregator.bit_sub_loop, hlt, hfull, hz]
          rw [e]
          exact ih (k + 1) _ _ (by omega) (by omega) hstep
    · have hkc : k = c := by omega
      subst hkc
      have e : aggregator.bit_sub_loop v k (fuel + 1) k blk digest = (blk, digest) := by
        simp [aggregator.bit_sub_loop]
      rw [e]
      exact and_post_of_good _ _ _ hg

theorem process_bit_blocks_sub_spec (ar : arena) (c digest : Nat) (S0 : Nat → Bool)
    (hg : and_good ar.tb1 digest S0) :
    (aggregator.process_bit_blocks_sub ar c digest).1.v_arg_blk = ar.v_arg_blk ∧
    (aggregator.process_bit_blocks_sub ar c digest).1.v_arg_blk_gap = ar.v_arg_blk_gap ∧
    and_post (fun q => S0 q && !(arr_upto ar.v_arg_blk c).any (fun a => a.deref.testBit q))
      ((aggregator.process_bit_blocks_sub ar c digest).1.tb1,
        (aggregator.process_bit_blocks_sub ar c digest).2) := by
  refine ⟨rfl, rfl, ?_⟩
  simp only [aggregator.process_bit_blocks_sub]
  apply bit_sub_loop_spec ar.v_arg_blk c S0 c 0 _ _ (by omega) (by omega)
  exact and_good_congr _ _ _ _ hg (fun q _ => by simp [arr_upto])

theorem gap_sub_loop_spec (vg : Nat → gap_block) (n : Nat) (S0 : Nat → Bool) :
    ∀ (fuel k blk digest : Nat), n ≤ k + fuel → k ≤ n →
      and_good blk digest
        (fun q => S0 q && !(arr_upto vg k).any (fun g => gap_test g q)) →
      and_post (fun q => S0 q && !(arr_upto vg n).any (fun g => gap_test g q))
        (aggregator.gap_sub_loop vg n fuel k blk digest) := by
  intro fuel
  induction fuel with
  | zero =>
    intro k blk digest hf hk hg
    have : k = n := by omega
    subst this
    simp only [aggregator.gap_sub_loop]
    exact and_post_of_good _ _ _ hg
  | succ fuel ih =>
    intro k blk digest hf hk hg
    by_cases hlt : k < n
    · have hstep : and_good (gap_sub_to_bitset blk (vg k) digest)
          (update_block_digest0 (gap_sub_to_bitset blk (vg k) digest) digest)
          (fun q => S0 q && !(arr_upto vg (k + 1)).any (fun g => gap_test g q)) := by
        unfold gap_sub_to_bitset
        apply masked_step_good blk digest _ _ _ hg
        · intro q hq
          rw [testBit_sub_bits, hg.1 q hq]
          simp [arr_upto_succ, List.any_append, gap_test, Bool.and_assoc]
        · intro q _ h
          simp only [Bool.and_eq_true] at h ⊢
          exact ⟨h.1, not_any_arr_upto_mono vg _ k (k + 1) (by omega) h.2⟩
      by_cases hz : update_block_digest0 (gap_sub_to_bitset blk (vg k) digest) digest = 0
      · have e : aggregator.gap_sub_loop vg n (fuel + 1) k blk digest
            = (gap_sub_to_bitset blk (vg k) digest,
                update_block_digest0 (gap_sub_to_bitset blk (vg k) digest) digest) := by
          simp [aggregator.gap_sub_loop, hlt, hz]
        rw [e]
        apply and_post_mono _ _ _ hz (and_post_of_good _ _ _ hstep)
        intro q _ h
        simp only [Bool.and_eq_true] at h ⊢
        exact ⟨h.1, not_any_arr_upto_mono vg _ (k + 1) n (by omega) h.2⟩
      · have e : aggregator.gap_sub_loop vg n (fuel + 1) k blk digest
            = aggregator.gap_sub_loop vg n fuel (k + 1)
                (gap_sub_to_bitset blk (vg k) digest)
                (update_block_digest0 (gap_sub_to_bitset blk (vg k) digest) digest) := by
          simp [aggregator.gap_sub_loop, hlt, hz]
        rw [e]
        exact ih (k + 1) _ _ (by omega) (by omega) hstep
    · have hkc : k = n := by omega
      subst hkc
      have e : aggregator.gap_sub_loop vg k (fuel + 1) k blk digest = (blk, digest) := by
        simp [aggregator.gap_sub_loop]
      rw [e]
      exact and_post_of_good _ _ _ hg

theorem process_gap_blocks_sub_spec (ar : arena) (n digest : Nat) (S0 : Nat → Bool)
    (hg : and_good ar.tb1 digest S0) :
    (aggregator.process_gap_blocks_sub ar n digest).1.v_arg_blk = ar.v_arg_blk ∧
    (aggregator.process_gap_blocks_sub ar n digest).1.v_arg_blk_gap = ar.v_arg_blk_gap ∧
    and_post (fun q => S0 q && !(arr_upto ar.v_arg_blk_gap n).any (fun g => gap_test g q))
      ((aggregator.process_gap_blocks_sub ar n digest).1.tb1,
        (aggregator.process_gap_blocks_sub ar n digest).2) := by
  refine ⟨rfl, rfl, ?_⟩
  simp only [aggregator.process_gap_blocks_sub]
  apply gap_sub_loop_spec ar.v_arg_blk_gap n S0 n 0 _ _ (by omega) (by omega)
  exact and_good_congr _ _ _ _ hg (fun q _ => by simp [arr_upto])

/-! ## `combine_and` and `combine_and_sub` at one coordinate -/

theorem all_slot_no_null (i j : Nat) (bv_src : List bvector)
    (h : ∀ bv, bv ∈ bv_src → bv.slot i j ≠ block_ptr.null) (q : Nat)
    (hq : q < bits_in_block) :
    bv_src.all (fun bv => (bv.slot i j).test q)
      = ((and_dense_args i j bv_src).all (fun a => a.deref.testBit q) &&
          (gap_args i j bv_src).all (fun g => gap_test g q)) := by
  induction bv_src with
  | nil => simp [and_dense_args, gap_args]
  | cons bv rest ih =>
    have hrest := ih (fun b hb => h b (List.mem_cons_of_mem _ hb))
    have hbv := h bv (List.mem_cons_self _ _)
    rw [List.all_cons, hrest, and_dense_args_cons, gap_args_cons]
    cases hs : bv.slot i j with
    | null => exact absurd hs hbv
    | full => simp [block_ptr.test, arg_blk_ptr.deref, testBit_all_ones_block, hq]
    | bit w => simp [block_ptr.test, arg_blk_ptr.deref, Bool.and_assoc]
    | gap g =>
      simp only [block_ptr.test, List.nil_append, List.singleton_append, List.all_cons]
      cases gap_test g q <;> simp

theorem args_length_no_null (i j : Nat) (bv_src : List bvector)
    (h : ∀ bv, bv ∈ bv_src → bv.slot i j ≠ block_ptr.null) :
    (and_dense_args i j bv_src).length + (gap_args i j bv_src).length = bv_src.length := by
  induction bv_src with
  | nil => simp [and_dense_args, gap_args]
  | cons bv rest ih =>
    have hrest := ih (fun b hb => h b (List.mem_cons_of_mem _ hb))
    have hbv := h bv (List.mem_cons_self _ _)
    rw [and_dense_args_cons, gap_args_cons]
    cases hs : bv.slot i j with
    | null => exact absurd hs hbv
    | full => simp only [List.singleton_append, List.nil_append, List.length_cons]; omega
    | bit w => simp only [List.singleton_append, List.nil_append, List.length_cons]; omega
    | gap g => simp only [List.singleton_append, List.nil_append, List.length_cons]; omega

theorem all_false_of_null (i j : Nat) (bv_src : List bvector)
    (h : ∃ bv, bv ∈ bv_src ∧ bv.slot i j = block_ptr.null) (q : Nat) :
    bv_src.all (fun bv => (bv.slot i j).test q) = false := by
  rw [List.all_eq_false]
  obtain ⟨bv, hm, hb⟩ := h
  exact ⟨bv, hm, by rw [hb]; simp [block_ptr.test]⟩

theorem combine_and_ij_spec (ar : arena) (i j : Nat) (T : bvector) (bv_src : List bvector)
    (hne : bv_src ≠ [])
    (hi : T.blockman_.is_init_ = true) (hlt : i < T.blockman_.top_block_size_)
    (hn : T.slot i j = block_ptr.null) :
    ij_post T i j (fun q => bv_src.all (fun bv => (bv.slot i j).test q))
      (aggregator.combine_and_ij ar i j T bv_src) := by
  unfold aggregator.combine_and_ij
  by_cases hnull : ∃ bv, bv ∈ bv_src ∧ bv.slot i j = block_ptr.null
  · have hs := (sort_input_blocks_and_null i j bv_src ar 0 0 hnull).1
    simp only [hs, if_true]
    apply ij_post_unchanged T i j _ _ hi hn
    intro q _
    exact all_false_of_null i j bv_src hnull q
  · have hnn : ∀ bv, bv ∈ bv_src → bv.slot i j ≠ block_ptr.null :=
      fun bv hm hb => hnull ⟨bv, hm, hb⟩
    obtain ⟨h1, h2, h3⟩ := sort_input_blocks_and_init i j bv_src ar hnn
    have hall := all_slot_no_null i j bv_src hnn
    have hlen := args_length_no_null i j bv_src hnn
    have hpos : 0 < bv_src.length := List.length_pos.2 hne
    generalize aggregator.sort_input_blocks_and i j bv_src ar 0 0 = s at h1 h2 h3 ⊢
    have hs1 : ¬ (s.1 = block_ptr.null) := by rw [h1]; simp
    have hc1 : s.2.2.1 = (and_dense_args i j bv_src).length := by
      rw [← h2, arr_upto_length]
    have hc2 : s.2.2.2 = (gap_args i j bv_src).length := by
      rw [← h3, arr_upto_length]
    have hcnt : s.2.2.1 ≠ 0 ∨ s.2.2.2 ≠ 0 := by omega
    simp only [hs1, if_false]
    rw [if_pos hcnt]
    obtain ⟨hb1, hb2, hb3⟩ := process_bit_blocks_and_spec s.2.1 s.2.2.1 0
    generalize aggregator.process_bit_blocks_and s.2.1 s.2.2.1 0 = r at hb1 hb2 hb3 ⊢
    rw [h2] at hb3
    by_cases hz : r.2 = 0
    · rw [if_pos hz]
      apply ij_post_unchanged T i j _ _ hi hn
      intro q hq
      rw [hall q hq]
      have hx : (and_dense_args i j bv_src).all (fun a => a.deref.testBit q) = false :=
        hb3.2 hz q hq
      rw [hx]; rfl
    · rw [if_neg hz]
      have hgood := hb3.1 hz
      by_cases hg : s.2.2.2 ≠ 0
      · rw [if_pos hg]
        obtain ⟨hg1, hg2, hg3⟩ := process_gap_blocks_and_spec r.1 s.2.2.2 r.2 _ hgood
        generalize aggregator.process_gap_blocks_and r.1 s.2.2.2 r.2 = rg at hg1 hg2 hg3 ⊢
        rw [hb2, h3] at hg3
        by_cases hz2 : rg.2 ≠ 0
        · rw [if_pos hz2]
          apply ij_post_store T i j _ _ (block_ptr.bit rg.1.tb1) hi hlt
          intro q hq
          rw [hall q hq]
          exact (hg3.1 hz2).1 q hq
        · rw [if_neg hz2]
          apply ij_post_unchanged T i j _ _ hi hn
          intro q hq
          rw [hall q hq]
          exact hg3.2 (by simpa using hz2) q hq
      · rw [if_neg hg, if_pos hz]
        have hg0 : (gap_args i j bv_src) = [] := by
          apply List.eq_nil_of_length_eq_zero
          rw [← hc2]; simpa using hg
        apply ij_post_store T i j _ _ (block_ptr.bit r.1.tb1) hi hlt
        intro q hq
        rw [hall q hq, hg0]
        show r.1.tb1.testBit q = _
        rw [hgood.1 q hq]; simp

theorem any_true_of_full (i j : Nat) (bv_src : List bvector)
    (h : ∃ bv, bv ∈ bv_src ∧ bv.slot i j = block_ptr.full) (q : Nat) :
    bv_src.any (fun bv => (bv.slot i j).test q) = true := by
  rw [List.any_eq_true]
  obtain ⟨bv, hm, hb⟩ := h
  exact ⟨bv, hm, by rw [hb]; rfl⟩

theorem combine_and_sub_ij_tail_spec (ar : arena) (i j : Nat) (T : bvector)
    (bv_src_sub : List bvector) (digest : Nat) (S : Nat → Bool)
    (hi : T.blockman_.is_init_ = true) (hlt : i < T.blockman_.top_block_size_)
    (hn : T.slot i j = block_ptr.null)
    (hgood : and_good ar.tb1 digest S) (hd : digest ≠ 0) :
    ij_post T i j (fun q => S q && !bv_src_sub.any (fun bv => (bv.slot i j).test q))
      (aggregator.combine_and_sub_ij_tail ar i j T bv_src_sub digest) := by
  unfold aggregator.combine_and_sub_ij_tail
  by_cases hB : bv_src_sub.length ≠ 0
  · rw [if_pos hB]
    by_cases hfull : ∃ bv, bv ∈ bv_src_sub ∧ bv.slot i j = block_ptr.full
    · have hs := (sort_input_blocks_or_full i j bv_src_sub ar 0 0 hfull).1
      simp only [hs, if_true]
      apply ij_post_unchanged T i j _ _ hi hn
      intro q _
      simp only [any_true_of_full i j bv_src_sub hfull q, Bool.not_true, Bool.and_false]
    · have hnf : ∀ bv, bv ∈ bv_src_sub → bv.slot i j ≠ block_ptr.full :=
        fun bv hm hb => hfull ⟨bv, hm, hb⟩
      obtain ⟨h1, h2, h3⟩ := sort_input_blocks_or_init i j bv_src_sub ar hnf
      have htb := (sort_input_blocks_or_no_full i j bv_src_sub ar 0 0 hnf).2.1
      have hany := any_slot_no_full i j bv_src_sub hnf
      generalize aggregator.sort_input_blocks_or i j bv_src_sub ar 0 0 = s at h1 h2 h3 htb ⊢
      have hs1 : ¬ (s.1 = block_ptr.full) := by rw [h1]; simp
      have hgood1 : and_good s.2.1.tb1 digest S := by rw [htb]; exact hgood
      simp only [hs1, if_false]
      by_cases hcnt : s.2.2.1 ≠ 0 ∨ s.2.2.2 ≠ 0
      · rw [if_pos hcnt]
        obtain ⟨hb1, hb2, hb3⟩ := process_bit_blocks_sub_spec s.2.1 s.2.2.1 digest S hgood1
        generalize aggregator.process_bit_blocks_sub s.2.1 s.2.2.1 digest = r
          at hb1 hb2 hb3 ⊢
        rw [h2] at hb3
        by_cases hz : r.2 = 0
        · rw [if_pos hz]
          apply ij_post_unchanged T i j _ _ hi hn
          intro q hq
          have hx : (S q && !(or_dense_args i j bv_src_sub).any
              (fun a => a.deref.testBit q)) = false := hb3.2 hz q hq
          rw [hany q]
          cases hS : S q
          · rfl
          · rw [hS] at hx
            have : (or_dense_args i j bv_src_sub).any (fun a => a.deref.testBit q) = true := by
              simpa using hx
            simp [this]
        · rw [if_neg hz]
          have hgood2 := hb3.1 hz
          by_cases hg : s.2.2.2 ≠ 0
          · rw [if_pos hg]
            obtain ⟨hg1, hg2, hg3⟩ := process_gap_blocks_sub_spec r.1 s.2.2.2 r.2 _ hgood2
            generalize aggregator.process_gap_blocks_sub r.1 s.2.2.2 r.2 = rg
              at hg1 hg2 hg3 ⊢
            rw [hb2, h3] at hg3
            have heq : ∀ q, ((S q && !(or_dense_args i j bv_src_sub).any
                  (fun a => a.deref.testBit q)) &&
                  !(gap_args i j bv_src_sub).any (fun g => gap_test g q))
                = (S q && !bv_src_sub.any (fun bv => (bv.slot i j).test q)) := by
              intro q
              rw [hany q]
              cases S q <;>
                cases (or_dense_args i j bv_src_sub).any (fun a => a.deref.testBit q) <;>
                cases (gap_args i j bv_src_sub).any (fun g => gap_test g q) <;> rfl
            by_cases hz2 : rg.2 ≠ 0
            · rw [if_pos hz2]
              apply ij_post_store T i j _ _ (block_ptr.bit rg.1.tb1) hi hlt
              intro q hq
              show rg.1.tb1.testBit q = _
              rw [← heq q]
              exact (hg3.1 hz2).1 q hq
            · rw [if_neg hz2]
              apply ij_post_unchanged T i j _ _ hi hn
              intro q hq
              show (S q && !bv_src_sub.any (fun bv => (bv.slot i j).test q)) = false
              rw [← heq q]
              exact hg3.2 (by simpa using hz2) q hq
          · rw [if_neg hg, if_pos hz]
            have hg0 : s.2.2.2 = 0 := by simpa using hg
            apply ij_post_store T i j _ _ (block_ptr.bit r.1.tb1) hi hlt
            intro q hq
            show r.1.tb1.testBit q = (S q && !bv_src_sub.any (fun bv => (bv.slot i j).test q))
            rw [hany q, ← h3, hg0, hgood2.1 q hq]
            simp [arr_upto]
      · rw [if_neg hcnt, if_pos hd]
        have hc0 : s.2.2.1 = 0 ∧ s.2.2.2 = 0 := by
          constructor
          · by_contra hc; exact hcnt (Or.inl hc)
          · by_contra hc; exact hcnt (Or.inr hc)
        apply ij_post_store T i j _ _ (block_ptr.bit s.2.1.tb1) hi hlt
        intro q hq
        show s.2.1.tb1.testBit q = (S q && !bv_src_sub.any (fun bv => (bv.slot i j).test q))
        rw [hany q, ← h2, ← h3, hc0.1, hc0.2, hgood1.1 q hq]
        simp [arr_upto]
  · rw [if_neg hB, if_pos hd]
    have hnil : bv_src_sub = [] := by
      apply List.eq_nil_of_length_eq_zero
      simpa using hB
    subst hnil
    apply ij_post_store T i j _ _ (block_ptr.bit ar.tb1) hi hlt
    intro q hq
    show ar.tb1.testBit q = _
    rw [hgood.1 q hq]
    simp

theorem combine_and_sub_ij_spec (ar : arena) (i j : Nat) (T : bvector)
    (bv_src_and bv_src_sub : List bvector) (hne : bv_src_and ≠ [])
    (hi : T.blockman_.is_init_ = true) (hlt : i < T.blockman_.top_block_size_)
    (hn : T.slot i j = block_ptr.null) :
    ij_post T i j
      (fun q => bv_src_and.all (fun bv => (bv.slot i j).test q) &&
        !bv_src_sub.any (fun bv => (bv.slot i j).test q))
      (aggregator.combine_and_sub_ij ar i j T bv_src_and bv_src_sub) := by
  unfold aggregator.combine_and_sub_ij
  by_cases hnull : ∃ bv, bv ∈ bv_src_and ∧ bv.slot i j = block_ptr.null
  · have hs := (sort_input_blocks_and_null i j bv_src_and ar 0 0 hnull).1
    simp only [hs, if_true]
    apply ij_post_unchanged T i j _ _ hi hn
    intro q _
    simp only [all_false_of_null i j bv_src_and hnull q, Bool.false_and]
  · have hnn : ∀ bv, bv ∈ bv_src_and → bv.slot i j ≠ block_ptr.null :=
      fun bv hm hb => hnull ⟨bv, hm, hb⟩
    obtain ⟨h1, h2, h3⟩ := sort_input_blocks_and_init i j bv_src_and ar hnn
    have hall := all_slot_no_null i j bv_src_and hnn
    have hlen := args_length_no_null i j bv_src_and hnn
    have hpos : 0 < bv_src_and.length := List.length_pos.2 hne
    generalize aggregator.sort_input_blocks_and i j bv_src_and ar 0 0 = s at h1 h2 h3 ⊢
    have hs1 : ¬ (s.1 = block_ptr.null) := by rw [h1]; simp
    have hc1 : s.2.2.1 = (and_dense_args i j bv_src_and).length := by
      rw [← h2, arr_upto_length]
    have hc2 : s.2.2.2 = (gap_args i j bv_src_and).length := by
      rw [← h3, arr_upto_length]
    have hcnt : s.2.2.1 ≠ 0 ∨ s.2.2.2 ≠ 0 := by omega
    simp only [hs1, if_false]
    rw [if_pos hcnt]
    obtain ⟨hb1, hb2, hb3⟩ := process_bit_blocks_and_spec s.2.1 s.2.2.1 0
    generalize aggregator.process_bit_blocks_and s.2.1 s.2.2.1 0 = r at hb1 hb2 hb3 ⊢
    rw [h2] at hb3
    by_cases hz : r.2 = 0
    · rw [if_pos hz]
      apply ij_post_unchanged T i j _ _ hi hn
      intro q hq
      show (bv_src_and.all (fun bv => (bv.slot i j).test q) &&
        !bv_src_sub.any (fun bv => (bv.slot i j).test q)) = false
      rw [hall q hq]
      have hx : (and_dense_args i j bv_src_and).all (fun a => a.deref.testBit q) = false :=
        hb3.2 hz q hq
      rw [hx]; rfl
    · rw [if_neg hz]
      have hgood := hb3.1 hz
      by_cases hg : s.2.2.2 ≠ 0
      · rw [if_pos hg]
        obtain ⟨hg1, hg2, hg3⟩ := process_gap_blocks_and_spec r.1 s.2.2.2 r.2 _ hgood
        generalize aggregator.process_gap_blocks_and r.1 s.2.2.2 r.2 = rg at hg1 hg2 hg3 ⊢
        rw [hb2, h3] at hg3
        by_cases hz2 : rg.2 = 0
        · rw [if_pos hz2]
          apply ij_post_unchanged T i j _ _ hi hn
          intro q hq
          show (bv_src_and.all (fun bv => (bv.slot i j).test q) &&
            !bv_src_sub.any (fun bv => (bv.slot i j).test q)) = false
          rw [hall q hq]
          have hx : ((and_dense_args i j bv_src_and).all (fun a => a.deref.testBit q) &&
              (gap_args i j bv_src_and).all (fun g => gap_test g q)) = false :=
            hg3.2 hz2 q hq
          rw [hx]; rfl
        · rw [if_neg hz2]
          apply combine_and_sub_ij_tail_spec rg.1 i j T bv_src_sub rg.2
            (fun q => bv_src_and.all (fun bv => (bv.slot i j).test q)) hi hlt hn _ hz2
          exact and_good_congr _ _ _ _ (hg3.1 hz2) (fun q hq => (hall q hq).symm)
      · rw [if_neg hg]
        have hg0 : (gap_args i j bv_src_and) = [] := by
          apply List.eq_nil_of_length_eq_zero
          rw [← hc2]; simpa using hg
        apply combine_and_sub_ij_tail_spec r.1 i j T bv_src_sub r.2
          (fun q => bv_src_and.all (fun bv => (bv.slot i j).test q)) hi hlt hn _ hz
        exact and_good_congr _ _ _ _ hgood
          (fun q hq => by rw [hall q hq, hg0]; simp)

/-! ## `combine_and` and `combine_and_sub` -/

theorem all_get_bit_false_of_null (bv_src : List bvector) (hne : bv_src ≠ []) (p : Nat)
    (h : ∀ bv, bv ∈ bv_src → bv.slot (p / bits_in_block / set_array_size)
      (p / bits_in_block % set_array_size) = block_ptr.null) :
    bv_src.all (fun bv => bv.get_bit p) = false := by
  rw [List.all_eq_false]
  obtain ⟨bv, hm⟩ := List.exists_mem_of_ne_nil bv_src hne
  refine ⟨bv, hm, ?_⟩
  rw [get_bit_eq_slot, h bv hm]
  simp [block_ptr.test]

theorem combine_and_ok (ar : arena) (bv_target : bvector) (bv_src : List bvector)
    (h1 : bv_src ≠ []) (h2 : bv_src.length < max_aggregator_cap) :
    ∃ r, aggregator.combine_and ar bv_target bv_src = Except.ok r ∧
      driver_post (fun i j q => bv_src.all (fun bv => (bv.slot i j).test q))
        (fun i => aggregator.find_effective_sub_block_size i bv_src)
        (aggregator.resize_target bv_target bv_src true).2
        (aggregator.resize_target bv_target bv_src true).2
        (aggregator.resize_target bv_target bv_src true).1.size_ r.1 := by
  have hg : decide (bv_src.length ≥ max_aggregator_cap) = false := by
    simp; omega
  have hl : ¬ (bv_src.length = 0) := by
    intro h; exact h1 (List.length_eq_zero.1 h)
  obtain ⟨hfresh, _⟩ := resize_target_clear_fresh bv_target bv_src
  have hd := driver_spec (fun ar i j T => aggregator.combine_and_ij ar i j T bv_src)
    (fun i j q => bv_src.all (fun bv => (bv.slot i j).test q))
    (fun i => aggregator.find_effective_sub_block_size i bv_src)
    (fun ar i j T a b c => combine_and_ij_spec ar i j T bv_src h1 a b c)
    (aggregator.resize_target bv_target bv_src true).2
    (aggregator.resize_target bv_target bv_src true).1 ar hfresh
    (aggregator.resize_target bv_target bv_src true).2 (Nat.le_refl _)
  unfold aggregator.combine_and
  simp only [hg, BM_ASSERT_THROW, Bool.false_eq_true, if_false, hl]
  exact ⟨_, rfl, hd⟩

theorem combine_and_get_bit (ar : arena) (bv_target : bvector) (bv_src : List bvector)
    (h1 : bv_src ≠ []) (h2 : bv_src.length < max_aggregator_cap) :
    ∃ r, aggregator.combine_and ar bv_target bv_src = Except.ok r ∧
      ∀ p, r.1.get_bit p = bv_src.all (fun bv => bv.get_bit p) := by
  obtain ⟨r, hr, hd⟩ := combine_and_ok ar bv_target bv_src h1 h2
  obtain ⟨_, hext⟩ := resize_target_clear_fresh bv_target bv_src
  refine ⟨r, hr, fun p => ?_⟩
  apply get_bit_of_driver_post _ _ _ _ _ hd p
  · rfl
  · intro hc
    apply all_get_bit_false_of_null bv_src h1 p
    intro bv hm
    have hj : p / bits_in_block % set_array_size < set_array_size :=
      Nat.mod_lt _ (by unfold set_array_size; omega)
    by_cases hi : p / bits_in_block / set_array_size
        < (aggregator.resize_target bv_target bv_src true).2
    · apply find_effective_sub_block_size_covers _ bv_src bv hm _ _ hj
      by_contra hlt
      exact hc ⟨hi, by omega⟩
    · exact slot_null_of_extent bv _ _ (by have := hext bv hm; omega)

theorem combine_and_sub_with_get_bit (src_size : Nat) (ar : arena) (bv_target : bvector)
    (bv_src_and bv_src_sub : List bvector) (hsz : src_size ≠ 0)
    (h1 : bv_src_and ≠ []) (h2 : bv_src_and.length < max_aggregator_cap)
    (h3 : bv_src_sub.length < max_aggregator_cap) :
    ∃ r, aggregator.combine_and_sub_with src_size ar bv_target bv_src_and bv_src_sub
        = Except.ok r ∧
      ∀ p, r.1.get_bit p = (bv_src_and.all (fun bv => bv.get_bit p) &&
        !bv_src_sub.any (fun bv => bv.get_bit p)) := by
  have hg1 : decide (bv_src_and.length ≥ max_aggregator_cap) = false := by
    simp; omega
  have hg2 : decide (bv_src_sub.length ≥ max_aggregator_cap) = false := by
    simp; omega
  obtain ⟨hfresh1, hext1⟩ := resize_target_clear_fresh bv_target bv_src_and
  obtain ⟨hfresh2, hle, hext2⟩ := resize_target_keep_fresh
    (aggregator.resize_target bv_target bv_src_and true).1
    (aggregator.resize_target bv_target bv_src_and true).2 bv_src_sub hfresh1
  have htop : (if (aggregator.resize_target
        (aggregator.resize_target bv_target bv_src_and true).1 bv_src_sub false).2
        > (aggregator.resize_target bv_target bv_src_and true).2
      then (aggregator.resize_target
        (aggregator.resize_target bv_target bv_src_and true).1 bv_src_sub false).2
      else (aggregator.resize_target bv_target bv_src_and true).2)
      = (aggregator.resize_target
        (aggregator.resize_target bv_target bv_src_and true).1 bv_src_sub false).2 := by
    split_ifs with h
    · rfl
    · omega
  have hd := driver_spec
    (fun ar i j T => aggregator.combine_and_sub_ij ar i j T bv_src_and bv_src_sub)
    (fun i j q => bv_src_and.all (fun bv => (bv.slot i j).test q) &&
      !bv_src_sub.any (fun bv => (bv.slot i j).test q))
    (fun i =>
      if bv_src_sub.length ≠ 0 then
        if aggregator.find_effective_sub_block_size i bv_src_sub
            > aggregator.find_effective_sub_block_size i bv_src_and
        then aggregator.find_effective_sub_block_size i bv_src_sub
        else aggregator.find_effective_sub_block_size i bv_src_and
      else aggregator.find_effective_sub_block_size i bv_src_and)
    (fun ar i j T a b c => combine_and_sub_ij_spec ar i j T bv_src_and bv_src_sub h1 a b c)
    _ _ ar hfresh2 _ (Nat.le_refl _)
  unfold aggregator.combine_and_sub_with
  simp only [hg1, hg2, BM_ASSERT_THROW, Bool.false_eq_true, if_false, hsz, htop]
  refine ⟨_, rfl, fun p => ?_⟩
  apply get_bit_of_driver_post _ _ _ _ _ hd p
  · rfl
  · intro hc
    have : bv_src_and.all (fun bv => bv.get_bit p) = false := by
      apply all_get_bit_false_of_null bv_src_and h1 p
      intro bv hm
      have hj : p / bits_in_block % set_array_size < set_array_size :=
        Nat.mod_lt _ (by unfold set_array_size; omega)
      by_cases hi : p / bits_in_block / set_array_size
          < (aggregator.resize_target
              (aggregator.resize_target bv_target bv_src_and true).1 bv_src_sub false).2
      · apply find_effective_sub_block_size_covers _ bv_src_and bv hm _ _ hj
        by_contra hlt
        apply hc
        refine ⟨hi, ?_⟩
        split_ifs <;> omega
      · exact slot_null_of_extent bv _ _ (by have := hext1 bv hm; omega)
    rw [this]; rfl

/-! ## The horizontal reference path -/

theorem testBit_to_bits (b : block_ptr) (q : Nat) (hq : q < bits_in_block) :
    b.to_bits.testBit q = b.test q := by
  cases b with
  | null => simp [block_ptr.to_bits, block_ptr.test]
  | full => simp [block_ptr.to_bits, block_ptr.test, testBit_all_ones_block, hq]
  | bit w => rfl
  | gap g => rfl

theorem get_bit_combine_blocks (f : Nat → Nat → Nat) (g : Bool → Bool → Bool)
    (hf : ∀ a b q, (f a b).testBit q = g (a.testBit q) (b.testBit q))
    (hg : g false false = false) (bv1 bv2 : bvector) (p : Nat) :
    (bvector.combine_blocks f bv1 bv2).get_bit p = g (bv1.get_bit p) (bv2.get_bit p) := by
  have hq : p % bits_in_block < bits_in_block := Nat.mod_lt _ (by unfold bits_in_block; omega)
  rw [get_bit_eq_slot, get_bit_eq_slot, get_bit_eq_slot]
  generalize p / bits_in_block / set_array_size = i
  generalize p / bits_in_block % set_array_size = j
  by_cases hi : i < max bv1.blockman_.top_block_size_ bv2.blockman_.top_block_size_
  · have : (bvector.combine_blocks f bv1 bv2).slot i j
        = block_ptr.bit (f (bv1.slot i j).to_bits (bv2.slot i j).to_bits) := by
      simp [bvector.combine_blocks, bvector.slot, blocks_manager.get_block_ptr,
        blocks_manager.get_topblock, hi]
    rw [this]
    show (f _ _).testBit _ = _
    rw [hf, testBit_to_bits _ _ hq, testBit_to_bits _ _ hq]
  · have h0 : (bvector.combine_blocks f bv1 bv2).slot i j = block_ptr.null := by
      simp [bvector.combine_blocks, bvector.slot, blocks_manager.get_block_ptr,
        blocks_manager.get_topblock, hi]
    rw [h0, slot_null_of_extent bv1 i j (by omega), slot_null_of_extent bv2 i j (by omega)]
    simp [block_ptr.test, hg]

theorem get_bit_bit_or (bv1 bv2 : bvector) (p : Nat) :
    (bv1.bit_or bv2).get_bit p = (bv1.get_bit p || bv2.get_bit p) :=
  get_bit_combine_blocks _ (fun a b => a || b) (fun a b q => Nat.testBit_or a b q) rfl _ _ p

theorem get_bit_bit_and (bv1 bv2 : bvector) (p : Nat) :
    (bv1.bit_and bv2).get_bit p = (bv1.get_bit p && bv2.get_bit p) :=
  get_bit_combine_blocks _ (fun a b => a && b) (fun a b q => Nat.testBit_and a b q) rfl _ _ p

theorem get_bit_bit_sub (bv1 bv2 : bvector) (p : Nat) :
    (bv1.bit_sub bv2).get_bit p = (bv1.get_bit p && !bv2.get_bit p) :=
  get_bit_combine_blocks _ (fun a b => a && !b) (fun a b q => testBit_sub_bits a b q) rfl _ _ p

theorem get_bit_clear (bv : bvector) (free_mem : Bool) (p : Nat) :
    (bv.clear free_mem).get_bit p = false := by
  simp [bvector.get_bit, bvector.clear, blocks_manager.get_block_ptr,
    blocks_manager.get_topblock, block_ptr.test]

theorem get_bit_foldl_bit_or (rest : List bvector) :
    ∀ (bv : bvector) (p : Nat),
      (rest.foldl (fun (t : bvector) (b : bvector) => t.bit_or b) bv).get_bit p
        = (bv.get_bit p || rest.any (fun b => b.get_bit p)) := by
  induction rest with
  | nil => intro bv p; simp
  | cons b rest ih =>
    intro bv p
    rw [List.foldl_cons, ih, get_bit_bit_or, List.any_cons, Bool.or_assoc]

theorem get_bit_foldl_bit_and (rest : List bvector) :
    ∀ (bv : bvector) (p : Nat),
      (rest.foldl (fun (t : bvector) (b : bvector) => t.bit_and b) bv).get_bit p
        = (bv.get_bit p && rest.all (fun b => b.get_bit p)) := by
  induction rest with
  | nil => intro bv p; simp
  | cons b rest ih =>
    intro bv p
    rw [List.foldl_cons, ih, get_bit_bit_and, List.all_cons, Bool.and_assoc]

theorem get_bit_foldl_bit_sub (rest : List bvector) :
    ∀ (bv : bvector) (p : Nat),
      (rest.foldl (fun (t : bvector) (b : bvector) => t.bit_sub b) bv).get_bit p
        = (bv.get_bit p && !rest.any (fun b => b.get_bit p)) := by
  induction rest with
  | nil => intro bv p; simp
  | cons b rest ih =>
    intro bv p
    rw [List.foldl_cons, ih, get_bit_bit_sub, List.any_cons]
    cases bv.get_bit p <;> cases b.get_bit p <;> simp

theorem combine_or_horizontal_get_bit (bv_target : bvector) (bv_src : List bvector) (p : Nat) :
    (aggregator.combine_or_horizontal bv_target bv_src).get_bit p
      = bv_src.any (fun bv => bv.get_bit p) := by
  cases bv_src with
  | nil => simp [aggregator.combine_or_horizontal, get_bit_clear]
  | cons bv rest =>
    simp only [aggregator.combine_or_horizontal]
    rw [get_bit_foldl_bit_or, List.any_cons]

theorem combine_and_horizontal_get_bit (bv_target : bvector) (bv_src : List bvector)
    (hne : bv_src ≠ []) (p : Nat) :
    (aggregator.combine_and_horizontal bv_target bv_src).get_bit p
      = bv_src.all (fun bv => bv.get_bit p) := by
  cases bv_src with
  | nil => exact absurd rfl hne
  | cons bv rest =>
    simp only [aggregator.combine_and_horizontal]
    rw [get_bit_foldl_bit_and, List.all_cons]

theorem combine_and_sub_horizontal_get_bit (bv_target : bvector)
    (bv_src_and bv_src_sub : List bvector) (hne : bv_src_and ≠ []) (p : Nat) :
    (aggregator.combine_and_sub_horizontal bv_target bv_src_and bv_src_sub).get_bit p
      = (bv_src_and.all (fun bv => bv.get_bit p) &&
          !bv_src_sub.any (fun bv => bv.get_bit p)) := by
  unfold aggregator.combine_and_sub_horizontal
  rw [get_bit_foldl_bit_sub, combine_and_horizontal_get_bit _ _ hne]

/-- For every accepted operand count the optimized OR agrees bit for bit with the
horizontal OR. -/
theorem combine_or_eq_horizontal (ar : arena) (bv_target bv_target2 : bvector)
    (bv_src : List bvector) (h1 : bv_src ≠ []) (h2 : bv_src.length < max_aggregator_cap) :
    ∃ r, aggregator.combine_or ar bv_target bv_src = Except.ok r ∧
      ∀ p, r.1.get_bit p
        = (aggregator.combine_or_horizontal bv_target2 bv_src).get_bit p := by
  obtain ⟨r, hr, hb⟩ := combine_or_get_bit ar bv_target bv_src h1 h2
  exact ⟨r, hr, fun p => by rw [hb p, combine_or_horizontal_get_bit]⟩

/-- For every accepted operand count the optimized AND agrees bit for bit with the
horizontal AND. -/
theorem combine_and_eq_horizontal (ar : arena) (bv_target bv_target2 : bvector)
    (bv_src : List bvector) (h1 : bv_src ≠ []) (h2 : bv_src.length < max_aggregator_cap) :
    ∃ r, aggregator.combine_and ar bv_target bv_src = Except.ok r ∧
      ∀ p, r.1.get_bit p
        = (aggregator.combine_and_horizontal bv_target2 bv_src).get_bit p := by
  obtain ⟨r, hr, hb⟩ := combine_and_get_bit ar bv_target bv_src h1 h2
  exact ⟨r, hr, fun p => by rw [hb p, combine_and_horizontal_get_bit _ _ h1]⟩

/-- For all accepted operand counts the optimized AND-SUB agrees bit for bit with the
horizontal AND-SUB. -/
theorem combine_and_sub_eq_horizontal (ar : arena) (bv_target bv_target2 : bvector)
    (bv_src_and bv_src_sub : List bvector) (h1 : bv_src_and ≠ [])
    (h2 : bv_src_and.length < max_aggregator_cap)
    (h3 : bv_src_sub.length < max_aggregator_cap) :
    ∃ r, aggregator.combine_and_sub ar bv_target bv_src_and bv_src_sub = Except.ok r ∧
      ∀ p, r.1.get_bit p
        = (aggregator.combine_and_sub_horizontal bv_target2 bv_src_and bv_src_sub).get_bit p := by
  obtain ⟨r, hr, hb⟩ := combine_and_sub_with_get_bit bv_src_and.length ar bv_target
    bv_src_and bv_src_sub (fun h => h1 (List.length_eq_zero.1 h)) h1 h2 h3
  exact ⟨r, hr, fun p => by rw [hb p, combine_and_sub_horizontal_get_bit _ _ _ h1]⟩


/-! ## The claims -/

theorem combine_or_error_of_cap (ar : arena) (bv_target : bvector) (bv_src : List bvector)
    (h : max_aggregator_cap ≤ bv_src.length) :
    aggregator.combine_or ar bv_target bv_src = Except.error error_code.BM_ERR_RANGE := by
  have hg : decide (bv_src.length ≥ max_aggregator_cap) = true := by simpa using h
  unfold aggregator.combine_or
  simp only [hg, BM_ASSERT_THROW, if_true]

theorem combine_and_error_of_cap (ar : arena) (bv_target : bvector) (bv_src : List bvector)
    (h : max_aggregator_cap ≤ bv_src.length) :
    aggregator.combine_and ar bv_target bv_src = Except.error error_code.BM_ERR_RANGE := by
  have hg : decide (bv_src.length ≥ max_aggregator_cap) = true := by simpa using h
  unfold aggregator.combine_and
  simp only [hg, BM_ASSERT_THROW, if_true]

theorem combine_and_sub_with_error_of_cap (src_size : Nat) (ar : arena) (bv_target : bvector)
    (bv_src_and bv_src_sub : List bvector)
    (h : max_aggregator_cap ≤ bv_src_and.length ∨ max_aggregator_cap ≤ bv_src_sub.length) :
    aggregator.combine_and_sub_with src_size ar bv_target bv_src_and bv_src_sub
      = Except.error error_code.BM_ERR_RANGE := by
  unfold aggregator.combine_and_sub_with
  by_cases h1 : max_aggregator_cap ≤ bv_src_and.length
  · have hg : decide (bv_src_and.length ≥ max_aggregator_cap) = true := by simpa using h1
    simp only [hg, BM_ASSERT_THROW, if_true]
  · have h2 : max_aggregator_cap ≤ bv_src_sub.length := by
      rcases h with h | h
      · exact absurd h h1
      · exact h
    have hg1 : decide (bv_src_and.length ≥ max_aggregator_cap) = false := by simpa using h1
    have hg2 : decide (bv_src_sub.length ≥ max_aggregator_cap) = true := by simpa using h2
    simp only [hg1, hg2, BM_ASSERT_THROW, if_true, Bool.false_eq_true, if_false]

theorem sample_bvector_get_bit_zero : (sample_bvector 1).get_bit 0 = true := by
  decide

theorem replicate_cap_length (bv : bvector) :
    max_aggregator_cap ≤ (List.replicate 256 bv).length := by
  rw [List.length_replicate]
  decide

theorem replicate_cap_mem (bv : bvector) : bv ∈ List.replicate 256 bv :=
  List.mem_replicate.2 ⟨by decide, rfl⟩

theorem replicate_cap_ne_nil (bv : bvector) : List.replicate 256 bv ≠ [] :=
  List.ne_nil_of_mem (replicate_cap_mem bv)

/-- C1, at the failing input: `combine_or` on 256 operands (the cap itself), each with
bit 0 set, raises the range error and writes nothing, so a destination without bit 0
stays without it although every operand has bit 0 set. -/
theorem combine_or_rejects_cap_operands (ar : arena) :
    aggregator.combine_or ar (sample_bvector 0) (List.replicate 256 (sample_bvector 1))
      = Except.error error_code.BM_ERR_RANGE ∧
    (aggregator.target_after (sample_bvector 0)
      (aggregator.combine_or ar (sample_bvector 0)
        (List.replicate 256 (sample_bvector 1)))).get_bit 0 = false ∧
    (List.replicate 256 (sample_bvector 1)).any (fun bv => bv.get_bit 0) = true := by
  have e := combine_or_error_of_cap ar (sample_bvector 0)
    (List.replicate 256 (sample_bvector 1)) (replicate_cap_length _)
  refine ⟨e, ?_, ?_⟩
  · rw [e]; decide
  · rw [List.any_eq_true]
    exact ⟨sample_bvector 1, replicate_cap_mem _, sample_bvector_get_bit_zero⟩

/-- C2, at the failing input: `combine_and` on 256 operands (the cap itself), each with
bit 0 set, raises the range error and writes nothing, so a destination without bit 0
stays without it although every operand has bit 0 set. -/
theorem combine_and_rejects_cap_operands (ar : arena) :
    aggregator.combine_and ar (sample_bvector 0) (List.replicate 256 (sample_bvector 1))
      = Except.error error_code.BM_ERR_RANGE ∧
    (aggregator.target_after (sample_bvector 0)
      (aggregator.combine_and ar (sample_bvector 0)
        (List.replicate 256 (sample_bvector 1)))).get_bit 0 = false ∧
    (List.replicate 256 (sample_bvector 1)).all (fun bv => bv.get_bit 0) = true := by
  have e := combine_and_error_of_cap ar (sample_bvector 0)
    (List.replicate 256 (sample_bvector 1)) (replicate_cap_length _)
  refine ⟨e, ?_, ?_⟩
  · rw [e]; decide
  · rw [List.all_eq_true]
    intro bv hm
    rw [List.eq_of_mem_replicate hm]
    exact sample_bvector_get_bit_zero

/-- C3, at the failing input: `combine_and_sub` with an AND group of 256 operands (the
cap itself), each with bit 0 set, and an empty SUB group raises the range error and
writes nothing, so a destination without bit 0 stays without it. -/
theorem combine_and_sub_rejects_cap_operands (ar : arena) :
    aggregator.combine_and_sub ar (sample_bvector 0) (List.replicate 256 (sample_bvector 1)) []
      = Except.error error_code.BM_ERR_RANGE ∧
    (aggregator.target_after (sample_bvector 0)
      (aggregator.combine_and_sub ar (sample_bvector 0)
        (List.replicate 256 (sample_bvector 1)) [])).get_bit 0 = false ∧
    ((List.replicate 256 (sample_bvector 1)).all (fun bv => bv.get_bit 0) &&
      !([] : List bvector).any (fun bv => bv.get_bit 0)) = true := by
  have e : aggregator.combine_and_sub ar (sample_bvector 0)
      (List.replicate 256 (sample_bvector 1)) [] = Except.error error_code.BM_ERR_RANGE :=
    combine_and_sub_with_error_of_cap _ ar (sample_bvector 0)
      (List.replicate 256 (sample_bvector 1)) [] (Or.inl (replicate_cap_length _))
  refine ⟨e, ?_, ?_⟩
  · rw [e]; decide
  · have : (List.replicate 256 (sample_bvector 1)).all (fun bv => bv.get_bit 0) = true := by
      rw [List.all_eq_true]
      intro bv hm
      rw [List.eq_of_mem_replicate hm]
      exact sample_bvector_get_bit_zero
    rw [this]; rfl

/-- C4, at the failing input: on 256 operands (the cap itself) with bit 0 set the
optimized `combine_or` raises the range error and leaves bit 0 of the destination
clear, while `combine_or_horizontal` sets it. -/
theorem combine_or_differs_from_horizontal_at_cap (ar : arena) :
    aggregator.combine_or ar (sample_bvector 0) (List.replicate 256 (sample_bvector 1))
      = Except.error error_code.BM_ERR_RANGE ∧
    (aggregator.target_after (sample_bvector 0)
      (aggregator.combine_or ar (sample_bvector 0)
        (List.replicate 256 (sample_bvector 1)))).get_bit 0 = false ∧
    (aggregator.combine_or_horizontal (sample_bvector 0)
      (List.replicate 256 (sample_bvector 1))).get_bit 0 = true := by
  have e := combine_or_error_of_cap ar (sample_bvector 0)
    (List.replicate 256 (sample_bvector 1)) (replicate_cap_length _)
  refine ⟨e, ?_, ?_⟩
  · rw [e]; decide
  · rw [combine_or_horizontal_get_bit, List.any_eq_true]
    exact ⟨sample_bvector 1, replicate_cap_mem _, sample_bvector_get_bit_zero⟩

/-- C5, at the failing input: on 256 operands (the cap itself) with bit 0 set the
optimized `combine_and` raises the range error and leaves bit 0 of the destination
clear, while `combine_and_horizontal` sets it. -/
theorem combine_and_differs_from_horizontal_at_cap (ar : arena) :
    aggregator.combine_and ar (sample_bvector 0) (List.replicate 256 (sample_bvector 1))
      = Except.error error_code.BM_ERR_RANGE ∧
    (aggregator.target_after (sample_bvector 0)
      (aggregator.combine_and ar (sample_bvector 0)
        (List.replicate 256 (sample_bvector 1)))).get_bit 0 = false ∧
    (aggregator.combine_and_horizontal (sample_bvector 0)
      (List.replicate 256 (sample_bvector 1))).get_bit 0 = true := by
  have e := combine_and_error_of_cap ar (sample_bvector 0)
    (List.replicate 256 (sample_bvector 1)) (replicate_cap_length _)
  refine ⟨e, ?_, ?_⟩
  · rw [e]; decide
  · rw [combine_and_horizontal_get_bit _ _ (replicate_cap_ne_nil _), List.all_eq_true]
    intro bv hm
    rw [List.eq_of_mem_replicate hm]
    exact sample_bvector_get_bit_zero

/-- C6, at the failing input: with an AND group of 256 operands (the cap itself) with
bit 0 set and an empty SUB group the optimized `combine_and_sub` raises the range error
and leaves bit 0 of the destination clear, while `combine_and_sub_horizontal` sets it. -/
theorem combine_and_sub_differs_from_horizontal_at_cap (ar : arena) :
    aggregator.combine_and_sub ar (sample_bvector 0) (List.replicate 256 (sample_bvector 1)) []
      = Except.error error_code.BM_ERR_RANGE ∧
    (aggregator.target_after (sample_bvector 0)
      (aggregator.combine_and_sub ar (sample_bvector 0)
        (List.replicate 256 (sample_bvector 1)) [])).get_bit 0 = false ∧
    (aggregator.combine_and_sub_horizontal (sample_bvector 0)
      (List.replicate 256 (sample_bvector 1)) []).get_bit 0 = true := by
  have e : aggregator.combine_and_sub ar (sample_bvector 0)
      (List.replicate 256 (sample_bvector 1)) [] = Except.error error_code.BM_ERR_RANGE :=
    combine_and_sub_with_error_of_cap _ ar (sample_bvector 0)
      (List.replicate 256 (sample_bvector 1)) [] (Or.inl (replicate_cap_length _))
  refine ⟨e, ?_, ?_⟩
  · rw [e]; decide
  · rw [combine_and_sub_horizontal_get_bit _ _ _ (replicate_cap_ne_nil _)]
    have : (List.replicate 256 (sample_bvector 1)).all (fun bv => bv.get_bit 0) = true := by
      rw [List.all_eq_true]
      intro bv hm
      rw [List.eq_of_mem_replicate hm]
      exact sample_bvector_get_bit_zero
    rw [this]; rfl

theorem combine_or_get_bit_of_lt (ar : arena) (bv_target : bvector) (bv_src : List bvector)
    (h2 : bv_src.length < max_aggregator_cap) :
    ∃ r, aggregator.combine_or ar bv_target bv_src = Except.ok r ∧
      ∀ p, r.1.get_bit p = bv_src.any (fun bv => bv.get_bit p) := by
  by_cases h1 : bv_src = []
  · subst h1
    refine ⟨(bv_target.clear false, ar), ?_, fun p => ?_⟩
    · simp [aggregator.combine_or, BM_ASSERT_THROW, max_aggregator_cap]
    · simp [get_bit_clear]
  · exact combine_or_get_bit ar bv_target bv_src h1 h2

theorem combine_and_sub_ij_empty_sub (ar : arena) (i j : Nat) (T : bvector)
    (bv_src_and : List bvector) :
    aggregator.combine_and_sub_ij ar i j T bv_src_and []
      = aggregator.combine_and_ij ar i j T bv_src_and := by
  unfold aggregator.combine_and_sub_ij aggregator.combine_and_ij
    aggregator.combine_and_sub_ij_tail
  simp only [List.length_nil, ne_eq, not_true_eq_false, if_false]
  split_ifs <;> rfl

theorem resize_target_nil_keep (T : bvector) :
    aggregator.resize_target T [] false = (T, T.blockman_.top_block_size_) := by
  simp [aggregator.resize_target, blocks_manager.top_block_size]

/-- C7: `combine_and_sub(dst, A, B)` with a non-empty AND group `A` returns exactly when
`combine_and(dst, A)` and `combine_or(tmp, B)` both return (from whatever arena states),
and its destination then has bit `p` set iff the `combine_and` result has it and the
`combine_or` result has not; an empty SUB group `B` is included. -/
theorem combine_and_sub_eq_and_minus_or (ar ar2 ar3 : arena) (dst tmp : bvector)
    (A B : List bvector) (hA : A ≠ []) :
    (∀ r, aggregator.combine_and_sub ar dst A B = Except.ok r →
      ∃ a o, aggregator.combine_and ar2 dst A = Except.ok a ∧
        aggregator.combine_or ar3 tmp B = Except.ok o ∧
        ∀ p, r.1.get_bit p = (a.1.get_bit p && !o.1.get_bit p)) ∧
    (∀ a o, aggregator.combine_and ar2 dst A = Except.ok a →
      aggregator.combine_or ar3 tmp B = Except.ok o →
      ∃ r, aggregator.combine_and_sub ar dst A B = Except.ok r ∧
        ∀ p, r.1.get_bit p = (a.1.get_bit p && !o.1.get_bit p)) := by
  by_cases hcA : A.length < max_aggregator_cap
  · by_cases hcB : B.length < max_aggregator_cap
    · obtain ⟨r0, hr0, hb0⟩ := combine_and_sub_with_get_bit A.length ar dst A B
        (fun h => hA (List.length_eq_zero.1 h)) hA hcA hcB
      obtain ⟨a0, ha0, hba⟩ := combine_and_get_bit ar2 dst A hA hcA
      obtain ⟨o0, ho0, hbo⟩ := combine_or_get_bit_of_lt ar3 tmp B hcB
      have hr0' : aggregator.combine_and_sub ar dst A B = Except.ok r0 := hr0
      constructor
      · intro r hr
        rw [hr0'] at hr
        cases hr
        exact ⟨a0, o0, ha0, ho0, fun p => by rw [hb0 p, hba p, hbo p]⟩
      · intro a o ha ho
        rw [ha0] at ha
        rw [ho0] at ho
        cases ha
        cases ho
        exact ⟨r0, hr0', fun p => by rw [hb0 p, hba p, hbo p]⟩
    · have e : aggregator.combine_and_sub ar dst A B
          = Except.error error_code.BM_ERR_RANGE :=
        combine_and_sub_with_error_of_cap _ ar dst A B (Or.inr (by omega))
      have e2 := combine_or_error_of_cap ar3 tmp B (by omega)
      constructor
      · intro r hr; rw [e] at hr; cases hr
      · intro a o _ ho; rw [e2] at ho; cases ho
  · have e : aggregator.combine_and_sub ar dst A B
        = Except.error error_code.BM_ERR_RANGE :=
      combine_and_sub_with_error_of_cap _ ar dst A B (Or.inl (by omega))
    have e2 := combine_and_error_of_cap ar2 dst A (by omega)
    constructor
    · intro r hr; rw [e] at hr; cases hr
    · intro a o ha _; rw [e2] at ha; cases ha

/-- C7, at a concrete input: AND group `[{1,2,3}]`, SUB group `[{2}]`. -/
theorem combine_and_sub_eq_and_minus_or_witness :
    [sample_bvector 14] ≠ [] ∧
    ((∀ r, aggregator.combine_and_sub sample_arena (sample_bvector 0) [sample_bvector 14]
        [sample_bvector 4] = Except.ok r →
      ∃ a o, aggregator.combine_and sample_arena (sample_bvector 0) [sample_bvector 14]
          = Except.ok a ∧
        aggregator.combine_or sample_arena (sample_bvector 0) [sample_bvector 4]
          = Except.ok o ∧
        ∀ p, r.1.get_bit p = (a.1.get_bit p && !o.1.get_bit p)) ∧
    (∀ a o, aggregator.combine_and sample_arena (sample_bvector 0) [sample_bvector 14]
        = Except.ok a →
      aggregator.combine_or sample_arena (sample_bvector 0) [sample_bvector 4]
        = Except.ok o →
      ∃ r, aggregator.combine_and_sub sample_arena (sample_bvector 0) [sample_bvector 14]
          [sample_bvector 4] = Except.ok r ∧
        ∀ p, r.1.get_bit p = (a.1.get_bit p && !o.1.get_bit p))) :=
  ⟨by simp, combine_and_sub_eq_and_minus_or sample_arena sample_arena sample_arena
    (sample_bvector 0) (sample_bvector 0) [sample_bvector 14] [sample_bvector 4] (by simp)⟩

/-- C8: with an empty SUB group `combine_and_sub(dst, A, [])` has the very outcome of
`combine_and(dst, A)`, destination and arena included (for every AND group `A`: accepted,
rejected at the cap, or empty); and for a non-empty accepted `A` the destination is not
cleared: it holds bit `p` iff every vector of `A` does. -/
theorem combine_and_sub_empty_sub_group (ar : arena) (dst : bvector) (A : List bvector) :
    aggregator.combine_and_sub ar dst A [] = aggregator.combine_and ar dst A ∧
    (A ≠ [] → A.length < max_aggregator_cap →
      ∃ r, aggregator.combine_and_sub ar dst A [] = Except.ok r ∧
        ∀ p, r.1.get_bit p = A.all (fun bv => bv.get_bit p)) := by
  have key : aggregator.combine_and_sub ar dst A [] = aggregator.combine_and ar dst A := by
    unfold aggregator.combine_and_sub aggregator.combine_and_sub_with aggregator.combine_and
    have hfresh := (resize_target_clear_fresh dst A).1
    have htop : (aggregator.resize_target dst A true).1.blockman_.top_block_size_
        = (aggregator.resize_target dst A true).2 := hfresh.2.1
    have hg : decide (([] : List bvector).length ≥ max_aggregator_cap) = false := by
      simp [max_aggregator_cap]
    by_cases hc : decide (A.length ≥ max_aggregator_cap) = true
    · simp only [hc, BM_ASSERT_THROW, if_true]
    · have hc2 : decide (A.length ≥ max_aggregator_cap) = false := by simpa using hc
      simp only [hc2, hg, BM_ASSERT_THROW, Bool.false_eq_true, if_false]
      by_cases hl : A.length = 0
      · simp only [hl, if_true]
      · simp only [hl, if_false, resize_target_nil_keep, htop, List.length_nil, ne_eq,
          not_true_eq_false, gt_iff_lt, lt_self_iff_false, combine_and_sub_ij_empty_sub]
  refine ⟨key, fun h1 h2 => ?_⟩
  rw [key]
  exact combine_and_get_bit ar dst A h1 h2

/-- C8, at a concrete input: the AND group `[{1,2,3}, {3,4,5}]`. -/
theorem combine_and_sub_empty_sub_group_witness :
    aggregator.combine_and_sub sample_arena (sample_bvector 0)
        [sample_bvector 14, sample_bvector 56] []
      = aggregator.combine_and sample_arena (sample_bvector 0)
        [sample_bvector 14, sample_bvector 56] ∧
    ∃ r, aggregator.combine_and_sub sample_arena (sample_bvector 0)
        [sample_bvector 14, sample_bvector 56] [] = Except.ok r ∧
      ∀ p, r.1.get_bit p
        = [sample_bvector 14, sample_bvector 56].all (fun bv => bv.get_bit p) :=
  ⟨(combine_and_sub_empty_sub_group sample_arena (sample_bvector 0)
      [sample_bvector 14, sample_bvector 56]).1,
   (combine_and_sub_empty_sub_group sample_arena (sample_bvector 0)
      [sample_bvector 14, sample_bvector 56]).2 (by simp) (by decide)⟩

/-- C9: aggregating the single operand `V` through `combine_or` or through `combine_and`
returns a destination with exactly the set bits of `V`, whatever the destination and
the arena held. -/
theorem combine_single_operand_round_trip (ar : arena) (dst V : bvector) :
    (∃ r, aggregator.combine_or ar dst [V] = Except.ok r ∧
      ∀ p, r.1.get_bit p = V.get_bit p) ∧
    (∃ r, aggregator.combine_and ar dst [V] = Except.ok r ∧
      ∀ p, r.1.get_bit p = V.get_bit p) := by
  have hl : [V].length < max_aggregator_cap := by simp [max_aggregator_cap]
  constructor
  · obtain ⟨r, hr, hb⟩ := combine_or_get_bit ar dst [V] (by simp) hl
    exact ⟨r, hr, fun p => by rw [hb p]; simp⟩
  · obtain ⟨r, hr, hb⟩ := combine_and_get_bit ar dst [V] (by simp) hl
    exact ⟨r, hr, fun p => by rw [hb p]; simp⟩

theorem any_get_bit_perm (ops ops2 : List bvector) (h : ops.Perm ops2) (p : Nat) :
    ops.any (fun bv => bv.get_bit p) = ops2.any (fun bv => bv.get_bit p) := by
  rw [Bool.eq_iff_iff, List.any_eq_true, List.any_eq_true]
  constructor
  · rintro ⟨bv, hm, hb⟩; exact ⟨bv, h.mem_iff.1 hm, hb⟩
  · rintro ⟨bv, hm, hb⟩; exact ⟨bv, h.mem_iff.2 hm, hb⟩

/-- C10: `combine_or` is order-independent: for operand lists that are permutations of
each other the destinations after the two calls (from whatever arena states) have the
same set bits, for every operand count (at or above the cap both calls are rejected and
leave the destination as it was). -/
theorem combine_or_order_independent (ar ar2 : arena) (dst : bvector)
    (ops ops2 : List bvector) (h : ops.Perm ops2) (p : Nat) :
    (aggregator.target_after dst (aggregator.combine_or ar dst ops)).get_bit p
      = (aggregator.target_after dst (aggregator.combine_or ar2 dst ops2)).get_bit p := by
  have hlen := h.length_eq
  by_cases hc : ops.length < max_aggregator_cap
  · obtain ⟨r, hr, hb⟩ := combine_or_get_bit_of_lt ar dst ops hc
    obtain ⟨r2, hr2, hb2⟩ := combine_or_get_bit_of_lt ar2 dst ops2 (by omega)
    rw [hr, hr2]
    show r.1.get_bit p = r2.1.get_bit p
    rw [hb p, hb2 p, any_get_bit_perm ops ops2 h p]
  · rw [combine_or_error_of_cap ar dst ops (by omega),
      combine_or_error_of_cap ar2 dst ops2 (by omega)]

/-- C10, at a concrete input: the operands `{1,2,3}` and `{3,4,5}` in both orders. -/
theorem combine_or_order_independent_witness :
    [sample_bvector 14, sample_bvector 56].Perm [sample_bvector 56, sample_bvector 14] ∧
    (aggregator.target_after (sample_bvector 0)
      (aggregator.combine_or sample_arena (sample_bvector 0)
        [sample_bvector 14, sample_bvector 56])).get_bit 4
      = (aggregator.target_after (sample_bvector 0)
          (aggregator.combine_or sample_arena (sample_bvector 0)
            [sample_bvector 56, sample_bvector 14])).get_bit 4 :=
  ⟨List.Perm.swap _ _ _,
   combine_or_order_independent sample_arena sample_arena (sample_bvector 0)
    [sample_bvector 14, sample_bvector 56] [sample_bvector 56, sample_bvector 14]
    (List.Perm.swap _ _ _) 4⟩

/-! ## Zero operands and the operand-count guard -/

/-- C11: `combine_or` and `combine_and` called with zero operands are accepted and leave
the destination cleared: it has no set bit afterwards, whatever it and the arena held. -/
theorem combine_zero_operands_clears (ar : arena) (dst : bvector) :
    (∃ r, aggregator.combine_or ar dst [] = Except.ok r ∧ ∀ p, r.1.get_bit p = false) ∧
    (∃ r, aggregator.combine_and ar dst [] = Except.ok r ∧ ∀ p, r.1.get_bit p = false) := by
  constructor
  · refine ⟨(dst.clear false, ar), ?_, fun p => get_bit_clear dst false p⟩
    simp [aggregator.combine_or, BM_ASSERT_THROW, max_aggregator_cap]
  · refine ⟨(dst.clear false, ar), ?_, fun p => get_bit_clear dst false p⟩
    simp [aggregator.combine_and, BM_ASSERT_THROW, max_aggregator_cap]

theorem combine_or_ok_of_lt (ar : arena) (dst : bvector) (bv_src : List bvector)
    (h : bv_src.length < max_aggregator_cap) :
    ∃ r, aggregator.combine_or ar dst bv_src = Except.ok r := by
  obtain ⟨r, hr, _⟩ := combine_or_get_bit_of_lt ar dst bv_src h
  exact ⟨r, hr⟩

theorem combine_and_ok_of_lt (ar : arena) (dst : bvector) (bv_src : List bvector)
    (h : bv_src.length < max_aggregator_cap) :
    ∃ r, aggregator.combine_and ar dst bv_src = Except.ok r := by
  have hg : decide (bv_src.length ≥ max_aggregator_cap) = false := by
    simp; omega
  unfold aggregator.combine_and
  simp only [hg, BM_ASSERT_THROW, Bool.false_eq_true, if_false]
  split_ifs <;> exact ⟨_, rfl⟩

theorem combine_and_sub_with_ok_of_lt (src_size : Nat) (ar : arena) (dst : bvector)
    (A B : List bvector) (h1 : A.length < max_aggregator_cap)
    (h2 : B.length < max_aggregator_cap) :
    ∃ r, aggregator.combine_and_sub_with src_size ar dst A B = Except.ok r := by
  have hg1 : decide (A.length ≥ max_aggregator_cap) = false := by
    simp; omega
  have hg2 : decide (B.length ≥ max_aggregator_cap) = false := by
    simp; omega
  unfold aggregator.combine_and_sub_with
  simp only [hg1, hg2, BM_ASSERT_THROW, Bool.false_eq_true, if_false]
  split_ifs <;> exact ⟨_, rfl⟩

/-- C13, what the code does: each of `combine_or`, `combine_and` and `combine_and_sub`
raises the range error exactly when an operand count is at least `max_aggregator_cap`
(256), and returns otherwise; so a count equal to the cap, which the claim has accepted,
is rejected (256 operands for each of the three). -/
theorem range_error_iff_count_at_least_cap (ar : arena) (dst : bvector)
    (A B : List bvector) :
    (aggregator.combine_or ar dst A = Except.error error_code.BM_ERR_RANGE ↔
      max_aggregator_cap ≤ A.length) ∧
    (aggregator.combine_and ar dst A = Except.error error_code.BM_ERR_RANGE ↔
      max_aggregator_cap ≤ A.length) ∧
    (aggregator.combine_and_sub ar dst A B = Except.error error_code.BM_ERR_RANGE ↔
      max_aggregator_cap ≤ A.length ∨ max_aggregator_cap ≤ B.length) ∧
    aggregator.combine_or ar dst (List.replicate 256 (sample_bvector 1))
      = Except.error error_code.BM_ERR_RANGE ∧
    aggregator.combine_and ar dst (List.replicate 256 (sample_bvector 1))
      = Except.error error_code.BM_ERR_RANGE ∧
    aggregator.combine_and_sub ar dst (List.replicate 256 (sample_bvector 1))
      (List.replicate 256 (sample_bvector 1)) = Except.error error_code.BM_ERR_RANGE := by
  refine ⟨⟨fun h => ?_, combine_or_error_of_cap ar dst A⟩,
    ⟨fun h => ?_, combine_and_error_of_cap ar dst A⟩,
    ⟨fun h => ?_, combine_and_sub_with_error_of_cap _ ar dst A B⟩,
    combine_or_error_of_cap ar dst _ (replicate_cap_length _),
    combine_and_error_of_cap ar dst _ (replicate_cap_length _),
    combine_and_sub_with_error_of_cap _ ar dst _ _ (Or.inl (replicate_cap_length _))⟩
  · by_contra hc
    obtain ⟨r, hr⟩ := combine_or_ok_of_lt ar dst A (by omega)
    rw [hr] at h; cases h
  · by_contra hc
    obtain ⟨r, hr⟩ := combine_and_ok_of_lt ar dst A (by omega)
    rw [hr] at h; cases h
  · by_contra hc
    obtain ⟨r, hr⟩ := combine_and_sub_with_ok_of_lt A.length ar dst A B (by omega) (by omega)
    have h2 : aggregator.combine_and_sub_with A.length ar dst A B
        = Except.error error_code.BM_ERR_RANGE := h
    rw [hr] at h2; cases h2

theorem combine_and_sub_ij_nil (ar : arena) (i j : Nat) (T : bvector) (B : List bvector) :
    aggregator.combine_and_sub_ij ar i j T [] B = (T, ar) := by
  simp [aggregator.combine_and_sub_ij, aggregator.sort_input_blocks_and]

theorem do_while_sub_blocks_id {σ : Type} (body : Nat → σ → σ) (m : Nat)
    (h : ∀ j st, body j st = st) :
    ∀ (fuel j : Nat) (st : σ), aggregator.do_while_sub_blocks body m fuel j st = st := by
  intro fuel
  induction fuel with
  | zero => intro j st; rfl
  | succ fuel ih =>
    intro j st
    simp only [aggregator.do_while_sub_blocks, h]
    split_ifs
    · exact ih _ _
    · rfl

theorem foldl_id {σ α : Type} (f : σ → α → σ) (h : ∀ st a, f st a = st) (l : List α)
    (st : σ) : l.foldl f st = st := by
  induction l generalizing st with
  | nil => rfl
  | cons a l ih => rw [List.foldl_cons, h, ih]

theorem get_bit_of_fresh (T : bvector) (N : Nat) (h : fresh_target T N) (p : Nat) :
    T.get_bit p = false := by
  rw [get_bit_eq_slot, h.2.2]
  rfl

/-- With an empty AND group and an accepted SUB group `combine_and_sub` returns a
destination without set bits, whatever the undeclared `src_size` stands for. -/
theorem combine_and_sub_with_empty_and_group (src_size : Nat) (ar : arena) (dst : bvector)
    (B : List bvector) (hB : B.length < max_aggregator_cap) :
    ∃ r, aggregator.combine_and_sub_with src_size ar dst [] B = Except.ok r ∧
      ∀ p, r.1.get_bit p = false := by
  have hg1 : decide (([] : List bvector).length ≥ max_aggregator_cap) = false := by
    simp [max_aggregator_cap]
  have hg2 : decide (B.length ≥ max_aggregator_cap) = false := by
    simp; omega
  unfold aggregator.combine_and_sub_with
  simp only [hg1, hg2, BM_ASSERT_THROW, Bool.false_eq_true, if_false]
  by_cases hs : src_size = 0
  · rw [if_pos hs]
    exact ⟨_, rfl, fun p => get_bit_clear dst false p⟩
  · rw [if_neg hs]
    refine ⟨_, rfl, fun p => ?_⟩
    rw [foldl_id _ (fun st i => by
      rw [do_while_sub_blocks_id _ _ (fun j st => by rw [combine_and_sub_ij_nil])])]
    obtain ⟨hfresh1, _⟩ := resize_target_clear_fresh dst []
    obtain ⟨hfresh2, _, _⟩ := resize_target_keep_fresh _ _ B hfresh1
    exact get_bit_of_fresh _ _ hfresh2 p

/-- C12, at the failing input: `combine_and_sub` with an empty AND group and a SUB group
of 256 vectors (the cap itself) raises the range error and writes nothing, so bit 0 of
the destination `{0}` stays set. -/
theorem combine_and_sub_empty_and_rejects_cap_sub (ar : arena) :
    aggregator.combine_and_sub ar (sample_bvector 1) []
        (List.replicate 256 (sample_bvector 1))
      = Except.error error_code.BM_ERR_RANGE ∧
    (aggregator.target_after (sample_bvector 1)
      (aggregator.combine_and_sub ar (sample_bvector 1) []
        (List.replicate 256 (sample_bvector 1)))).get_bit 0 = true := by
  have e : aggregator.combine_and_sub ar (sample_bvector 1) []
      (List.replicate 256 (sample_bvector 1)) = Except.error error_code.BM_ERR_RANGE :=
    combine_and_sub_with_error_of_cap _ ar (sample_bvector 1) []
      (List.replicate 256 (sample_bvector 1)) (Or.inr (replicate_cap_length _))
  refine ⟨e, ?_⟩
  rw [e]
  exact sample_bvector_get_bit_zero

/-! ## Target sizing: extents, lengths and the frame -/

theorem resize_target_step_spec (st : bvector × Nat × Nat) (bv : bvector)
    (h1 : st.2.1 = st.1.blockman_.top_block_size_) (h2 : st.2.2 = st.1.size_) :
    (aggregator.resize_target_step st bv).2.1
      = (aggregator.resize_target_step st bv).1.blockman_.top_block_size_ ∧
    (aggregator.resize_target_step st bv).2.2
      = (aggregator.resize_target_step st bv).1.size_ ∧
    (aggregator.resize_target_step st bv).2.1 = max st.2.1 bv.blockman_.top_block_size_ ∧
    (aggregator.resize_target_step st bv).2.2 = max st.2.2 bv.size_ ∧
    ∀ i j, (aggregator.resize_target_step st bv).1.slot i j = st.1.slot i j := by
  unfold aggregator.resize_target_step blocks_manager.top_block_size bvector.size
  by_cases hgt : bv.blockman_.top_block_size_ > st.2.1
  · have hle : ¬ (bv.blockman_.top_block_size_ ≤ st.1.blockman_.top_block_size_) := by
      rw [← h1]; omega
    have hslot : ∀ i j, bvector.slot
        { st.1 with blockman_ :=
            (st.1.blockman_.reserve_top_blocks bv.blockman_.top_block_size_).1 } i j
        = st.1.slot i j := by
      intro i j
      unfold blocks_manager.reserve_top_blocks
      rw [if_neg hle]
      unfold bvector.slot blocks_manager.get_block_ptr
      have : blocks_manager.get_topblock
          { is_init_ := true, top_block_size_ := bv.blockman_.top_block_size_,
            top_blocks_ := fun i => st.1.blockman_.get_topblock i } i
          = st.1.blockman_.get_topblock i := by
        unfold blocks_manager.get_topblock
        by_cases hc : i < bv.blockman_.top_block_size_
        · simp [hc]
        · have : ¬ (i < st.1.blockman_.top_block_size_) := by omega
          simp [hc, this]
      rw [this]
    have hret : (st.1.blockman_.reserve_top_blocks bv.blockman_.top_block_size_)
        = ({ is_init_ := true, top_block_size_ := bv.blockman_.top_block_size_,
             top_blocks_ := fun i => st.1.blockman_.get_topblock i },
           bv.blockman_.top_block_size_) := by
      unfold blocks_manager.reserve_top_blocks
      rw [if_neg hle]
    simp only [hgt, if_true]
    by_cases hsz : bv.size_ > st.2.2
    · simp only [hsz, if_true]
      refine ⟨?_, ?_, ?_, ?_, ?_⟩ <;>
        first | trivial | omega | (rw [hret]; done) | (rw [hret]; rfl) | (rw [hret]; omega) |
          (intro _ _; trivial) | (intro _ _; rfl)
    · simp only [hsz, if_false]
      refine ⟨?_, ?_, ?_, ?_, ?_⟩ <;>
        first | trivial | omega | (rw [hret]; done) | (rw [hret]; rfl) | (rw [hret]; omega) |
          (intro _ _; trivial) | (intro _ _; rfl)
  · simp only [hgt, if_false]
    by_cases hsz : bv.size_ > st.2.2
    · simp only [hsz, if_true]
      refine ⟨?_, ?_, ?_, ?_, ?_⟩ <;>
        first | trivial | omega | (intro _ _; trivial) | (intro _ _; rfl)
    · simp only [hsz, if_false]
      refine ⟨?_, ?_, ?_, ?_, ?_⟩ <;>
        first | trivial | omega | (intro _ _; trivial) | (intro _ _; rfl)

theorem resize_target_fold_spec (bv_src : List bvector) :
    ∀ (st : bvector × Nat × Nat), st.2.1 = st.1.blockman_.top_block_size_ →
      st.2.2 = st.1.size_ →
      (bv_src.foldl aggregator.resize_target_step st).2.1
        = (bv_src.foldl aggregator.resize_target_step st).1.blockman_.top_block_size_ ∧
      (bv_src.foldl aggregator.resize_target_step st).2.2
        = (bv_src.foldl aggregator.resize_target_step st).1.size_ ∧
      (bv_src.foldl aggregator.resize_target_step st).2.1
        = bv_src.foldl (fun m bv => max m bv.blockman_.top_block_size_) st.2.1 ∧
      (bv_src.foldl aggregator.resize_target_step st).2.2
        = bv_src.foldl (fun m bv => max m bv.size_) st.2.2 ∧
      st.2.1 ≤ (bv_src.foldl aggregator.resize_target_step st).2.1 ∧
      st.2.2 ≤ (bv_src.foldl aggregator.resize_target_step st).2.2 ∧
      (∀ bv, bv ∈ bv_src → bv.blockman_.top_block_size_
        ≤ (bv_src.foldl aggregator.resize_target_step st).2.1) ∧
      (∀ bv, bv ∈ bv_src → bv.size_
        ≤ (bv_src.foldl aggregator.resize_target_step st).2.2) ∧
      ∀ i j, (bv_src.foldl aggregator.resize_target_step st).1.slot i j = st.1.slot i j := by
  induction bv_src with
  | nil =>
    intro st h1 h2
    exact ⟨h1, h2, rfl, rfl, Nat.le_refl _, Nat.le_refl _, fun bv hm => (by cases hm),
      fun bv hm => (by cases hm), fun _ _ => rfl⟩
  | cons bv rest ih =>
    intro st h1 h2
    obtain ⟨s1, s2, s3, s4, s5⟩ := resize_target_step_spec st bv h1 h2
    obtain ⟨a1, a2, a3, a4, a5, a6, a7, a8, a9⟩ := ih _ s1 s2
    simp only [List.foldl_cons]
    refine ⟨a1, a2, by rw [a3, s3], by rw [a4, s4], by omega, by omega,
      fun b hb => ?_, fun b hb => ?_, fun i j => by rw [a9, s5]⟩
    · rcases List.mem_cons.1 hb with rfl | hb
      · omega
      · exact a7 b hb
    · rcases List.mem_cons.1 hb with rfl | hb
      · omega
      · exact a8 b hb

theorem resize_target_extents (dst : bvector) (bv_src : List bvector)
    (init_clear : Bool) :
    (∀ bv, bv ∈ bv_src →
      bv.size ≤ (aggregator.resize_target dst bv_src init_clear).1.size) ∧
    dst.size ≤ (aggregator.resize_target dst bv_src init_clear).1.size ∧
    (∀ bv, bv ∈ bv_src → bv.blockman_.top_block_size
      ≤ (aggregator.resize_target dst bv_src init_clear).1.blockman_.top_block_size) ∧
    dst.blockman_.top_block_size
      ≤ (aggregator.resize_target dst bv_src init_clear).1.blockman_.top_block_size ∧
    (aggregator.resize_target dst bv_src init_clear).2
      = (aggregator.resize_target dst bv_src init_clear).1.blockman_.top_block_size ∧
    (aggregator.resize_target dst bv_src init_clear).2
      = bv_src.foldl (fun m bv => max m bv.blockman_.top_block_size)
          dst.blockman_.top_block_size ∧
    (aggregator.resize_target dst bv_src init_clear).1.size
      = bv_src.foldl (fun m bv => max m bv.size) dst.size := by
  have key : ∀ bv0 : bvector, bv0.size_ = dst.size_ →
      bv0.blockman_.top_block_size_ = dst.blockman_.top_block_size_ →
      (∀ bv, bv ∈ bv_src → bv.size_ ≤ (bv_src.foldl aggregator.resize_target_step
          (bv0, bv0.blockman_.top_block_size, bv0.size)).1.size_) ∧
      dst.size_ ≤ (bv_src.foldl aggregator.resize_target_step
          (bv0, bv0.blockman_.top_block_size, bv0.size)).1.size_ ∧
      (∀ bv, bv ∈ bv_src → bv.blockman_.top_block_size_
        ≤ (bv_src.foldl aggregator.resize_target_step
          (bv0, bv0.blockman_.top_block_size, bv0.size)).1.blockman_.top_block_size_) ∧
      dst.blockman_.top_block_size_
        ≤ (bv_src.foldl aggregator.resize_target_step
          (bv0, bv0.blockman_.top_block_size, bv0.size)).1.blockman_.top_block_size_ ∧
      (bv_src.foldl aggregator.resize_target_step
          (bv0, bv0.blockman_.top_block_size, bv0.size)).2.1
        = (bv_src.foldl aggregator.resize_target_step
          (bv0, bv0.blockman_.top_block_size, bv0.size)).1.blockman_.top_block_size_ ∧
      (bv_src.foldl aggregator.resize_target_step
          (bv0, bv0.blockman_.top_block_size, bv0.size)).2.1
        = bv_src.foldl (fun m bv => max m bv.blockman_.top_block_size_)
            dst.blockman_.top_block_size_ ∧
      (bv_src.foldl aggregator.resize_target_step
          (bv0, bv0.blockman_.top_block_size, bv0.size)).1.size_
        = bv_src.foldl (fun m bv => max m bv.size_) dst.size_ := by
    intro bv0 e1 e2
    obtain ⟨a1, a2, a3, a4, a5, a6, a7, a8, _⟩ := resize_target_fold_spec bv_src
      (bv0, bv0.blockman_.top_block_size, bv0.size) rfl rfl
    have t1 : (bv0, bv0.blockman_.top_block_size, bv0.size).2.1
        = dst.blockman_.top_block_size_ := e2
    have t2 : (bv0, bv0.blockman_.top_block_size, bv0.size).2.2 = dst.size_ := e1
    rw [t1] at a3 a5
    rw [t2] at a4 a6
    refine ⟨fun bv hm => by rw [← a2]; exact a8 bv hm, by rw [← a2]; exact a6,
      fun bv hm => by rw [← a1]; exact a7 bv hm, by rw [← a1]; exact a5, a1, a3,
      by rw [← a2]; exact a4⟩
  unfold aggregator.resize_target
  cases init_clear with
  | false => exact key dst rfl rfl
  | true =>
    by_cases hinit : (!dst.blockman_.is_init) = true
    · simp only [hinit, if_true]
      exact key _ rfl rfl
    · simp only [hinit, if_true, if_false]
      exact key _ rfl rfl

/-- C16: after `resize_target(dst, operands, n, init_clear)` the destination's bit length
is at least every operand's and its own prior length, its top-level extent is at least
every operand's and its own prior extent, and the returned value is the destination's
resulting top-level extent, the maximum over the destination and all operands (the
length is likewise the maximum of the lengths). -/
theorem resize_target_harmonizes (dst : bvector) (bv_src : List bvector)
    (init_clear : Bool) :
    (∀ bv, bv ∈ bv_src →
      bv.size ≤ (aggregator.resize_target dst bv_src init_clear).1.size) ∧
    dst.size ≤ (aggregator.resize_target dst bv_src init_clear).1.size ∧
    (∀ bv, bv ∈ bv_src → bv.blockman_.top_block_size
      ≤ (aggregator.resize_target dst bv_src init_clear).1.blockman_.top_block_size) ∧
    dst.blockman_.top_block_size
      ≤ (aggregator.resize_target dst bv_src init_clear).1.blockman_.top_block_size ∧
    (aggregator.resize_target dst bv_src init_clear).2
      = (aggregator.resize_target dst bv_src init_clear).1.blockman_.top_block_size ∧
    (aggregator.resize_target dst bv_src init_clear).2
      = bv_src.foldl (fun m bv => max m bv.blockman_.top_block_size)
          dst.blockman_.top_block_size ∧
    (aggregator.resize_target dst bv_src init_clear).1.size
      = bv_src.foldl (fun m bv => max m bv.size) dst.size :=
  resize_target_extents dst bv_src init_clear

/-- C17: `resize_target` called with `init_clear = false` leaves every block slot of the
destination, hence every bit, unchanged; its length and top-level extent do not
shrink. -/
theorem resize_target_keeps_slots (dst : bvector) (bv_src : List bvector) :
    (∀ i j, (aggregator.resize_target dst bv_src false).1.slot i j = dst.slot i j) ∧
    (∀ p, (aggregator.resize_target dst bv_src false).1.get_bit p = dst.get_bit p) ∧
    dst.size ≤ (aggregator.resize_target dst bv_src false).1.size ∧
    dst.blockman_.top_block_size
      ≤ (aggregator.resize_target dst bv_src false).1.blockman_.top_block_size := by
  have hs : ∀ i j, (aggregator.resize_target dst bv_src false).1.slot i j = dst.slot i j := by
    intro i j
    unfold aggregator.resize_target
    simp only [Bool.false_eq_true, if_false]
    exact (resize_target_fold_spec bv_src
      (dst, dst.blockman_.top_block_size, dst.size) rfl rfl).2.2.2.2.2.2.2.2 i j
  have hh := resize_target_extents dst bv_src false
  exact ⟨hs, fun p => by rw [get_bit_eq_slot, get_bit_eq_slot, hs], hh.2.1, hh.2.2.2.1⟩

/-! ## Effective sub-block width: the exact value -/

theorem scan_sub_blocks_value (b : Nat → block_ptr) (m : Nat) :
    ∀ J, aggregator.scan_sub_blocks b m J = m ∨
      (m < aggregator.scan_sub_blocks b m J ∧ aggregator.scan_sub_blocks b m J ≤ J ∧
        b (aggregator.scan_sub_blocks b m J) ≠ block_ptr.null) := by
  intro J
  induction J with
  | zero => left; rfl
  | succ J ih =>
    simp only [aggregator.scan_sub_blocks]
    by_cases h1 : J + 1 > m
    · rw [if_pos h1]
      by_cases h2 : b (J + 1) ≠ block_ptr.null
      · rw [if_pos h2]
        right
        exact ⟨h1, Nat.le_refl _, h2⟩
      · rw [if_neg h2]
        rcases ih with h | ⟨h3, h4, h5⟩
        · left; exact h
        · right; exact ⟨h3, by omega, h5⟩
    · rw [if_neg h1]
      left; rfl

theorem find_effective_loop_value (i : Nat) (bv_src : List bvector) :
    ∀ m, aggregator.find_effective_loop i bv_src m = m ∨
      (m < aggregator.find_effective_loop i bv_src m ∧
        aggregator.find_effective_loop i bv_src m ≤ set_array_size - 1 ∧
        ∃ bv, bv ∈ bv_src ∧
          bv.slot i (aggregator.find_effective_loop i bv_src m) ≠ block_ptr.null) := by
  induction bv_src with
  | nil => intro m; left; rfl
  | cons bv rest ih =>
    intro m
    cases hs : bv.blockman_.get_topblock i with
    | none =>
      have e : aggregator.find_effective_loop i (bv :: rest) m
          = aggregator.find_effective_loop i rest m := by
        simp [aggregator.find_effective_loop, hs]
      rw [e]
      rcases ih m with h | ⟨h1, h2, b, hb, hn⟩
      · left; exact h
      · right; exact ⟨h1, h2, b, List.mem_cons_of_mem _ hb, hn⟩
    | some sub =>
      have e : aggregator.find_effective_loop i (bv :: rest) m
          = aggregator.find_effective_loop i rest
              (aggregator.scan_sub_blocks sub m (set_array_size - 1)) := by
        simp [aggregator.find_effective_loop, hs]
      rw [e]
      have hslot : ∀ j, bv.slot i j = sub j := by
        intro j
        simp [bvector.slot, blocks_manager.get_block_ptr, hs]
      have hsc := scan_sub_blocks_value sub m (set_array_size - 1)
      have hmono := (scan_sub_blocks_spec sub m (set_array_size - 1)).1
      rcases ih (aggregator.scan_sub_blocks sub m (set_array_size - 1)) with
        h | ⟨h1, h2, b, hb, hn⟩
      · rw [h]
        rcases hsc with h3 | ⟨h3, h4, h5⟩
        · left; exact h3
        · right
          exact ⟨h3, h4, bv, List.mem_cons_self _ _, by rw [hslot]; exact h5⟩
      · right
        exact ⟨by omega, h2, b, List.mem_cons_of_mem _ hb, hn⟩

theorem find_effective_sub_block_size_eq (i : Nat) (bv_src : List bvector) :
    (∀ h, h < set_array_size → (∃ bv, bv ∈ bv_src ∧ bv.slot i h ≠ block_ptr.null) →
      (∀ bv, bv ∈ bv_src → ∀ j, h < j → j < set_array_size → bv.slot i j = block_ptr.null) →
      aggregator.find_effective_sub_block_size i bv_src = max h 1 + 1) ∧
    ((∀ bv, bv ∈ bv_src → ∀ j, j < set_array_size → bv.slot i j = block_ptr.null) →
      aggregator.find_effective_sub_block_size i bv_src = 2) := by
  have hcov := find_effective_loop_spec i bv_src 1
  have hval := find_effective_loop_value i bv_src 1
  have hsz : set_array_size = 256 := rfl
  unfold aggregator.find_effective_sub_block_size
  constructor
  · intro h hh ⟨bv, hm, hne⟩ habove
    rcases hval with hv | ⟨h1, h2, b, hb, hn⟩
    · rw [hv]
      have : h ≤ 1 := by
        by_contra hc
        apply hne
        exact hcov.2 bv hm h (by rw [hv]; omega) (by omega)
      have : max h 1 = 1 := by omega
      omega
    · have hge : h ≤ aggregator.find_effective_loop i bv_src 1 := by
        by_contra hc
        apply hne
        exact hcov.2 bv hm h (by omega) (by omega)
      have hle : aggregator.find_effective_loop i bv_src 1 ≤ h := by
        by_contra hc
        apply hn
        exact habove b hb _ (by omega) (by omega)
      have : max h 1 = h := by omega
      omega
  · intro hnone
    rcases hval with hv | ⟨h1, h2, b, hb, hn⟩
    · rw [hv]
    · exact absurd (hnone b hb _ (by omega)) hn

/-- C18 as amended: `find_effective_sub_block_size` returns `max h 1 + 1` where `h` is the
highest sub-index (below `set_array_size`) at which an operand holds a non-absent block
under top index `i`, and returns 2 (the minimum) when no operand holds a block there;
so it returns 2 whenever the highest such index is 0 or 1. -/
theorem find_effective_sub_block_size_value (i : Nat) (bv_src : List bvector) :
    (∀ h, h < set_array_size → (∃ bv, bv ∈ bv_src ∧ bv.slot i h ≠ block_ptr.null) →
      (∀ bv, bv ∈ bv_src → ∀ j, h < j → j < set_array_size → bv.slot i j = block_ptr.null) →
      aggregator.find_effective_sub_block_size i bv_src = max h 1 + 1) ∧
    ((∀ bv, bv ∈ bv_src → ∀ j, j < set_array_size → bv.slot i j = block_ptr.null) →
      aggregator.find_effective_sub_block_size i bv_src = 2) :=
  find_effective_sub_block_size_eq i bv_src

theorem sample_bvector_slot (w i j : Nat) :
    (sample_bvector w).slot i j
      = if i = 0 ∧ j = 0 then block_ptr.bit w else block_ptr.null := by
  unfold sample_bvector bvector.slot blocks_manager.get_block_ptr
    blocks_manager.get_topblock
  by_cases hi : i = 0
  · by_cases hj : j = 0
    · simp [hi, hj]
    · simp [hi, hj]
  · have : ¬ (i < 1) := by omega
    simp [hi, this]

/-- C18, at a concrete input: for the single operand whose only block is at sub-index 0
the value is `max 0 1 + 1`. -/
theorem find_effective_sub_block_size_value_witness :
    aggregator.find_effective_sub_block_size 0 [sample_bvector 1] = max 0 1 + 1 :=
  (find_effective_sub_block_size_value 0 [sample_bvector 1]).1 0 (by decide)
    ⟨sample_bvector 1, List.mem_singleton.2 rfl, by rw [sample_bvector_slot]; simp⟩
    (fun bv hm j hj _ => by
      rw [List.mem_singleton.1 hm, sample_bvector_slot]
      have : ¬ (0 = 0 ∧ j = 0) := by omega
      rw [if_neg this])

/-- C18, counterexample to the claim as stated: the highest non-absent sub-index of the
single operand is 0 (block `(0, 0)` is dense, every other slot is absent), yet
`find_effective_sub_block_size` returns 2 and not 1; with no operand at all it also
returns 2. -/
theorem find_effective_sub_block_size_not_one :
    (sample_bvector 1).slot 0 0 ≠ block_ptr.null ∧
    (∀ j, 0 < j → (sample_bvector 1).slot 0 j = block_ptr.null) ∧
    aggregator.find_effective_sub_block_size 0 [sample_bvector 1] = 2 ∧
    aggregator.find_effective_sub_block_size 0 [sample_bvector 1] ≠ 0 + 1 ∧
    aggregator.find_effective_sub_block_size 0 [] = 2 := by
  have h1 : (sample_bvector 1).slot 0 0 ≠ block_ptr.null := by
    rw [sample_bvector_slot]; simp
  have h2 : ∀ j, 0 < j → (sample_bvector 1).slot 0 j = block_ptr.null := by
    intro j hj
    rw [sample_bvector_slot]
    have : ¬ (0 = 0 ∧ j = 0) := by omega
    rw [if_neg this]
  have h3 : aggregator.find_effective_sub_block_size 0 [sample_bvector 1] = 2 :=
    (find_effective_sub_block_size_eq 0 [sample_bvector 1]).1 0 (by decide)
      ⟨sample_bvector 1, List.mem_singleton.2 rfl, h1⟩
      (fun bv hm j hj _ => by rw [List.mem_singleton.1 hm]; exact h2 j hj)
  exact ⟨h1, h2, h3, by rw [h3]; decide, rfl⟩

/-! ## `compressed_sparse_vector::push_back` -/

theorem push_back_error_iff {Val : Type} (csv : compressed_sparse_vector Val) (idx : Nat)
    (v : Val) :
    csv.push_back idx v = Except.error sv_exception.range_error ↔
      (csv.sv_.empty = false ∧ idx ≤ csv.max_id_) := by
  unfold compressed_sparse_vector.push_back
  cases he : csv.sv_.empty
  · by_cases hle : idx ≤ csv.max_id_
    · simp [hle]
    · simp [hle]
  · simp

theorem push_back_max_id {Val : Type} (csv c1 : compressed_sparse_vector Val) (idx : Nat)
    (v : Val) (h : csv.push_back idx v = Except.ok c1) :
    c1.max_id_ = idx ∧ c1.sv_.empty = false := by
  unfold compressed_sparse_vector.push_back at h
  have hne : ∀ sv : sparse_vector Val, (sv.push_back v).empty = false := by
    intro sv
    simp [sparse_vector.push_back, sparse_vector.empty]
  split_ifs at h
  · cases h; exact ⟨rfl, hne _⟩
  · cases h; exact ⟨rfl, hne _⟩

/-- C20, at the failing input: after `push_back(5, 1)` on an empty vector, `push_back(5, 2)`
(an index equal to the one used by the previous `push_back`) raises the range error,
against the documented "greater or equal"; in general a `push_back` that follows an
accepted `push_back(prev, _)` is rejected exactly when `idx <= prev`, and on an empty
vector every index is accepted. -/
theorem push_back_rejects_equal_index :
    (∃ c1, (compressed_sparse_vector.init Nat).push_back 5 1 = Except.ok c1 ∧
      c1.push_back 5 2 = Except.error sv_exception.range_error) ∧
    (∀ (csv c1 : compressed_sparse_vector Nat) (prev idx v w : Nat),
      csv.push_back prev v = Except.ok c1 →
      (c1.push_back idx w = Except.error sv_exception.range_error ↔ idx ≤ prev)) ∧
    (∀ (csv : compressed_sparse_vector Nat) (idx v : Nat), csv.sv_.empty = true →
      ∃ c1, csv.push_back idx v = Except.ok c1) := by
  refine ⟨⟨_, rfl, rfl⟩, fun csv c1 prev idx v w h => ?_, fun csv idx v he => ?_⟩
  · obtain ⟨h1, h2⟩ := push_back_max_id csv c1 prev v h
    rw [push_back_error_iff, h1, h2]
    simp
  · unfold compressed_sparse_vector.push_back
    rw [he]
    exact ⟨_, rfl⟩

/-! ## Slot-level outcome of the drivers -/

theorem driver_row_slot_spec (F : arena → Nat → Nat → bvector → bvector × arena)
    (G : Nat → Nat → Nat → Bool) (Q : Nat → Nat → block_ptr → Prop)
    (hF : ∀ ar i j (T : bvector), T.blockman_.is_init_ = true →
      i < T.blockman_.top_block_size_ → T.slot i j = block_ptr.null →
      ij_post T i j (G i j) (F ar i j T))
    (hQ : ∀ ar i j (T : bvector), T.blockman_.is_init_ = true →
      i < T.blockman_.top_block_size_ → T.slot i j = block_ptr.null →
      Q i j ((F ar i j T).1.slot i j))
    (N i m : Nat) (hi : i < N) (st0 : bvector × arena)
    (h0 : st0.1.blockman_.is_init_ = true ∧ st0.1.blockman_.top_block_size_ = N)
    (hrow : ∀ j, st0.1.slot i j = block_ptr.null) :
    ∀ j2, j2 < max m 1 →
      Q i j2 ((aggregator.do_while_sub_blocks
        (fun j (st : bvector × arena) => F st.2 i j st.1) m (m + 1) 0 st0).1.slot i j2) := by
  have key := do_while_sub_blocks_inv
    (fun j (st : bvector × arena) => F st.2 i j st.1) m
    (fun j (st : bvector × arena) =>
      st.1.blockman_.is_init_ = true ∧ st.1.blockman_.top_block_size_ = N ∧
      (∀ j2, j2 < j → Q i j2 (st.1.slot i j2)) ∧
      (∀ j2, j ≤ j2 → st.1.slot i j2 = block_ptr.null))
    (by
      intro j st ⟨p2, p3, p5, p6⟩
      have hq := hQ st.2 i j st.1 p2 (by omega) (p6 j (Nat.le_refl _))
      obtain ⟨_, q2, q3, q4, _⟩ := hF st.2 i j st.1 p2 (by omega) (p6 j (Nat.le_refl _))
      refine ⟨q2, by rw [q3, p3], fun j2 hj2 => ?_, fun j2 hj2 => ?_⟩
      · by_cases hj : j2 = j
        · subst hj; exact hq
        · rw [q4 i j2 (fun c => hj c.2)]; exact p5 j2 (by omega)
      · rw [q4 i j2 (fun c => by omega)]; exact p6 j2 (by omega))
    (m + 1) 0 st0 (by omega) (by omega)
    ⟨h0.1, h0.2, fun j2 hj2 => by omega, fun j2 _ => hrow j2⟩
  have e : max m (0 + 1) = max m 1 := by simp
  rw [e] at key
  exact key.2.2.1

theorem driver_slot_spec (F : arena → Nat → Nat → bvector → bvector × arena)
    (G : Nat → Nat → Nat → Bool) (smax : Nat → Nat) (Q : Nat → Nat → block_ptr → Prop)
    (hF : ∀ ar i j (T : bvector), T.blockman_.is_init_ = true →
      i < T.blockman_.top_block_size_ → T.slot i j = block_ptr.null →
      ij_post T i j (G i j) (F ar i j T))
    (hQ : ∀ ar i j (T : bvector), T.blockman_.is_init_ = true →
      i < T.blockman_.top_block_size_ → T.slot i j = block_ptr.null →
      Q i j ((F ar i j T).1.slot i j))
    (N : Nat) (T0 : bvector) (ar0 : arena) (h0 : fresh_target T0 N) :
    ∀ n, n ≤ N → ∀ i j, i < n → j < max (smax i) 1 →
      Q i j (((List.range n).foldl
            (fun (st : bvector × arena) i =>
              aggregator.do_while_sub_blocks
                (fun j (st : bvector × arena) => F st.2 i j st.1)
                (smax i) (smax i + 1) 0 st)
            (T0, ar0)).1.slot i j) := by
  intro n
  induction n with
  | zero => intro _ i j hi _; omega
  | succ n ih =>
    intro hn i j hi hj
    obtain ⟨p1, p2, p3, p4⟩ := driver_spec F G smax hF N T0 ar0 h0 n (by omega)
    have ihn := ih (by omega)
    rw [List.range_succ, List.foldl_append]
    simp only [List.foldl_cons, List.foldl_nil]
    generalize (List.range n).foldl
            (fun (st : bvector × arena) i =>
              aggregator.do_while_sub_blocks
                (fun j (st : bvector × arena) => F st.2 i j st.1)
                (smax i) (smax i + 1) 0 st)
            (T0, ar0) = st0 at p1 p2 p3 p4 ihn ⊢
    by_cases hin : i = n
    · subst hin
      exact driver_row_slot_spec F G Q hF hQ N i (smax i) (by omega) st0 ⟨p2, p3⟩
        (fun j => (p4 i j).2 (by omega)) j hj
    · obtain ⟨_, _, _, r4, _, _⟩ := driver_row_spec F G hF N T0.size_ n (smax n)
        (by omega) st0 ⟨p1, p2, p3⟩ (fun j => (p4 n j).2 (by omega))
      rw [r4 i j hin]
      exact ihn i j (by omega) hj

theorem combine_or_ij_slot_full (ar : arena) (i j : Nat) (T : bvector)
    (bv_src : List bvector) (hi : T.blockman_.is_init_ = true)
    (hlt : i < T.blockman_.top_block_size_)
    (hfull : ∃ bv, bv ∈ bv_src ∧ bv.slot i j = block_ptr.full) :
    (aggregator.combine_or_ij ar i j T bv_src).1.slot i j = block_ptr.full := by
  unfold aggregator.combine_or_ij
  have hs := (sort_input_blocks_or_full i j bv_src ar 0 0 hfull).1
  simp only [hs, if_true]
  show blocks_manager.get_block_ptr _ i j = _
  rw [get_block_ptr_store _ _ _ _ hi hlt, if_pos ⟨rfl, rfl⟩]

theorem combine_and_ij_of_null (ar : arena) (i j : Nat) (T : bvector)
    (bv_src : List bvector) (hnull : ∃ bv, bv ∈ bv_src ∧ bv.slot i j = block_ptr.null) :
    (aggregator.combine_and_ij ar i j T bv_src).1 = T := by
  unfold aggregator.combine_and_ij
  have hs := (sort_input_blocks_and_null i j bv_src ar 0 0 hnull).1
  simp only [hs, if_true]

/-- For every accepted, non-empty operand list, a coordinate at which some operand holds
the all-ones sentinel holds the sentinel in the destination of `combine_or`. -/
theorem combine_or_slot_full (ar : arena) (dst : bvector) (bv_src : List bvector)
    (h2 : bv_src.length < max_aggregator_cap) (i j : Nat) (hj : j < set_array_size)
    (hfull : ∃ bv, bv ∈ bv_src ∧ bv.slot i j = block_ptr.full) :
    ∃ r, aggregator.combine_or ar dst bv_src = Except.ok r ∧
      r.1.slot i j = block_ptr.full := by
  have h1 : bv_src ≠ [] := by
    obtain ⟨bv, hm, _⟩ := hfull
    exact List.ne_nil_of_mem hm
  have hg : decide (bv_src.length ≥ max_aggregator_cap) = false := by
    simp; omega
  have hl : ¬ (bv_src.length = 0) := by
    intro h; exact h1 (List.length_eq_zero.1 h)
  obtain ⟨hfresh, hext⟩ := resize_target_clear_fresh dst bv_src
  have hd := driver_slot_spec (fun ar i j T => aggregator.combine_or_ij ar i j T bv_src)
    (fun i j q => bv_src.any (fun bv => (bv.slot i j).test q))
    (fun i => aggregator.find_effective_sub_block_size i bv_src)
    (fun i j b => (∃ bv, bv ∈ bv_src ∧ bv.slot i j = block_ptr.full) → b = block_ptr.full)
    (fun ar i j T a b c => combine_or_ij_spec ar i j T bv_src a b c)
    (fun ar i j T a b _ hf => combine_or_ij_slot_full ar i j T bv_src a b hf)
    (aggregator.resize_target dst bv_src true).2
    (aggregator.resize_target dst bv_src true).1 ar hfresh
    (aggregator.resize_target dst bv_src true).2 (Nat.le_refl _) i j
  unfold aggregator.combine_or
  simp only [hg, BM_ASSERT_THROW, Bool.false_eq_true, if_false, hl]
  refine ⟨_, rfl, ?_⟩
  obtain ⟨bv, hm, hb⟩ := hfull
  apply hd
  · by_contra hc
    have := slot_null_of_extent bv i j (by have := hext bv hm; omega)
    rw [hb] at this; cases this
  · by_contra hc
    have := find_effective_sub_block_size_covers i bv_src bv hm j (by omega) hj
    rw [hb] at this; cases this
  · exact ⟨bv, hm, hb⟩

/-- For every accepted, non-empty operand list, a coordinate at which some operand is
absent is absent in the destination of `combine_and`. -/
theorem combine_and_slot_null (ar : arena) (dst : bvector) (bv_src : List bvector)
    (h1 : bv_src ≠ []) (h2 : bv_src.length < max_aggregator_cap) (i j : Nat)
    (hnull : ∃ bv, bv ∈ bv_src ∧ bv.slot i j = block_ptr.null) :
    ∃ r, aggregator.combine_and ar dst bv_src = Except.ok r ∧
      r.1.slot i j = block_ptr.null := by
  have hg : decide (bv_src.length ≥ max_aggregator_cap) = false := by
    simp; omega
  have hl : ¬ (bv_src.length = 0) := by
    intro h; exact h1 (List.length_eq_zero.1 h)
  obtain ⟨hfresh, hext⟩ := resize_target_clear_fresh dst bv_src
  have hd := driver_slot_spec (fun ar i j T => aggregator.combine_and_ij ar i j T bv_src)
    (fun i j q => bv_src.all (fun bv => (bv.slot i j).test q))
    (fun i => aggregator.find_effective_sub_block_size i bv_src)
    (fun i j b => (∃ bv, bv ∈ bv_src ∧ bv.slot i j = block_ptr.null) → b = block_ptr.null)
    (fun ar i j T a b c => combine_and_ij_spec ar i j T bv_src h1 a b c)
    (fun ar i j T _ _ c hf => by rw [combine_and_ij_of_null ar i j T bv_src hf]; exact c)
    (aggregator.resize_target dst bv_src true).2
    (aggregator.resize_target dst bv_src true).1 ar hfresh
    (aggregator.resize_target dst bv_src true).2 (Nat.le_refl _) i j
  obtain ⟨r, hr, hp⟩ := combine_and_ok ar dst bv_src h1 h2
  refine ⟨r, hr, ?_⟩
  by_cases hv : i < (aggregator.resize_target dst bv_src true).2 ∧
      j < max (aggregator.find_effective_sub_block_size i bv_src) 1
  · have e : aggregator.combine_and ar dst bv_src = Except.ok
        ((List.range (aggregator.resize_target dst bv_src true).2).foldl
          (fun (st : bvector × arena) i =>
            aggregator.do_while_sub_blocks
              (fun j (st : bvector × arena) => aggregator.combine_and_ij st.2 i j st.1 bv_src)
              (aggregator.find_effective_sub_block_size i bv_src)
              (aggregator.find_effective_sub_block_size i bv_src + 1) 0 st)
          ((aggregator.resize_target dst bv_src true).1, ar)) := by
      unfold aggregator.combine_and
      simp only [hg, BM_ASSERT_THROW, Bool.false_eq_true, if_false, hl]
    rw [e] at hr
    cases hr
    exact hd hv.1 hv.2 hnull
  · exact (hp.2.2.2 i j).2 hv

theorem sample_block_bvector_slot (b : block_ptr) (i j : Nat) :
    (sample_block_bvector b).slot i j = if i = 0 ∧ j = 0 then b else block_ptr.null := by
  unfold sample_block_bvector bvector.slot blocks_manager.get_block_ptr
    blocks_manager.get_topblock
  by_cases hi : i = 0
  · by_cases hj : j = 0
    · simp [hi, hj]
    · simp [hi, hj]
  · have : ¬ (i < 1) := by omega
    simp [hi, this]

/-- C14, at the failing input: `combine_or` on 256 operands (the cap itself) whose block
`(0, 0)` is the all-ones sentinel raises the range error and writes nothing, so slot
`(0, 0)` of the destination keeps its dense block and is not the sentinel. -/
theorem combine_or_sentinel_rejected_at_cap (ar : arena) :
    (sample_block_bvector block_ptr.full).slot 0 0 = block_ptr.full ∧
    aggregator.combine_or ar (sample_bvector 0)
        (List.replicate 256 (sample_block_bvector block_ptr.full))
      = Except.error error_code.BM_ERR_RANGE ∧
    (aggregator.target_after (sample_bvector 0)
      (aggregator.combine_or ar (sample_bvector 0)
        (List.replicate 256 (sample_block_bvector block_ptr.full)))).slot 0 0
      ≠ block_ptr.full := by
  have e := combine_or_error_of_cap ar (sample_bvector 0)
    (List.replicate 256 (sample_block_bvector block_ptr.full)) (replicate_cap_length _)
  refine ⟨by rw [sample_block_bvector_slot]; simp, e, ?_⟩
  rw [e]
  show (sample_bvector 0).slot 0 0 ≠ block_ptr.full
  rw [sample_bvector_slot]
  simp

/-- C15, at the failing input: `combine_and` on 256 operands (the cap itself) whose block
`(0, 0)` is absent raises the range error and writes nothing, so slot `(0, 0)` of the
destination keeps its dense block and is not absent. -/
theorem combine_and_absent_rejected_at_cap (ar : arena) :
    (sample_block_bvector block_ptr.null).slot 0 0 = block_ptr.null ∧
    aggregator.combine_and ar (sample_bvector 1)
        (List.replicate 256 (sample_block_bvector block_ptr.null))
      = Except.error error_code.BM_ERR_RANGE ∧
    (aggregator.target_after (sample_bvector 1)
      (aggregator.combine_and ar (sample_bvector 1)
        (List.replicate 256 (sample_block_bvector block_ptr.null)))).slot 0 0
      ≠ block_ptr.null := by
  have e := combine_and_error_of_cap ar (sample_bvector 1)
    (List.replicate 256 (sample_block_bvector block_ptr.null)) (replicate_cap_length _)
  refine ⟨by rw [sample_block_bvector_slot]; simp, e, ?_⟩
  rw [e]
  show (sample_bvector 1).slot 0 0 ≠ block_ptr.null
  rw [sample_bvector_slot]
  simp

/-! ## Independence of the arena contents at entry -/

theorem arr_upto_inj {α : Type} (f g : Nat → α) :
    ∀ n, arr_upto f n = arr_upto g n → ∀ k, k < n → f k = g k := by
  intro n
  induction n with
  | zero => intro _ k hk; omega
  | succ n ih =>
    intro h k hk
    rw [arr_upto_succ, arr_upto_succ] at h
    have hl : (arr_upto f n).length = (arr_upto g n).length := by
      rw [arr_upto_length, arr_upto_length]
    obtain ⟨h1, h2⟩ := List.append_inj h hl
    by_cases hkn : k = n
    · subst hkn
      exact List.singleton_inj.1 h2
    · exact ih h1 k (by omega)

theorem or_loop_4way_congr (v v2 : Nat → arg_blk_ptr) (c len_unr : Nat)
    (hv : ∀ t, t < c → v t = v2 t) :
    ∀ (fuel k blk : Nat), (∀ t, k + 4 * t < len_unr → k + 4 * t + 4 ≤ c) →
      aggregator.or_loop_4way v len_unr fuel k blk
        = aggregator.or_loop_4way v2 len_unr fuel k blk := by
  intro fuel
  induction fuel with
  | zero => intro k blk _; rfl
  | succ fuel ih =>
    intro k blk hb
    by_cases hlt : k < len_unr
    · have hb0 := hb 0 (by omega)
      have ih1 := fun b => ih (k + 4) b
        (fun t ht => by have := hb (t + 1) (by omega); omega)
      simp only [aggregator.or_loop_4way, hlt, if_true, ← hv k (by omega),
        ← hv (k + 1) (by omega), ← hv (k + 2) (by omega), ← hv (k + 3) (by omega), ih1]
    · simp only [aggregator.or_loop_4way, hlt, if_false]

theorem or_loop_2way_congr (v v2 : Nat → arg_blk_ptr) (c len_unr : Nat)
    (hv : ∀ t, t < c → v t = v2 t) :
    ∀ (fuel k blk : Nat), (∀ t, k + 2 * t < len_unr → k + 2 * t + 2 ≤ c) →
      aggregator.or_loop_2way v len_unr fuel k blk
        = aggregator.or_loop_2way v2 len_unr fuel k blk := by
  intro fuel
  induction fuel with
  | zero => intro k blk _; rfl
  | succ fuel ih =>
    intro k blk hb
    by_cases hlt : k < len_unr
    · have hb0 := hb 0 (by omega)
      have ih1 := fun b => ih (k + 2) b
        (fun t ht => by have := hb (t + 1) (by omega); omega)
      simp only [aggregator.or_loop_2way, hlt, if_true, ← hv k (by omega),
        ← hv (k + 1) (by omega), ih1]
    · simp only [aggregator.or_loop_2way, hlt, if_false]

theorem or_loop_1way_congr (v v2 : Nat → arg_blk_ptr) (c : Nat)
    (hv : ∀ t, t < c → v t = v2 t) :
    ∀ (fuel k blk : Nat),
      aggregator.or_loop_1way v c fuel k blk = aggregator.or_loop_1way v2 c fuel k blk := by
  intro fuel
  induction fuel with
  | zero => intro k blk; rfl
  | succ fuel ih =>
    intro k blk
    by_cases hlt : k < c
    · simp only [aggregator.or_loop_1way, hlt, if_true, ← hv k hlt, ih]
    · simp only [aggregator.or_loop_1way, hlt, if_false]

theorem gap_or_loop_congr (v v2 : Nat → gap_block) (g : Nat)
    (hv : ∀ t, t < g → v t = v2 t) :
    ∀ (fuel k blk : Nat),
      aggregator.gap_or_loop v g fuel k blk = aggregator.gap_or_loop v2 g fuel k blk := by
  intro fuel
  induction fuel with
  | zero => intro k blk; rfl
  | succ fuel ih =>
    intro k blk
    by_cases hlt : k < g
    · simp only [aggregator.gap_or_loop, hlt, if_true, ← hv k hlt, ih]
    · simp only [aggregator.gap_or_loop, hlt, if_false]

theorem gap_and_loop_congr (v v2 : Nat → gap_block) (g : Nat)
    (hv : ∀ t, t < g → v t = v2 t) :
    ∀ (fuel k blk digest : Nat),
      aggregator.gap_and_loop v g fuel k blk digest
        = aggregator.gap_and_loop v2 g fuel k blk digest := by
  intro fuel
  induction fuel with
  | zero => intro k blk digest; rfl
  | succ fuel ih =>
    intro k blk digest
    by_cases hlt : k < g
    · simp only [aggregator.gap_and_loop, hlt, if_true, ← hv k hlt, ih]
    · simp only [aggregator.gap_and_loop, hlt, if_false]

theorem gap_sub_loop_congr (v v2 : Nat → gap_block) (g : Nat)
    (hv : ∀ t, t < g → v t = v2 t) :
    ∀ (fuel k blk digest : Nat),
      aggregator.gap_sub_loop v g fuel k blk digest
        = aggregator.gap_sub_loop v2 g fuel k blk digest := by
  intro fuel
  induction fuel with
  | zero => intro k blk digest; rfl
  | succ fuel ih =>
    intro k blk digest
    by_cases hlt : k < g
    · simp only [aggregator.gap_sub_loop, hlt, if_true, ← hv k hlt, ih]
    · simp only [aggregator.gap_sub_loop, hlt, if_false]

theorem bit_and_loop_congr (v v2 : Nat → arg_blk_ptr) (c : Nat)
    (hv : ∀ t, t < c → v t = v2 t) :
    ∀ (fuel k blk digest : Nat),
      aggregator.bit_and_loop v c fuel k blk digest
        = aggregator.bit_and_loop v2 c fuel k blk digest := by
  intro fuel
  induction fuel with
  | zero => intro k blk digest; rfl
  | succ fuel ih =>
    intro k blk digest
    by_cases hlt : k < c
    · simp only [aggregator.bit_and_loop, hlt, if_true, ← hv k hlt, ih]
    · simp only [aggregator.bit_and_loop, hlt, if_false]

theorem bit_sub_loop_congr (v v2 : Nat → arg_blk_ptr) (c : Nat)
    (hv : ∀ t, t < c → v t = v2 t) :
    ∀ (fuel k blk digest : Nat),
      aggregator.bit_sub_loop v c fuel k blk digest
        = aggregator.bit_sub_loop v2 c fuel k blk digest := by
  intro fuel
  induction fuel with
  | zero => intro k blk digest; rfl
  | succ fuel ih =>
    intro k blk digest
    by_cases hlt : k < c
    · simp only [aggregator.bit_sub_loop, hlt, if_true, ← hv k hlt, ih]
    · simp only [aggregator.bit_sub_loop, hlt, if_false]

theorem masked_store_digest_all_congr (d1 d2 nb : Nat)
    (h : ∀ q, bits_in_block ≤ q → d1.testBit q = d2.testBit q) :
    masked_store d1 nb digest_all = masked_store d2 nb digest_all := by
  apply Nat.eq_of_testBit_eq
  intro q
  rw [testBit_masked_store, testBit_masked_store, testBit_digest_mask]
  by_cases hq : q < bits_in_block
  · have hw := wave_lt_of_lt q hq
    have hd : digest_all.testBit (q / set_block_digest_wave_bits) = true := by
      unfold digest_all
      rw [Nat.testBit_two_pow_sub_one]
      simpa using hw
    simp only [hw, hd, decide_True, Bool.and_self, if_true]
  · have hw : ¬ (q / set_block_digest_wave_bits < set_block_digest_waves) := by
      unfold bits_in_block at hq
      unfold set_block_digest_wave_bits set_block_digest_waves
      omega
    simp only [hw, decide_False, Bool.false_and, Bool.false_eq_true, if_false]
    exact h q (by omega)

theorem process_bit_blocks_or_rel (ar ar2 : arena) (bman : blocks_manager) (i j c : Nat)
    (hv : ∀ t, t < c → ar.v_arg_blk t = ar2.v_arg_blk t) :
    ∃ (b : blocks_manager) (t : Nat) (f : Bool),
      aggregator.process_bit_blocks_or ar bman i j c = (b, { ar with tb1 := t }, f) ∧
      aggregator.process_bit_blocks_or ar2 bman i j c = (b, { ar2 with tb1 := t }, f) := by
  have hblk : (if c ≠ 0 then (ar2.v_arg_blk 0).deref else 0)
      = (if c ≠ 0 then (ar.v_arg_blk 0).deref else 0) := by
    by_cases hc : c = 0
    · simp [hc]
    · rw [hv 0 (by omega)]
  have e4 : ∀ k blk,
      aggregator.or_loop_4way ar2.v_arg_blk ((c - k) - (c - k) % 4) ((c - k) - (c - k) % 4) k blk
        = aggregator.or_loop_4way ar.v_arg_blk ((c - k) - (c - k) % 4)
            ((c - k) - (c - k) % 4) k blk :=
    fun k blk => (or_loop_4way_congr ar.v_arg_blk ar2.v_arg_blk c _ hv _ k blk
      (fun t ht => by omega)).symm
  have e2 : ∀ k blk,
      aggregator.or_loop_2way ar2.v_arg_blk ((c - k) - (c - k) % 2) ((c - k) - (c - k) % 2) k blk
        = aggregator.or_loop_2way ar.v_arg_blk ((c - k) - (c - k) % 2)
            ((c - k) - (c - k) % 2) k blk :=
    fun k blk => (or_loop_2way_congr ar.v_arg_blk ar2.v_arg_blk c _ hv _ k blk
      (fun t ht => by omega)).symm
  have e1 : ∀ k blk,
      aggregator.or_loop_1way ar2.v_arg_blk c c k blk
        = aggregator.or_loop_1way ar.v_arg_blk c c k blk :=
    fun k blk => (or_loop_1way_congr ar.v_arg_blk ar2.v_arg_blk c hv c k blk).symm
  unfold aggregator.process_bit_blocks_or
  simp only [hblk, e4, e2, e1]
  split_ifs <;> exact ⟨_, _, _, rfl, rfl⟩

theorem process_gap_blocks_or_rel (ar ar2 : arena) (bman : blocks_manager) (i j g : Nat)
    (ht : ar.tb1 = ar2.tb1)
    (hv : ∀ t, t < g → ar.v_arg_blk_gap t = ar2.v_arg_blk_gap t) :
    ∃ (b : blocks_manager) (t : Nat) (f : Bool),
      aggregator.process_gap_blocks_or ar bman i j g = (b, { ar with tb1 := t }, f) ∧
      aggregator.process_gap_blocks_or ar2 bman i j g = (b, { ar2 with tb1 := t }, f) := by
  unfold aggregator.process_gap_blocks_or
  simp only [← ht, ← gap_or_loop_congr ar.v_arg_blk_gap ar2.v_arg_blk_gap g hv]
  split_ifs <;> exact ⟨_, _, _, rfl, rfl⟩

theorem process_bit_blocks_and_rel (ar ar2 : arena) (c d0 : Nat)
    (hv : ∀ t, t < c → ar.v_arg_blk t = ar2.v_arg_blk t)
    (ht : ∀ q, bits_in_block ≤ q → ar.tb1.testBit q = ar2.tb1.testBit q) :
    ∃ (t d : Nat),
      aggregator.process_bit_blocks_and ar c d0 = ({ ar with tb1 := t }, d) ∧
      aggregator.process_bit_blocks_and ar2 c d0 = ({ ar2 with tb1 := t }, d) := by
  match c, hv with
  | 0, _ =>
    rw [process_bit_blocks_and_zero, process_bit_blocks_and_zero]
    exact ⟨_, _, rfl, rfl⟩
  | 1, hv =>
    rw [process_bit_blocks_and_one, process_bit_blocks_and_one, ← hv 0 (by omega)]
    exact ⟨_, _, rfl, rfl⟩
  | n + 2, hv =>
    rw [process_bit_blocks_and_more, process_bit_blocks_and_more]
    have e0 : bit_block_and_2way ar2.tb1 (ar2.v_arg_blk 0).deref (ar2.v_arg_blk 1).deref
        digest_all
        = bit_block_and_2way ar.tb1 (ar.v_arg_blk 0).deref (ar.v_arg_blk 1).deref
            digest_all := by
      rw [← hv 0 (by omega), ← hv 1 (by omega)]
      unfold bit_block_and_2way
      rw [masked_store_digest_all_congr ar2.tb1 ar.tb1 _ (fun q hq => (ht q hq).symm)]
    rw [e0, ← bit_and_loop_congr ar.v_arg_blk ar2.v_arg_blk (n + 2) hv]
    exact ⟨_, _, rfl, rfl⟩

theorem process_gap_blocks_and_rel (ar ar2 : arena) (g d : Nat)
    (ht : ar.tb1 = ar2.tb1)
    (hv : ∀ t, t < g → ar.v_arg_blk_gap t = ar2.v_arg_blk_gap t) :
    ∃ (t d1 : Nat),
      aggregator.process_gap_blocks_and ar g d = ({ ar with tb1 := t }, d1) ∧
      aggregator.process_gap_blocks_and ar2 g d = ({ ar2 with tb1 := t }, d1) := by
  unfold aggregator.process_gap_blocks_and
  simp only [← ht, ← gap_and_loop_congr ar.v_arg_blk_gap ar2.v_arg_blk_gap g hv]
  exact ⟨_, _, rfl, rfl⟩

theorem process_bit_blocks_sub_rel (ar ar2 : arena) (c d : Nat)
    (ht : ar.tb1 = ar2.tb1)
    (hv : ∀ t, t < c → ar.v_arg_blk t = ar2.v_arg_blk t) :
    ∃ (t d1 : Nat),
      aggregator.process_bit_blocks_sub ar c d = ({ ar with tb1 := t }, d1) ∧
      aggregator.process_bit_blocks_sub ar2 c d = ({ ar2 with tb1 := t }, d1) := by
  unfold aggregator.process_bit_blocks_sub
  simp only [← ht, ← bit_sub_loop_congr ar.v_arg_blk ar2.v_arg_blk c hv]
  exact ⟨_, _, rfl, rfl⟩

theorem process_gap_blocks_sub_rel (ar ar2 : arena) (g d : Nat)
    (ht : ar.tb1 = ar2.tb1)
    (hv : ∀ t, t < g → ar.v_arg_blk_gap t = ar2.v_arg_blk_gap t) :
    ∃ (t d1 : Nat),
      aggregator.process_gap_blocks_sub ar g d = ({ ar with tb1 := t }, d1) ∧
      aggregator.process_gap_blocks_sub ar2 g d = ({ ar2 with tb1 := t }, d1) := by
  unfold aggregator.process_gap_blocks_sub
  simp only [← ht, ← gap_sub_loop_congr ar.v_arg_blk_gap ar2.v_arg_blk_gap g hv]
  exact ⟨_, _, rfl, rfl⟩

theorem args_eq_update_dense (ar ar2 : arena) (c g : Nat) (x : arg_blk_ptr)
    (h : args_eq ar ar2 c g) :
    args_eq { ar with v_arg_blk := Function.update ar.v_arg_blk c x }
      { ar2 with v_arg_blk := Function.update ar2.v_arg_blk c x } (c + 1) g := by
  refine ⟨fun t ht => ?_, h.2⟩
  show Function.update ar.v_arg_blk c x t = Function.update ar2.v_arg_blk c x t
  by_cases htc : t = c
  · subst htc
    rw [Function.update_same, Function.update_same]
  · rw [Function.update_noteq htc, Function.update_noteq htc]
    exact h.1 t (by omega)

theorem args_eq_update_gap (ar ar2 : arena) (c g : Nat) (x : gap_block)
    (h : args_eq ar ar2 c g) :
    args_eq { ar with v_arg_blk_gap := Function.update ar.v_arg_blk_gap g x }
      { ar2 with v_arg_blk_gap := Function.update ar2.v_arg_blk_gap g x } c (g + 1) := by
  refine ⟨h.1, fun t ht => ?_⟩
  show Function.update ar.v_arg_blk_gap g x t = Function.update ar2.v_arg_blk_gap g x t
  by_cases htg : t = g
  · subst htg
    rw [Function.update_same, Function.update_same]
  · rw [Function.update_noteq htg, Function.update_noteq htg]
    exact h.2 t (by omega)

theorem sort_input_blocks_or_rel (i j : Nat) (bv_src : List bvector) :
    ∀ (ar ar2 : arena) (c g : Nat), args_eq ar ar2 c g →
      ∃ (b : block_ptr) (c1 g1 : Nat) (a a2 : arena),
        aggregator.sort_input_blocks_or i j bv_src ar c g = (b, a, c1, g1) ∧
        aggregator.sort_input_blocks_or i j bv_src ar2 c g = (b, a2, c1, g1) ∧
        a.tb1 = ar.tb1 ∧ a2.tb1 = ar2.tb1 ∧
        (b ≠ block_ptr.full → args_eq a a2 c1 g1) := by
  induction bv_src with
  | nil =>
    intro ar ar2 c g h
    exact ⟨_, _, _, _, _, rfl, rfl, rfl, rfl, fun _ => h⟩
  | cons bv rest ih =>
    intro ar ar2 c g h
    cases hs : bv.blockman_.get_block_ptr i j with
    | null =>
      simp only [aggregator.sort_input_blocks_or, hs]
      exact ih ar ar2 c g h
    | full =>
      simp only [aggregator.sort_input_blocks_or, hs]
      exact ⟨_, _, _, _, _, rfl, rfl, rfl, rfl, fun hne => absurd rfl hne⟩
    | bit w =>
      simp only [aggregator.sort_input_blocks_or, hs]
      obtain ⟨b, c1, g1, a, a2, h1, h2, h3, h4, h5⟩ :=
        ih _ _ (c + 1) g (args_eq_update_dense ar ar2 c g (arg_blk_ptr.blk w) h)
      exact ⟨b, c1, g1, a, a2, h1, h2, h3, h4, h5⟩
    | gap gb =>
      simp only [aggregator.sort_input_blocks_or, hs]
      obtain ⟨b, c1, g1, a, a2, h1, h2, h3, h4, h5⟩ :=
        ih _ _ c (g + 1) (args_eq_update_gap ar ar2 c g gb h)
      exact ⟨b, c1, g1, a, a2, h1, h2, h3, h4, h5⟩

theorem sort_input_blocks_and_rel (i j : Nat) (bv_src : List bvector) :
    ∀ (ar ar2 : arena) (c g : Nat), args_eq ar ar2 c g →
      ∃ (b : block_ptr) (c1 g1 : Nat) (a a2 : arena),
        aggregator.sort_input_blocks_and i j bv_src ar c g = (b, a, c1, g1) ∧
        aggregator.sort_input_blocks_and i j bv_src ar2 c g = (b, a2, c1, g1) ∧
        a.tb1 = ar.tb1 ∧ a2.tb1 = ar2.tb1 ∧
        (b ≠ block_ptr.null → args_eq a a2 c1 g1) := by
  induction bv_src with
  | nil =>
    intro ar ar2 c g h
    exact ⟨_, _, _, _, _, rfl, rfl, rfl, rfl, fun _ => h⟩
  | cons bv rest ih =>
    intro ar ar2 c g h
    cases hs : bv.blockman_.get_block_ptr i j with
    | null =>
      simp only [aggregator.sort_input_blocks_and, hs]
      exact ⟨_, _, _, _, _, rfl, rfl, rfl, rfl, fun hne => absurd rfl hne⟩
    | full =>
      simp only [aggregator.sort_input_blocks_and, hs]
      obtain ⟨b, c1, g1, a, a2, h1, h2, h3, h4, h5⟩ :=
        ih _ _ (c + 1) g (args_eq_update_dense ar ar2 c g arg_blk_ptr.real_full h)
      exact ⟨b, c1, g1, a, a2, h1, h2, h3, h4, h5⟩
    | bit w =>
      simp only [aggregator.sort_input_blocks_and, hs]
      obtain ⟨b, c1, g1, a, a2, h1, h2, h3, h4, h5⟩ :=
        ih _ _ (c + 1) g (args_eq_update_dense ar ar2 c g (arg_blk_ptr.blk w) h)
      exact ⟨b, c1, g1, a, a2, h1, h2, h3, h4, h5⟩
    | gap gb =>
      simp only [aggregator.sort_input_blocks_and, hs]
      obtain ⟨b, c1, g1, a, a2, h1, h2, h3, h4, h5⟩ :=
        ih _ _ c (g + 1) (args_eq_update_gap ar ar2 c g gb h)
      exact ⟨b, c1, g1, a, a2, h1, h2, h3, h4, h5⟩

theorem args_eq_zero (ar ar2 : arena) : args_eq ar ar2 0 0 :=
  ⟨fun t ht => by omega, fun t ht => by omega⟩

theorem scratch_high_eq_of_eq (ar ar2 : arena) (h : ar.tb1 = ar2.tb1) :
    scratch_high_eq ar ar2 := fun q _ => by rw [h]

theorem combine_or_ij_rel (ar ar2 : arena) (i j : Nat) (T : bvector) (bv_src : List bvector)
    (ht : scratch_high_eq ar ar2) :
    (aggregator.combine_or_ij ar i j T bv_src).1
      = (aggregator.combine_or_ij ar2 i j T bv_src).1 ∧
    scratch_high_eq (aggregator.combine_or_ij ar i j T bv_src).2
      (aggregator.combine_or_ij ar2 i j T bv_src).2 := by
  obtain ⟨b, c, g, a, a2, hs, hs2, ht1, ht2, hag⟩ :=
    sort_input_blocks_or_rel i j bv_src ar ar2 0 0 (args_eq_zero ar ar2)
  have hta : scratch_high_eq a a2 := fun q hq => by rw [ht1, ht2]; exact ht q hq
  unfold aggregator.combine_or_ij
  simp only [hs, hs2]
  by_cases hb : b = block_ptr.full
  · rw [if_pos hb, if_pos hb]
    exact ⟨rfl, hta⟩
  · rw [if_neg hb, if_neg hb]
    obtain ⟨hd, hg⟩ := hag hb
    by_cases hcg : c ≠ 0 ∨ g ≠ 0
    · rw [if_pos hcg, if_pos hcg]
      obtain ⟨bm, t, f, hp, hp2⟩ := process_bit_blocks_or_rel a a2 T.blockman_ i j c hd
      rw [hp, hp2]
      cases f with
      | true => exact ⟨by trivial, scratch_high_eq_of_eq _ _ rfl⟩
      | false =>
        by_cases hg0 : g ≠ 0
        · obtain ⟨bm2, t2, f2, hq, hq2⟩ :=
            process_gap_blocks_or_rel { a with tb1 := t } { a2 with tb1 := t } bm i j g rfl hg
          simp only [hg0, ne_eq, not_false_eq_true, if_true, hq, hq2, Bool.false_eq_true,
            if_false]
          cases f2 with
          | true => exact ⟨by trivial, scratch_high_eq_of_eq _ _ rfl⟩
          | false => exact ⟨by trivial, scratch_high_eq_of_eq _ _ rfl⟩
        · simp only [hg0, if_false, Bool.false_eq_true]
          exact ⟨by trivial, scratch_high_eq_of_eq _ _ rfl⟩
    · rw [if_neg hcg, if_neg hcg]
      exact ⟨rfl, hta⟩

theorem combine_and_ij_rel (ar ar2 : arena) (i j : Nat) (T : bvector) (bv_src : List bvector)
    (ht : scratch_high_eq ar ar2) :
    (aggregator.combine_and_ij ar i j T bv_src).1
      = (aggregator.combine_and_ij ar2 i j T bv_src).1 ∧
    scratch_high_eq (aggregator.combine_and_ij ar i j T bv_src).2
      (aggregator.combine_and_ij ar2 i j T bv_src).2 := by
  obtain ⟨b, c, g, a, a2, hs, hs2, ht1, ht2, hag⟩ :=
    sort_input_blocks_and_rel i j bv_src ar ar2 0 0 (args_eq_zero ar ar2)
  have hta : scratch_high_eq a a2 := fun q hq => by rw [ht1, ht2]; exact ht q hq
  unfold aggregator.combine_and_ij
  simp only [hs, hs2]
  by_cases hb : b = block_ptr.null
  · rw [if_pos hb, if_pos hb]
    exact ⟨rfl, hta⟩
  · rw [if_neg hb, if_neg hb]
    obtain ⟨hd, hg⟩ := hag hb
    by_cases hcg : c ≠ 0 ∨ g ≠ 0
    · rw [if_pos hcg, if_pos hcg]
      obtain ⟨t, d, hp, hp2⟩ := process_bit_blocks_and_rel a a2 c 0 hd hta
      rw [hp, hp2]
      by_cases hd0 : d = 0
      · simp only [hd0, if_true]
        exact ⟨by trivial, scratch_high_eq_of_eq _ _ rfl⟩
      · by_cases hg0 : g ≠ 0
        · obtain ⟨t2, d2, hq, hq2⟩ :=
            process_gap_blocks_and_rel { a with tb1 := t } { a2 with tb1 := t } g d rfl hg
          simp only [hd0, hg0, ne_eq, not_false_eq_true, if_true, if_false, hq, hq2]
          by_cases hd2 : d2 = 0
          · simp only [hd2, not_true_eq_false, if_false]
            exact ⟨by trivial, scratch_high_eq_of_eq _ _ rfl⟩
          · simp only [hd2, not_false_eq_true, if_true]
            exact ⟨by trivial, scratch_high_eq_of_eq _ _ rfl⟩
        · simp only [hd0, hg0, not_false_eq_true, if_true, if_false, ne_eq]
          exact ⟨by trivial, scratch_high_eq_of_eq _ _ rfl⟩
    · rw [if_neg hcg, if_neg hcg]
      exact ⟨rfl, hta⟩

theorem combine_and_sub_ij_tail_rel (ar ar2 : arena) (i j : Nat) (T : bvector)
    (bv_src_sub : List bvector) (digest : Nat) (ht : ar.tb1 = ar2.tb1) :
    (aggregator.combine_and_sub_ij_tail ar i j T bv_src_sub digest).1
      = (aggregator.combine_and_sub_ij_tail ar2 i j T bv_src_sub digest).1 ∧
    scratch_high_eq (aggregator.combine_and_sub_ij_tail ar i j T bv_src_sub digest).2
      (aggregator.combine_and_sub_ij_tail ar2 i j T bv_src_sub digest).2 := by
  obtain ⟨b, c, g, a, a2, hs, hs2, ht1, ht2, hag⟩ :=
    sort_input_blocks_or_rel i j bv_src_sub ar ar2 0 0 (args_eq_zero ar ar2)
  have hta : a.tb1 = a2.tb1 := by rw [ht1, ht2, ht]
  have hst : ∀ (x x2 : arena), x.tb1 = x2.tb1 →
      aggregator.store_temp_block x T i j = aggregator.store_temp_block x2 T i j := by
    intro x x2 hx
    unfold aggregator.store_temp_block
    rw [hx]
  unfold aggregator.combine_and_sub_ij_tail
  simp only [hs, hs2]
  by_cases hl : bv_src_sub.length ≠ 0
  · rw [if_pos hl, if_pos hl]
    by_cases hb : b = block_ptr.full
    · rw [if_pos hb, if_pos hb]
      exact ⟨rfl, scratch_high_eq_of_eq _ _ hta⟩
    · rw [if_neg hb, if_neg hb]
      obtain ⟨hd, hg⟩ := hag hb
      by_cases hcg : c ≠ 0 ∨ g ≠ 0
      · rw [if_pos hcg, if_pos hcg]
        obtain ⟨t, d, hp, hp2⟩ := process_bit_blocks_sub_rel a a2 c digest hta hd
        rw [hp, hp2]
        by_cases hd0 : d = 0
        · simp only [hd0, if_true]
          exact ⟨by trivial, scratch_high_eq_of_eq _ _ rfl⟩
        · by_cases hg0 : g ≠ 0
          · obtain ⟨t2, d2, hq, hq2⟩ :=
              process_gap_blocks_sub_rel { a with tb1 := t } { a2 with tb1 := t } g d rfl hg
            simp only [hd0, hg0, ne_eq, not_false_eq_true, if_true, if_false, hq, hq2]
            by_cases hd2 : d2 = 0
            · simp only [hd2, not_true_eq_false, if_false]
              exact ⟨by trivial, scratch_high_eq_of_eq _ _ rfl⟩
            · simp only [hd2, not_false_eq_true, if_true]
              exact ⟨by trivial, scratch_high_eq_of_eq _ _ rfl⟩
          · simp only [hd0, hg0, not_false_eq_true, if_true, if_false, ne_eq]
            exact ⟨by trivial, scratch_high_eq_of_eq _ _ rfl⟩
      · rw [if_neg hcg, if_neg hcg]
        by_cases hd0 : digest ≠ 0
        · rw [if_pos hd0, if_pos hd0]
          exact ⟨hst a a2 hta, scratch_high_eq_of_eq _ _ hta⟩
        · rw [if_neg hd0, if_neg hd0]
          exact ⟨rfl, scratch_high_eq_of_eq _ _ hta⟩
  · rw [if_neg hl, if_neg hl]
    by_cases hd0 : digest ≠ 0
    · rw [if_pos hd0, if_pos hd0]
      exact ⟨hst ar ar2 ht, scratch_high_eq_of_eq _ _ ht⟩
    · rw [if_neg hd0, if_neg hd0]
      exact ⟨rfl, scratch_high_eq_of_eq _ _ ht⟩

theorem combine_and_sub_ij_rel (ar ar2 : arena) (i j : Nat) (T : bvector)
    (bv_src_and bv_src_sub : List bvector) (ht : scratch_high_eq ar ar2) :
    (aggregator.combine_and_sub_ij ar i j T bv_src_and bv_src_sub).1
      = (aggregator.combine_and_sub_ij ar2 i j T bv_src_and bv_src_sub).1 ∧
    scratch_high_eq (aggregator.combine_and_sub_ij ar i j T bv_src_and bv_src_sub).2
      (aggregator.combine_and_sub_ij ar2 i j T bv_src_and bv_src_sub).2 := by
  obtain ⟨b, c, g, a, a2, hs, hs2, ht1, ht2, hag⟩ :=
    sort_input_blocks_and_rel i j bv_src_and ar ar2 0 0 (args_eq_zero ar ar2)
  have hta : scratch_high_eq a a2 := fun q hq => by rw [ht1, ht2]; exact ht q hq
  unfold aggregator.combine_and_sub_ij
  simp only [hs, hs2]
  by_cases hb : b = block_ptr.null
  · rw [if_pos hb, if_pos hb]
    exact ⟨rfl, hta⟩
  · rw [if_neg hb, if_neg hb]
    obtain ⟨hd, hg⟩ := hag hb
    by_cases hcg : c ≠ 0 ∨ g ≠ 0
    · rw [if_pos hcg, if_pos hcg]
      obtain ⟨t, d, hp, hp2⟩ := process_bit_blocks_and_rel a a2 c 0 hd hta
      rw [hp, hp2]
      by_cases hd0 : d = 0
      · simp only [hd0, if_true]
        exact ⟨by trivial, scratch_high_eq_of_eq _ _ rfl⟩
      · by_cases hg0 : g ≠ 0
        · obtain ⟨t2, d2, hq, hq2⟩ :=
            process_gap_blocks_and_rel { a with tb1 := t } { a2 with tb1 := t } g d rfl hg
          simp only [hd0, hg0, ne_eq, not_false_eq_true, if_true, if_false, hq, hq2]
          by_cases hd2 : d2 = 0
          · simp only [hd2, if_true]
            exact ⟨by trivial, scratch_high_eq_of_eq _ _ rfl⟩
          · simp only [hd2, if_false]
            exact combine_and_sub_ij_tail_rel _ _ i j T bv_src_sub d2 rfl
        · simp only [hd0, hg0, if_false]
          exact combine_and_sub_ij_tail_rel _ _ i j T bv_src_sub d rfl
    · rw [if_neg hcg, if_neg hcg]
      exact ⟨rfl, hta⟩

theorem do_while_sub_blocks_rel {σ : Type} (body : Nat → σ → σ) (R : σ → σ → Prop)
    (h : ∀ j s s2, R s s2 → R (body j s) (body j s2)) (m : Nat) :
    ∀ (fuel j : Nat) (s s2 : σ), R s s2 →
      R (aggregator.do_while_sub_blocks body m fuel j s)
        (aggregator.do_while_sub_blocks body m fuel j s2) := by
  intro fuel
  induction fuel with
  | zero => intro j s s2 hr; exact hr
  | succ fuel ih =>
    intro j s s2 hr
    simp only [aggregator.do_while_sub_blocks]
    split_ifs
    · exact ih _ _ _ (h j s s2 hr)
    · exact h j s s2 hr

theorem foldl_rel {σ α : Type} (f : σ → α → σ) (R : σ → σ → Prop)
    (h : ∀ s s2 a, R s s2 → R (f s a) (f s2 a)) :
    ∀ (l : List α) (s s2 : σ), R s s2 → R (l.foldl f s) (l.foldl f s2) := by
  intro l
  induction l with
  | nil => intro s s2 hr; exact hr
  | cons a l ih =>
    intro s s2 hr
    exact ih _ _ (h s s2 a hr)

theorem driver_rel (F : arena → Nat → Nat → bvector → bvector × arena)
    (hF : ∀ ar ar2 i j (T : bvector), scratch_high_eq ar ar2 →
      (F ar i j T).1 = (F ar2 i j T).1 ∧ scratch_high_eq (F ar i j T).2 (F ar2 i j T).2)
    (smax : Nat → Nat) (N : Nat) (T0 : bvector) (ar ar2 : arena)
    (ht : scratch_high_eq ar ar2) :
    ((List.range N).foldl
        (fun (st : bvector × arena) i =>
          aggregator.do_while_sub_blocks
            (fun j (st : bvector × arena) => F st.2 i j st.1)
            (smax i) (smax i + 1) 0 st)
        (T0, ar)).1
      = ((List.range N).foldl
        (fun (st : bvector × arena) i =>
          aggregator.do_while_sub_blocks
            (fun j (st : bvector × arena) => F st.2 i j st.1)
            (smax i) (smax i + 1) 0 st)
        (T0, ar2)).1 := by
  have key := foldl_rel
    (fun (st : bvector × arena) i =>
      aggregator.do_while_sub_blocks
        (fun j (st : bvector × arena) => F st.2 i j st.1)
        (smax i) (smax i + 1) 0 st)
    (fun s s2 => s.1 = s2.1 ∧ scratch_high_eq s.2 s2.2)
    (fun s s2 i hr =>
      do_while_sub_blocks_rel (fun j (st : bvector × arena) => F st.2 i j st.1)
        (fun s s2 => s.1 = s2.1 ∧ scratch_high_eq s.2 s2.2)
        (fun j s s2 hr => by
          show (F s.2 i j s.1).1 = (F s2.2 i j s2.1).1 ∧
            scratch_high_eq (F s.2 i j s.1).2 (F s2.2 i j s2.1).2
          rw [hr.1]
          exact hF s.2 s2.2 i j s2.1 hr.2)
        (smax i) (smax i + 1) 0 s s2 hr)
    (List.range N) (T0, ar) (T0, ar2) ⟨rfl, ht⟩
  exact key.1

theorem combine_or_arena_rel (ar ar2 : arena) (dst : bvector) (bv_src : List bvector)
    (ht : scratch_high_eq ar ar2) :
    (aggregator.combine_or ar dst bv_src).map Prod.fst
      = (aggregator.combine_or ar2 dst bv_src).map Prod.fst := by
  unfold aggregator.combine_or
  cases hg : decide (bv_src.length ≥ max_aggregator_cap) with
  | true => simp only [BM_ASSERT_THROW, if_true]
  | false =>
    simp only [BM_ASSERT_THROW, Bool.false_eq_true, if_false]
    by_cases hl : bv_src.length = 0
    · simp only [hl, if_true]
      rfl
    · simp only [hl, if_false]
      show Except.ok _ = Except.ok _
      rw [driver_rel (fun ar i j T => aggregator.combine_or_ij ar i j T bv_src)
        (fun ar ar2 i j T h => combine_or_ij_rel ar ar2 i j T bv_src h)
        (fun i => aggregator.find_effective_sub_block_size i bv_src) _ _ ar ar2 ht]

theorem combine_and_arena_rel (ar ar2 : arena) (dst : bvector) (bv_src : List bvector)
    (ht : scratch_high_eq ar ar2) :
    (aggregator.combine_and ar dst bv_src).map Prod.fst
      = (aggregator.combine_and ar2 dst bv_src).map Prod.fst := by
  unfold aggregator.combine_and
  cases hg : decide (bv_src.length ≥ max_aggregator_cap) with
  | true => simp only [BM_ASSERT_THROW, if_true]
  | false =>
    simp only [BM_ASSERT_THROW, Bool.false_eq_true, if_false]
    by_cases hl : bv_src.length = 0
    · simp only [hl, if_true]
      rfl
    · simp only [hl, if_false]
      show Except.ok _ = Except.ok _
      rw [driver_rel (fun ar i j T => aggregator.combine_and_ij ar i j T bv_src)
        (fun ar ar2 i j T h => combine_and_ij_rel ar ar2 i j T bv_src h)
        (fun i => aggregator.find_effective_sub_block_size i bv_src) _ _ ar ar2 ht]

theorem combine_and_sub_with_arena_rel (src_size : Nat) (ar ar2 : arena) (dst : bvector)
    (A B : List bvector) (ht : scratch_high_eq ar ar2) :
    (aggregator.combine_and_sub_with src_size ar dst A B).map Prod.fst
      = (aggregator.combine_and_sub_with src_size ar2 dst A B).map Prod.fst := by
  unfold aggregator.combine_and_sub_with
  cases hg : decide (A.length ≥ max_aggregator_cap) with
  | true => simp only [BM_ASSERT_THROW, if_true]
  | false =>
    cases hg2 : decide (B.length ≥ max_aggregator_cap) with
    | true => simp only [BM_ASSERT_THROW, if_true, Bool.false_eq_true, if_false]
    | false =>
      simp only [BM_ASSERT_THROW, Bool.false_eq_true, if_false]
      by_cases hl : src_size = 0
      · simp only [hl, if_true]
        rfl
      · simp only [hl, if_false]
        show Except.ok _ = Except.ok _
        rw [driver_rel
          (fun ar i j T => aggregator.combine_and_sub_ij ar i j T A B)
          (fun ar ar2 i j T h => combine_and_sub_ij_rel ar ar2 i j T A B h)
          (fun i =>
            if B.length ≠ 0 then
              if aggregator.find_effective_sub_block_size i B
                  > aggregator.find_effective_sub_block_size i A then
                aggregator.find_effective_sub_block_size i B
              else aggregator.find_effective_sub_block_size i A
            else aggregator.find_effective_sub_block_size i A) _ _ ar ar2 ht]

theorem scratch_high_eq_of_lt (ar ar2 : arena) (h1 : ar.tb1 < 2 ^ bits_in_block)
    (h2 : ar2.tb1 < 2 ^ bits_in_block) : scratch_high_eq ar ar2 := by
  intro q hq
  rw [Nat.testBit_lt_two_pow (Nat.lt_of_lt_of_le h1 (Nat.pow_le_pow_right (by decide) hq)),
    Nat.testBit_lt_two_pow (Nat.lt_of_lt_of_le h2 (Nat.pow_le_pow_right (by decide) hq))]

theorem sample_arenas_high_eq :
    ∀ q, bits_in_block ≤ q → sample_arena.tb1.testBit q = sample_arena_used.tb1.testBit q := by
  intro q hq
  have h3 : 3 ≤ q := by unfold bits_in_block at hq; omega
  show Nat.testBit 0 q = Nat.testBit 5 q
  rw [Nat.zero_testBit,
    Nat.testBit_lt_two_pow (Nat.lt_of_lt_of_le (by decide : 5 < 2 ^ 3)
      (Nat.pow_le_pow_right (by decide) h3))]

/-- C19: the destination produced by `combine_or`, `combine_and` and `combine_and_sub`
does not depend on the arena's contents at entry.  Two runs on the same destination and
operands, started from arenas `ar` and `ar2` with arbitrary operand-pointer arrays and
arbitrary dense scratch blocks, have the same outcome: both raise the same error or both
return the same destination (same length, same block table, same block in every slot).
The scratch blocks are blocks of `bits_in_block` bits: they agree at the positions at or
above `bits_in_block`, where a block has no bit. -/
theorem combine_independent_of_arena (ar ar2 : arena) (dst : bvector)
    (A B : List bvector)
    (h : ∀ q, bits_in_block ≤ q → ar.tb1.testBit q = ar2.tb1.testBit q) :
    (aggregator.combine_or ar dst A).map Prod.fst
      = (aggregator.combine_or ar2 dst A).map Prod.fst ∧
    (aggregator.combine_and ar dst A).map Prod.fst
      = (aggregator.combine_and ar2 dst A).map Prod.fst ∧
    (aggregator.combine_and_sub ar dst A B).map Prod.fst
      = (aggregator.combine_and_sub ar2 dst A B).map Prod.fst :=
  ⟨combine_or_arena_rel ar ar2 dst A h, combine_and_arena_rel ar ar2 dst A h,
    combine_and_sub_with_arena_rel A.length ar ar2 dst A B h⟩

/-- C19, at a concrete input: an unused arena and one left by an earlier call (other
scratch block, other operand arrays) give the same outcome for two dense operands and
one dense subtrahend. -/
theorem combine_independent_of_arena_witness :
    (∀ q, bits_in_block ≤ q →
      sample_arena.tb1.testBit q = sample_arena_used.tb1.testBit q) ∧
    ((aggregator.combine_or sample_arena (sample_bvector 0)
        [sample_bvector 3, sample_bvector 5]).map Prod.fst
      = (aggregator.combine_or sample_arena_used (sample_bvector 0)
        [sample_bvector 3, sample_bvector 5]).map Prod.fst ∧
    (aggregator.combine_and sample_arena (sample_bvector 0)
        [sample_bvector 3, sample_bvector 5]).map Prod.fst
      = (aggregator.combine_and sample_arena_used (sample_bvector 0)
        [sample_bvector 3, sample_bvector 5]).map Prod.fst ∧
    (aggregator.combine_and_sub sample_arena (sample_bvector 0)
        [sample_bvector 3, sample_bvector 5] [sample_bvector 1]).map Prod.fst
      = (aggregator.combine_and_sub sample_arena_used (sample_bvector 0)
        [sample_bvector 3, sample_bvector 5] [sample_bvector 1]).map Prod.fst) :=
  ⟨sample_arenas_high_eq,
    combine_independent_of_arena sample_arena sample_arena_used (sample_bvector 0)
      [sample_bvector 3, sample_bvector 5] [sample_bvector 1] sample_arenas_high_eq⟩

/-! ## The compressed sparse vector: copy assignment and comparison -/

theorem sparse_vector_equal_self {Val : Type} [DecidableEq Val] (sv : sparse_vector Val) :
    sv.equal sv = true := by
  unfold sparse_vector.equal
  simp

theorem assign_equal_iff {Val : Type} [DecidableEq Val]
    (a b : compressed_sparse_vector Val) :
    (a.assign b).equal b = true ↔ a.max_id_ = b.max_id_ := by
  unfold compressed_sparse_vector.equal compressed_sparse_vector.assign
  by_cases h : a.max_id_ = b.max_id_
  · simp [h, sparse_vector_equal_self]
  · simp [h]

/-- C21, at the failing input: `a` is a freshly constructed vector and `b` the vector
after `push_back(5, 1)`.  After `a = b` the two hold the same `sv_`, yet `a.equal(b)`
returns false (`operator=` leaves `a.max_id_` at 0, `b.max_id_` is 5), and `a` accepts
`push_back(3, 7)` where `b` raises the range error.  In general `a.equal(b)` after
`a = b` is true exactly when `a.max_id_` was `b.max_id_` before. -/
theorem assign_then_equal_is_false :
    (∃ b, (compressed_sparse_vector.init Nat).push_back 5 1 = Except.ok b ∧
      ((compressed_sparse_vector.init Nat).assign b).sv_ = b.sv_ ∧
      ((compressed_sparse_vector.init Nat).assign b).equal b = false ∧
      (∃ c, ((compressed_sparse_vector.init Nat).assign b).push_back 3 7 = Except.ok c) ∧
      b.push_back 3 7 = Except.error sv_exception.range_error) ∧
    ∀ (a b : compressed_sparse_vector Nat),
      ((a.assign b).equal b = true ↔ a.max_id_ = b.max_id_) := by
  refine ⟨⟨_, rfl, rfl, ?_, ⟨_, rfl⟩, rfl⟩, fun a b => assign_equal_iff a b⟩
  rw [← Bool.not_eq_true, assign_equal_iff]
  decide

/-! ## Effective sub-block width: bounds -/

/-- C27: the value `s` returned by `find_effective_sub_block_size` satisfies
`1 <= s <= set_array_size`, and every operand's block at `(i, j)` is absent for every
sub-index `j` of the block table with `j >= s`. -/
theorem find_effective_sub_block_size_bounds (i : Nat) (bv_src : List bvector) :
    1 ≤ aggregator.find_effective_sub_block_size i bv_src ∧
    aggregator.find_effective_sub_block_size i bv_src ≤ set_array_size ∧
    ∀ bv, bv ∈ bv_src → ∀ j, aggregator.find_effective_sub_block_size i bv_src ≤ j →
      j < set_array_size → bv.slot i j = block_ptr.null := by
  refine ⟨?_, ?_, fun bv hm j hj hlt =>
    find_effective_sub_block_size_covers i bv_src bv hm j hj hlt⟩
  · unfold aggregator.find_effective_sub_block_size
    omega
  · unfold aggregator.find_effective_sub_block_size
    rcases find_effective_loop_value i bv_src 1 with h | ⟨_, h, _⟩
    · rw [h]; unfold set_array_size; omega
    · unfold set_array_size at h ⊢
      omega

/-! ## Classification: counts and the frame of the operand arrays -/

theorem sort_input_blocks_or_frame (i j : Nat) (bv_src : List bvector) :
    ∀ (ar : arena) (c g : Nat),
      ((aggregator.sort_input_blocks_or i j bv_src ar c g).1 = block_ptr.null ∨
        (aggregator.sort_input_blocks_or i j bv_src ar c g).1 = block_ptr.full) ∧
      ((aggregator.sort_input_blocks_or i j bv_src ar c g).1 = block_ptr.full →
        (aggregator.sort_input_blocks_or i j bv_src ar c g).2.2.1 = 0 ∧
        (aggregator.sort_input_blocks_or i j bv_src ar c g).2.2.2 = 0) ∧
      (aggregator.sort_input_blocks_or i j bv_src ar c g).2.2.1
        + (aggregator.sort_input_blocks_or i j bv_src ar c g).2.2.2
        ≤ c + g + bv_src.length ∧
      (∀ t, c + g + bv_src.length ≤ t →
        (aggregator.sort_input_blocks_or i j bv_src ar c g).2.1.v_arg_blk t
          = ar.v_arg_blk t ∧
        (aggregator.sort_input_blocks_or i j bv_src ar c g).2.1.v_arg_blk_gap t
          = ar.v_arg_blk_gap t) := by
  induction bv_src with
  | nil =>
    intro ar c g
    simp [aggregator.sort_input_blocks_or]
  | cons bv rest ih =>
    intro ar c g
    cases hs : bv.blockman_.get_block_ptr i j with
    | null =>
      simp only [aggregator.sort_input_blocks_or, hs, List.length_cons]
      obtain ⟨h1, h2, h3, h4⟩ := ih ar c g
      exact ⟨h1, h2, by omega, fun t ht => h4 t (by omega)⟩
    | full =>
      simp [aggregator.sort_input_blocks_or, hs]
    | bit w =>
      simp only [aggregator.sort_input_blocks_or, hs, List.length_cons]
      obtain ⟨h1, h2, h3, h4⟩ := ih
        { ar with v_arg_blk := Function.update ar.v_arg_blk c (arg_blk_ptr.blk w) } (c + 1) g
      refine ⟨h1, h2, by omega, fun t ht => ?_⟩
      obtain ⟨h5, h6⟩ := h4 t (by omega)
      refine ⟨?_, h6⟩
      rw [h5]
      exact Function.update_noteq (by omega) _ _
    | gap gb =>
      simp only [aggregator.sort_input_blocks_or, hs, List.length_cons]
      obtain ⟨h1, h2, h3, h4⟩ := ih
        { ar with v_arg_blk_gap := Function.update ar.v_arg_blk_gap g gb } c (g + 1)
      refine ⟨h1, h2, by omega, fun t ht => ?_⟩
      obtain ⟨h5, h6⟩ := h4 t (by omega)
      refine ⟨h5, ?_⟩
      rw [h6]
      exact Function.update_noteq (by omega) _ _

theorem sort_input_blocks_and_frame (i j : Nat) (bv_src : List bvector) :
    ∀ (ar : arena) (c g : Nat),
      ((aggregator.sort_input_blocks_and i j bv_src ar c g).1 = block_ptr.null ∨
        (aggregator.sort_input_blocks_and i j bv_src ar c g).1 = block_ptr.full) ∧
      ((aggregator.sort_input_blocks_and i j bv_src ar c g).1 = block_ptr.null →
        (aggregator.sort_input_blocks_and i j bv_src ar c g).2.2.1 = 0 ∧
        (aggregator.sort_input_blocks_and i j bv_src ar c g).2.2.2 = 0) ∧
      (aggregator.sort_input_blocks_and i j bv_src ar c g).2.2.1
        + (aggregator.sort_input_blocks_and i j bv_src ar c g).2.2.2
        ≤ c + g + bv_src.length ∧
      (∀ t, c + g + bv_src.length ≤ t →
        (aggregator.sort_input_blocks_and i j bv_src ar c g).2.1.v_arg_blk t
          = ar.v_arg_blk t ∧
        (aggregator.sort_input_blocks_and i j bv_src ar c g).2.1.v_arg_blk_gap t
          = ar.v_arg_blk_gap t) := by
  induction bv_src with
  | nil =>
    intro ar c g
    simp [aggregator.sort_input_blocks_and]
  | cons bv rest ih =>
    intro ar c g
    cases hs : bv.blockman_.get_block_ptr i j with
    | null =>
      simp [aggregator.sort_input_blocks_and, hs]
    | full =>
      simp only [aggregator.sort_input_blocks_and, hs, List.length_cons]
      obtain ⟨h1, h2, h3, h4⟩ := ih
        { ar with v_arg_blk := Function.update ar.v_arg_blk c arg_blk_ptr.real_full }
        (c + 1) g
      refine ⟨h1, h2, by omega, fun t ht => ?_⟩
      obtain ⟨h5, h6⟩ := h4 t (by omega)
      refine ⟨?_, h6⟩
      rw [h5]
      exact Function.update_noteq (by omega) _ _
    | bit w =>
      simp only [aggregator.sort_input_blocks_and, hs, List.length_cons]
      obtain ⟨h1, h2, h3, h4⟩ := ih
        { ar with v_arg_blk := Function.update ar.v_arg_blk c (arg_blk_ptr.blk w) } (c + 1) g
      refine ⟨h1, h2, by omega, fun t ht => ?_⟩
      obtain ⟨h5, h6⟩ := h4 t (by omega)
      refine ⟨?_, h6⟩
      rw [h5]
      exact Function.update_noteq (by omega) _ _
    | gap gb =>
      simp only [aggregator.sort_input_blocks_and, hs, List.length_cons]
      obtain ⟨h1, h2, h3, h4⟩ := ih
        { ar with v_arg_blk_gap := Function.update ar.v_arg_blk_gap g gb } c (g + 1)
      refine ⟨h1, h2, by omega, fun t ht => ?_⟩
      obtain ⟨h5, h6⟩ := h4 t (by omega)
      refine ⟨h5, ?_⟩
      rw [h6]
      exact Function.update_noteq (by omega) _ _

/-- C28: `sort_input_blocks_or` and `sort_input_blocks_and`, entered with both counts
zero on `n` operands, return with dense count + run-length count at most `n` and leave
every entry of the two operand arrays at an index `>= n` untouched, whatever the arrays
held (every write is at an index below `n`, hence below `max_aggregator_cap` when
`n <= max_aggregator_cap`); when the OR classifier returns the sentinel or the AND
classifier returns empty, both counts are zero. -/
theorem sort_input_blocks_stay_within_operands (i j : Nat) (bv_src : List bvector)
    (ar : arena) :
    ((aggregator.sort_input_blocks_or i j bv_src ar 0 0).2.2.1
        + (aggregator.sort_input_blocks_or i j bv_src ar 0 0).2.2.2 ≤ bv_src.length ∧
      ((aggregator.sort_input_blocks_or i j bv_src ar 0 0).1 = block_ptr.full →
        (aggregator.sort_input_blocks_or i j bv_src ar 0 0).2.2.1 = 0 ∧
        (aggregator.sort_input_blocks_or i j bv_src ar 0 0).2.2.2 = 0) ∧
      (∀ t, bv_src.length ≤ t →
        (aggregator.sort_input_blocks_or i j bv_src ar 0 0).2.1.v_arg_blk t
          = ar.v_arg_blk t ∧
        (aggregator.sort_input_blocks_or i j bv_src ar 0 0).2.1.v_arg_blk_gap t
          = ar.v_arg_blk_gap t)) ∧
    ((aggregator.sort_input_blocks_and i j bv_src ar 0 0).2.2.1
        + (aggregator.sort_input_blocks_and i j bv_src ar 0 0).2.2.2 ≤ bv_src.length ∧
      ((aggregator.sort_input_blocks_and i j bv_src ar 0 0).1 = block_ptr.null →
        (aggregator.sort_input_blocks_and i j bv_src ar 0 0).2.2.1 = 0 ∧
        (aggregator.sort_input_blocks_and i j bv_src ar 0 0).2.2.2 = 0) ∧
      (∀ t, bv_src.length ≤ t →
        (aggregator.sort_input_blocks_and i j bv_src ar 0 0).2.1.v_arg_blk t
          = ar.v_arg_blk t ∧
        (aggregator.sort_input_blocks_and i j bv_src ar 0 0).2.1.v_arg_blk_gap t
          = ar.v_arg_blk_gap t)) ∧
    (bv_src.length ≤ max_aggregator_cap → ∀ t, max_aggregator_cap ≤ t →
      (aggregator.sort_input_blocks_or i j bv_src ar 0 0).2.1.v_arg_blk t
        = ar.v_arg_blk t ∧
      (aggregator.sort_input_blocks_or i j bv_src ar 0 0).2.1.v_arg_blk_gap t
        = ar.v_arg_blk_gap t ∧
      (aggregator.sort_input_blocks_and i j bv_src ar 0 0).2.1.v_arg_blk t
        = ar.v_arg_blk t ∧
      (aggregator.sort_input_blocks_and i j bv_src ar 0 0).2.1.v_arg_blk_gap t
        = ar.v_arg_blk_gap t) := by
  obtain ⟨_, a2, a3, a4⟩ := sort_input_blocks_or_frame i j bv_src ar 0 0
  obtain ⟨_, b2, b3, b4⟩ := sort_input_blocks_and_frame i j bv_src ar 0 0
  refine ⟨⟨by omega, a2, fun t ht => a4 t (by omega)⟩,
    ⟨by omega, b2, fun t ht => b4 t (by omega)⟩, fun hn t ht => ?_⟩
  obtain ⟨h1, h2⟩ := a4 t (by omega)
  obtain ⟨h3, h4⟩ := b4 t (by omega)
  exact ⟨h1, h2, h3, h4⟩

/-! ## The dense OR chain: the operands read -/

theorem or_loop_4way_reads_lt (v : Nat → arg_blk_ptr) (c len_unr : Nat) :
    ∀ (fuel k blk : Nat), (∀ t, k + 4 * t < len_unr → k + 4 * t + 4 ≤ c) →
      ∀ x, x ∈ aggregator.or_loop_4way_reads v len_unr fuel k blk → x < c := by
  intro fuel
  induction fuel with
  | zero =>
    intro k blk _ x hx
    simp [aggregator.or_loop_4way_reads] at hx
  | succ fuel ih =>
    intro k blk hb x hx
    by_cases hlt : k < len_unr
    · have hb0 := hb 0 (by omega)
      simp only [aggregator.or_loop_4way_reads, hlt, if_true, List.mem_append,
        List.mem_cons, List.mem_singleton, List.not_mem_nil, or_false] at hx
      rcases hx with (h | h | h | h) | h
      · omega
      · omega
      · omega
      · omega
      · split_ifs at h
        · cases h
        · exact ih (k + 4) _
            (fun t ht => by have := hb (t + 1) (by omega); omega) x h
    · simp [aggregator.or_loop_4way_reads, hlt] at hx

theorem or_loop_2way_reads_lt (v : Nat → arg_blk_ptr) (c len_unr : Nat) :
    ∀ (fuel k blk : Nat), (∀ t, k + 2 * t < len_unr → k + 2 * t + 2 ≤ c) →
      ∀ x, x ∈ aggregator.or_loop_2way_reads v len_unr fuel k blk → x < c := by
  intro fuel
  induction fuel with
  | zero =>
    intro k blk _ x hx
    simp [aggregator.or_loop_2way_reads] at hx
  | succ fuel ih =>
    intro k blk hb x hx
    by_cases hlt : k < len_unr
    · have hb0 := hb 0 (by omega)
      simp only [aggregator.or_loop_2way_reads, hlt, if_true, List.mem_append,
        List.mem_cons, List.mem_singleton, List.not_mem_nil, or_false] at hx
      rcases hx with (h | h) | h
      · omega
      · omega
      · split_ifs at h
        · cases h
        · exact ih (k + 2) _
            (fun t ht => by have := hb (t + 1) (by omega); omega) x h
    · simp [aggregator.or_loop_2way_reads, hlt] at hx

theorem or_loop_1way_reads_lt (v : Nat → arg_blk_ptr) (c : Nat) :
    ∀ (fuel k blk : Nat),
      ∀ x, x ∈ aggregator.or_loop_1way_reads v c fuel k blk → x < c := by
  intro fuel
  induction fuel with
  | zero =>
    intro k blk x hx
    simp [aggregator.or_loop_1way_reads] at hx
  | succ fuel ih =>
    intro k blk x hx
    by_cases hlt : k < c
    · simp only [aggregator.or_loop_1way_reads, hlt, if_true, List.mem_append,
        List.mem_cons, List.mem_singleton, List.not_mem_nil, or_false] at hx
      rcases hx with h | h
      · omega
      · split_ifs at h
        · cases h
        · exact ih (k + 1) _ x h
    · simp [aggregator.or_loop_1way_reads, hlt] at hx

theorem mem_of_mem_ite_nil {α : Type} (p : Prop) [Decidable p] (l : List α) (x : α)
    (h : x ∈ (if p then [] else l)) : x ∈ l := by
  split_ifs at h
  · cases h
  · exact h

theorem process_bit_blocks_or_reads_lt (ar : arena) (c : Nat) :
    ∀ x, x ∈ aggregator.process_bit_blocks_or_reads ar c → x < c := by
  intro x hx
  unfold aggregator.process_bit_blocks_or_reads at hx
  simp only [List.mem_append] at hx
  rcases hx with (h | h) | h
  · split_ifs at h with hc
    · simp at h; omega
    · cases h
  · exact or_loop_4way_reads_lt ar.v_arg_blk c _ _ _ _ (fun t ht => by omega) x h
  · have h2 := mem_of_mem_ite_nil _ _ _ h
    rcases List.mem_append.1 h2 with h3 | h3
    · exact or_loop_2way_reads_lt ar.v_arg_blk c _ _ _ _ (fun t ht => by omega) x h3
    · exact or_loop_1way_reads_lt ar.v_arg_blk c _ _ _ x (mem_of_mem_ite_nil _ _ _ h3)

/-- C29: every index at which `process_bit_blocks_or` reads the dense operand array
(`k..k+3` in the 4-way loop, `k..k+1` in the 2-way loop, `k` in the 1-way loop, and 0 for
the copy of the first block) is strictly less than the operand count `c`, for every `c`
and arena; accordingly the outcome is the same for two arenas whose arrays agree below
`c`. -/
theorem process_bit_blocks_or_reads_below_count (ar : arena) (c : Nat) :
    (∀ x, x ∈ aggregator.process_bit_blocks_or_reads ar c → x < c) ∧
    (∀ (ar2 : arena) (bman : blocks_manager) (i j : Nat),
      (∀ t, t < c → ar.v_arg_blk t = ar2.v_arg_blk t) →
      (aggregator.process_bit_blocks_or ar bman i j c).1
        = (aggregator.process_bit_blocks_or ar2 bman i j c).1 ∧
      (aggregator.process_bit_blocks_or ar bman i j c).2.1.tb1
        = (aggregator.process_bit_blocks_or ar2 bman i j c).2.1.tb1 ∧
      (aggregator.process_bit_blocks_or ar bman i j c).2.2
        = (aggregator.process_bit_blocks_or ar2 bman i j c).2.2) := by
  refine ⟨process_bit_blocks_or_reads_lt ar c, fun ar2 bman i j hv => ?_⟩
  obtain ⟨b, t, f, h1, h2⟩ := process_bit_blocks_or_rel ar ar2 bman i j c hv
  rw [h1, h2]
  exact ⟨rfl, rfl, rfl⟩

/-! ## The dense OR chain against the sequential fold -/

theorem or_fold_sequential_succ (v : Nat → arg_blk_ptr) (c : Nat) :
    or_fold_sequential v (c + 1) = or_fold_sequential v c ||| (v c).deref := by
  unfold or_fold_sequential
  rw [arr_upto_succ, List.foldl_append]
  rfl

theorem or_acc_fold_sequential (v : Nat → arg_blk_ptr) (c : Nat) :
    or_acc v c (or_fold_sequential v c) := by
  induction c with
  | zero =>
    intro q
    simp [or_fold_sequential, arr_upto]
  | succ c ih =>
    rw [or_fold_sequential_succ]
    exact or_acc_step v c _ ih

theorem process_bit_blocks_or_eq_fold (ar : arena) (bman : blocks_manager) (i j c : Nat)
    (hwf : ∀ t, t < c → (ar.v_arg_blk t).deref < 2 ^ bits_in_block) :
    (aggregator.process_bit_blocks_or ar bman i j c).2.1.tb1
      = or_fold_sequential ar.v_arg_blk c := by
  obtain ⟨_, _, ht, hf⟩ := process_bit_blocks_or_spec ar bman i j c
  apply Nat.eq_of_testBit_eq
  intro q
  rw [or_acc_fold_sequential ar.v_arg_blk c q]
  cases hfl : (aggregator.process_bit_blocks_or ar bman i j c).2.2 with
  | false => exact (hf hfl).2 q
  | true =>
    obtain ⟨_, hone, m, hm, hacc⟩ := ht hfl
    by_cases hq : q < bits_in_block
    · have h1 : (aggregator.process_bit_blocks_or ar bman i j c).2.1.tb1.testBit q = true := by
        rw [hone, testBit_all_ones_block]
        simpa using hq
      rw [h1]
      rw [hacc q] at h1
      exact (any_arr_upto_mono ar.v_arg_blk _ m c hm h1).symm
    · have h1 : (aggregator.process_bit_blocks_or ar bman i j c).2.1.tb1.testBit q = false := by
        rw [hone, testBit_all_ones_block]
        simpa using hq
      rw [h1]
      symm
      rw [List.any_eq_false]
      intro a ha
      obtain ⟨t, ht1, ht2⟩ : ∃ t, t < c ∧ ar.v_arg_blk t = a := by
        unfold arr_upto at ha
        simpa using ha
      rw [← ht2]
      have := Nat.testBit_lt_two_pow (Nat.lt_of_lt_of_le (hwf t ht1)
        (Nat.pow_le_pow_right (by decide) (Nat.le_of_not_lt hq)))
      simp [this]

/-- C23: for every count `c` of dense operand blocks, `process_bit_blocks_or` leaves in
the scratch block exactly the block the sequential one-at-a-time fold produces, the
bitwise OR of the `c` operands (the all-zero block when `c = 0`), whatever the split
into 4-way, 2-way and 1-way batches and also when a batch left through the early exit
on all-ones.  The operands are blocks: they have no bit at or above `bits_in_block`. -/
theorem process_bit_blocks_or_refines_sequential_fold (ar : arena) (bman : blocks_manager)
    (i j c : Nat)
    (hwf : ∀ t, t < c → (ar.v_arg_blk t).deref < 2 ^ bits_in_block) :
    (aggregator.process_bit_blocks_or ar bman i j c).2.1.tb1
      = or_fold_sequential ar.v_arg_blk c ∧
    (c = 0 → (aggregator.process_bit_blocks_or ar bman i j c).2.1.tb1 = 0) ∧
    (∀ q, (aggregator.process_bit_blocks_or ar bman i j c).2.1.tb1.testBit q
      = (arr_upto ar.v_arg_blk c).any (fun a => a.deref.testBit q)) := by
  have h := process_bit_blocks_or_eq_fold ar bman i j c hwf
  refine ⟨h, fun hc => ?_, fun q => ?_⟩
  · rw [h, hc]
    rfl
  · rw [h]
    exact or_acc_fold_sequential ar.v_arg_blk c q

/-- C23, at a concrete input: seven dense operands of the sample arena. -/
theorem process_bit_blocks_or_refines_sequential_fold_witness :
    (∀ t, t < 7 → (sample_arena.v_arg_blk t).deref < 2 ^ bits_in_block) ∧
    (aggregator.process_bit_blocks_or sample_arena (sample_bvector 0).blockman_ 0 0 7).2.1.tb1
      = or_fold_sequential sample_arena.v_arg_blk 7 :=
  ⟨fun _ _ => Nat.two_pow_pos _,
    (process_bit_blocks_or_refines_sequential_fold sample_arena
      (sample_bvector 0).blockman_ 0 0 7 (fun _ _ => Nat.two_pow_pos _)).1⟩

/-! ## The digest invariant of the AND and SUB chains -/

theorem digest_covers_masked_update (blk new_bits digest : Nat)
    (h : digest_covers blk digest) :
    digest_covers (masked_store blk new_bits digest)
      (update_block_digest0 (masked_store blk new_bits digest) digest) := by
  intro q hq hb
  have hw := wave_lt_of_lt q hq
  have hd : digest.testBit (q / set_block_digest_wave_bits) = true := by
    by_cases hm : (digest_mask digest).testBit q = true
    · rw [testBit_digest_mask] at hm
      simp only [Bool.and_eq_true] at hm
      exact hm.2
    · rw [testBit_masked_store, if_neg hm] at hb
      exact h q hq hb
  unfold update_block_digest0
  rw [Nat.testBit_and, hd, Bool.true_and]
  exact (testBit_calc_block_digest0 _ _).2 ⟨hw, q, rfl, hb⟩

theorem digest_exact_update (blk digest : Nat) :
    digest_exact blk (update_block_digest0 blk digest) := by
  intro k hk
  unfold update_block_digest0 at hk
  rw [Nat.testBit_and, Bool.and_eq_true] at hk
  obtain ⟨hk64, q, hqk, hbit⟩ := (testBit_calc_block_digest0 _ _).1 hk.2
  refine ⟨q, ?_, hqk, hbit⟩
  unfold set_block_digest_wave_bits at hqk
  unfold set_block_digest_waves at hk64
  unfold bits_in_block
  omega

theorem digest_exact_zero (blk : Nat) : digest_exact blk 0 := by
  intro k hk
  simp at hk

theorem digest_covers_zero (blk : Nat) (h : digest_covers blk 0) :
    ∀ q, q < bits_in_block → blk.testBit q = false := by
  intro q hq
  by_contra hb
  have := h q hq (by simpa using hb)
  simp at this

theorem bit_is_all_zero_iff (blk : Nat) :
    bit_is_all_zero blk = true ↔ ∀ q, q < bits_in_block → blk.testBit q = false := by
  unfold bit_is_all_zero
  rw [decide_eq_true_iff]
  constructor
  · intro h q hq
    have := Nat.testBit_mod_two_pow blk bits_in_block q
    rw [h, Nat.zero_testBit] at this
    simpa [hq] using this.symm
  · intro h
    apply Nat.eq_of_testBit_eq
    intro q
    rw [Nat.testBit_mod_two_pow, Nat.zero_testBit]
    by_cases hq : q < bits_in_block
    · simp [h q hq]
    · simp [hq]

theorem bit_is_all_zero_of_covers (blk : Nat) (h : digest_covers blk 0) :
    bit_is_all_zero blk = true :=
  (bit_is_all_zero_iff blk).2 (digest_covers_zero blk h)

theorem digest_nonzero_has_bit (blk digest : Nat) (h : digest_exact blk digest)
    (hd : digest ≠ 0) : ∃ q, q < bits_in_block ∧ blk.testBit q = true := by
  by_contra hc
  apply hd
  apply Nat.eq_of_testBit_eq
  intro k
  rw [Nat.zero_testBit]
  by_contra hk
  obtain ⟨q, hq, _, hb⟩ := h k (by simpa using hk)
  exact hc ⟨q, hq, hb⟩

theorem bit_and_loop_covers (v : Nat → arg_blk_ptr) (c : Nat) :
    ∀ (fuel k blk digest : Nat), digest_covers blk digest →
      digest_covers (aggregator.bit_and_loop v c fuel k blk digest).1
        (aggregator.bit_and_loop v c fuel k blk digest).2 := by
  intro fuel
  induction fuel with
  | zero => intro k blk digest h; exact h
  | succ fuel ih =>
    intro k blk digest h
    have hstep : digest_covers (bit_block_and blk (v k).deref digest).1
        (bit_block_and blk (v k).deref digest).2 :=
      digest_covers_masked_update blk _ digest h
    simp only [aggregator.bit_and_loop]
    split_ifs
    · exact ih _ _ _ h
    · exact hstep
    · exact ih _ _ _ hstep
    · exact h

theorem bit_and_loop_exact (v : Nat → arg_blk_ptr) (c : Nat) :
    ∀ (fuel k blk digest : Nat), digest_exact blk digest →
      digest_exact (aggregator.bit_and_loop v c fuel k blk digest).1
        (aggregator.bit_and_loop v c fuel k blk digest).2 := by
  intro fuel
  induction fuel with
  | zero => intro k blk digest h; exact h
  | succ fuel ih =>
    intro k blk digest h
    have hstep : digest_exact (bit_block_and blk (v k).deref digest).1
        (bit_block_and blk (v k).deref digest).2 :=
      digest_exact_update _ digest
    simp only [aggregator.bit_and_loop]
    split_ifs
    · exact ih _ _ _ h
    · exact hstep
    · exact ih _ _ _ hstep
    · exact h

theorem gap_and_loop_covers (v : Nat → gap_block) (n : Nat) :
    ∀ (fuel k blk digest : Nat), digest_covers blk digest →
      digest_covers (aggregator.gap_and_loop v n fuel k blk digest).1
        (aggregator.gap_and_loop v n fuel k blk digest).2 := by
  intro fuel
  induction fuel with
  | zero => intro k blk digest h; exact h
  | succ fuel ih =>
    intro k blk digest h
    have hstep : digest_covers (gap_and_to_bitset blk (v k) digest)
        (update_block_digest0 (gap_and_to_bitset blk (v k) digest) digest) :=
      digest_covers_masked_update blk _ digest h
    simp only [aggregator.gap_and_loop]
    split_ifs
    · exact hstep
    · exact ih _ _ _ hstep
    · exact h

theorem gap_and_loop_exact (v : Nat → gap_block) (n : Nat) :
    ∀ (fuel k blk digest : Nat), digest_exact blk digest →
      digest_exact (aggregator.gap_and_loop v n fuel k blk digest).1
        (aggregator.gap_and_loop v n fuel k blk digest).2 := by
  intro fuel
  induction fuel with
  | zero => intro k blk digest h; exact h
  | succ fuel ih =>
    intro k blk digest h
    have hstep : digest_exact (gap_and_to_bitset blk (v k) digest)
        (update_block_digest0 (gap_and_to_bitset blk (v k) digest) digest) :=
      digest_exact_update _ digest
    simp only [aggregator.gap_and_loop]
    split_ifs
    · exact hstep
    · exact ih _ _ _ hstep
    · exact h

theorem gap_sub_loop_covers (v : Nat → gap_block) (n : Nat) :
    ∀ (fuel k blk digest : Nat), digest_covers blk digest →
      digest_covers (aggregator.gap_sub_loop v n fuel k blk digest).1
        (aggregator.gap_sub_loop v n fuel k blk digest).2 := by
  intro fuel
  induction fuel with
  | zero => intro k blk digest h; exact h
  | succ fuel ih =>
    intro k blk digest h
    have hstep : digest_covers (gap_sub_to_bitset blk (v k) digest)
        (update_block_digest0 (gap_sub_to_bitset blk (v k) digest) digest) :=
      digest_covers_masked_update blk _ digest h
    simp only [aggregator.gap_sub_loop]
    split_ifs
    · exact hstep
    · exact ih _ _ _ hstep
    · exact h

theorem gap_sub_loop_exact (v : Nat → gap_block) (n : Nat) :
    ∀ (fuel k blk digest : Nat), digest_exact blk digest →
      digest_exact (aggregator.gap_sub_loop v n fuel k blk digest).1
        (aggregator.gap_sub_loop v n fuel k blk digest).2 := by
  intro fuel
  induction fuel with
  | zero => intro k blk digest h; exact h
  | succ fuel ih =>
    intro k blk digest h
    have hstep : digest_exact (gap_sub_to_bitset blk (v k) digest)
        (update_block_digest0 (gap_sub_to_bitset blk (v k) digest) digest) :=
      digest_exact_update _ digest
    simp only [aggregator.gap_sub_loop]
    split_ifs
    · exact hstep
    · exact ih _ _ _ hstep
    · exact h

theorem bit_sub_loop_covers (v : Nat → arg_blk_ptr) (c : Nat)
    (hv : ∀ t, t < c → v t ≠ arg_blk_ptr.real_full) :
    ∀ (fuel k blk digest : Nat), digest_covers blk digest →
      digest_covers (aggregator.bit_sub_loop v c fuel k blk digest).1
        (aggregator.bit_sub_loop v c fuel k blk digest).2 := by
  intro fuel
  induction fuel with
  | zero => intro k blk digest h; exact h
  | succ fuel ih =>
    intro k blk digest h
    have hstep : digest_covers (bit_block_sub blk (v k).deref digest).1
        (bit_block_sub blk (v k).deref digest).2 :=
      digest_covers_masked_update blk _ digest h
    simp only [aggregator.bit_sub_loop]
    split_ifs with h1 h2
    · exact absurd h2 (hv k h1)
    · exact hstep
    · exact ih _ _ _ hstep
    · exact h

theorem bit_sub_loop_exact (v : Nat → arg_blk_ptr) (c : Nat) :
    ∀ (fuel k blk digest : Nat), digest_exact blk digest →
      digest_exact (aggregator.bit_sub_loop v c fuel k blk digest).1
        (aggregator.bit_sub_loop v c fuel k blk digest).2 := by
  intro fuel
  induction fuel with
  | zero => intro k blk digest h; exact h
  | succ fuel ih =>
    intro k blk digest h
    have hstep : digest_exact (bit_block_sub blk (v k).deref digest).1
        (bit_block_sub blk (v k).deref digest).2 :=
      digest_exact_update _ digest
    simp only [aggregator.bit_sub_loop]
    split_ifs
    · rw [Nat.xor_self]
      exact digest_exact_zero blk
    · exact hstep
    · exact ih _ _ _ hstep
    · exact h

theorem digest_exact_calc (blk : Nat) : digest_exact blk (calc_block_digest0 blk) := by
  intro k hk
  obtain ⟨hk64, q, hqk, hbit⟩ := (testBit_calc_block_digest0 _ _).1 hk
  refine ⟨q, ?_, hqk, hbit⟩
  unfold set_block_digest_wave_bits at hqk
  unfold set_block_digest_waves at hk64
  unfold bits_in_block
  omega

theorem digest_exact_all_ones : digest_exact all_ones_block digest_all := by
  intro k hk
  have hk64 : k < set_block_digest_waves := by
    unfold digest_all at hk
    rw [Nat.testBit_two_pow_sub_one] at hk
    simpa using hk
  have hq : set_block_digest_wave_bits * k < bits_in_block := by
    unfold set_block_digest_waves at hk64
    unfold set_block_digest_wave_bits bits_in_block
    omega
  refine ⟨set_block_digest_wave_bits * k, hq, ?_, ?_⟩
  · unfold set_block_digest_wave_bits
    omega
  · rw [testBit_all_ones_block]
    simpa using hq

theorem process_bit_blocks_and_inv (ar : arena) (c d0 : Nat) :
    digest_covers (aggregator.process_bit_blocks_and ar c d0).1.tb1
      (aggregator.process_bit_blocks_and ar c d0).2 ∧
    digest_exact (aggregator.process_bit_blocks_and ar c d0).1.tb1
      (aggregator.process_bit_blocks_and ar c d0).2 := by
  match c with
  | 0 =>
    rw [process_bit_blocks_and_zero]
    exact ⟨and_good_all_ones.2, digest_exact_all_ones⟩
  | 1 =>
    rw [process_bit_blocks_and_one]
    exact ⟨(and_good_calc _).2, digest_exact_calc _⟩
  | n + 2 =>
    rw [process_bit_blocks_and_more]
    exact ⟨bit_and_loop_covers _ _ _ _ _ _ (and_good_2way _ _ _).2,
      bit_and_loop_exact _ _ _ _ _ _ (digest_exact_update _ _)⟩

theorem mem_arr_upto {α : Type} (f : Nat → α) (n t : Nat) (h : t < n) :
    f t ∈ arr_upto f n := by
  unfold arr_upto
  simp only [List.mem_map, List.mem_range]
  exact ⟨t, h, rfl⟩

theorem or_dense_args_not_real_full (i j : Nat) (bv_src : List bvector) (a : arg_blk_ptr)
    (h : a ∈ or_dense_args i j bv_src) : a ≠ arg_blk_ptr.real_full := by
  unfold or_dense_args at h
  rw [List.mem_filterMap] at h
  obtain ⟨bv, _, hb⟩ := h
  cases hs : bv.slot i j with
  | null => rw [hs] at hb; cases hb
  | full => rw [hs] at hb; cases hb
  | gap g => rw [hs] at hb; cases hb
  | bit w =>
    rw [hs] at hb
    cases hb
    intro hc
    cases hc

theorem sort_input_blocks_or_entries (i j : Nat) (bv_src : List bvector) (ar : arena) :
    (aggregator.sort_input_blocks_or i j bv_src ar 0 0).2.1.tb1 = ar.tb1 ∧
    ((aggregator.sort_input_blocks_or i j bv_src ar 0 0).1 ≠ block_ptr.full →
      ∀ t, t < (aggregator.sort_input_blocks_or i j bv_src ar 0 0).2.2.1 →
        (aggregator.sort_input_blocks_or i j bv_src ar 0 0).2.1.v_arg_blk t
          ≠ arg_blk_ptr.real_full) := by
  by_cases hf : ∃ bv, bv ∈ bv_src ∧ bv.slot i j = block_ptr.full
  · obtain ⟨h1, h2⟩ := sort_input_blocks_or_full i j bv_src ar 0 0 hf
    exact ⟨h2, fun hne => absurd h1 hne⟩
  · have hnf : ∀ bv, bv ∈ bv_src → bv.slot i j ≠ block_ptr.full :=
      fun bv hm hc => hf ⟨bv, hm, hc⟩
    obtain ⟨_, h2, _, _, _, _⟩ := sort_input_blocks_or_no_full i j bv_src ar 0 0 hnf
    obtain ⟨_, h5, _⟩ := sort_input_blocks_or_init i j bv_src ar hnf
    refine ⟨h2, fun _ t ht => ?_⟩
    apply or_dense_args_not_real_full i j bv_src
    rw [← h5]
    exact mem_arr_upto _ _ t ht

theorem gap_and_loop_asserted_eq (v : Nat → gap_block) (n : Nat) :
    ∀ (fuel k blk digest : Nat), digest_covers blk digest →
      aggregator.gap_and_loop_asserted v n fuel k blk digest
        = some (aggregator.gap_and_loop v n fuel k blk digest) := by
  intro fuel
  induction fuel with
  | zero => intro k blk digest _; rfl
  | succ fuel ih =>
    intro k blk digest h
    have hstep : digest_covers (gap_and_to_bitset blk (v k) digest)
        (update_block_digest0 (gap_and_to_bitset blk (v k) digest) digest) :=
      digest_covers_masked_update blk _ digest h
    simp only [aggregator.gap_and_loop_asserted, aggregator.gap_and_loop]
    split_ifs with h1 h2
    · rw [h2] at hstep
      rw [bit_is_all_zero_of_covers _ hstep]
      rfl
    · exact ih _ _ _ hstep
    · rfl

theorem gap_sub_loop_asserted_eq (v : Nat → gap_block) (n : Nat) :
    ∀ (fuel k blk digest : Nat), digest_covers blk digest →
      aggregator.gap_sub_loop_asserted v n fuel k blk digest
        = some (aggregator.gap_sub_loop v n fuel k blk digest) := by
  intro fuel
  induction fuel with
  | zero => intro k blk digest _; rfl
  | succ fuel ih =>
    intro k blk digest h
    have hstep : digest_covers (gap_sub_to_bitset blk (v k) digest)
        (update_block_digest0 (gap_sub_to_bitset blk (v k) digest) digest) :=
      digest_covers_masked_update blk _ digest h
    simp only [aggregator.gap_sub_loop_asserted, aggregator.gap_sub_loop]
    split_ifs with h1 h2
    · rw [h2] at hstep
      rw [bit_is_all_zero_of_covers _ hstep]
      rfl
    · exact ih _ _ _ hstep
    · rfl

theorem process_gap_blocks_and_asserted_eq (ar : arena) (n digest : Nat) (hn : n ≠ 0)
    (hd : digest ≠ 0) (h : digest_covers ar.tb1 digest) :
    aggregator.process_gap_blocks_and_asserted ar n digest
      = some (aggregator.process_gap_blocks_and ar n digest) := by
  unfold aggregator.process_gap_blocks_and_asserted aggregator.process_gap_blocks_and
  simp only [BM_ASSERT, hn, hd, ne_eq, not_false_eq_true, decide_True, if_true,
    gap_and_loop_asserted_eq ar.v_arg_blk_gap n n 0 ar.tb1 digest h]

theorem process_gap_blocks_sub_asserted_eq (ar : arena) (n digest : Nat) (hn : n ≠ 0)
    (hd : digest ≠ 0) (h : digest_covers ar.tb1 digest) :
    aggregator.process_gap_blocks_sub_asserted ar n digest
      = some (aggregator.process_gap_blocks_sub ar n digest) := by
  unfold aggregator.process_gap_blocks_sub_asserted aggregator.process_gap_blocks_sub
  simp only [BM_ASSERT, hn, hd, ne_eq, not_false_eq_true, decide_True, if_true,
    gap_sub_loop_asserted_eq ar.v_arg_blk_gap n n 0 ar.tb1 digest h]

theorem process_gap_blocks_and_inv (ar : arena) (n digest : Nat)
    (h : digest_covers ar.tb1 digest) :
    digest_covers (aggregator.process_gap_blocks_and ar n digest).1.tb1
      (aggregator.process_gap_blocks_and ar n digest).2 :=
  gap_and_loop_covers ar.v_arg_blk_gap n n 0 ar.tb1 digest h

theorem process_gap_blocks_sub_inv (ar : arena) (n digest : Nat)
    (h : digest_covers ar.tb1 digest) :
    digest_covers (aggregator.process_gap_blocks_sub ar n digest).1.tb1
      (aggregator.process_gap_blocks_sub ar n digest).2 :=
  gap_sub_loop_covers ar.v_arg_blk_gap n n 0 ar.tb1 digest h

theorem process_bit_blocks_sub_inv (ar : arena) (c digest : Nat)
    (hv : ∀ t, t < c → ar.v_arg_blk t ≠ arg_blk_ptr.real_full)
    (h : digest_covers ar.tb1 digest) :
    digest_covers (aggregator.process_bit_blocks_sub ar c digest).1.tb1
      (aggregator.process_bit_blocks_sub ar c digest).2 :=
  bit_sub_loop_covers ar.v_arg_blk c hv c 0 ar.tb1 digest h

theorem combine_and_ij_asserted_eq (ar : arena) (i j : Nat) (T : bvector)
    (bv_src : List bvector) :
    aggregator.combine_and_ij_asserted ar i j T bv_src
      = some (aggregator.combine_and_ij ar i j T bv_src) := by
  unfold aggregator.combine_and_ij_asserted aggregator.combine_and_ij
  generalize aggregator.sort_input_blocks_and i j bv_src ar 0 0 = s
  simp only []
  by_cases hb : s.1 = block_ptr.null
  · simp only [hb, if_true]
  · simp only [hb, if_false]
    by_cases hcg : s.2.2.1 ≠ 0 ∨ s.2.2.2 ≠ 0
    · simp only [hcg, if_true]
      have hcov := (process_bit_blocks_and_inv s.2.1 s.2.2.1 0).1
      by_cases hd0 : (aggregator.process_bit_blocks_and s.2.1 s.2.2.1 0).2 = 0
      · simp only [hd0, if_true]
      · simp only [hd0, if_false]
        by_cases hg0 : s.2.2.2 ≠ 0
        · simp only [hg0, if_true,
            process_gap_blocks_and_asserted_eq _ _ _ hg0 hd0 hcov]
          split_ifs with hx <;> first | rfl | simp [hx]
        · simp only [hg0, if_false]
          split_ifs with hx <;> first | rfl | simp [hx]
    · simp only [hcg, if_false]

theorem combine_and_sub_ij_tail_asserted_eq (ar : arena) (i j : Nat) (T : bvector)
    (bv_src_sub : List bvector) (digest : Nat) (h : digest_covers ar.tb1 digest) :
    aggregator.combine_and_sub_ij_tail_asserted ar i j T bv_src_sub digest
      = some (aggregator.combine_and_sub_ij_tail ar i j T bv_src_sub digest) := by
  obtain ⟨ht, hent⟩ := sort_input_blocks_or_entries i j bv_src_sub ar
  unfold aggregator.combine_and_sub_ij_tail_asserted aggregator.combine_and_sub_ij_tail
  generalize aggregator.sort_input_blocks_or i j bv_src_sub ar 0 0 = s at ht hent
  simp only []
  by_cases hl : bv_src_sub.length ≠ 0
  · rw [if_pos hl, if_pos hl]
    by_cases hb : s.1 = block_ptr.full
    · rw [if_pos hb, if_pos hb]
    · rw [if_neg hb, if_neg hb]
      by_cases hcg : s.2.2.1 ≠ 0 ∨ s.2.2.2 ≠ 0
      · rw [if_pos hcg, if_pos hcg]
        have hcov := process_bit_blocks_sub_inv s.2.1 s.2.2.1 digest (hent hb)
          (by rw [ht]; exact h)
        by_cases hd0 : (aggregator.process_bit_blocks_sub s.2.1 s.2.2.1 digest).2 = 0
        · rw [if_pos hd0, if_pos hd0]
        · rw [if_neg hd0, if_neg hd0]
          by_cases hg0 : s.2.2.2 ≠ 0
          · rw [if_pos hg0, if_pos hg0,
              process_gap_blocks_sub_asserted_eq _ _ _ hg0 hd0 hcov]
            simp only []
            split_ifs <;> rfl
          · rw [if_neg hg0, if_neg hg0]
            simp only []
            split_ifs <;> rfl
      · rw [if_neg hcg, if_neg hcg]
        split_ifs <;> rfl
  · rw [if_neg hl, if_neg hl]
    split_ifs <;> rfl

theorem combine_and_sub_ij_asserted_eq (ar : arena) (i j : Nat) (T : bvector)
    (bv_src_and bv_src_sub : List bvector) :
    aggregator.combine_and_sub_ij_asserted ar i j T bv_src_and bv_src_sub
      = some (aggregator.combine_and_sub_ij ar i j T bv_src_and bv_src_sub) := by
  unfold aggregator.combine_and_sub_ij_asserted aggregator.combine_and_sub_ij
  generalize aggregator.sort_input_blocks_and i j bv_src_and ar 0 0 = s
  simp only []
  by_cases hb : s.1 = block_ptr.null
  · rw [if_pos hb, if_pos hb]
  · rw [if_neg hb, if_neg hb]
    by_cases hcg : s.2.2.1 ≠ 0 ∨ s.2.2.2 ≠ 0
    · rw [if_pos hcg, if_pos hcg]
      have hcov := (process_bit_blocks_and_inv s.2.1 s.2.2.1 0).1
      by_cases hd0 : (aggregator.process_bit_blocks_and s.2.1 s.2.2.1 0).2 = 0
      · rw [if_pos hd0, if_pos hd0]
      · rw [if_neg hd0, if_neg hd0]
        by_cases hg0 : s.2.2.2 ≠ 0
        · rw [if_pos hg0, if_pos hg0,
            process_gap_blocks_and_asserted_eq _ _ _ hg0 hd0 hcov]
          simp only []
          by_cases hd2 : (aggregator.process_gap_blocks_and
              (aggregator.process_bit_blocks_and s.2.1 s.2.2.1 0).1 s.2.2.2
              (aggregator.process_bit_blocks_and s.2.1 s.2.2.1 0).2).2 = 0
          · rw [if_pos hd2, if_pos hd2]
          · rw [if_neg hd2, if_neg hd2]
            exact combine_and_sub_ij_tail_asserted_eq _ i j T bv_src_sub _
              (process_gap_blocks_and_inv _ _ _ hcov)
        · rw [if_neg hg0, if_neg hg0]
          exact combine_and_sub_ij_tail_asserted_eq _ i j T bv_src_sub _ hcov
    · rw [if_neg hcg, if_neg hcg]

/-- C25: the digest invariant of the AND and SUB chains.  The seeds of
`process_bit_blocks_and` (all-ones with the all-ones digest, the copy of the sole
operand with its computed digest, the 2-way AND of the first two operands) satisfy it,
and every step of the four loops keeps it (the loops are run with every amount of fuel,
that is, stopped after every number of iterations; the dense SUB loop on the entries
that the OR classification of the SUB group collects, none of which is the all-ones
block).  Hence a block whose digest is zero is all zero, and `combine_and(i, j)` and
`combine_and_sub(i, j)` run with the assertions `BM_ASSERT(arg_blk_gap_count)`,
`BM_ASSERT(digest)` and `BM_ASSERT(bm::bit_is_all_zero(blk))` of the run-length
combiners evaluated never stop at one of them, from every arena and for all operands. -/
theorem digest_invariant_of_and_sub_chains :
    (∀ (ar : arena) (c d0 : Nat),
      digest_covers (aggregator.process_bit_blocks_and ar c d0).1.tb1
        (aggregator.process_bit_blocks_and ar c d0).2 ∧
      ((aggregator.process_bit_blocks_and ar c d0).2 = 0 →
        bit_is_all_zero (aggregator.process_bit_blocks_and ar c d0).1.tb1 = true)) ∧
    (∀ (v : Nat → arg_blk_ptr) (c fuel k blk digest : Nat), digest_covers blk digest →
      digest_covers (aggregator.bit_and_loop v c fuel k blk digest).1
        (aggregator.bit_and_loop v c fuel k blk digest).2) ∧
    (∀ (v : Nat → gap_block) (n fuel k blk digest : Nat), digest_covers blk digest →
      digest_covers (aggregator.gap_and_loop v n fuel k blk digest).1
        (aggregator.gap_and_loop v n fuel k blk digest).2) ∧
    (∀ (i j : Nat) (bv_src_sub : List bvector) (ar : arena),
      (aggregator.sort_input_blocks_or i j bv_src_sub ar 0 0).1 ≠ block_ptr.full →
      ∀ t, t < (aggregator.sort_input_blocks_or i j bv_src_sub ar 0 0).2.2.1 →
        (aggregator.sort_input_blocks_or i j bv_src_sub ar 0 0).2.1.v_arg_blk t
          ≠ arg_blk_ptr.real_full) ∧
    (∀ (v : Nat → arg_blk_ptr) (c : Nat), (∀ t, t < c → v t ≠ arg_blk_ptr.real_full) →
      ∀ (fuel k blk digest : Nat), digest_covers blk digest →
        digest_covers (aggregator.bit_sub_loop v c fuel k blk digest).1
          (aggregator.bit_sub_loop v c fuel k blk digest).2) ∧
    (∀ (v : Nat → gap_block) (n fuel k blk digest : Nat), digest_covers blk digest →
      digest_covers (aggregator.gap_sub_loop v n fuel k blk digest).1
        (aggregator.gap_sub_loop v n fuel k blk digest).2) ∧
    (∀ blk, digest_covers blk 0 → bit_is_all_zero blk = true) ∧
    (∀ (ar : arena) (i j : Nat) (T : bvector) (bv_src : List bvector),
      aggregator.combine_and_ij_asserted ar i j T bv_src
        = some (aggregator.combine_and_ij ar i j T bv_src)) ∧
    (∀ (ar : arena) (i j : Nat) (T : bvector) (bv_src_and bv_src_sub : List bvector),
      aggregator.combine_and_sub_ij_asserted ar i j T bv_src_and bv_src_sub
        = some (aggregator.combine_and_sub_ij ar i j T bv_src_and bv_src_sub)) := by
  refine ⟨fun ar c d0 => ⟨(process_bit_blocks_and_inv ar c d0).1, fun hz => ?_⟩,
    fun v c fuel k blk digest h => bit_and_loop_covers v c fuel k blk digest h,
    fun v n fuel k blk digest h => gap_and_loop_covers v n fuel k blk digest h,
    fun i j B ar => (sort_input_blocks_or_entries i j B ar).2,
    fun v c hv fuel k blk digest h => bit_sub_loop_covers v c hv fuel k blk digest h,
    fun v n fuel k blk digest h => gap_sub_loop_covers v n fuel k blk digest h,
    fun blk h => bit_is_all_zero_of_covers blk h,
    fun ar i j T ops => combine_and_ij_asserted_eq ar i j T ops,
    fun ar i j T A B => combine_and_sub_ij_asserted_eq ar i j T A B⟩
  apply bit_is_all_zero_of_covers
  have := (process_bit_blocks_and_inv ar c d0).1
  rw [hz] at this
  exact this

/-! ## The dense AND chain: the result -/

theorem all_filter_of_skipped {α : Type} (l : List α) (P Q : α → Bool)
    (h : ∀ a, a ∈ l → Q a = false → P a = true) :
    l.all P = (l.filter Q).all P := by
  induction l with
  | nil => rfl
  | cons a l ih =>
    have ih2 := ih (fun b hb => h b (List.mem_cons_of_mem a hb))
    cases hq : Q a with
    | true =>
      rw [List.filter_cons_of_pos hq, List.all_cons, List.all_cons, ih2]
    | false =>
      rw [List.filter_cons_of_neg (by simp [hq]), List.all_cons, ih2,
        h a (List.mem_cons_self a l) hq, Bool.true_and]

theorem process_bit_blocks_and_bits (ar : arena) (c d0 : Nat) (q : Nat)
    (hq : q < bits_in_block) :
    (aggregator.process_bit_blocks_and ar c d0).1.tb1.testBit q
      = (arr_upto ar.v_arg_blk c).all (fun a => a.deref.testBit q) := by
  obtain ⟨_, _, hp⟩ := process_bit_blocks_and_spec ar c d0
  by_cases hd : (aggregator.process_bit_blocks_and ar c d0).2 = 0
  · have hz := hp.2 hd q hq
    have hcov := (process_bit_blocks_and_inv ar c d0).1
    rw [hd] at hcov
    rw [digest_covers_zero _ hcov q hq]
    exact hz.symm
  · exact (hp.1 hd).1 q hq

/-- C24: `process_bit_blocks_and` over the first `c` entries of the dense operand array
leaves in the scratch block the bitwise AND of the `c` entries (bit by bit, over the
`bits_in_block` bits of the block); `c = 0` gives the all-ones block with the all-ones
digest, `c = 1` a copy of the sole operand, and the entries that stand for an all-ones
operand (`FULL_BLOCK_REAL_ADDR`) are the identity: the result is the AND of the other
entries alone, at whatever positions the all-ones entries occur. -/
theorem process_bit_blocks_and_is_and_of_entries (ar : arena) (c d0 : Nat) :
    (c = 0 → (aggregator.process_bit_blocks_and ar c d0).1.tb1 = all_ones_block ∧
      (aggregator.process_bit_blocks_and ar c d0).2 = digest_all) ∧
    (c = 1 → (aggregator.process_bit_blocks_and ar c d0).1.tb1 = (ar.v_arg_blk 0).deref) ∧
    (∀ q, q < bits_in_block →
      (aggregator.process_bit_blocks_and ar c d0).1.tb1.testBit q
        = (arr_upto ar.v_arg_blk c).all (fun a => a.deref.testBit q)) ∧
    (∀ q, q < bits_in_block →
      (aggregator.process_bit_blocks_and ar c d0).1.tb1.testBit q
        = ((arr_upto ar.v_arg_blk c).filter
            (fun a => decide (a ≠ arg_blk_ptr.real_full))).all
              (fun a => a.deref.testBit q)) := by
  refine ⟨fun hc => ?_, fun hc => ?_, fun q hq => process_bit_blocks_and_bits ar c d0 q hq,
    fun q hq => ?_⟩
  · rw [hc, process_bit_blocks_and_zero]
    exact ⟨rfl, rfl⟩
  · rw [hc, process_bit_blocks_and_one]
  · rw [process_bit_blocks_and_bits ar c d0 q hq]
    apply all_filter_of_skipped
    intro a _ ha
    have : a = arg_blk_ptr.real_full := by simpa using ha
    rw [this]
    show all_ones_block.testBit q = true
    rw [testBit_all_ones_block]
    simpa using hq

/-! ## The slots written by the AND and SUB chains -/

theorem store_temp_block_slot (ar : arena) (T : bvector) (i j : Nat)
    (hi : T.blockman_.is_init_ = true) (hlt : i < T.blockman_.top_block_size_) :
    (aggregator.store_temp_block ar T i j).slot i j = block_ptr.bit ar.tb1 := by
  unfold aggregator.store_temp_block
  show blocks_manager.get_block_ptr _ i j = _
  rw [get_block_ptr_store _ _ _ _ hi hlt, if_pos ⟨rfl, rfl⟩]

theorem store_temp_block_shape (ar : arena) (T : bvector) (i j digest : Nat)
    (hi : T.blockman_.is_init_ = true) (hlt : i < T.blockman_.top_block_size_)
    (hex : digest_exact ar.tb1 digest) (hd : digest ≠ 0) :
    slot_absent_or_dense ((aggregator.store_temp_block ar T i j).slot i j) := by
  rw [store_temp_block_slot ar T i j hi hlt]
  exact Or.inr ⟨_, rfl, digest_nonzero_has_bit _ _ hex hd⟩

theorem process_gap_blocks_and_exact (ar : arena) (n digest : Nat)
    (h : digest_exact ar.tb1 digest) :
    digest_exact (aggregator.process_gap_blocks_and ar n digest).1.tb1
      (aggregator.process_gap_blocks_and ar n digest).2 :=
  gap_and_loop_exact ar.v_arg_blk_gap n n 0 ar.tb1 digest h

theorem process_gap_blocks_sub_exact (ar : arena) (n digest : Nat)
    (h : digest_exact ar.tb1 digest) :
    digest_exact (aggregator.process_gap_blocks_sub ar n digest).1.tb1
      (aggregator.process_gap_blocks_sub ar n digest).2 :=
  gap_sub_loop_exact ar.v_arg_blk_gap n n 0 ar.tb1 digest h

theorem process_bit_blocks_sub_exact (ar : arena) (c digest : Nat)
    (h : digest_exact ar.tb1 digest) :
    digest_exact (aggregator.process_bit_blocks_sub ar c digest).1.tb1
      (aggregator.process_bit_blocks_sub ar c digest).2 :=
  bit_sub_loop_exact ar.v_arg_blk c c 0 ar.tb1 digest h

theorem combine_and_ij_shape (ar : arena) (i j : Nat) (T : bvector) (bv_src : List bvector)
    (hi : T.blockman_.is_init_ = true) (hlt : i < T.blockman_.top_block_size_)
    (hn : T.slot i j = block_ptr.null) :
    slot_absent_or_dense ((aggregator.combine_and_ij ar i j T bv_src).1.slot i j) := by
  unfold aggregator.combine_and_ij
  generalize aggregator.sort_input_blocks_and i j bv_src ar 0 0 = s
  simp only []
  by_cases hb : s.1 = block_ptr.null
  · rw [if_pos hb]
    exact Or.inl hn
  · rw [if_neg hb]
    by_cases hcg : s.2.2.1 ≠ 0 ∨ s.2.2.2 ≠ 0
    · rw [if_pos hcg]
      have hex := (process_bit_blocks_and_inv s.2.1 s.2.2.1 0).2
      by_cases hd0 : (aggregator.process_bit_blocks_and s.2.1 s.2.2.1 0).2 = 0
      · rw [if_pos hd0]
        exact Or.inl hn
      · rw [if_neg hd0]
        by_cases hg0 : s.2.2.2 ≠ 0
        · rw [if_pos hg0]
          by_cases hd2 : (aggregator.process_gap_blocks_and
              (aggregator.process_bit_blocks_and s.2.1 s.2.2.1 0).1 s.2.2.2
              (aggregator.process_bit_blocks_and s.2.1 s.2.2.1 0).2).2 ≠ 0
          · rw [if_pos hd2]
            exact store_temp_block_shape _ T i j _ hi hlt
              (process_gap_blocks_and_exact _ _ _ hex) hd2
          · rw [if_neg hd2]
            exact Or.inl hn
        · rw [if_neg hg0, if_pos hd0]
          exact store_temp_block_shape _ T i j _ hi hlt hex hd0
    · rw [if_neg hcg]
      exact Or.inl hn

theorem combine_and_sub_ij_tail_shape (ar : arena) (i j : Nat) (T : bvector)
    (bv_src_sub : List bvector) (digest : Nat)
    (hi : T.blockman_.is_init_ = true) (hlt : i < T.blockman_.top_block_size_)
    (hn : T.slot i j = block_ptr.null) (hex : digest_exact ar.tb1 digest) :
    slot_absent_or_dense
      ((aggregator.combine_and_sub_ij_tail ar i j T bv_src_sub digest).1.slot i j) := by
  obtain ⟨ht, _⟩ := sort_input_blocks_or_entries i j bv_src_sub ar
  unfold aggregator.combine_and_sub_ij_tail
  generalize aggregator.sort_input_blocks_or i j bv_src_sub ar 0 0 = s at ht
  simp only []
  by_cases hl : bv_src_sub.length ≠ 0
  · rw [if_pos hl]
    by_cases hb : s.1 = block_ptr.full
    · rw [if_pos hb]
      exact Or.inl hn
    · rw [if_neg hb]
      have hex1 : digest_exact s.2.1.tb1 digest := by rw [ht]; exact hex
      by_cases hcg : s.2.2.1 ≠ 0 ∨ s.2.2.2 ≠ 0
      · rw [if_pos hcg]
        have hex2 := process_bit_blocks_sub_exact s.2.1 s.2.2.1 digest hex1
        by_cases hd0 : (aggregator.process_bit_blocks_sub s.2.1 s.2.2.1 digest).2 = 0
        · rw [if_pos hd0]
          exact Or.inl hn
        · rw [if_neg hd0]
          by_cases hg0 : s.2.2.2 ≠ 0
          · rw [if_pos hg0]
            by_cases hd2 : (aggregator.process_gap_blocks_sub
                (aggregator.process_bit_blocks_sub s.2.1 s.2.2.1 digest).1 s.2.2.2
                (aggregator.process_bit_blocks_sub s.2.1 s.2.2.1 digest).2).2 ≠ 0
            · rw [if_pos hd2]
              exact store_temp_block_shape _ T i j _ hi hlt
                (process_gap_blocks_sub_exact _ _ _ hex2) hd2
            · rw [if_neg hd2]
              exact Or.inl hn
          · rw [if_neg hg0, if_pos hd0]
            exact store_temp_block_shape _ T i j _ hi hlt hex2 hd0
      · rw [if_neg hcg]
        by_cases hd0 : digest ≠ 0
        · rw [if_pos hd0]
          exact store_temp_block_shape _ T i j _ hi hlt hex1 hd0
        · rw [if_neg hd0]
          exact Or.inl hn
  · rw [if_neg hl]
    by_cases hd0 : digest ≠ 0
    · rw [if_pos hd0]
      exact store_temp_block_shape _ T i j _ hi hlt hex hd0
    · rw [if_neg hd0]
      exact Or.inl hn

theorem combine_and_sub_ij_shape (ar : arena) (i j : Nat) (T : bvector)
    (bv_src_and bv_src_sub : List bvector)
    (hi : T.blockman_.is_init_ = true) (hlt : i < T.blockman_.top_block_size_)
    (hn : T.slot i j = block_ptr.null) :
    slot_absent_or_dense
      ((aggregator.combine_and_sub_ij ar i j T bv_src_and bv_src_sub).1.slot i j) := by
  unfold aggregator.combine_and_sub_ij
  generalize aggregator.sort_input_blocks_and i j bv_src_and ar 0 0 = s
  simp only []
  by_cases hb : s.1 = block_ptr.null
  · rw [if_pos hb]
    exact Or.inl hn
  · rw [if_neg hb]
    by_cases hcg : s.2.2.1 ≠ 0 ∨ s.2.2.2 ≠ 0
    · rw [if_pos hcg]
      have hex := (process_bit_blocks_and_inv s.2.1 s.2.2.1 0).2
      by_cases hd0 : (aggregator.process_bit_blocks_and s.2.1 s.2.2.1 0).2 = 0
      · rw [if_pos hd0]
        exact Or.inl hn
      · rw [if_neg hd0]
        by_cases hg0 : s.2.2.2 ≠ 0
        · rw [if_pos hg0]
          by_cases hd2 : (aggregator.process_gap_blocks_and
              (aggregator.process_bit_blocks_and s.2.1 s.2.2.1 0).1 s.2.2.2
              (aggregator.process_bit_blocks_and s.2.1 s.2.2.1 0).2).2 = 0
          · rw [if_pos hd2]
            exact Or.inl hn
          · rw [if_neg hd2]
            exact combine_and_sub_ij_tail_shape _ i j T bv_src_sub _ hi hlt hn
              (process_gap_blocks_and_exact _ _ _ hex)
        · rw [if_neg hg0]
          exact combine_and_sub_ij_tail_shape _ i j T bv_src_sub _ hi hlt hn hex
    · rw [if_neg hcg]
      exact Or.inl hn

theorem combine_and_slots (ar : arena) (dst : bvector) (bv_src : List bvector)
    (h1 : bv_src ≠ []) (h2 : bv_src.length < max_aggregator_cap) :
    ∃ r, aggregator.combine_and ar dst bv_src = Except.ok r ∧
      ∀ i j, slot_absent_or_dense (r.1.slot i j) ∧
        (j < set_array_size → ∀ q, q < bits_in_block →
          (r.1.slot i j).test q = bv_src.all (fun bv => (bv.slot i j).test q)) := by
  have hg : decide (bv_src.length ≥ max_aggregator_cap) = false := by
    simp; omega
  have hl : ¬ (bv_src.length = 0) := by
    intro h; exact h1 (List.length_eq_zero.1 h)
  obtain ⟨hfresh, hext⟩ := resize_target_clear_fresh dst bv_src
  have hd := driver_slot_spec (fun ar i j T => aggregator.combine_and_ij ar i j T bv_src)
    (fun i j q => bv_src.all (fun bv => (bv.slot i j).test q))
    (fun i => aggregator.find_effective_sub_block_size i bv_src)
    (fun _ _ b => slot_absent_or_dense b)
    (fun ar i j T a b c => combine_and_ij_spec ar i j T bv_src h1 a b c)
    (fun ar i j T a b c => combine_and_ij_shape ar i j T bv_src a b c)
    (aggregator.resize_target dst bv_src true).2
    (aggregator.resize_target dst bv_src true).1 ar hfresh
    (aggregator.resize_target dst bv_src true).2 (Nat.le_refl _)
  obtain ⟨r, hr, hp⟩ := combine_and_ok ar dst bv_src h1 h2
  have e : aggregator.combine_and ar dst bv_src = Except.ok
      ((List.range (aggregator.resize_target dst bv_src true).2).foldl
        (fun (st : bvector × arena) i =>
          aggregator.do_while_sub_blocks
            (fun j (st : bvector × arena) => aggregator.combine_and_ij st.2 i j st.1 bv_src)
            (aggregator.find_effective_sub_block_size i bv_src)
            (aggregator.find_effective_sub_block_size i bv_src + 1) 0 st)
        ((aggregator.resize_target dst bv_src true).1, ar)) := by
    unfold aggregator.combine_and
    simp only [hg, BM_ASSERT_THROW, Bool.false_eq_true, if_false, hl]
  refine ⟨r, hr, fun i j => ?_⟩
  rw [e] at hr
  cases hr
  by_cases hv : i < (aggregator.resize_target dst bv_src true).2 ∧
      j < max (aggregator.find_effective_sub_block_size i bv_src) 1
  · exact ⟨hd i j hv.1 hv.2, fun _ q hq => (hp.2.2.2 i j).1 hv q hq⟩
  · have hnull := (hp.2.2.2 i j).2 hv
    refine ⟨Or.inl hnull, fun hj q _ => ?_⟩
    rw [hnull]
    symm
    obtain ⟨bv, hm⟩ := List.exists_mem_of_ne_nil bv_src h1
    apply all_false_of_null i j bv_src ⟨bv, hm, ?_⟩
    by_cases hi : i < (aggregator.resize_target dst bv_src true).2
    · apply find_effective_sub_block_size_covers _ bv_src bv hm _ _ hj
      by_contra hlt
      exact hv ⟨hi, by omega⟩
    · exact slot_null_of_extent bv _ _ (by have := hext bv hm; omega)

theorem combine_and_sub_with_slots (src_size : Nat) (ar : arena) (dst : bvector)
    (bv_src_and bv_src_sub : List bvector) (hsz : src_size ≠ 0)
    (h1 : bv_src_and ≠ []) (h2 : bv_src_and.length < max_aggregator_cap)
    (h3 : bv_src_sub.length < max_aggregator_cap) :
    ∃ r, aggregator.combine_and_sub_with src_size ar dst bv_src_and bv_src_sub
        = Except.ok r ∧
      ∀ i j, slot_absent_or_dense (r.1.slot i j) ∧
        (j < set_array_size → ∀ q, q < bits_in_block →
          (r.1.slot i j).test q =
            (bv_src_and.all (fun bv => (bv.slot i j).test q) &&
              !bv_src_sub.any (fun bv => (bv.slot i j).test q))) ∧
        ((∃ bv, bv ∈ bv_src_sub ∧ bv.slot i j = block_ptr.full) →
          r.1.slot i j = block_ptr.null) := by
  have hg1 : decide (bv_src_and.length ≥ max_aggregator_cap) = false := by
    simp; omega
  have hg2 : decide (bv_src_sub.length ≥ max_aggregator_cap) = false := by
    simp; omega
  obtain ⟨hfresh1, hext1⟩ := resize_target_clear_fresh dst bv_src_and
  obtain ⟨hfresh2, hle, hext2⟩ := resize_target_keep_fresh
    (aggregator.resize_target dst bv_src_and true).1
    (aggregator.resize_target dst bv_src_and true).2 bv_src_sub hfresh1
  have htop : (if (aggregator.resize_target
        (aggregator.resize_target dst bv_src_and true).1 bv_src_sub false).2
        > (aggregator.resize_target dst bv_src_and true).2
      then (aggregator.resize_target
        (aggregator.resize_target dst bv_src_and true).1 bv_src_sub false).2
      else (aggregator.resize_target dst bv_src_and true).2)
      = (aggregator.resize_target
        (aggregator.resize_target dst bv_src_and true).1 bv_src_sub false).2 := by
    split_ifs with h
    · rfl
    · omega
  have hp := driver_spec
    (fun ar i j T => aggregator.combine_and_sub_ij ar i j T bv_src_and bv_src_sub)
    (fun i j q => bv_src_and.all (fun bv => (bv.slot i j).test q) &&
      !bv_src_sub.any (fun bv => (bv.slot i j).test q))
    (fun i =>
      if bv_src_sub.length ≠ 0 then
        if aggregator.find_effective_sub_block_size i bv_src_sub
            > aggregator.find_effective_sub_block_size i bv_src_and
        then aggregator.find_effective_sub_block_size i bv_src_sub
        else aggregator.find_effective_sub_block_size i bv_src_and
      else aggregator.find_effective_sub_block_size i bv_src_and)
    (fun ar i j T a b c => combine_and_sub_ij_spec ar i j T bv_src_and bv_src_sub h1 a b c)
    _ _ ar hfresh2 _ (Nat.le_refl _)
  have hd := driver_slot_spec
    (fun ar i j T => aggregator.combine_and_sub_ij ar i j T bv_src_and bv_src_sub)
    (fun i j q => bv_src_and.all (fun bv => (bv.slot i j).test q) &&
      !bv_src_sub.any (fun bv => (bv.slot i j).test q))
    (fun i =>
      if bv_src_sub.length ≠ 0 then
        if aggregator.find_effective_sub_block_size i bv_src_sub
            > aggregator.find_effective_sub_block_size i bv_src_and
        then aggregator.find_effective_sub_block_size i bv_src_sub
        else aggregator.find_effective_sub_block_size i bv_src_and
      else aggregator.find_effective_sub_block_size i bv_src_and)
    (fun _ _ b => slot_absent_or_dense b)
    (fun ar i j T a b c => combine_and_sub_ij_spec ar i j T bv_src_and bv_src_sub h1 a b c)
    (fun ar i j T a b c => combine_and_sub_ij_shape ar i j T bv_src_and bv_src_sub a b c)
    _ _ ar hfresh2 _ (Nat.le_refl _)
  unfold aggregator.combine_and_sub_with
  simp only [hg1, hg2, BM_ASSERT_THROW, Bool.false_eq_true, if_false, hsz, htop]
  refine ⟨_, rfl, fun i j => ?_⟩
  by_cases hv : i < (aggregator.resize_target
        (aggregator.resize_target dst bv_src_and true).1 bv_src_sub false).2 ∧
      j < max (if bv_src_sub.length ≠ 0 then
        if aggregator.find_effective_sub_block_size i bv_src_sub
            > aggregator.find_effective_sub_block_size i bv_src_and
        then aggregator.find_effective_sub_block_size i bv_src_sub
        else aggregator.find_effective_sub_block_size i bv_src_and
      else aggregator.find_effective_sub_block_size i bv_src_and) 1
  · have hshape := hd i j hv.1 hv.2
    have hbits := (hp.2.2.2 i j).1 hv
    refine ⟨hshape, fun _ q hq => hbits q hq, fun hfull => ?_⟩
    rcases hshape with hnull | ⟨w, hw, q, hq, hbit⟩
    · exact hnull
    · exfalso
      have hany : bv_src_sub.any (fun bv => (bv.slot i j).test q) = true := by
        obtain ⟨bv, hm, hf⟩ := hfull
        rw [List.any_eq_true]
        exact ⟨bv, hm, by rw [hf]; rfl⟩
      have hb : w.testBit q =
          (bv_src_and.all (fun bv => (bv.slot i j).test q) &&
            !bv_src_sub.any (fun bv => (bv.slot i j).test q)) := by
        have := hbits q hq
        rw [hw] at this
        exact this
      rw [hany, hbit] at hb
      simp at hb
  · have hnull := (hp.2.2.2 i j).2 hv
    refine ⟨Or.inl hnull, fun hj q _ => ?_, fun _ => hnull⟩
    rw [hnull]
    symm
    obtain ⟨bv, hm⟩ := List.exists_mem_of_ne_nil bv_src_and h1
    have : bv_src_and.all (fun bv => (bv.slot i j).test q) = false := by
      apply all_false_of_null i j bv_src_and ⟨bv, hm, ?_⟩
      by_cases hi : i < (aggregator.resize_target
          (aggregator.resize_target dst bv_src_and true).1 bv_src_sub false).2
      · apply find_effective_sub_block_size_covers _ bv_src_and bv hm _ _ hj
        by_contra hlt
        apply hv
        refine ⟨hi, ?_⟩
        split_ifs <;> omega
      · exact slot_null_of_extent bv _ _ (by have := hext1 bv hm; omega)
    rw [this]
    rfl

theorem slot_absent_iff_no_bit (b : block_ptr) (G : Nat → Bool)
    (hs : slot_absent_or_dense b) (hb : ∀ q, q < bits_in_block → b.test q = G q) :
    (b = block_ptr.null ↔ ∀ q, q < bits_in_block → G q = false) ∧
    (b ≠ block_ptr.null →
      ∃ w, b = block_ptr.bit w ∧ ∃ q, q < bits_in_block ∧ w.testBit q = true) := by
  rcases hs with hnull | ⟨w, hw, q, hq, hbit⟩
  · refine ⟨⟨fun _ q hq => ?_, fun _ => hnull⟩, fun hne => absurd hnull hne⟩
    rw [← hb q hq, hnull]
    rfl
  · refine ⟨⟨fun hnull => ?_, fun hall => ?_⟩, fun _ => ⟨w, hw, q, hq, hbit⟩⟩
    · rw [hw] at hnull
      cases hnull
    · exfalso
      have h1 := hb q hq
      rw [hw, hall q hq] at h1
      have h2 : (block_ptr.bit w).test q = w.testBit q := rfl
      rw [h2, hbit] at h1
      cases h1

theorem slot_clear (bv : bvector) (f : Bool) (i j : Nat) :
    (bv.clear f).slot i j = block_ptr.null := by
  unfold bvector.clear bvector.slot blocks_manager.get_block_ptr blocks_manager.get_topblock
  simp only []
  split_ifs <;> rfl

/-- C30: after `combine_and` and `combine_and_sub` on accepted operand lists (a non-empty
AND group, fewer than `max_aggregator_cap` operands per group), every slot `(i, j)` of
the destination is absent exactly when the combined result for that coordinate has no
set bit, and is otherwise a dense block, which then holds a set bit: no all-zero dense
block is installed. -/
theorem and_chains_install_no_zero_block (ar : arena) (dst : bvector)
    (bv_src_and bv_src_sub : List bvector) (h1 : bv_src_and ≠ [])
    (h2 : bv_src_and.length < max_aggregator_cap)
    (h3 : bv_src_sub.length < max_aggregator_cap) :
    (∃ r, aggregator.combine_and ar dst bv_src_and = Except.ok r ∧
      ∀ i j, j < set_array_size →
        (r.1.slot i j = block_ptr.null ↔
          ∀ q, q < bits_in_block →
            bv_src_and.all (fun bv => (bv.slot i j).test q) = false) ∧
        (r.1.slot i j ≠ block_ptr.null →
          ∃ w, r.1.slot i j = block_ptr.bit w ∧
            ∃ q, q < bits_in_block ∧ w.testBit q = true)) ∧
    (∃ r, aggregator.combine_and_sub ar dst bv_src_and bv_src_sub = Except.ok r ∧
      ∀ i j, j < set_array_size →
        (r.1.slot i j = block_ptr.null ↔
          ∀ q, q < bits_in_block →
            (bv_src_and.all (fun bv => (bv.slot i j).test q) &&
              !bv_src_sub.any (fun bv => (bv.slot i j).test q)) = false) ∧
        (r.1.slot i j ≠ block_ptr.null →
          ∃ w, r.1.slot i j = block_ptr.bit w ∧
            ∃ q, q < bits_in_block ∧ w.testBit q = true)) := by
  constructor
  · obtain ⟨r, hr, hs⟩ := combine_and_slots ar dst bv_src_and h1 h2
    refine ⟨r, hr, fun i j hj => ?_⟩
    exact slot_absent_iff_no_bit _
      (fun q => bv_src_and.all (fun bv => (bv.slot i j).test q)) (hs i j).1
      ((hs i j).2 hj)
  · have hsz : bv_src_and.length ≠ 0 := fun h => h1 (List.length_eq_zero.1 h)
    obtain ⟨r, hr, hs⟩ := combine_and_sub_with_slots bv_src_and.length ar dst
      bv_src_and bv_src_sub hsz h1 h2 h3
    refine ⟨r, hr, fun i j hj => ?_⟩
    exact slot_absent_iff_no_bit _
      (fun q => bv_src_and.all (fun bv => (bv.slot i j).test q) &&
        !bv_src_sub.any (fun bv => (bv.slot i j).test q)) (hs i j).1
      ((hs i j).2.1 hj)

/-- C30, at a concrete input: two dense operands in the AND group and one dense
subtrahend. -/
theorem and_chains_install_no_zero_block_witness :
    [sample_bvector 3, sample_bvector 5] ≠ [] ∧
    [sample_bvector 3, sample_bvector 5].length < max_aggregator_cap ∧
    [sample_bvector 1].length < max_aggregator_cap ∧
    ∃ r, aggregator.combine_and sample_arena (sample_bvector 0)
        [sample_bvector 3, sample_bvector 5] = Except.ok r ∧
      ∀ i j, j < set_array_size →
        (r.1.slot i j = block_ptr.null ↔
          ∀ q, q < bits_in_block →
            [sample_bvector 3, sample_bvector 5].all
              (fun bv => (bv.slot i j).test q) = false) ∧
        (r.1.slot i j ≠ block_ptr.null →
          ∃ w, r.1.slot i j = block_ptr.bit w ∧
            ∃ q, q < bits_in_block ∧ w.testBit q = true) :=
  ⟨List.cons_ne_nil _ _, by decide, by decide,
    (and_chains_install_no_zero_block sample_arena (sample_bvector 0)
      [sample_bvector 3, sample_bvector 5] [sample_bvector 1]
      (List.cons_ne_nil _ _) (by decide) (by decide)).1⟩

/-! ## SUB against an all-ones subtrahend -/

/-- C26: for `combine_and_sub` on accepted operand groups (fewer than
`max_aggregator_cap` operands each; the AND group may be empty), at every coordinate
`(i, j)` where a SUB-group operand's block is the all-ones sentinel the destination's
slot is absent, whatever the AND group holds there. -/
theorem combine_and_sub_absent_at_full_subtrahend (ar : arena) (dst : bvector)
    (bv_src_and bv_src_sub : List bvector)
    (h2 : bv_src_and.length < max_aggregator_cap)
    (h3 : bv_src_sub.length < max_aggregator_cap) (i j : Nat)
    (hfull : ∃ bv, bv ∈ bv_src_sub ∧ bv.slot i j = block_ptr.full) :
    ∃ r, aggregator.combine_and_sub ar dst bv_src_and bv_src_sub = Except.ok r ∧
      r.1.slot i j = block_ptr.null := by
  by_cases h1 : bv_src_and = []
  · subst h1
    have hg2 : ¬ (256 ≤ bv_src_sub.length) := by
      unfold max_aggregator_cap at h3
      omega
    refine ⟨(dst.clear false, ar), ?_, slot_clear dst false i j⟩
    unfold aggregator.combine_and_sub aggregator.combine_and_sub_with
    simp [hg2, BM_ASSERT_THROW, max_aggregator_cap]
  · have hsz : bv_src_and.length ≠ 0 := fun h => h1 (List.length_eq_zero.1 h)
    obtain ⟨r, hr, hs⟩ := combine_and_sub_with_slots bv_src_and.length ar dst
      bv_src_and bv_src_sub hsz h1 h2 h3
    exact ⟨r, hr, (hs i j).2.2 hfull⟩

/-- C26, at a concrete input: one dense operand in the AND group and a subtrahend whose
block `(0, 0)` is the all-ones sentinel. -/
theorem combine_and_sub_absent_at_full_subtrahend_witness :
    [sample_bvector 3].length < max_aggregator_cap ∧
    [sample_block_bvector block_ptr.full].length < max_aggregator_cap ∧
    (∃ bv, bv ∈ [sample_block_bvector block_ptr.full] ∧ bv.slot 0 0 = block_ptr.full) ∧
    ∃ r, aggregator.combine_and_sub sample_arena (sample_bvector 1) [sample_bvector 3]
        [sample_block_bvector block_ptr.full] = Except.ok r ∧
      r.1.slot 0 0 = block_ptr.null :=
  ⟨by decide, by decide,
    ⟨_, List.mem_singleton.2 rfl, by rw [sample_block_bvector_slot]; simp⟩,
    combine_and_sub_absent_at_full_subtrahend sample_arena (sample_bvector 1)
      [sample_bvector 3] [sample_block_bvector block_ptr.full] (by decide) (by decide) 0 0
      ⟨_, List.mem_singleton.2 rfl, by rw [sample_block_bvector_slot]; simp⟩⟩

/-! ## OR: when the destination slot is the all-ones sentinel -/

theorem or_loop_4way_progress (v : Nat → arg_blk_ptr) (len_unr : Nat) :
    ∀ (fuel k blk : Nat), (aggregator.or_loop_4way v len_unr fuel k blk).2.2 = false →
      ((aggregator.or_loop_4way v len_unr fuel k blk).1 = k ∧
        (aggregator.or_loop_4way v len_unr fuel k blk).2.1 = blk) ∨
      is_bits_one (aggregator.or_loop_4way v len_unr fuel k blk).2.1 = false := by
  intro fuel
  induction fuel with
  | zero => intro k blk _; exact Or.inl ⟨rfl, rfl⟩
  | succ fuel ih =>
    intro k blk hf
    by_cases hlt : k < len_unr
    · by_cases hone : (bit_block_or_5way blk (v k).deref (v (k + 1)).deref
          (v (k + 2)).deref (v (k + 3)).deref).2 = true
      · simp [aggregator.or_loop_4way, hlt, hone] at hf
      · have e : aggregator.or_loop_4way v len_unr (fuel + 1) k blk
            = aggregator.or_loop_4way v len_unr fuel (k + 4)
                (bit_block_or_5way blk (v k).deref (v (k + 1)).deref
                  (v (k + 2)).deref (v (k + 3)).deref).1 := by
          simp [aggregator.or_loop_4way, hlt, hone]
        rw [e] at hf ⊢
        rcases ih _ _ hf with ⟨_, h2⟩ | h
        · right
          rw [h2]
          simpa [bit_block_or_5way] using hone
        · exact Or.inr h
    · left
      simp [aggregator.or_loop_4way, hlt]

theorem or_loop_2way_progress (v : Nat → arg_blk_ptr) (len_unr : Nat) :
    ∀ (fuel k blk : Nat), (aggregator.or_loop_2way v len_unr fuel k blk).2.2 = false →
      ((aggregator.or_loop_2way v len_unr fuel k blk).1 = k ∧
        (aggregator.or_loop_2way v len_unr fuel k blk).2.1 = blk) ∨
      is_bits_one (aggregator.or_loop_2way v len_unr fuel k blk).2.1 = false := by
  intro fuel
  induction fuel with
  | zero => intro k blk _; exact Or.inl ⟨rfl, rfl⟩
  | succ fuel ih =>
    intro k blk hf
    by_cases hlt : k < len_unr
    · by_cases hone : (bit_block_or_3way blk (v k).deref (v (k + 1)).deref).2 = true
      · simp [aggregator.or_loop_2way, hlt, hone] at hf
      · have e : aggregator.or_loop_2way v len_unr (fuel + 1) k blk
            = aggregator.or_loop_2way v len_unr fuel (k + 2)
                (bit_block_or_3way blk (v k).deref (v (k + 1)).deref).1 := by
          simp [aggregator.or_loop_2way, hlt, hone]
        rw [e] at hf ⊢
        rcases ih _ _ hf with ⟨_, h2⟩ | h
        · right
          rw [h2]
          simpa [bit_block_or_3way] using hone
        · exact Or.inr h
    · left
      simp [aggregator.or_loop_2way, hlt]

theorem or_loop_1way_progress (v : Nat → arg_blk_ptr) (c : Nat) :
    ∀ (fuel k blk : Nat), (aggregator.or_loop_1way v c fuel k blk).2.2 = false →
      (aggregator.or_loop_1way v c fuel k blk).2.1 = blk ∨
      is_bits_one (aggregator.or_loop_1way v c fuel k blk).2.1 = false := by
  intro fuel
  induction fuel with
  | zero => intro k blk _; exact Or.inl rfl
  | succ fuel ih =>
    intro k blk hf
    by_cases hlt : k < c
    · by_cases hone : (bit_block_or blk (v k).deref).2 = true
      · simp [aggregator.or_loop_1way, hlt, hone] at hf
      · have e : aggregator.or_loop_1way v c (fuel + 1) k blk
            = aggregator.or_loop_1way v c fuel (k + 1) (bit_block_or blk (v k).deref).1 := by
          simp [aggregator.or_loop_1way, hlt, hone]
        rw [e] at hf ⊢
        rcases ih _ _ hf with h2 | h
        · right
          rw [h2]
          simpa [bit_block_or] using hone
        · exact Or.inr h
    · left
      simp [aggregator.or_loop_1way, hlt]

theorem or_loop_1way_step_not_ones (v : Nat → arg_blk_ptr) (c fuel k blk : Nat)
    (hlt : k < c)
    (hf : (aggregator.or_loop_1way v c (fuel + 1) k blk).2.2 = false) :
    is_bits_one (aggregator.or_loop_1way v c (fuel + 1) k blk).2.1 = false := by
  by_cases hone : (bit_block_or blk (v k).deref).2 = true
  · simp [aggregator.or_loop_1way, hlt, hone] at hf
  · have e : aggregator.or_loop_1way v c (fuel + 1) k blk
        = aggregator.or_loop_1way v c fuel (k + 1) (bit_block_or blk (v k).deref).1 := by
      simp [aggregator.or_loop_1way, hlt, hone]
    rw [e] at hf ⊢
    rcases or_loop_1way_progress v c fuel (k + 1) _ hf with h2 | h
    · rw [h2]
      simpa [bit_block_or] using hone
    · exact h

theorem process_bit_blocks_or_one (ar : arena) (bman : blocks_manager) (i j : Nat) :
    aggregator.process_bit_blocks_or ar bman i j 1
      = (bman, { ar with tb1 := (ar.v_arg_blk 0).deref }, false) := by
  simp [aggregator.process_bit_blocks_or, aggregator.or_loop_4way,
    aggregator.or_loop_2way, aggregator.or_loop_1way]

theorem process_bit_blocks_or_not_ones (ar : arena) (bman : blocks_manager) (i j c : Nat)
    (hc : 2 ≤ c)
    (hf : (aggregator.process_bit_blocks_or ar bman i j c).2.2 = false) :
    is_bits_one (aggregator.process_bit_blocks_or ar bman i j c).2.1.tb1 = false := by
  obtain ⟨c1, rfl⟩ : ∃ c1, c = c1 + 1 := ⟨c - 1, by omega⟩
  have hc0 : c1 + 1 ≠ 0 := by omega
  unfold aggregator.process_bit_blocks_or at hf ⊢
  simp only [hc0, ne_eq, not_false_eq_true, if_true] at hf ⊢
  have p4 := or_loop_4way_progress ar.v_arg_blk (c1 + 1 - 1 - (c1 + 1 - 1) % 4)
    (c1 + 1 - 1 - (c1 + 1 - 1) % 4) 1 (ar.v_arg_blk 0).deref
  generalize aggregator.or_loop_4way ar.v_arg_blk (c1 + 1 - 1 - (c1 + 1 - 1) % 4)
    (c1 + 1 - 1 - (c1 + 1 - 1) % 4) 1 (ar.v_arg_blk 0).deref = r4 at hf p4 ⊢
  cases h4 : r4.2.2 with
  | true => simp [h4] at hf
  | false =>
    simp only [h4, Bool.false_eq_true, if_false] at hf ⊢
    have p2 := or_loop_2way_progress ar.v_arg_blk (c1 + 1 - r4.1 - (c1 + 1 - r4.1) % 2)
      (c1 + 1 - r4.1 - (c1 + 1 - r4.1) % 2) r4.1 r4.2.1
    generalize aggregator.or_loop_2way ar.v_arg_blk (c1 + 1 - r4.1 - (c1 + 1 - r4.1) % 2)
      (c1 + 1 - r4.1 - (c1 + 1 - r4.1) % 2) r4.1 r4.2.1 = r2 at hf p2 ⊢
    cases h2 : r2.2.2 with
    | true => simp [h2] at hf
    | false =>
      simp only [h2, Bool.false_eq_true, if_false] at hf ⊢
      have p1 := or_loop_1way_progress ar.v_arg_blk (c1 + 1) (c1 + 1) r2.1 r2.2.1
      have q1 := or_loop_1way_step_not_ones ar.v_arg_blk (c1 + 1) c1 r2.1 r2.2.1
      generalize aggregator.or_loop_1way ar.v_arg_blk (c1 + 1) (c1 + 1) r2.1 r2.2.1
        = r1 at hf p1 q1 ⊢
      cases h1 : r1.2.2 with
      | true => simp [h1] at hf
      | false =>
        simp only [h1, Bool.false_eq_true, if_false]
        rcases p2 h2 with ⟨e2k, e2b⟩ | n2
        · rcases p4 h4 with ⟨e4k, e4b⟩ | n4
          · exact q1 (by omega) h1
          · rcases p1 h1 with e1 | n1
            · rw [e1, e2b]; exact n4
            · exact n1
        · rcases p1 h1 with e1 | n1
          · rw [e1]; exact n2
          · exact n1

theorem is_bits_one_all_ones : is_bits_one all_ones_block = true := by
  unfold is_bits_one
  exact decide_eq_true rfl

theorem process_gap_blocks_or_flag (ar : arena) (bman : blocks_manager) (i j n : Nat) :
    (aggregator.process_gap_blocks_or ar bman i j n).2.2
      = is_bits_one (aggregator.process_gap_blocks_or ar bman i j n).2.1.tb1 := by
  unfold aggregator.process_gap_blocks_or
  simp only []
  split_ifs with h
  · exact h.symm
  · simpa using h

theorem set_block_slot (T : bvector) (i j : Nat) (b : block_ptr) (g : Bool)
    (hi : T.blockman_.is_init_ = true) (hlt : i < T.blockman_.top_block_size_) :
    ({ T with blockman_ := T.blockman_.set_block i j b g } : bvector).slot i j = b := by
  show blocks_manager.get_block_ptr (blocks_manager.set_block T.blockman_ i j b g) i j = b
  unfold blocks_manager.set_block
  rw [get_block_ptr_store _ _ _ _ hi hlt, if_pos ⟨rfl, rfl⟩]

theorem or_args_high_bits (i j : Nat) (bv_src : List bvector)
    (hwf : ∀ bv, bv ∈ bv_src → (bv.slot i j).wf) (q : Nat) (hq : bits_in_block ≤ q) :
    (or_dense_args i j bv_src).any (fun a => a.deref.testBit q) = false ∧
    (gap_args i j bv_src).any (fun g => gap_test g q) = false := by
  have key : ∀ x : Nat, x < 2 ^ bits_in_block → x.testBit q = false := fun x hx =>
    Nat.testBit_lt_two_pow (Nat.lt_of_lt_of_le hx (Nat.pow_le_pow_right (by decide) hq))
  constructor
  · rw [List.any_eq_false]
    intro a ha
    unfold or_dense_args at ha
    rw [List.mem_filterMap] at ha
    obtain ⟨bv, hm, hb⟩ := ha
    have hw := hwf bv hm
    cases hs : bv.slot i j with
    | null => rw [hs] at hb; cases hb
    | full => rw [hs] at hb; cases hb
    | gap g => rw [hs] at hb; cases hb
    | bit w =>
      rw [hs] at hb hw
      cases hb
      have := key w hw
      simpa [arg_blk_ptr.deref] using this
  · rw [List.any_eq_false]
    intro g hg
    unfold gap_args at hg
    rw [List.mem_filterMap] at hg
    obtain ⟨bv, hm, hb⟩ := hg
    have hw := hwf bv hm
    cases hs : bv.slot i j with
    | null => rw [hs] at hb; cases hb
    | full => rw [hs] at hb; cases hb
    | bit w => rw [hs] at hb; cases hb
    | gap g2 =>
      rw [hs] at hb hw
      cases hb
      have := key _ hw
      simpa [gap_test] using this

theorem or_union_all_ones (i j : Nat) (bv_src : List bvector)
    (hnf : ∀ bv, bv ∈ bv_src → bv.slot i j ≠ block_ptr.full)
    (hwf : ∀ bv, bv ∈ bv_src → (bv.slot i j).wf)
    (hall : ∀ q, q < bits_in_block → bv_src.any (fun bv => (bv.slot i j).test q) = true)
    (blk : Nat)
    (hb : ∀ q, blk.testBit q = ((or_dense_args i j bv_src).any (fun a => a.deref.testBit q) ||
      (gap_args i j bv_src).any (fun g => gap_test g q))) :
    blk = all_ones_block := by
  apply Nat.eq_of_testBit_eq
  intro q
  rw [hb q, testBit_all_ones_block]
  by_cases hq : q < bits_in_block
  · rw [← any_slot_no_full i j bv_src hnf q, hall q hq]
    simpa using hq
  · obtain ⟨h1, h2⟩ := or_args_high_bits i j bv_src hwf q (by omega)
    rw [h1, h2]
    simpa using hq

theorem combine_or_ij_all_ones (ar : arena) (i j : Nat) (T : bvector)
    (bv_src : List bvector)
    (hi : T.blockman_.is_init_ = true) (hlt : i < T.blockman_.top_block_size_)
    (hwf : ∀ bv, bv ∈ bv_src → (bv.slot i j).wf)
    (hall : ∀ q, q < bits_in_block → bv_src.any (fun bv => (bv.slot i j).test q) = true)
    (hmix : (∃ bv, bv ∈ bv_src ∧ bv.slot i j = block_ptr.full) ∨
      gap_args i j bv_src ≠ [] ∨ 2 ≤ (or_dense_args i j bv_src).length) :
    (aggregator.combine_or_ij ar i j T bv_src).1.slot i j = block_ptr.full := by
  by_cases hfull : ∃ bv, bv ∈ bv_src ∧ bv.slot i j = block_ptr.full
  · exact combine_or_ij_slot_full ar i j T bv_src hi hlt hfull
  · have hnf : ∀ bv, bv ∈ bv_src → bv.slot i j ≠ block_ptr.full :=
      fun bv hm hc => hfull ⟨bv, hm, hc⟩
    obtain ⟨hs1, _, hsc, hsg, _, _⟩ := sort_input_blocks_or_no_full i j bv_src ar 0 0 hnf
    obtain ⟨_, hv, hvg⟩ := sort_input_blocks_or_init i j bv_src ar hnf
    rw [Nat.zero_add] at hsc hsg
    unfold aggregator.combine_or_ij
    generalize aggregator.sort_input_blocks_or i j bv_src ar 0 0 = s at hs1 hsc hsg hv hvg
    simp only []
    have hne : s.1 ≠ block_ptr.full := by rw [hs1]; intro h; cases h
    have hcg : s.2.2.1 ≠ 0 ∨ s.2.2.2 ≠ 0 := by
      rcases hmix with h | h | h
      · exact absurd h hfull
      · right
        rw [hsg]
        intro h0
        exact h (List.length_eq_zero.1 h0)
      · left
        omega
    rw [if_neg hne, if_pos hcg]
    obtain ⟨pv, pvg, pt, pf⟩ := process_bit_blocks_or_spec s.2.1 T.blockman_ i j s.2.2.1
    cases hflag : (aggregator.process_bit_blocks_or s.2.1 T.blockman_ i j s.2.2.1).2.2 with
    | true =>
      simp only [if_true]
      rw [(pt hflag).1]
      exact set_block_slot T i j _ _ hi hlt
    | false =>
      simp only [Bool.false_eq_true, if_false]
      have hbman := (pf hflag).1
      have hacc := (pf hflag).2
      have hdense : ∀ q, (aggregator.process_bit_blocks_or s.2.1 T.blockman_ i j
          s.2.2.1).2.1.tb1.testBit q
            = (or_dense_args i j bv_src).any (fun a => a.deref.testBit q) := by
        intro q
        rw [hacc q, hv]
      by_cases hg0 : s.2.2.2 ≠ 0
      · rw [if_pos hg0]
        obtain ⟨_, _, gbits, gt, gf⟩ := process_gap_blocks_or_spec
          (aggregator.process_bit_blocks_or s.2.1 T.blockman_ i j s.2.2.1).2.1
          (aggregator.process_bit_blocks_or s.2.1 T.blockman_ i j s.2.2.1).1 i j s.2.2.2
        have hones : (aggregator.process_gap_blocks_or
            (aggregator.process_bit_blocks_or s.2.1 T.blockman_ i j s.2.2.1).2.1
            (aggregator.process_bit_blocks_or s.2.1 T.blockman_ i j s.2.2.1).1 i j
            s.2.2.2).2.1.tb1 = all_ones_block := by
          apply or_union_all_ones i j bv_src hnf hwf hall
          intro q
          rw [gbits q, hdense q, pvg, hvg]
        have hflag2 := process_gap_blocks_or_flag
          (aggregator.process_bit_blocks_or s.2.1 T.blockman_ i j s.2.2.1).2.1
          (aggregator.process_bit_blocks_or s.2.1 T.blockman_ i j s.2.2.1).1 i j s.2.2.2
        rw [hones, is_bits_one_all_ones] at hflag2
        rw [if_pos hflag2, (gt hflag2).1, hbman]
        exact set_block_slot T i j _ _ hi hlt
      · exfalso
        have hg1 : s.2.2.2 = 0 := by simpa using hg0
        have hgaps : gap_args i j bv_src = [] := by
          apply List.length_eq_zero.1
          rw [← hsg, hg1]
        have hc2 : 2 ≤ s.2.2.1 := by
          rcases hmix with h | h | h
          · exact absurd h hfull
          · exact absurd hgaps h
          · omega
        have hnot := process_bit_blocks_or_not_ones s.2.1 T.blockman_ i j s.2.2.1 hc2 hflag
        have hones : (aggregator.process_bit_blocks_or s.2.1 T.blockman_ i j
            s.2.2.1).2.1.tb1 = all_ones_block := by
          apply or_union_all_ones i j bv_src hnf hwf hall
          intro q
          rw [hdense q, hgaps]
          simp
        rw [hones, is_bits_one_all_ones] at hnot
        cases hnot

theorem combine_or_ij_single_dense (ar : arena) (i j : Nat) (T : bvector)
    (bv_src : List bvector) (w : Nat)
    (hi : T.blockman_.is_init_ = true) (hlt : i < T.blockman_.top_block_size_)
    (hnf : ∀ bv, bv ∈ bv_src → bv.slot i j ≠ block_ptr.full)
    (hd : or_dense_args i j bv_src = [arg_blk_ptr.blk w])
    (hg : gap_args i j bv_src = []) :
    (aggregator.combine_or_ij ar i j T bv_src).1.slot i j = block_ptr.bit w := by
  obtain ⟨hs1, _, hsc, hsg, _, _⟩ := sort_input_blocks_or_no_full i j bv_src ar 0 0 hnf
  obtain ⟨_, hv, _⟩ := sort_input_blocks_or_init i j bv_src ar hnf
  rw [Nat.zero_add, hd] at hsc
  rw [Nat.zero_add, hg] at hsg
  rw [hd] at hv
  unfold aggregator.combine_or_ij
  generalize aggregator.sort_input_blocks_or i j bv_src ar 0 0 = s at hs1 hsc hsg hv
  simp only []
  have hne : s.1 ≠ block_ptr.full := by rw [hs1]; intro h; cases h
  have hc1 : s.2.2.1 = 1 := hsc
  have hg0 : s.2.2.2 = 0 := hsg
  have hv0 : s.2.1.v_arg_blk 0 = arg_blk_ptr.blk w := by
    rw [hc1] at hv
    have := arr_upto_inj s.2.1.v_arg_blk (fun _ => arg_blk_ptr.blk w) 1
      (by rw [hv]; rfl) 0 (by omega)
    exact this
  rw [if_neg hne, hc1, hg0, process_bit_blocks_or_one]
  simp only [ne_eq, one_ne_zero, not_false_eq_true, not_true_eq_false, or_false, if_true,
    Bool.false_eq_true, if_false]
  rw [store_temp_block_slot _ _ i j hi hlt, hv0]
  rfl

theorem combine_or_slot_cases (ar : arena) (dst : bvector) (bv_src : List bvector)
    (h2 : bv_src.length < max_aggregator_cap) (i j : Nat) (hj : j < set_array_size)
    (hwf : ∀ bv, bv ∈ bv_src → (bv.slot i j).wf)
    (hall : ∀ q, q < bits_in_block → bv_src.any (fun bv => (bv.slot i j).test q) = true) :
    ∃ r, aggregator.combine_or ar dst bv_src = Except.ok r ∧
      (((∃ bv, bv ∈ bv_src ∧ bv.slot i j = block_ptr.full) ∨
          gap_args i j bv_src ≠ [] ∨ 2 ≤ (or_dense_args i j bv_src).length) →
        r.1.slot i j = block_ptr.full) ∧
      (∀ w, (∀ bv, bv ∈ bv_src → bv.slot i j ≠ block_ptr.full) →
        or_dense_args i j bv_src = [arg_blk_ptr.blk w] → gap_args i j bv_src = [] →
        r.1.slot i j = block_ptr.bit w) := by
  have hbits0 : 0 < bits_in_block := by unfold bits_in_block; omega
  obtain ⟨bv0, hm0, ht0⟩ : ∃ bv, bv ∈ bv_src ∧ (bv.slot i j).test 0 = true := by
    have := hall 0 hbits0
    rw [List.any_eq_true] at this
    exact this
  have hnn : bv0.slot i j ≠ block_ptr.null := by
    intro hc
    rw [hc] at ht0
    cases ht0
  have h1 : bv_src ≠ [] := List.ne_nil_of_mem hm0
  have hg : decide (bv_src.length ≥ max_aggregator_cap) = false := by
    simp; omega
  have hl : ¬ (bv_src.length = 0) := by
    intro h; exact h1 (List.length_eq_zero.1 h)
  obtain ⟨hfresh, hext⟩ := resize_target_clear_fresh dst bv_src
  have hd := driver_slot_spec (fun ar i j T => aggregator.combine_or_ij ar i j T bv_src)
    (fun i j q => bv_src.any (fun bv => (bv.slot i j).test q))
    (fun i => aggregator.find_effective_sub_block_size i bv_src)
    (fun i j b =>
      ((∀ bv, bv ∈ bv_src → (bv.slot i j).wf) →
        (∀ q, q < bits_in_block → bv_src.any (fun bv => (bv.slot i j).test q) = true) →
        ((∃ bv, bv ∈ bv_src ∧ bv.slot i j = block_ptr.full) ∨
          gap_args i j bv_src ≠ [] ∨ 2 ≤ (or_dense_args i j bv_src).length) →
        b = block_ptr.full) ∧
      (∀ w, (∀ bv, bv ∈ bv_src → bv.slot i j ≠ block_ptr.full) →
        or_dense_args i j bv_src = [arg_blk_ptr.blk w] → gap_args i j bv_src = [] →
        b = block_ptr.bit w))
    (fun ar i j T a b c => combine_or_ij_spec ar i j T bv_src a b c)
    (fun ar i j T a b _ =>
      ⟨fun k1 k2 k3 => combine_or_ij_all_ones ar i j T bv_src a b k1 k2 k3,
        fun w k1 k2 k3 => combine_or_ij_single_dense ar i j T bv_src w a b k1 k2 k3⟩)
    (aggregator.resize_target dst bv_src true).2
    (aggregator.resize_target dst bv_src true).1 ar hfresh
    (aggregator.resize_target dst bv_src true).2 (Nat.le_refl _) i j
  unfold aggregator.combine_or
  simp only [hg, BM_ASSERT_THROW, Bool.false_eq_true, if_false, hl]
  have hin := hd
    (by
      by_contra hc
      exact hnn (slot_null_of_extent bv0 i j (by have := hext bv0 hm0; omega)))
    (by
      by_contra hc
      exact hnn (find_effective_sub_block_size_covers i bv_src bv0 hm0 j (by omega) hj))
  exact ⟨_, rfl, fun hmix => hin.1 hwf hall hmix, fun w k1 k2 k3 => hin.2 w k1 k2 k3⟩

theorem all_ones_block_lt : all_ones_block < 2 ^ bits_in_block := by
  unfold all_ones_block
  exact Nat.sub_lt (Nat.two_pow_pos _) Nat.one_pos

theorem sample_bvector_or_args (w : Nat) :
    (∀ bv, bv ∈ [sample_bvector w] → bv.slot 0 0 ≠ block_ptr.full) ∧
    or_dense_args 0 0 [sample_bvector w] = [arg_blk_ptr.blk w] ∧
    gap_args 0 0 [sample_bvector w] = [] := by
  have hs : (sample_bvector w).slot 0 0 = block_ptr.bit w := by
    rw [sample_bvector_slot]; simp
  refine ⟨fun bv hm => ?_, ?_, ?_⟩
  · rw [List.mem_singleton.1 hm, hs]
    intro h; cases h
  · unfold or_dense_args
    simp only [List.filterMap_cons, hs, List.filterMap_nil]
  · unfold gap_args
    simp only [List.filterMap_cons, hs, List.filterMap_nil]

/-- C22 as amended: for an accepted operand list of `combine_or` and a coordinate
`(i, j)` at which the operands' blocks are blocks of `bits_in_block` bits whose union
has every bit set, the destination's slot is the all-ones sentinel when an operand
holds the sentinel there, or a run-length operand takes part, or at least two dense
operands take part; when the only operand block at the coordinate is a single dense
block, the destination gets a dense copy of it (every bit set) and not the sentinel. -/
theorem combine_or_all_ones_slot (ar : arena) (dst : bvector) (bv_src : List bvector)
    (h2 : bv_src.length < max_aggregator_cap) (i j : Nat) (hj : j < set_array_size)
    (hwf : ∀ bv, bv ∈ bv_src → (bv.slot i j).wf)
    (hall : ∀ q, q < bits_in_block → bv_src.any (fun bv => (bv.slot i j).test q) = true) :
    ∃ r, aggregator.combine_or ar dst bv_src = Except.ok r ∧
      (((∃ bv, bv ∈ bv_src ∧ bv.slot i j = block_ptr.full) ∨
          gap_args i j bv_src ≠ [] ∨ 2 ≤ (or_dense_args i j bv_src).length) →
        r.1.slot i j = block_ptr.full) ∧
      (∀ w, (∀ bv, bv ∈ bv_src → bv.slot i j ≠ block_ptr.full) →
        or_dense_args i j bv_src = [arg_blk_ptr.blk w] → gap_args i j bv_src = [] →
        r.1.slot i j = block_ptr.bit w) :=
  combine_or_slot_cases ar dst bv_src h2 i j hj hwf hall

/-- C22, at a concrete input: a single operand whose block `(0, 0)` is the all-ones
sentinel. -/
theorem combine_or_all_ones_slot_witness :
    [sample_block_bvector block_ptr.full].length < max_aggregator_cap ∧
    0 < set_array_size ∧
    (∀ bv, bv ∈ [sample_block_bvector block_ptr.full] → (bv.slot 0 0).wf) ∧
    (∀ q, q < bits_in_block →
      [sample_block_bvector block_ptr.full].any (fun bv => (bv.slot 0 0).test q) = true) ∧
    ∃ r, aggregator.combine_or sample_arena (sample_bvector 0)
        [sample_block_bvector block_ptr.full] = Except.ok r ∧
      r.1.slot 0 0 = block_ptr.full :=
  have hs : (sample_block_bvector block_ptr.full).slot 0 0 = block_ptr.full := by
    rw [sample_block_bvector_slot]; simp
  have hwf : ∀ bv, bv ∈ [sample_block_bvector block_ptr.full] → (bv.slot 0 0).wf :=
    fun bv hm => by
      rw [List.mem_singleton.1 hm, hs]
      exact all_ones_block_lt
  have hall : ∀ q, q < bits_in_block →
      [sample_block_bvector block_ptr.full].any (fun bv => (bv.slot 0 0).test q) = true :=
    fun q _ => by
      rw [List.any_cons, hs]
      rfl
  ⟨by decide, by decide, hwf, hall,
    (combine_or_all_ones_slot sample_arena (sample_bvector 0)
      [sample_block_bvector block_ptr.full] (by decide) 0 0 (by decide) hwf hall).imp
      (fun _ h => ⟨h.1, h.2.1 (Or.inl ⟨_, List.mem_singleton.2 rfl, hs⟩)⟩)⟩

/-- C22, counterexample to the claim as stated: the only operand has an entirely set
dense block at `(0, 0)`, so the union of the operands' blocks there has every bit set,
yet the destination's slot `(0, 0)` after `combine_or` is a dense block (a copy of the
operand's) and not the all-ones sentinel. -/
theorem combine_or_single_dense_all_ones_not_sentinel :
    (∀ q, q < bits_in_block →
      [sample_bvector all_ones_block].any (fun bv => (bv.slot 0 0).test q) = true) ∧
    ∃ r, aggregator.combine_or sample_arena (sample_bvector 0)
        [sample_bvector all_ones_block] = Except.ok r ∧
      r.1.slot 0 0 = block_ptr.bit all_ones_block ∧
      r.1.slot 0 0 ≠ block_ptr.full := by
  have hs : (sample_bvector all_ones_block).slot 0 0 = block_ptr.bit all_ones_block := by
    rw [sample_bvector_slot]
    exact if_pos ⟨rfl, rfl⟩
  have hall : ∀ q, q < bits_in_block →
      [sample_bvector all_ones_block].any (fun bv => (bv.slot 0 0).test q) = true := by
    intro q hq
    rw [List.any_cons, hs]
    show (all_ones_block.testBit q || _) = true
    rw [testBit_all_ones_block]
    simp [hq]
  have hwf : ∀ bv, bv ∈ [sample_bvector all_ones_block] → (bv.slot 0 0).wf := by
    intro bv hm
    rw [List.mem_singleton.1 hm, hs]
    exact all_ones_block_lt
  obtain ⟨k1, k2, k3⟩ := sample_bvector_or_args all_ones_block
  obtain ⟨r, hr, _, hdense⟩ := combine_or_slot_cases sample_arena (sample_bvector 0)
    [sample_bvector all_ones_block] (by decide) 0 0 (by decide) hwf hall
  have h := hdense all_ones_block k1 k2 k3
  refine ⟨hall, r, hr, h, ?_⟩
  rw [h]
  intro hc
  cases hc

/-! ## The compressed sparse vector: `max_id_` and the NULL bitmap -/

theorem foldl_max_le (l : List Nat) :
    ∀ (a m : Nat), a ≤ m → (∀ y, y ∈ l → y ≤ m) → l.foldl max a ≤ m := by
  induction l with
  | nil => intro a m ha _; exact ha
  | cons x l ih =>
    intro a m ha h
    exact ih (max a x) m (Nat.max_le.2 ⟨ha, h x (List.mem_cons_self x l)⟩)
      (fun y hy => h y (List.mem_cons_of_mem x hy))

theorem largest_index_append_singleton (l : List Nat) (x : Nat) :
    largest_index (l ++ [x]) = max (largest_index l) x := by
  unfold largest_index
  rw [List.foldl_append]
  rfl

theorem push_back_keeps_max_id_largest {Val : Type} (csv c1 : compressed_sparse_vector Val)
    (idx : Nat) (v : Val)
    (hinv : ∀ x, x ∈ csv.sv_.bv_null → x ≤ csv.max_id_)
    (hemp : csv.sv_.empty = true → csv.sv_.bv_null = [])
    (h : csv.push_back idx v = Except.ok c1) :
    c1.max_id_ = idx ∧ idx ∈ c1.sv_.bv_null ∧
    (∀ x, x ∈ c1.sv_.bv_null → x ≤ c1.max_id_) ∧
    c1.max_id_ = largest_index c1.sv_.bv_null := by
  have hnot : idx ∉ csv.sv_.bv_null ∧ ∀ x, x ∈ csv.sv_.bv_null → x ≤ idx := by
    unfold compressed_sparse_vector.push_back at h
    by_cases he : csv.sv_.empty = true
    · rw [hemp he]
      exact ⟨List.not_mem_nil _, fun x hx => absurd hx (List.not_mem_nil _)⟩
    · rw [if_neg he] at h
      by_cases hle : idx ≤ csv.max_id_
      · rw [if_pos hle] at h
        cases h
      · exact ⟨fun hm => hle (hinv idx hm),
          fun x hx => by have := hinv x hx; omega⟩
  have hc1 : c1 = { sv_ := (csv.sv_.set_null_bit idx).push_back v, max_id_ := idx } := by
    unfold compressed_sparse_vector.push_back at h
    split_ifs at h
    · cases h; rfl
    · cases h; rfl
  have hbv : c1.sv_.bv_null = csv.sv_.bv_null ++ [idx] := by
    rw [hc1]
    show (if idx ∈ csv.sv_.bv_null then csv.sv_.bv_null else csv.sv_.bv_null ++ [idx]) = _
    rw [if_neg hnot.1]
  have hmax : c1.max_id_ = idx := by rw [hc1]
  refine ⟨hmax, ?_, ?_, ?_⟩
  · rw [hbv]
    exact List.mem_append_right _ (List.mem_singleton.2 rfl)
  · intro x hx
    rw [hbv] at hx
    rw [hmax]
    rcases List.mem_append.1 hx with h1 | h1
    · exact hnot.2 x h1
    · rw [List.mem_singleton.1 h1]
  · rw [hbv, largest_index_append_singleton, hmax]
    have : largest_index csv.sv_.bv_null ≤ idx :=
      foldl_max_le csv.sv_.bv_null 0 idx (Nat.zero_le _) hnot.2
    omega

theorem load_from_max_id {Val : Type} (csv : compressed_sparse_vector Val)
    (sv_src : sparse_vector Val) :
    (csv.load_from sv_src).max_id_
      = (null_bvector_count sv_src.bv_null + id_t_range - 1) % id_t_range := rfl

theorem load_from_max_id_of_count {Val : Type} (csv : compressed_sparse_vector Val)
    (sv_src : sparse_vector Val) (h1 : 0 < null_bvector_count sv_src.bv_null)
    (h2 : null_bvector_count sv_src.bv_null ≤ id_t_range) :
    (csv.load_from sv_src).max_id_ = null_bvector_count sv_src.bv_null - 1 := by
  rw [load_from_max_id]
  unfold id_t_range at h2 ⊢
  omega

theorem largest_index_range_succ (n : Nat) : largest_index (List.range (n + 1)) = n := by
  rw [List.range_succ, largest_index_append_singleton]
  have : largest_index (List.range n) ≤ n :=
    foldl_max_le (List.range n) 0 n (Nat.zero_le _)
      (fun y hy => Nat.le_of_lt (List.mem_range.1 hy))
  omega

/-- When the non-NULL indexes of the source are exactly `0 .. n` (no NULL element below
the last one), `load_from` does set `max_id_` to the largest non-NULL index. -/
theorem load_from_max_id_of_dense_source {Val : Type} (csv : compressed_sparse_vector Val)
    (sv_src : sparse_vector Val) (n : Nat) (hn : n + 1 ≤ id_t_range)
    (h : sv_src.bv_null = List.range (n + 1)) :
    (csv.load_from sv_src).max_id_ = largest_index sv_src.bv_null := by
  have hc : null_bvector_count sv_src.bv_null = n + 1 := by
    unfold null_bvector_count
    rw [h, (List.nodup_range (n + 1)).dedup, List.length_range]
  rw [load_from_max_id_of_count csv sv_src (by omega) (by omega), hc, h,
    largest_index_range_succ]
  rfl

/-- C31, at the failing input: the NULL-able source has one non-NULL element, at index
5.  After `load_from` the NULL bitmap of the vector marks index 5 and `max_id_` is 0
(`bv_null->count()-1`, the number of non-NULL elements minus one), not 5; the vector
built by `push_back(5, 9)` holds the same `sv_` and has `max_id_` 5, so the two disagree
on `max_id_` and `equal` returns false.  In general `load_from` sets `max_id_` to the
count minus one in `bm::id_t`. -/
theorem load_from_max_id_is_not_largest_index :
    ((compressed_sparse_vector.init Nat).load_from sample_sparse_source).max_id_ = 0 ∧
    ((compressed_sparse_vector.init Nat).load_from sample_sparse_source).sv_.bv_null = [5] ∧
    largest_index sample_sparse_source.bv_null = 5 ∧
    (∃ b, (compressed_sparse_vector.init Nat).push_back 5 9 = Except.ok b ∧
      b.sv_ = ((compressed_sparse_vector.init Nat).load_from sample_sparse_source).sv_ ∧
      b.max_id_ = 5 ∧
      b.equal ((compressed_sparse_vector.init Nat).load_from sample_sparse_source)
        = false) ∧
    (∀ (csv : compressed_sparse_vector Nat) (sv_src : sparse_vector Nat),
      (csv.load_from sv_src).max_id_
        = (null_bvector_count sv_src.bv_null + id_t_range - 1) % id_t_range) := by
  refine ⟨by decide, rfl, by decide, ⟨_, rfl, rfl, rfl, by decide⟩,
    fun csv sv_src => load_from_max_id csv sv_src⟩
end bm
